import Mathlib

/-!
# Scatter Search engine of flyOpt: a shallow embedding

The C sources under `src/ss` are embedded as Lean functions.

* `double` values are modelled as rationals (`ℚ`): no rounding, no NaN.
* A `Set` (`individual *members`) is a `List individual`: the allocated
  array.  The logical size travels separately (`set_size`, `ref_set_size`,
  `candidates_set_size`), as in the C code.
* A read or a write outside an allocated array is undefined in C; here the
  function returns `none`.
* Sizes, indices and loop counters are natural numbers.
* The random generator (`RandomReal`) is external: it is a stream of draws
  that is passed in and handed back.
-/

namespace FlyOpt

/-! ## Data model (`ss.h`) -/

/-- An `individual` of ss.h: parameter vector (the buffer behind `params`) and cost. -/
structure individual where
  params : List ℚ := []
  cost : ℚ := 0
deriving DecidableEq

/-- The fields of `SSType` (ss.h) used by the embedded functions.  An entry of
`subsets_list` is a `Set` of `pair_size = 2` members, kept as the pair
`(members[0], members[1])`. -/
structure SSType where
  max_elite : Nat := 0
  nreal : Nat := 0
  min_real_var : List ℚ := []
  max_real_var : List ℚ := []
  ref_set_size : Nat := 0
  ref_set : List individual := []
  subsets_list_size : Nat := 0
  subsets_list : List (individual × individual) := []
  candidates_set : List individual := []
  candidates_set_size : Nat := 0
  dist_epsilon : ℚ := 0
  fitness_epsilon : ℚ := 0
  n_ref_set_update : Int := 0
  n_duplicates : Int := 0
  n_flatzone_detected : Int := 0
  n_duplicate_replaced : Int := 0
  perform_flatzone_detection : Int := 0
  p : Nat := 0
  min_boundary_matrix : List (List ℚ) := []
  max_boundary_matrix : List (List ℚ) := []
  scatter_set_size : Nat := 0
  scatter_set : List individual := []
  freqs_matrix : List (List Int) := []
  probs_matrix : List (List ℚ) := []
  sol : ℚ := 0
  filter_good_enough : Int := 0
  good_enough_score_diff : ℚ := 0
  filter_different_enough : Int := 0
  different_enough_param_dist : ℚ := 0
  different_cost_margin : ℚ := 0
  max_no_improve : Nat := 0
  step_size : ℚ := 0
  n_refinement : Int := 0
  n_function_evals : Int := 0
  n_iter : Int := 0
  max_iter : Int := 0
  perform_stop_criteria : Int := 0
  stop_criteria : ℚ := 0
  perform_local_search : Int := 0
  local_search_freq : Int := 0
  perform_ref_set_regen : Int := 0
  ref_set_regen_freq : Int := 0
  n_regen : Int := 0

/-- Array write `l[i] = v`; `none` when `i` is outside the allocation. -/
def wr {α : Type} (l : List α) (i : Nat) (v : α) : Option (List α) :=
  if i < l.length then some (l.set i v) else none

/-! ## Random draws (`rand.h`) -/

/-- The external generator: the next draw is the head of the stream. -/
def RandomReal (g : Nat → ℚ) : ℚ × (Nat → ℚ) :=
  (g 0, fun n => g (n + 1))

/-- Scaled draw, `rndreal` of rand.h: `low + (high - low) * RandomReal()`. -/
def rndreal (low high : ℚ) (g : Nat → ℚ) : ℚ × (Nat → ℚ) :=
  let r := RandomReal g
  (low + (high - low) * r.1, r.2)

/-! ## Tools (`ssTools.c`) -/

/-- The sum accumulated by the loop of `euclidean_distance` after `n` rounds:
`distance += (ind1->params[i] - ind2->params[i])^2` for `i < n`. -/
def euclidean_distance_sum (ind1 ind2 : individual) : Nat → Option ℚ
  | 0 => some 0
  | n + 1 => do
    let distance ← euclidean_distance_sum ind1 ind2 n
    let a ← ind1.params[n]?
    let b ← ind2.params[n]?
    pure (distance + (a - b) * (a - b))

/-- The radicand of `euclidean_distance`: the C function returns the square
root of this sum, which has no rational value in general. -/
def euclidean_distance_sq (ssParams : SSType) (ind1 ind2 : individual) : Option ℚ :=
  euclidean_distance_sum ind1 ind2 ssParams.nreal

/-- Test `is_equal` of ssTools.c: `euclidean_distance(ind1, ind2) < dist_epsilon`.
For a sum of squares `d`, `sqrt d < eps` holds exactly when `0 < eps` and
`d < eps * eps`; the test is written in that form. -/
def is_equal (ssParams : SSType) (ind1 ind2 : individual) : Option Bool := do
  let d ← euclidean_distance_sq ssParams ind1 ind2
  pure (decide (0 < ssParams.dist_epsilon ∧ d < ssParams.dist_epsilon * ssParams.dist_epsilon))

/-- Loop of `is_exist`, from index `i - 1` down to `0`: the first index found
whose member equals `ind`, or `-1`. -/
def is_exist_loop (ssParams : SSType) (set : List individual) (ind : individual) :
    Nat → Option Int
  | 0 => some (-1)
  | i + 1 => do
    let m ← set[i]?
    let e ← is_equal ssParams m ind
    if e then pure (i : Int) else is_exist_loop ssParams set ind i

/-- Search `is_exist` of ssTools.c: scans from `set_size - 1` downwards. -/
def is_exist (ssParams : SSType) (set : List individual) (set_size : Nat)
    (ind : individual) : Option Int :=
  is_exist_loop ssParams set ind set_size

/-- Loop of `is_exist_in_subsets_list` over the entries `i, i+1, ..` with `k`
entries left below `subsets_list_size`. -/
def is_exist_in_subsets_list_loop (ssParams : SSType) (ind1 ind2 : individual) :
    Nat → Nat → Option Bool
  | 0, _ => some false
  | k + 1, i => do
    let p ← ssParams.subsets_list[i]?
    let e10 ← is_equal ssParams ind1 p.1
    let first ← if e10 then is_equal ssParams ind2 p.2 else pure false
    if first then pure true
    else
      let e20 ← is_equal ssParams ind2 p.1
      let second ← if e20 then is_equal ssParams ind1 p.2 else pure false
      if second then pure true
      else is_exist_in_subsets_list_loop ssParams ind1 ind2 k (i + 1)

/-- Test `is_exist_in_subsets_list` of ssTools.c: looks at the entries below the
current value of `subsets_list_size`. -/
def is_exist_in_subsets_list (ssParams : SSType) (ind1 ind2 : individual) : Option Bool :=
  is_exist_in_subsets_list_loop ssParams ind1 ind2 ssParams.subsets_list_size 0

/-- Copy `copy_ind` of ssTools.c: `memcpy` of `nreal` parameters from `src` into
the buffer of `dest`, then the cost. -/
def copy_ind (ssParams : SSType) (dest src : individual) : Option individual :=
  if ssParams.nreal ≤ src.params.length ∧ ssParams.nreal ≤ dest.params.length then
    some { params := src.params.take ssParams.nreal ++ dest.params.drop ssParams.nreal,
           cost := src.cost }
  else none

/-- Loop of `is_in_flatzone` at index `i` with `k` members left: the flag and
the new value of `n_flatzone_detected` (`n`). -/
def is_in_flatzone_loop (ssParams : SSType) (set : List individual) (ind : individual) (n : Int) :
    Nat → Nat → Option (Bool × Int)
  | 0, _ => some (false, n)
  | k + 1, i => do
    let m ← set[i]?
    if ind.cost < m.cost + m.cost * ssParams.fitness_epsilon
        ∧ ind.cost > m.cost - m.cost * ssParams.fitness_epsilon then
      pure (true, n + 1)
    else is_in_flatzone_loop ssParams set ind n k (i + 1)

/-- Test `is_in_flatzone` of ssTools.c: the flag and the state with the
counter `n_flatzone_detected` updated. -/
def is_in_flatzone (ssParams : SSType) (set : List individual) (set_size : Nat)
    (ind : individual) : Option (Bool × SSType) := do
  let r ← is_in_flatzone_loop ssParams set ind ssParams.n_flatzone_detected set_size 0
  pure (r.1, { ssParams with n_flatzone_detected := r.2 })

/-! ## Sorting (`sort.c`) -/

/-- Loop of `insertion_sort` at index `j`: swaps `members[j]` down while its
cost is below its left neighbour's. -/
def insertion_sort_loop (set : List individual) : Nat → Option (List individual)
  | 0 => some set
  | j + 1 => do
    let a ← set[j + 1]?
    let b ← set[j]?
    if a.cost < b.cost then
      let set1 ← wr set j a
      let set2 ← wr set1 (j + 1) b
      insertion_sort_loop set2 j
    else pure set

/-- Routine `insertion_sort` of sort.c: starts at `j = set_size - 1`.  For
`set_size = 0` the C index is `-1` and the loop test `j > 0` fails, as it
does here for `j = 0`. -/
def insertion_sort (set : List individual) (set_size : Nat) : Option (List individual) :=
  insertion_sort_loop set (set_size - 1)

/-- First inner loop of `quick_sort`:
`while ((numbers[right] >= pivot) && (left < right)) right--;`. -/
def scan_right (numbers : List ℚ) (pivot : ℚ) (left : Nat) : Nat → Option Nat
  | 0 =>
    match numbers[0]? with
    | none => none
    | some _ => some 0
  | right + 1 =>
    match numbers[right + 1]? with
    | none => none
    | some x =>
      if pivot ≤ x ∧ left < right + 1 then scan_right numbers pivot left right
      else some (right + 1)

/-- Second inner loop of `quick_sort`:
`while ((numbers[left] <= pivot) && (left < right)) left++;`. -/
def scan_left (numbers : List ℚ) (pivot : ℚ) (right : Nat) (left : Nat) : Option Nat :=
  match numbers[left]? with
  | none => none
  | some x =>
    if x ≤ pivot ∧ left < right then scan_left numbers pivot right (left + 1)
    else some left
termination_by right - left
decreasing_by omega

/-- The assignments `numbers[dst] = numbers[src]; set->members[dst] = set->members[src];`
of `quick_sort`. -/
def move_member (set : List individual) (numbers : List ℚ) (dst src : Nat) :
    Option (List individual × List ℚ) := do
  let x ← numbers[src]?
  let m ← set[src]?
  let numbers1 ← wr numbers dst x
  let set1 ← wr set dst m
  pure (set1, numbers1)

/-- One round of the outer `while (left < right)` loop of `quick_sort`: the set,
the numbers, `left` and `right` after the round. -/
def partition_step (set : List individual) (numbers : List ℚ) (pivot : ℚ) (left right : Nat) :
    Option (List individual × List ℚ × Nat × Nat) := do
  let right1 ← scan_right numbers pivot left right
  let a ←
    (if left ≠ right1 then
      (move_member set numbers left right1).map (fun p => (p.1, p.2, left + 1))
    else some (set, numbers, left))
  let left2 ← scan_left a.2.1 pivot right1 a.2.2
  (if left2 ≠ right1 then
    (move_member a.1 a.2.1 right1 left2).map (fun p => (p.1, p.2, left2, right1 - 1))
  else some (a.1, a.2.1, left2, right1))

theorem scan_right_le (numbers : List ℚ) (pivot : ℚ) (left : Nat) :
    ∀ right r, scan_right numbers pivot left right = some r →
      r ≤ right ∧ (left ≤ right → left ≤ r) := by
  intro right
  induction right with
  | zero =>
    intro r h
    simp only [scan_right] at h
    split at h
    · simp at h
    · simp at h; omega
  | succ n ih =>
    intro r h
    simp only [scan_right] at h
    split at h
    · simp at h
    · split at h
      · have := ih r h
        omega
      · simp at h; omega

theorem scan_left_ge (numbers : List ℚ) (pivot : ℚ) (right : Nat) :
    ∀ left l, scan_left numbers pivot right left = some l →
      left ≤ l ∧ (left ≤ right → l ≤ right) := by
  intro left
  induction left using scan_left.induct numbers pivot right with
  | case1 left hnone =>
    intro l h
    rw [scan_left, hnone] at h
    simp at h
  | case2 left x hx hc ih =>
    intro l h
    rw [scan_left, hx] at h
    simp only [hc, and_self, if_true] at h
    have := ih l h
    omega
  | case3 left x hx hc =>
    intro l h
    rw [scan_left, hx] at h
    simp only [hc, if_false] at h
    simp at h
    omega

theorem partition_step_bounds {set : List individual} {numbers : List ℚ} {pivot : ℚ}
    {left right : Nat} {r : List individual × List ℚ × Nat × Nat}
    (h : partition_step set numbers pivot left right = some r) (hlr : left < right) :
    left ≤ r.2.2.1 ∧ r.2.2.1 ≤ r.2.2.2 ∧ r.2.2.2 ≤ right ∧
      r.2.2.2 - r.2.2.1 < right - left := by
  unfold partition_step at h
  simp only [Option.bind_eq_bind, Option.bind_eq_some] at h
  obtain ⟨right1, h1, a, h2, left2, h3, h4⟩ := h
  have b1 := scan_right_le _ _ _ _ _ h1
  have hl1 : a.2.2 ≤ right1 ∧ left ≤ a.2.2 ∧ (left ≠ right1 → a.2.2 = left + 1) := by
    split at h2
    · simp only [Option.map_eq_some'] at h2
      obtain ⟨_, _, h2⟩ := h2
      subst h2
      exact ⟨by simp only; omega, by simp only; omega, fun _ => rfl⟩
    · rename_i heq
      simp only [Option.some.injEq] at h2
      subst h2
      exact ⟨by simp only; omega, by simp only; omega, fun hne => absurd hne heq⟩
  have b3 := scan_left_ge _ _ _ _ _ h3
  split at h4
  · simp only [Option.map_eq_some'] at h4
    obtain ⟨_, _, h4⟩ := h4
    subst h4
    simp only
    omega
  · simp only [Option.some.injEq] at h4
    subst h4
    simp only
    omega

/-- Outer loop `while (left < right)` of `quick_sort`: the set, the numbers and
the final `left`. -/
def partition_loop (set : List individual) (numbers : List ℚ) (pivot : ℚ) (left right : Nat) :
    Option (List individual × List ℚ × Nat) :=
  if hlr : left < right then
    match h : partition_step set numbers pivot left right with
    | none => none
    | some r => partition_loop r.1 r.2.1 pivot r.2.2.1 r.2.2.2
  else some (set, numbers, left)
termination_by right - left
decreasing_by exact (partition_step_bounds h hlr).2.2.2

theorem partition_loop_bounds (pivot : ℚ) :
    ∀ (n : Nat) (set : List individual) (numbers : List ℚ) (left right : Nat)
      (r : List individual × List ℚ × Nat),
      right - left = n →
      partition_loop set numbers pivot left right = some r →
      left ≤ r.2.2 ∧ (left ≤ right → r.2.2 ≤ right) ∧ (right ≤ left → r.2.2 = left) := by
  intro n
  induction n using Nat.strong_induction_on with
  | _ n ih =>
    intro set numbers left right r hn h
    rw [partition_loop] at h
    by_cases hlr : left < right
    · simp only [hlr, dif_pos] at h
      split at h
      · simp at h
      · rename_i r1 h1
        have b := partition_step_bounds h1 hlr
        have := ih _ (by omega) _ _ _ _ r rfl h
        omega
    · simp only [hlr, dif_neg, not_false_eq_true, Option.some.injEq] at h
      subst h
      exact ⟨le_refl _, fun _ => by simp only; omega, fun _ => rfl⟩

/-- Routine `quick_sort` of sort.c on `set->members` and `numbers`, between the
indices `left` and `right`. -/
def quick_sort (set : List individual) (numbers : List ℚ) (left right : Nat) :
    Option (List individual × List ℚ) :=
  match numbers[left]?, set[left]? with
  | some pivot, some pivot_ind =>
    match h : partition_loop set numbers pivot left right with
    | none => none
    | some r =>
      match wr r.2.1 r.2.2 pivot, wr r.1 r.2.2 pivot_ind with
      | some numbers1, some set1 =>
        let pivot := r.2.2
        match hq : (if left < pivot then quick_sort set1 numbers1 left (pivot - 1)
                    else some (set1, numbers1)) with
        | none => none
        | some q =>
          if right > pivot then quick_sort q.1 q.2 (pivot + 1) right
          else some q
      | _, _ => none
  | _, _ => none
termination_by right - left
decreasing_by
  all_goals simp_wf
  all_goals have b := partition_loop_bounds _ _ _ _ _ _ _ rfl h
  all_goals omega

/-- Routine `quick_sort_set` of sort.c: `numbers[i] = members[i].cost` for
`i < set_size`, then `quick_sort` from `0` to `set_size - 1`.

For `set_size = 0` the C code allocates `malloc(0)` and calls
`quick_sort(.., 0, -1)`, which reads and writes back `numbers[0]` and
`members[0]` and does nothing else; the block returned by `malloc(0)` is
taken to hold that one slot, and `right = -1` is run as `right = 0`, which
takes the same path (no loop round, no recursive call). -/
def quick_sort_set (set : List individual) (set_size : Nat) : Option (List individual) :=
  if set_size ≤ set.length then
    let numbers := if set_size = 0 then [0] else (set.take set_size).map (fun m => m.cost)
    match quick_sort set numbers 0 (set_size - 1) with
    | none => none
    | some r => some r.1
  else none

/-! ## Update of the Reference Set (`update.c`) -/

/-- Routine `replace` of update.c: copy `src` over the reference member at index
`dest`, run `insertion_sort` on the Reference Set, count the update. -/
def replace (ssParams : SSType) (dest : Nat) (src : individual) : Option SSType := do
  let d ← ssParams.ref_set[dest]?
  let d1 ← copy_ind ssParams d src
  let ref1 ← wr ssParams.ref_set dest d1
  let ref2 ← insertion_sort ref1 ssParams.ref_set_size
  pure { ssParams with ref_set := ref2, n_ref_set_update := ssParams.n_ref_set_update + 1 }

/-- Body of the `while` loop of `update_ref_set` for the candidate `c`. -/
def update_step (ssParams : SSType) (c : individual) : Option SSType := do
  let duplicate_index ← is_exist ssParams ssParams.ref_set ssParams.ref_set_size c
  if duplicate_index = -1 then
    if ssParams.perform_flatzone_detection ≠ 0 then
      let r ← is_in_flatzone ssParams ssParams.ref_set ssParams.ref_set_size c
      if r.1 then pure r.2
      else replace r.2 (ssParams.ref_set_size - 1) c
    else replace ssParams (ssParams.ref_set_size - 1) c
  else
    let s1 := { ssParams with n_duplicates := ssParams.n_duplicates + 1 }
    let d ← s1.ref_set[duplicate_index.toNat]?
    if c.cost < d.cost then
      let s2 ← replace s1 duplicate_index.toNat c
      pure { s2 with n_duplicate_replaced := s2.n_duplicate_replaced + 1 }
    else pure s1

/-- The `while` loop of `update_ref_set`.  The list is the part
`members[i], members[i+1], ..` of the candidate buffer that lies ahead: each
round reads its head and `i++` drops it; with nothing left the read is past
the end of the buffer.  The worst member is `ref_set->members[ref_set_size - 1]`. -/
def update_loop : SSType → List individual → Option SSType
  | _, [] => none
  | ssParams, c :: rest =>
    if ssParams.ref_set_size = 0 then none
    else
      match ssParams.ref_set[ssParams.ref_set_size - 1]? with
      | none => none
      | some worst =>
        if c.cost < worst.cost then
          match update_step ssParams c with
          | none => none
          | some s1 => update_loop s1 rest
        else some ssParams

/-- The test and copy that open `update_ref_set`: the state and the index `i`
after them. -/
def update_first (ssParams : SSType) : Option (SSType × Nat) := do
  let c0 ← ssParams.candidates_set[0]?
  let r0 ← ssParams.ref_set[0]?
  if c0.cost < r0.cost then
    let r1 ← copy_ind ssParams r0 c0
    let ref1 ← wr ssParams.ref_set 0 r1
    pure ({ ssParams with ref_set := ref1 }, 1)
  else pure (ssParams, 0)

/-- Routine `update_ref_set` of update.c. -/
def update_ref_set (ssParams : SSType) : Option SSType := do
  let cands ← quick_sort_set ssParams.candidates_set ssParams.candidates_set_size
  let s0 := { ssParams with candidates_set := cands }
  let r ← update_first s0
  update_loop r.1 (r.1.candidates_set.drop r.2)

/-- Inner loop (over `j`) of `select_subsets_list` with `cnt` rounds left; `k`
is the running count of pairs. -/
def select_subsets_inner (set : List individual) (i : Nat) :
    Nat → Nat → SSType → Nat → Option (SSType × Nat)
  | 0, _, ssParams, k => some (ssParams, k)
  | cnt + 1, j, ssParams, k => do
    let mi ← set[i]?
    let mj ← set[j]?
    let e ← is_equal ssParams mi mj
    let known ← (if e then some true else is_exist_in_subsets_list ssParams mj mi)
    if known then select_subsets_inner set i cnt (j + 1) ssParams k
    else
      let p ← ssParams.subsets_list[k]?
      let p0 ← copy_ind ssParams p.1 mi
      let p1 ← copy_ind ssParams p.2 mj
      let sl ← wr ssParams.subsets_list k (p0, p1)
      select_subsets_inner set i cnt (j + 1)
        { ssParams with subsets_list := sl, subsets_list_size := k + 1 } (k + 1)

/-- Outer loop (over `i`) of `select_subsets_list` with `cnt` rounds left. -/
def select_subsets_outer (set : List individual) :
    Nat → Nat → SSType → Nat → Option (SSType × Nat)
  | 0, _, ssParams, k => some (ssParams, k)
  | cnt + 1, i, ssParams, k =>
    match select_subsets_inner set i (ssParams.ref_set_size - (i + 1)) (i + 1) ssParams k with
    | none => none
    | some r => select_subsets_outer set cnt (i + 1) r.1 r.2

/-- Routine `select_subsets_list` of update.c (the parameter `set_size` is not
used by the C code, which loops up to `ref_set_size`). -/
def select_subsets_list (ssParams : SSType) (set : List individual) : Option SSType :=
  (select_subsets_outer set ssParams.ref_set_size 0 ssParams 0).map (fun r => r.1)

/-! ## Recombination (`recombine.c`) -/

/-- Macro `MIN` of ss.h. -/
def MIN (x y : ℚ) : ℚ := if x < y then x else y

/-- Macro `MAX` of ss.h. -/
def MAX (x y : ℚ) : ℚ := if x > y then x else y

/-- The three statements that end every loop body of `generate_ind_candidate`:
clip `new_value` with `MIN` and `MAX`, store it in `candidate->params[i]`. -/
def store_clipped (ssParams : SSType) (candidate : individual) (i : Nat) (new_value : ℚ) :
    Option individual := do
  let hi ← ssParams.max_real_var[i]?
  let v1 := MIN new_value hi
  let lo ← ssParams.min_real_var[i]?
  let v2 := MAX v1 lo
  let ps ← wr candidate.params i v2
  pure { candidate with params := ps }

/-- Loop of case `'0'` after `n` rounds: one draw `rnd` for all dimensions. -/
def generate_loop0 (ssParams : SSType) (base : individual) (dists : List ℚ) (rnd : ℚ)
    (candidate : individual) : Nat → Option individual
  | 0 => some candidate
  | n + 1 => do
    let c ← generate_loop0 ssParams base dists rnd candidate n
    let b ← base.params[n]?
    let d ← dists[n]?
    store_clipped ssParams c n (b - d * rnd)

/-- Loop of case `'1'` after `n` rounds: a fresh draw in every dimension,
subtracted. -/
def generate_loop1 (ssParams : SSType) (base : individual) (dists : List ℚ)
    (candidate : individual) (g : Nat → ℚ) : Nat → Option (individual × (Nat → ℚ))
  | 0 => some (candidate, g)
  | n + 1 => do
    let st ← generate_loop1 ssParams base dists candidate g n
    let b ← base.params[n]?
    let r := rndreal 0 1 st.2
    let d ← dists[n]?
    let c ← store_clipped ssParams st.1 n (b - r.1 * d)
    pure (c, r.2)

/-- Loop of the cases `'2'` and `'3'` (the same code) after `n` rounds: a fresh
draw in every dimension, added. -/
def generate_loop2 (ssParams : SSType) (base : individual) (dists : List ℚ)
    (candidate : individual) (g : Nat → ℚ) : Nat → Option (individual × (Nat → ℚ))
  | 0 => some (candidate, g)
  | n + 1 => do
    let st ← generate_loop2 ssParams base dists candidate g n
    let b ← base.params[n]?
    let r := rndreal 0 1 st.2
    let d ← dists[n]?
    let c ← store_clipped ssParams st.1 n (b + r.1 * d)
    pure (c, r.2)

/-- Routine `generate_ind_candidate` of recombine.c: the candidate written and
the generator after the draws.  A `type` outside `'0'..'3'` matches no case. -/
def generate_ind_candidate (ssParams : SSType) (base candidate : individual)
    (dists : List ℚ) (type : Char) (g : Nat → ℚ) : Option (individual × (Nat → ℚ)) :=
  if type = '0' then
    let r := rndreal 0 1 g
    (generate_loop0 ssParams base dists r.1 candidate ssParams.nreal).map (fun c => (c, r.2))
  else if type = '1' then generate_loop1 ssParams base dists candidate g ssParams.nreal
  else if type = '2' then generate_loop2 ssParams base dists candidate g ssParams.nreal
  else if type = '3' then generate_loop2 ssParams base dists candidate g ssParams.nreal
  else some (candidate, g)

/-- The step-size loop of `generate_candiates` after `n` rounds:
`dists[j] = (members[1].params[j] - members[0].params[j]) / 2`. -/
def fill_dists (x1 x2 : individual) (dists : List ℚ) : Nat → Option (List ℚ)
  | 0 => some dists
  | n + 1 => do
    let ds ← fill_dists x1 x2 dists n
    let a ← x2.params[n]?
    let b ← x1.params[n]?
    let diff := a - b
    wr ds n (diff / 2)

/-- The candidate buffer, `candidates_count` and the generator, as threaded
through `generate_candiates`. -/
structure GenState where
  candidates_set : List individual
  candidates_count : Nat
  g : Nat → ℚ

/-- One call `generate_ind_candidate(ssParams, base,
&candidates_set->members[candidates_count++], dists, type)`. -/
def emit_candidate (ssParams : SSType) (base : individual) (dists : List ℚ) (type : Char)
    (st : GenState) : Option GenState := do
  let slot ← st.candidates_set[st.candidates_count]?
  let r ← generate_ind_candidate ssParams base slot dists type st.g
  let cs ← wr st.candidates_set st.candidates_count r.1
  pure { candidates_set := cs, candidates_count := st.candidates_count + 1, g := r.2 }

/-- The three-way `if` of `generate_candiates` for the pair `(x1, x2)`. -/
def generate_for_pair (ssParams : SSType) (mid_cost : ℚ) (x1 x2 : individual)
    (dists : List ℚ) (st : GenState) : Option GenState :=
  if x1.cost < mid_cost ∧ x2.cost < mid_cost then do
    let st ← emit_candidate ssParams x1 dists '0' st
    let st ← emit_candidate ssParams x2 dists '0' st
    let st ← emit_candidate ssParams x1 dists '1' st
    let st ← emit_candidate ssParams x1 dists '2' st
    let st ← emit_candidate ssParams x2 dists '3' st
    emit_candidate ssParams x2 dists '3' st
  else if x1.cost < mid_cost ∧ x2.cost ≥ mid_cost then do
    let st ← emit_candidate ssParams x1 dists '0' st
    let st ← emit_candidate ssParams x1 dists '1' st
    let st ← emit_candidate ssParams x1 dists '2' st
    emit_candidate ssParams x2 dists '3' st
  else if x1.cost ≥ mid_cost ∧ x2.cost ≥ mid_cost then do
    let r := rndreal 0 1 st.g
    let st := { st with g := r.2 }
    let st ← (if r.1 < 0.5 then emit_candidate ssParams x1 dists '1' st
              else emit_candidate ssParams x2 dists '3' st)
    emit_candidate ssParams x1 dists '2' st
  else some st

/-- The loop over the pair list in `generate_candiates` after `n` rounds; `dists`
is the one buffer allocated before the loop and refilled for every pair. -/
def generate_candiates_loop (ssParams : SSType) (mid_cost : ℚ) (st0 : GenState)
    (dists0 : List ℚ) : Nat → Option (GenState × List ℚ)
  | 0 => some (st0, dists0)
  | n + 1 => do
    let r ← generate_candiates_loop ssParams mid_cost st0 dists0 n
    let p ← ssParams.subsets_list[n]?
    let dists ← fill_dists p.1 p.2 r.2 ssParams.nreal
    let st ← generate_for_pair ssParams mid_cost p.1 p.2 dists r.1
    pure (st, dists)

/-- Routine `generate_candiates` of recombine.c: the state with the candidate
buffer filled and `candidates_set_size` set, and the generator. -/
def generate_candiates (ssParams : SSType) (g : Nat → ℚ) : Option (SSType × (Nat → ℚ)) := do
  let dists := List.replicate ssParams.nreal (0 : ℚ)
  let mid ← ssParams.ref_set[ssParams.max_elite]?
  let r ← generate_candiates_loop ssParams mid.cost
    { candidates_set := ssParams.candidates_set, candidates_count := 0, g := g } dists
    ssParams.subsets_list_size
  pure ({ ssParams with candidates_set := r.1.candidates_set,
                        candidates_set_size := r.1.candidates_count }, r.1.g)

/-! ## Objective and local search (`evaluate.c`, `local_search.c`, `refine.c`)

The objective (`Score` of the simulator, behind `objective_function`) and the
GSL simplex driver `nelder_mead` are external: they are parameters.  The
objective reads the `nreal` optimised parameters (`inp->tra.size`, from which
`nreal` is set). -/

/-- Routine `evaluate_ind` of evaluate.c: `ind->cost = objective_function(ind->params, ..)`,
which also counts the evaluation in `n_function_evals`. -/
def evaluate_ind (objective : List ℚ → ℚ) (ssParams : SSType) (ind : individual) :
    Option (individual × SSType) :=
  if ssParams.nreal ≤ ind.params.length then
    some ({ ind with cost := objective (ind.params.take ssParams.nreal) },
          { ssParams with n_function_evals := ssParams.n_function_evals + 1 })
  else none

/-- Loop of `take_step` after `n` rounds: `new_params[i]` is drawn between
`MAX(min_real_var[i], params[i] - step_size)` and
`MIN(max_real_var[i], params[i] + step_size)`. -/
def take_step_loop (ssParams : SSType) (params new_params : List ℚ) (g : Nat → ℚ) :
    Nat → Option (List ℚ × (Nat → ℚ))
  | 0 => some (new_params, g)
  | n + 1 => do
    let st ← take_step_loop ssParams params new_params g n
    let lo ← ssParams.min_real_var[n]?
    let x ← params[n]?
    let min_v := MAX lo (x - ssParams.step_size)
    let hi ← ssParams.max_real_var[n]?
    let max_v := MIN hi (x + ssParams.step_size)
    let r := rndreal min_v max_v st.2
    let np ← wr st.1 n r.1
    pure (np, r.2)

/-- Routine `take_step` of local_search.c. -/
def take_step (ssParams : SSType) (params new_params : List ℚ) (g : Nat → ℚ) :
    Option (List ℚ × (Nat → ℚ)) :=
  take_step_loop ssParams params new_params g ssParams.nreal

/-- What the hill-climbing loop of `refine_individual` works on: the individual
`*ind`, the buffer `new_params`, the state (for its counters) and the
generator. -/
structure HillState where
  ind : individual
  new_params : List ℚ
  ssParams : SSType
  g : Nat → ℚ

/-- One round of the loop of case `'t'` in `refine_individual`: `take_step`,
`evaluate_ind` on `new_candidate` (whose `params` is the buffer `new_params`),
and `copy_ind` into `*ind` when the new cost is lower. -/
def hill_trial (objective : List ℚ → ℚ) (st : HillState) : Option HillState := do
  let r ← take_step st.ssParams st.ind.params st.new_params st.g
  let e ← evaluate_ind objective st.ssParams { params := r.1, cost := 0 }
  if e.1.cost < st.ind.cost then
    let ind1 ← copy_ind e.2 st.ind e.1
    pure { ind := ind1, new_params := r.1, ssParams := e.2, g := r.2 }
  else pure { ind := st.ind, new_params := r.1, ssParams := e.2, g := r.2 }

/-- The loop of case `'t'` in `refine_individual` after `n` rounds. -/
def hill_climb (objective : List ℚ → ℚ) (st : HillState) : Nat → Option HillState
  | 0 => some st
  | n + 1 => do
    let st1 ← hill_climb objective st n
    hill_trial objective st1

/-- Routine `refine_individual` of refine.c for the member `ind`: the member, the
state and the generator after the call.  Case `'n'` has no `break` and runs on
into case `'t'`; any other `method` matches no case.  `new_params` is a fresh
buffer of `nreal` entries, each written by `take_step` before it is read.  The
parameters `set` and `set_size` of the C function are not used by it. -/
def refine_individual (objective : List ℚ → ℚ)
    (nelder_mead : SSType → individual → Option (individual × SSType))
    (ssParams : SSType) (ind : individual) (method : Char) (g : Nat → ℚ) :
    Option (individual × SSType × (Nat → ℚ)) := do
  let new_params := List.replicate ssParams.nreal (0 : ℚ)
  let st0 : HillState := { ind := ind, new_params := new_params, ssParams := ssParams, g := g }
  let st ←
    (if method = 'n' then
      (nelder_mead ssParams ind).bind (fun a =>
        hill_climb objective { st0 with ind := a.1, ssParams := a.2 } a.2.max_no_improve)
    else if method = 't' then hill_climb objective st0 ssParams.max_no_improve
    else some st0)
  pure (st.ind, { st.ssParams with n_refinement := st.ssParams.n_refinement + 1 }, st.g)

/-! ## The local-search gate (`refine.c`, `closest_member` of `ssTools.c`)

Distances are kept squared, as in `is_equal`: `closest_member` only compares
them, and `sqrt d > t` is `t < 0 ∨ t * t < d` for a sum of squares `d`. -/

/-- Loop of `closest_member` at index `i` with `cnt` members left: `min` is the
least distance so far and `min_index` its index. -/
def closest_member_loop (ssParams : SSType) (set : List individual) (ind : individual)
    (ind_index : Nat) : Nat → Nat → ℚ → Nat → Option Nat
  | 0, _, _, min_index => some min_index
  | cnt + 1, i, min, min_index =>
    if i ≠ ind_index then
      match set[i]? with
      | none => none
      | some m =>
        match euclidean_distance_sq ssParams ind m with
        | none => none
        | some dist =>
          if dist < min then closest_member_loop ssParams set ind ind_index cnt (i + 1) dist i
          else closest_member_loop ssParams set ind ind_index cnt (i + 1) min min_index
    else closest_member_loop ssParams set ind ind_index cnt (i + 1) min min_index

/-- Routine `closest_member` of ssTools.c.  The search starts from the member at
`set_size - 2` when `ind_index` is the last index, at `1` when it is `0`, and at
`ind_index - 1` otherwise; for `set_size = 1` the first of these is the index
`-1`. -/
def closest_member (ssParams : SSType) (set : List individual) (set_size : Nat)
    (ind : individual) (ind_index : Nat) : Option Nat := do
  let start ←
    (if ind_index + 1 = set_size then (if 2 ≤ set_size then some (set_size - 2) else none)
     else if ind_index = 0 then some 1
     else some (ind_index - 1))
  let m ← set[start]?
  let min ← euclidean_distance_sq ssParams ind m
  closest_member_loop ssParams set ind ind_index set_size 0 min start

/-- Test `is_good_enough` of refine.c. -/
def is_good_enough (ssParams : SSType) (ind : individual) : Bool :=
  decide (|ind.cost - ssParams.sol| < ssParams.good_enough_score_diff)

/-- Test `has_params_different_enough` of refine.c:
`euclidean_distance(ind, closest) > different_enough_param_dist`. -/
def has_params_different_enough (ssParams : SSType) (ind closest : individual) :
    Option Bool := do
  let d ← euclidean_distance_sq ssParams ind closest
  pure (decide (ssParams.different_enough_param_dist < 0 ∨
    ssParams.different_enough_param_dist * ssParams.different_enough_param_dist < d))

/-- Test `has_cost_different_enough` of refine.c. -/
def has_cost_different_enough (ssParams : SSType) (ind closest : individual) : Bool :=
  decide (ind.cost > closest.cost + ssParams.different_cost_margin * closest.cost ∨
    ind.cost < closest.cost - ssParams.different_cost_margin * closest.cost)

/-- What `refine_set` works on: the members of `set`, the state and the
generator. -/
structure RefineState where
  set : List individual
  ssParams : SSType
  g : Nat → ℚ

/-- The call `refine_individual(ssParams, set, set_size, &(set->members[i]), method, inp, out)`
made by `refine_set`: the member is refined in place. -/
def refine_member (objective : List ℚ → ℚ)
    (nelder_mead : SSType → individual → Option (individual × SSType))
    (method : Char) (i : Nat) (st : RefineState) : Option RefineState := do
  let m ← st.set[i]?
  let r ← refine_individual objective nelder_mead st.ssParams m method st.g
  let set1 ← wr st.set i r.1
  pure { set := set1, ssParams := r.2.1, g := r.2.2 }

/-- The tests on the closest member shared by the first and the third loop of
`refine_set`: `different_flag && cost_flag` for the member `m` at index `i`. -/
def different_flags (set_size : Nat) (i : Nat) (m : individual) (st : RefineState) :
    Option Bool := do
  let closest_member_index ← closest_member st.ssParams st.set set_size m i
  let c ← st.set[closest_member_index]?
  let different_flag ← has_params_different_enough st.ssParams m c
  let cost_flag := has_cost_different_enough st.ssParams m c
  pure (different_flag && cost_flag)

/-- First loop of `refine_set` (both filters) at index `i` with `cnt` members
left. -/
def refine_loop_both (objective : List ℚ → ℚ)
    (nelder_mead : SSType → individual → Option (individual × SSType))
    (method : Char) (set_size : Nat) : Nat → Nat → RefineState → Option RefineState
  | 0, _, st => some st
  | cnt + 1, i, st => do
    let m ← st.set[i]?
    let st1 ←
      (if is_good_enough st.ssParams m then
        (different_flags set_size i m st).bind (fun flags =>
          if flags then refine_member objective nelder_mead method i st else some st)
      else some st)
    refine_loop_both objective nelder_mead method set_size cnt (i + 1) st1

/-- Second loop of `refine_set` (only `filter_good_enough`). -/
def refine_loop_good (objective : List ℚ → ℚ)
    (nelder_mead : SSType → individual → Option (individual × SSType))
    (method : Char) : Nat → Nat → RefineState → Option RefineState
  | 0, _, st => some st
  | cnt + 1, i, st => do
    let m ← st.set[i]?
    let st1 ←
      (if is_good_enough st.ssParams m then refine_member objective nelder_mead method i st
       else some st)
    refine_loop_good objective nelder_mead method cnt (i + 1) st1

/-- Third loop of `refine_set` (only `filter_different_enough`). -/
def refine_loop_different (objective : List ℚ → ℚ)
    (nelder_mead : SSType → individual → Option (individual × SSType))
    (method : Char) (set_size : Nat) : Nat → Nat → RefineState → Option RefineState
  | 0, _, st => some st
  | cnt + 1, i, st => do
    let m ← st.set[i]?
    let flags ← different_flags set_size i m st
    let st1 ← (if flags then refine_member objective nelder_mead method i st else some st)
    refine_loop_different objective nelder_mead method set_size cnt (i + 1) st1

/-- Routine `refine_set` of refine.c on the members of `st.set`.  The two filter
flags are read once, before the loops. -/
def refine_set (objective : List ℚ → ℚ)
    (nelder_mead : SSType → individual → Option (individual × SSType))
    (set_size : Nat) (method : Char) (st : RefineState) : Option RefineState :=
  if st.ssParams.filter_good_enough ≠ 0 ∧ st.ssParams.filter_different_enough ≠ 0 then
    refine_loop_both objective nelder_mead method set_size set_size 0 st
  else if st.ssParams.filter_good_enough ≠ 0 then
    refine_loop_good objective nelder_mead method set_size 0 st
  else if st.ssParams.filter_different_enough ≠ 0 then
    refine_loop_different objective nelder_mead method set_size set_size 0 st
  else some st

/-! ## Initialisation (`allocate.c`, `init.c`)

The content of a freshly allocated block is unspecified; blocks are created
filled with zeros. -/

/-- Routine `allocate_ind_memory` of allocate.c: a block of `member_length`
parameters and the cost 0. -/
def allocate_ind_memory (member_length : Nat) : individual :=
  { params := List.replicate member_length 0, cost := 0 }

/-- Routine `allocate_set_memory` of allocate.c. -/
def allocate_set_memory (set_size member_length : Nat) : List individual :=
  List.replicate set_size (allocate_ind_memory member_length)

/-- Row `i` of `min_boundary_matrix` as `init_ssParams` fills it: entry `j - 1` is
`min_real_var[i] + ((max_real_var[i] - min_real_var[i]) / p) * (j - 1)`. -/
def min_boundary_row (p : Nat) (lo hi : ℚ) : List ℚ :=
  (List.range p).map (fun (j : Nat) => lo + ((hi - lo) / (p : ℚ)) * (j : ℚ))

/-- Row `i` of `max_boundary_matrix` as `init_ssParams` fills it: entry `j - 1` is
`min_real_var[i] + ((max_real_var[i] - min_real_var[i]) / p) * j`. -/
def max_boundary_row (p : Nat) (lo hi : ℚ) : List ℚ :=
  (List.range p).map (fun (j : Nat) => lo + ((hi - lo) / (p : ℚ)) * ((j : ℚ) + 1))

/-- Routine `init_ssParams` of init.c: counters reset, the sets allocated, the
sub-region boundaries computed, every frequency set to 1 and every probability
to `1/p`.  The bounds are read for the `nreal` dimensions. -/
def init_ssParams (ssParams : SSType) : Option SSType :=
  if ssParams.nreal ≤ ssParams.min_real_var.length ∧
      ssParams.nreal ≤ ssParams.max_real_var.length then
    some { ssParams with
      n_refinement := 0,
      n_ref_set_update := 0,
      n_duplicates := 0,
      n_flatzone_detected := 0,
      n_function_evals := 0,
      n_regen := 0,
      n_duplicate_replaced := 0,
      n_iter := 0,
      ref_set := allocate_set_memory ssParams.ref_set_size ssParams.nreal,
      scatter_set := allocate_set_memory ssParams.scatter_set_size ssParams.nreal,
      subsets_list_size := ssParams.ref_set_size * ssParams.ref_set_size,
      subsets_list := List.replicate (ssParams.ref_set_size * ssParams.ref_set_size)
        (allocate_ind_memory ssParams.nreal, allocate_ind_memory ssParams.nreal),
      candidates_set :=
        allocate_set_memory (ssParams.ref_set_size * ssParams.ref_set_size * 6) ssParams.nreal,
      min_boundary_matrix := (List.range ssParams.nreal).map (fun i =>
        min_boundary_row ssParams.p (ssParams.min_real_var.getD i 0)
          (ssParams.max_real_var.getD i 0)),
      max_boundary_matrix := (List.range ssParams.nreal).map (fun i =>
        max_boundary_row ssParams.p (ssParams.min_real_var.getD i 0)
          (ssParams.max_real_var.getD i 0)),
      freqs_matrix := List.replicate ssParams.nreal (List.replicate ssParams.p 1),
      probs_matrix := List.replicate ssParams.nreal
        (List.replicate ssParams.p (1 / (ssParams.p : ℚ))) }
  else none

/-- Entry `[i][j]` of a matrix. -/
def mat_get {α : Type} (M : List (List α)) (i j : Nat) : Option α :=
  (M[i]?).bind (fun row => row[j]?)

/-- Write of entry `[i][j]` of a matrix. -/
def mat_set {α : Type} (M : List (List α)) (i j : Nat) (v : α) : Option (List (List α)) :=
  (M[i]?).bind (fun row => (wr row j v).bind (fun row1 => wr M i row1))

/-- The assignment `set->members[k].params[i] = v`. -/
def set_param (set : List individual) (k i : Nat) (v : ℚ) : Option (List individual) := do
  let m ← set[k]?
  let ps ← wr m.params i v
  wr set k { m with params := ps }

/-- What `init_scatter_set` works on: the set, the two matrices, the generator
and the locals `a` and `probs_sum`, which are declared before the loops and
keep their values from one draw to the next. -/
structure ScatterState where
  set : List individual
  freqs_matrix : List (List Int)
  probs_matrix : List (List ℚ)
  a : Nat
  probs_sum : ℚ
  g : Nat → ℚ

/-- Inner loop (over `i`) of the first loop of `init_scatter_set`, after `n`
rounds: `members[k].params[i] = rndreal(min_boundary_matrix[i][k], max_boundary_matrix[i][k])`. -/
def uniform_member (ssParams : SSType) (k : Nat) (st : ScatterState) :
    Nat → Option ScatterState
  | 0 => some st
  | n + 1 => do
    let st1 ← uniform_member ssParams k st n
    let lo ← mat_get ssParams.min_boundary_matrix n k
    let hi ← mat_get ssParams.max_boundary_matrix n k
    let r := rndreal lo hi st1.g
    let set1 ← set_param st1.set k n r.1
    pure { st1 with set := set1, g := r.2 }

/-- First loop of `init_scatter_set` after `n` rounds: the members `0 .. p-1`. -/
def uniform_members (ssParams : SSType) (st : ScatterState) : Nat → Option ScatterState
  | 0 => some st
  | n + 1 => do
    let st1 ← uniform_members ssParams st n
    uniform_member ssParams n st1 ssParams.nreal

/-- The loop `for (t = 0; t < p; ++t) f_col_prob += 1. / freqs_matrix[i][t]` after
`n` rounds.  A zero frequency has no rational quotient. -/
def f_col_prob_loop (freqs : List (List Int)) (i : Nat) : Nat → Option ℚ
  | 0 => some 0
  | n + 1 => do
    let acc ← f_col_prob_loop freqs i n
    let f ← mat_get freqs i n
    if f = 0 then none else pure (acc + 1 / (f : ℚ))

/-- The loop over `j` that selects the sub-region for the draw `rnd` in the
dimension `i`, at index `j` with `cnt` rounds left.  On the first `j` with
`rnd <= probs_sum` it sets `a`, raises `freqs_matrix[i][a]`, recomputes
`probs_matrix[i][a]`, resets `probs_sum` and leaves the loop. -/
def select_region (ssParams : SSType) (i : Nat) (rnd : ℚ) :
    Nat → Nat → ScatterState → Option ScatterState
  | 0, _, st => some st
  | cnt + 1, j, st => do
    let pj ← mat_get st.probs_matrix i j
    let probs_sum := st.probs_sum + pj
    if rnd ≤ probs_sum then
      let a := j
      let f ← mat_get st.freqs_matrix i a
      let freqs1 ← mat_set st.freqs_matrix i a (f + 1)
      let f_col_prob ← f_col_prob_loop freqs1 i ssParams.p
      let fa ← mat_get freqs1 i a
      let probs1 ← (if fa = 0 then none
                    else mat_set st.probs_matrix i a ((1 / (fa : ℚ)) / f_col_prob))
      pure { st with a := a, freqs_matrix := freqs1, probs_matrix := probs1, probs_sum := 0 }
    else select_region ssParams i rnd cnt (j + 1) { st with probs_sum := probs_sum }

/-- Inner loop (over `i`) of the second loop of `init_scatter_set`, after `n`
rounds, for the member `p + k`: a draw `rnd`, the selection of `a`, and the
parameter drawn in the sub-region `a`. -/
def biased_member (ssParams : SSType) (k : Nat) (st : ScatterState) :
    Nat → Option ScatterState
  | 0 => some st
  | n + 1 => do
    let st1 ← biased_member ssParams k st n
    let r := rndreal 0 1 st1.g
    let st2 ← select_region ssParams n r.1 ssParams.p 0 { st1 with g := r.2 }
    let lo ← mat_get ssParams.min_boundary_matrix n st2.a
    let hi ← mat_get ssParams.max_boundary_matrix n st2.a
    let v := rndreal lo hi st2.g
    let set1 ← set_param st2.set (ssParams.p + k) n v.1
    pure { st2 with set := set1, g := v.2 }

/-- Second loop of `init_scatter_set` after `n` rounds: the members
`p .. p + n - 1`. -/
def biased_members (ssParams : SSType) (st : ScatterState) : Nat → Option ScatterState
  | 0 => some st
  | n + 1 => do
    let st1 ← biased_members ssParams st n
    biased_member ssParams n st1 ssParams.nreal

/-- Routine `init_scatter_set` of init.c on `set`: the set, the state with the
two matrices as the routine leaves them, and the generator. -/
def init_scatter_set (ssParams : SSType) (set : List individual) (g : Nat → ℚ) :
    Option (List individual × SSType × (Nat → ℚ)) := do
  let st0 : ScatterState :=
    { set := set, freqs_matrix := ssParams.freqs_matrix, probs_matrix := ssParams.probs_matrix,
      a := 0, probs_sum := 0, g := g }
  let st1 ← uniform_members ssParams st0 ssParams.p
  let st2 ← biased_members ssParams st1 (ssParams.scatter_set_size - ssParams.p)
  pure (st2.set, { ssParams with freqs_matrix := st2.freqs_matrix,
                                 probs_matrix := st2.probs_matrix }, st2.g)

/-! ## The Reference Set builder (`init_ref_set` of `init.c`; `min`, `max`,
`delete_and_shift` of `ssTools.c`)

The distances stored in `dist_matrix` and `min_dists` are only compared with
each other; they are kept squared, which leaves their order as it is. -/

/-- Loop of `min` at index `i` with `cnt` entries left. -/
def min_loop (arr : List ℚ) : Nat → Nat → ℚ → Nat → Option (ℚ × Nat)
  | 0, _, minimum, index => some (minimum, index)
  | cnt + 1, i, minimum, index =>
    match arr[i]? with
    | none => none
    | some x =>
      if minimum > x then min_loop arr cnt (i + 1) x i
      else min_loop arr cnt (i + 1) minimum index

/-- Routine `min` of ssTools.c: the minimum of the first `length` entries and
its index.  `arr[0]` is read whatever `length` is. -/
def min (arr : List ℚ) (length : Nat) : Option (ℚ × Nat) :=
  match arr[0]? with
  | none => none
  | some x => min_loop arr (length - 1) 1 x 0

/-- Loop of `max` at index `i` with `cnt` entries left. -/
def max_loop (arr : List ℚ) : Nat → Nat → ℚ → Nat → Option (ℚ × Nat)
  | 0, _, maximum, index => some (maximum, index)
  | cnt + 1, i, maximum, index =>
    match arr[i]? with
    | none => none
    | some x =>
      if maximum < x then max_loop arr cnt (i + 1) x i
      else max_loop arr cnt (i + 1) maximum index

/-- Routine `max` of ssTools.c: the maximum of the first `length` entries and
its index.  `arr[0]` is read whatever `length` is. -/
def max (arr : List ℚ) (length : Nat) : Option (ℚ × Nat) :=
  match arr[0]? with
  | none => none
  | some x => max_loop arr (length - 1) 1 x 0

/-- Loop of `delete_and_shift` at index `i` with `cnt` rounds left:
`copy_ind(&members[i], &members[i + 1])`. -/
def delete_and_shift_loop (ssParams : SSType) :
    Nat → Nat → List individual → Option (List individual)
  | 0, _, set => some set
  | cnt + 1, i, set => do
    let dest ← set[i]?
    let src ← set[i + 1]?
    let v ← copy_ind ssParams dest src
    let set1 ← wr set i v
    delete_and_shift_loop ssParams cnt (i + 1) set1

/-- Routine `delete_and_shift` of ssTools.c: `i` runs from `index_to_delete` to
`set_size - 2`. -/
def delete_and_shift (ssParams : SSType) (set : List individual) (set_size : Nat)
    (index_to_delete : Nat) : Option (List individual) :=
  delete_and_shift_loop ssParams (set_size - 1 - index_to_delete) index_to_delete set

/-- What the expansion loop of `init_ref_set` works on. -/
structure RefBuild where
  scatter_set : List individual
  ref_set : List individual
  dist_matrix : List (List ℚ)
  min_dists : List ℚ

/-- First loop of `init_ref_set` after `n` rounds: the `n` best members of the
sorted Scatter Set copied into the Reference Set. -/
def copy_best (ssParams : SSType) (scatter_set : List individual) (ref_set : List individual) :
    Nat → Option (List individual)
  | 0 => some ref_set
  | n + 1 => do
    let ref1 ← copy_best ssParams scatter_set ref_set n
    let dest ← ref1[n]?
    let src ← scatter_set[n]?
    let v ← copy_ind ssParams dest src
    wr ref1 n v

/-- Loop over `j` after `n` rounds, for the pool member `i`:
`dist_matrix[i - (b / 2)][j] = euclidean_distance(scatter_set[i], ref_set[j])`. -/
def fill_dist_row (ssParams : SSType) (st : RefBuild) (i : Nat) : Nat → Option (List (List ℚ))
  | 0 => some st.dist_matrix
  | n + 1 => do
    let dm ← fill_dist_row ssParams st i n
    let a ← st.scatter_set[i]?
    let b ← st.ref_set[n]?
    let d ← euclidean_distance_sq ssParams a b
    mat_set dm (i - ssParams.ref_set_size / 2) n d

/-- Loop over the pool (`for (i = h; i < m; ++i)`) at index `i` with `cnt` rounds
left, for the slot `k`: the distances of member `i` to the reference members
`0 .. k-1`, and their minimum in `min_dists[i - (b / 2)]`. -/
def pool_dists (ssParams : SSType) (k : Nat) : Nat → Nat → RefBuild → Option RefBuild
  | 0, _, st => some st
  | cnt + 1, i, st => do
    let dm ← fill_dist_row ssParams st i k
    let row ← dm[i - ssParams.ref_set_size / 2]?
    let r ← min row k
    let md ← wr st.min_dists (i - ssParams.ref_set_size / 2) r.1
    pool_dists ssParams k cnt (i + 1) { st with dist_matrix := dm, min_dists := md }

/-- One round of the expansion loop of `init_ref_set`, for the slot `k` with the
pool `scatter_set[h .. m-1]`.  After the loop over the pool `i` is the larger of
`h` and `m`, so `i - (b / 2)` is `m - h`. -/
def expand_step (ssParams : SSType) (k m : Nat) (st : RefBuild) : Option RefBuild := do
  let h := ssParams.ref_set_size / 2
  let st1 ← pool_dists ssParams k (m - h) h st
  let r ← max st1.min_dists (m - h)
  let max_index := r.2
  let dest ← st1.ref_set[k]?
  let src ← st1.scatter_set[h + max_index]?
  let v ← copy_ind ssParams dest src
  let ref1 ← wr st1.ref_set k v
  let sc ← delete_and_shift ssParams st1.scatter_set ssParams.scatter_set_size (h + max_index)
  pure { st1 with ref_set := ref1, scatter_set := sc }

/-- The expansion loop of `init_ref_set` (`for (k = h; k < b; ++k, --m)`) after `n`
rounds: round `n` fills the slot `h + n` from the pool of `scatter_set_size - n`
members. -/
def expand_loop (ssParams : SSType) (st : RefBuild) : Nat → Option RefBuild
  | 0 => some st
  | n + 1 => do
    let st1 ← expand_loop ssParams st n
    expand_step ssParams (ssParams.ref_set_size / 2 + n) (ssParams.scatter_set_size - n) st1

/-- Routine `init_ref_set` of init.c. -/
def init_ref_set (ssParams : SSType) : Option SSType := do
  let m := ssParams.scatter_set_size
  let b := ssParams.ref_set_size
  let h := b / 2
  let sc ← quick_sort_set ssParams.scatter_set ssParams.scatter_set_size
  let ref ← copy_best ssParams sc ssParams.ref_set h
  let st ← expand_loop ssParams
    { scatter_set := sc, ref_set := ref,
      dist_matrix := List.replicate (m - h) (List.replicate b (0 : ℚ)),
      min_dists := List.replicate (m - h) (0 : ℚ) } (b - h)
  pure { ssParams with scatter_set := st.scatter_set, ref_set := st.ref_set }

/-! ## Regeneration of the Reference Set (`re_gen_ref_set`, `compute_Mt` of
`update.c`; `matrix_product` of `ssTools.c`)

`int` has 32 bits and a pointer is as wide as a `double`, so that a row of `P`
(`malloc(b * sizeof(double *))`) holds `b` entries. -/

/-- Conversion of a `double` to `int`: the fraction is dropped; outside the
range of `int` the conversion is undefined. -/
def double_to_int (x : ℚ) : Option Int :=
  let t : Int := if 0 ≤ x then ⌊x⌋ else ⌈x⌉
  if -2147483648 ≤ t ∧ t ≤ 2147483647 then some t else none

/-- Innermost loop of `matrix_product` after `n` rounds:
`sum = sum + A[i][k] * B[k][j]` with `sum` an `int`. -/
def matrix_product_sum (A B : List (List ℚ)) (i j : Nat) : Nat → Option Int
  | 0 => some 0
  | n + 1 => do
    let sum ← matrix_product_sum A B i j n
    let a ← mat_get A i n
    let b ← mat_get B n j
    double_to_int ((sum : ℚ) + a * b)

/-- Loop over `j` of `matrix_product` after `n` rounds: `P[i][j] = sum`. -/
def matrix_product_row (A B : List (List ℚ)) (b_row i : Nat) (P : List (List ℚ)) :
    Nat → Option (List (List ℚ))
  | 0 => some P
  | n + 1 => do
    let P1 ← matrix_product_row A B b_row i P n
    let sum ← matrix_product_sum A B i n b_row
    mat_set P1 i n (sum : ℚ)

/-- Loop over `i` of `matrix_product` after `n` rounds. -/
def matrix_product_rows (A B : List (List ℚ)) (b_row b_col : Nat) (P : List (List ℚ)) :
    Nat → Option (List (List ℚ))
  | 0 => some P
  | n + 1 => do
    let P1 ← matrix_product_rows A B b_row b_col P n
    matrix_product_row A B b_row n P1 b_col

/-- Routine `matrix_product` of ssTools.c: the rows of `P` after the call.  The
C function does not use `a_col`; its assignments to `p_row` and `p_col` change
its own copies only. -/
def matrix_product (A : List (List ℚ)) (a_row : Nat) (B : List (List ℚ)) (b_row b_col : Nat)
    (P : List (List ℚ)) : Option (List (List ℚ)) :=
  matrix_product_rows A B b_row b_col P a_row

/-- Loop over `j` of `compute_Mt` after `n` rounds, for the row `i`:
`M[i][j] = ref_set[0].params[i] - ref_set[j + 1].params[i]`. -/
def compute_Mt_row (ssParams : SSType) (i : Nat) (M : List (List ℚ)) :
    Nat → Option (List (List ℚ))
  | 0 => some M
  | n + 1 => do
    let M1 ← compute_Mt_row ssParams i M n
    let r0 ← ssParams.ref_set[0]?
    let a ← r0.params[i]?
    let rj ← ssParams.ref_set[n + 1]?
    let b ← rj.params[i]?
    mat_set M1 i n (a - b)

/-- Loop over `i` of `compute_Mt` after `n` rounds. -/
def compute_Mt_rows (ssParams : SSType) (m_col : Nat) (M : List (List ℚ)) :
    Nat → Option (List (List ℚ))
  | 0 => some M
  | n + 1 => do
    let M1 ← compute_Mt_rows ssParams m_col M n
    compute_Mt_row ssParams n M1 m_col

/-- Routine `compute_Mt` of update.c (the parameters `set` and `set_size` are not
used; the routine reads `ssParams->ref_set`). -/
def compute_Mt (ssParams : SSType) (M : List (List ℚ)) (m_row m_col : Nat) :
    Option (List (List ℚ)) :=
  compute_Mt_rows ssParams m_col M m_row

/-- What the loops of `re_gen_ref_set` work on: the state (Reference Set, Scatter
Set, counters) and the local arrays. -/
structure RegenState where
  ssParams : SSType
  M : List (List ℚ)
  P : List (List ℚ)
  tmp_row : List (List ℚ)
  msp : List ℚ

/-- The loop `tmp_row[0][j] = ref_set[0].params[j] - scatter_set[i].params[j]`
after `n` rounds. -/
def fill_tmp_row (ssParams : SSType) (i : Nat) (tmp_row : List (List ℚ)) :
    Nat → Option (List (List ℚ))
  | 0 => some tmp_row
  | n + 1 => do
    let t ← fill_tmp_row ssParams i tmp_row n
    let r0 ← ssParams.ref_set[0]?
    let a ← r0.params[n]?
    let c ← ssParams.scatter_set[i]?
    let b ← c.params[n]?
    mat_set t 0 n (a - b)

/-- Loop over the pool (`for (i = 0; i < m; ++i)`) of `re_gen_ref_set` at index `i`
with `cnt` rounds left, for the slot `k`.  `matrix_product` receives `&(P[i])`,
the rows of `P` from `i` on. -/
def regen_pool (k : Nat) : Nat → Nat → RegenState → Option RegenState
  | 0, _, st => some st
  | cnt + 1, i, st => do
    let t ← fill_tmp_row st.ssParams i st.tmp_row st.ssParams.nreal
    let Pi ← matrix_product t 1 st.M st.ssParams.nreal k (st.P.drop i)
    let P1 := st.P.take i ++ Pi
    let row ← P1[i]?
    let r ← max row k
    let msp1 ← wr st.msp i r.1
    regen_pool k cnt (i + 1) { st with tmp_row := t, P := P1, msp := msp1 }

/-- One round of the loop `for (k = h; k < b; ++k, --m)` of `re_gen_ref_set`. -/
def regen_step (objective : List ℚ → ℚ) (k m : Nat) (st : RegenState) :
    Option RegenState := do
  let M1 ← compute_Mt st.ssParams st.M st.ssParams.nreal k
  let st1 ← regen_pool k m 0 { st with M := M1 }
  let r ← min st1.msp m
  let min_index := r.2
  let c ← st1.ssParams.scatter_set[min_index]?
  let e ← evaluate_ind objective st1.ssParams c
  let sc1 ← wr e.2.scatter_set min_index e.1
  let dest ← e.2.ref_set[k]?
  let v ← copy_ind e.2 dest e.1
  let ref1 ← wr e.2.ref_set k v
  let sc2 ← delete_and_shift e.2 sc1 e.2.scatter_set_size min_index
  pure { st1 with ssParams := { e.2 with ref_set := ref1, scatter_set := sc2 } }

/-- The loop `for (k = h; k < b; ++k, --m)` of `re_gen_ref_set` after `n` rounds:
round `n` fills the slot `h + n` from a pool of `m - n` members. -/
def regen_loop (objective : List ℚ → ℚ) (h m : Nat) (st : RegenState) :
    Nat → Option RegenState
  | 0 => some st
  | n + 1 => do
    let st1 ← regen_loop objective h m st n
    regen_step objective (h + n) (m - n) st1

/-- Routine `re_gen_ref_set` of update.c: `g = max_elite`, `h = b - g`, and the
loop runs for `k = h .. b-1`.  The parameters `set`, `set_size` and `type` are
not used by the C function.  For `max_elite > ref_set_size` the index `h` is
negative. -/
def re_gen_ref_set (objective : List ℚ → ℚ) (ssParams : SSType) (g : Nat → ℚ) :
    Option (SSType × (Nat → ℚ)) :=
  if ssParams.max_elite ≤ ssParams.ref_set_size then do
    let n := ssParams.nreal
    let b := ssParams.ref_set_size
    let h := b - ssParams.max_elite
    let m := ssParams.scatter_set_size
    let r ← init_scatter_set ssParams ssParams.scatter_set g
    let s1 := { r.2.1 with scatter_set := r.1 }
    let st ← regen_loop objective h m
      { ssParams := s1,
        M := List.replicate n (List.replicate b (0 : ℚ)),
        P := List.replicate m (List.replicate b (0 : ℚ)),
        tmp_row := [List.replicate n (0 : ℚ)],
        msp := List.replicate m (0 : ℚ) } (b - h)
    pure (st.ssParams, r.2.2)
  else none

/-! ## The main loop (`RunSS` of `ss.c`, `evaluate_set` of `evaluate.c`)

Output (log file, terminal, history files) is left out.  Of the local counters
of `RunSS` only `n_duplicates` is read by the loop itself; the others are only
printed. -/

/-- Routine `evaluate_set` of evaluate.c after `n` rounds: the members and the
state (for `n_function_evals`). -/
def evaluate_set (objective : List ℚ → ℚ) (ssParams : SSType) (set : List individual) :
    Nat → Option (List individual × SSType)
  | 0 => some (set, ssParams)
  | n + 1 => do
    let r ← evaluate_set objective ssParams set n
    let m ← r.1[n]?
    let e ← evaluate_ind objective r.2 m
    let set1 ← wr r.1 n e.1
    pure (set1, e.2)

/-- What the main loop of `RunSS` works on: the state, the generator and the
local variable `n_duplicates` (the value of the counter at the last report). -/
structure RunState where
  ssParams : SSType
  g : Nat → ℚ
  n_duplicates : Int

/-- The call `refine_set(ssParams, ssParams->ref_set, ssParams->ref_set_size, 'n', inp, &out)`
of `RunSS`: the set refined is the Reference Set of the state. -/
def refine_ref_set (objective : List ℚ → ℚ)
    (nelder_mead : SSType → individual → Option (individual × SSType))
    (st : RunState) : Option RunState := do
  let r ← refine_set objective nelder_mead st.ssParams.ref_set_size 'n'
    { set := st.ssParams.ref_set, ssParams := st.ssParams, g := st.g }
  pure { st with ssParams := { r.ssParams with ref_set := r.set }, g := r.g }

/-- The call `quick_sort_set(ssParams, ssParams->ref_set, ssParams->ref_set_size)`. -/
def sort_ref_set (ssParams : SSType) : Option SSType := do
  let ref ← quick_sort_set ssParams.ref_set ssParams.ref_set_size
  pure { ssParams with ref_set := ref }

/-- The first part of the body of the main loop, up to the stop test: pair
selection, candidate generation and evaluation, update of the Reference Set,
local search when `perform_local_search` is set and `n_iter` is a multiple of
`local_search_freq`, and the sort.  `n_iter % 0` is undefined. -/
def iteration_pass (objective : List ℚ → ℚ)
    (nelder_mead : SSType → individual → Option (individual × SSType))
    (st : RunState) : Option RunState := do
  let s1 ← select_subsets_list st.ssParams st.ssParams.ref_set
  let r ← generate_candiates s1 st.g
  let e ← evaluate_set objective r.1 r.1.candidates_set r.1.candidates_set_size
  let s3 ← update_ref_set { e.2 with candidates_set := e.1 }
  let st3 : RunState := { st with ssParams := s3, g := r.2 }
  let st4 ←
    (if s3.perform_local_search ≠ 0 then
      (if s3.local_search_freq = 0 then none
       else if s3.n_iter % s3.local_search_freq = 0 then
         refine_ref_set objective nelder_mead st3
       else some st3)
     else some st3)
  let s5 ← sort_ref_set st4.ssParams
  pure { st4 with ssParams := s5 }

/-- The stop test of the main loop: with `perform_stop_criteria` set,
`fabs(ref_set[0].cost - ref_set[ref_set_size - 1].cost) < stop_criteria`. -/
def stop_by_difference (ssParams : SSType) : Option Bool :=
  if ssParams.perform_stop_criteria ≠ 0 then
    if ssParams.ref_set_size = 0 then none
    else do
      let best ← ssParams.ref_set[0]?
      let worst ← ssParams.ref_set[ssParams.ref_set_size - 1]?
      pure (decide (|best.cost - worst.cost| < ssParams.stop_criteria))
  else some false

/-- The test `(double)(n_duplicates - n_duplicates_local) / (double)candidates_set_size > 0.7`.
A division by zero gives an infinity or a NaN, which is above 0.7 only for a
positive numerator. -/
def too_many_duplicates (ssParams : SSType) (n_duplicates : Int) : Bool :=
  if ssParams.candidates_set_size = 0 then decide (0 < ssParams.n_duplicates - n_duplicates)
  else decide (((ssParams.n_duplicates - n_duplicates : Int) : ℚ) /
    (ssParams.candidates_set_size : ℚ) > 7 / 10)

/-- The condition of the regeneration in the main loop, evaluated left to
right as `&&` and `||` do. -/
def regen_due (st : RunState) : Option Bool :=
  if st.ssParams.perform_ref_set_regen ≠ 0 ∧ st.ssParams.n_iter ≠ 1 then
    if too_many_duplicates st.ssParams st.n_duplicates then some true
    else if st.ssParams.ref_set_regen_freq = 0 then none
    else some (decide (st.ssParams.n_iter % st.ssParams.ref_set_regen_freq = 0))
  else some false

/-- The second part of the body of the main loop, after the stop test: the
regeneration when it is due, and the reset of the local counter when the
statistics are reported (`n_iter % 10 == 0`). -/
def iteration_rest (objective : List ℚ → ℚ) (st : RunState) : Option RunState := do
  let due ← regen_due st
  let st1 ←
    (if due then
      (re_gen_ref_set objective st.ssParams st.g).bind (fun r =>
        (sort_ref_set { r.1 with n_regen := r.1.n_regen + 1 }).bind (fun s2 =>
          some { st with ssParams := s2, g := r.2 }))
     else some st)
  pure (if st1.ssParams.n_iter % 10 = 0 then
          { st1 with n_duplicates := st1.ssParams.n_duplicates }
        else st1)

/-- The main loop of `RunSS` from its test `n_iter < max_iter` on, for at most
`fuel` rounds: a round is the pass, the stop test (`break`), the rest of the
body and `++n_iter`.  Out of fuel with the test still true, the value is
`none`. -/
def main_loop (objective : List ℚ → ℚ)
    (nelder_mead : SSType → individual → Option (individual × SSType)) :
    Nat → RunState → Option RunState
  | 0, st => if st.ssParams.n_iter < st.ssParams.max_iter then none else some st
  | fuel + 1, st =>
    if st.ssParams.n_iter < st.ssParams.max_iter then
      match iteration_pass objective nelder_mead st with
      | none => none
      | some st1 =>
        match stop_by_difference st1.ssParams with
        | none => none
        | some true => some st1
        | some false =>
          match iteration_rest objective st1 with
          | none => none
          | some st2 =>
            main_loop objective nelder_mead fuel
              { st2 with ssParams := { st2.ssParams with n_iter := st2.ssParams.n_iter + 1 } }
    else some st

/-- Routine `RunSS` of ss.c: `n_iter = 1`, the main loop, then a last local
search and sort.  No routine called by the loop writes `n_iter` or `max_iter`,
so that `max_iter - 1` rounds of fuel are enough. -/
def RunSS (objective : List ℚ → ℚ)
    (nelder_mead : SSType → individual → Option (individual × SSType))
    (ssParams : SSType) (g : Nat → ℚ) : Option (SSType × (Nat → ℚ)) := do
  let st0 : RunState := { ssParams := { ssParams with n_iter := 1 }, g := g, n_duplicates := 0 }
  let st1 ← main_loop objective nelder_mead (ssParams.max_iter - 1).toNat st0
  let st2 ← refine_ref_set objective nelder_mead st1
  let s3 ← sort_ref_set st2.ssParams
  pure (s3, st2.g)

/-! ## Warm start (`write_set`, `write_ind`, `write_int_matrix`, `write_double_matrix`
of `report.c`; `init_warm_start` of `init.c`; `parse_double_row`, `parse_int_row`
of `ssTools.c`)

A file is the list of its lines, and a line is kept as the numerals written on
it together with its number of characters.  A numeral is kept as the number it
denotes: `fprintf` with `%.5lf` (`%lf`) writes the decimal with 5 (6) digits
after the point nearest to the value, ties to the even digit, and `atof`
reads a decimal back as the number it denotes; `%d` and `atoi` are exact.
`fgets(line, 4098, ..)` reads a line of at most 4097 characters (the newline
included) whole.  A longer line is cut and the next read starts in the middle
of it; the rows then keep entries that no numeral was stored in, and the model
stops with `none` there. -/

/-- A line of a text file: its numerals in order, and its number of characters
with the newline. -/
structure Line (α : Type) where
  tokens : List α
  length : Nat

/-- The integer nearest to `x`, ties to even. -/
def round_half_even (x : ℚ) : Int :=
  if x - ⌊x⌋ < 1 / 2 then ⌊x⌋
  else if x - ⌊x⌋ > 1 / 2 then ⌊x⌋ + 1
  else if ⌊x⌋ % 2 = 0 then ⌊x⌋
  else ⌊x⌋ + 1

/-- The number denoted by the numeral that `%.<d>lf` writes for `x`. -/
def fixed (d : Nat) (x : ℚ) : ℚ :=
  (round_half_even (x * 10 ^ d) : ℚ) / 10 ^ d

/-- The number of characters of the numeral that `%d` writes. -/
def int_width (n : Int) : Nat :=
  (if n < 0 then 1 else 0) + (Nat.toDigits 10 n.natAbs).length

/-- The number of characters of the numeral that `%.<d>lf` writes for `x`: sign,
integer digits, the point and `d` digits. -/
def fixed_width (d : Nat) (x : ℚ) : Nat :=
  (if x < 0 then 1 else 0) + (Nat.toDigits 10 ⌊|fixed d x|⌋.natAbs).length + 1 + d

/-- Routine `write_ind` of report.c: the line appended to the file.  The
iteration number opens the line unless `iter` is `-1`; the parameters are
written with `%.5lf` and a tab each, the cost with `%lf` and the newline. -/
def write_ind (ind : individual) (member_length : Nat) (iter : Int) : Option (Line ℚ) :=
  if member_length ≤ ind.params.length then
    some { tokens := (if iter ≠ -1 then [(iter : ℚ)] else []) ++
             (ind.params.take member_length).map (fixed 5) ++ [fixed 6 ind.cost],
           length := (if iter ≠ -1 then int_width iter + 1 else 0) +
             ((ind.params.take member_length).map (fun x => fixed_width 5 x + 1)).sum +
             (fixed_width 6 ind.cost + 1) }
  else none

/-- Loop of `write_set` at index `i` with `cnt` members left: the lines appended. -/
def write_set_loop (set : List individual) (member_length : Nat) (iter : Int) :
    Nat → Nat → Option (List (Line ℚ))
  | 0, _ => some []
  | cnt + 1, i => do
    let m ← set[i]?
    let l ← write_ind m member_length iter
    let ls ← write_set_loop set member_length iter cnt (i + 1)
    pure (l :: ls)

/-- Routine `write_set` of report.c (the parameter `mode` is not used by the C
code). -/
def write_set (set : List individual) (set_size member_length : Nat) (iter : Int) :
    Option (List (Line ℚ)) :=
  write_set_loop set member_length iter set_size 0

/-- Loop over `r` of `write_int_matrix` at index `r` with `cnt` rows left: a tab
and `%d` for every entry of the row, then the newline. -/
def write_int_matrix_loop (matrix : List (List Int)) (col : Nat) (iter : Int) :
    Nat → Nat → Option (List (Line Int))
  | 0, _ => some []
  | cnt + 1, r => do
    let row ← matrix[r]?
    let l ← (if col ≤ row.length then
      some ({ tokens := (if iter ≠ -1 then [iter] else []) ++ row.take col,
              length := (if iter ≠ -1 then int_width iter else 0) +
                ((row.take col).map (fun n => 1 + int_width n)).sum + 1 } : Line Int)
      else none)
    let ls ← write_int_matrix_loop matrix col iter cnt (r + 1)
    pure (l :: ls)

/-- Routine `write_int_matrix` of report.c. -/
def write_int_matrix (matrix : List (List Int)) (row col : Nat) (iter : Int) :
    Option (List (Line Int)) :=
  write_int_matrix_loop matrix col iter row 0

/-- Loop over `r` of `write_double_matrix`: a tab and `%lf` for every entry of
the row, then the newline. -/
def write_double_matrix_loop (matrix : List (List ℚ)) (col : Nat) (iter : Int) :
    Nat → Nat → Option (List (Line ℚ))
  | 0, _ => some []
  | cnt + 1, r => do
    let row ← matrix[r]?
    let l ← (if col ≤ row.length then
      some ({ tokens := (if iter ≠ -1 then [(iter : ℚ)] else []) ++ (row.take col).map (fixed 6),
              length := (if iter ≠ -1 then int_width iter else 0) +
                ((row.take col).map (fun x => 1 + fixed_width 6 x)).sum + 1 } : Line ℚ)
      else none)
    let ls ← write_double_matrix_loop matrix col iter cnt (r + 1)
    pure (l :: ls)

/-- Routine `write_double_matrix` of report.c. -/
def write_double_matrix (matrix : List (List ℚ)) (row col : Nat) (iter : Int) :
    Option (List (Line ℚ)) :=
  write_double_matrix_loop matrix col iter row 0

/-- The loop of `parse_double_row` and `parse_int_row` from the index `i` on:
`row[i] = atof(tok)` for every numeral of the line. -/
def parse_row_loop {α : Type} : List α → Nat → List α → Option (List α)
  | [], _, row => some row
  | t :: ts, i, row => (wr row i t).bind (fun row1 => parse_row_loop ts (i + 1) row1)

/-- Routine `parse_double_row` of ssTools.c.  The first call of `strtok` splits
at tabs only: on a line without a numeral it returns the newline as a token,
which `atof` reads as 0. -/
def parse_double_row (tokens : List ℚ) (row : List ℚ) : Option (List ℚ) :=
  match tokens with
  | [] => wr row 0 0
  | t :: ts => parse_row_loop (t :: ts) 0 row

/-- Routine `parse_int_row` of ssTools.c. -/
def parse_int_row (tokens : List Int) (row : List Int) : Option (List Int) :=
  match tokens with
  | [] => wr row 0 0
  | t :: ts => parse_row_loop (t :: ts) 0 row

/-- First loop of `init_warm_start`, on the lines of the Reference Set file that
are ahead, at index `i`: `fgets` takes the line, then `i < ref_set_size` is
tested.  `row` is a fresh array of `nreal + 1` entries. -/
def read_ref_set (ssParams : SSType) :
    List (Line ℚ) → Nat → List individual → Option (List individual)
  | [], _, ref => some ref
  | l :: rest, i, ref =>
    if i < ssParams.ref_set_size then
      if 4097 < l.length then none
      else do
        let row ← parse_double_row l.tokens (List.replicate (ssParams.nreal + 1) 0)
        let m ← ref[i]?
        let c ← row[ssParams.nreal]?
        let ref1 ← (if ssParams.nreal ≤ m.params.length then
          wr ref i { params := row.take ssParams.nreal ++ m.params.drop ssParams.nreal,
                     cost := c }
          else none)
        read_ref_set ssParams rest (i + 1) ref1
    else some ref

/-- Second loop of `init_warm_start`, on the frequency file: `i < nreal` is
tested, `row` has `p` entries and `memcpy` copies `p` of them. -/
def read_freqs (ssParams : SSType) :
    List (Line Int) → Nat → List (List Int) → Option (List (List Int))
  | [], _, freqs => some freqs
  | l :: rest, i, freqs =>
    if i < ssParams.nreal then
      if 4097 < l.length then none
      else do
        let row ← parse_int_row l.tokens (List.replicate ssParams.p 0)
        let old ← freqs[i]?
        let freqs1 ← (if ssParams.p ≤ old.length then
          wr freqs i (row.take ssParams.p ++ old.drop ssParams.p)
          else none)
        read_freqs ssParams rest (i + 1) freqs1
    else some freqs

/-- Third loop of `init_warm_start`, on the probability file: the loop runs to
the end of the file, without a test of `i`. -/
def read_probs (ssParams : SSType) :
    List (Line ℚ) → Nat → List (List ℚ) → Option (List (List ℚ))
  | [], _, probs => some probs
  | l :: rest, i, probs =>
    if 4097 < l.length then none
    else do
      let row ← parse_double_row l.tokens (List.replicate ssParams.p 0)
      let old ← probs[i]?
      let probs1 ← (if ssParams.p ≤ old.length then
        wr probs i (row.take ssParams.p ++ old.drop ssParams.p)
        else none)
      read_probs ssParams rest (i + 1) probs1

/-- Routine `init_warm_start` of init.c on the three files (which are taken to
exist). -/
def init_warm_start (ssParams : SSType) (ref_set_file : List (Line ℚ))
    (freq_mat_file : List (Line Int)) (prob_mat_file : List (Line ℚ)) : Option SSType := do
  let ref ← read_ref_set ssParams ref_set_file 0 ssParams.ref_set
  let freqs ← read_freqs ssParams freq_mat_file 0 ssParams.freqs_matrix
  let probs ← read_probs ssParams prob_mat_file 0 ssParams.probs_matrix
  pure { ssParams with ref_set := ref, freqs_matrix := freqs, probs_matrix := probs }

/-! ## The set sizes read from the input file (`ReadSSParameters` of `fly_io.c`)

Only the two size checks are embedded; the other fields are read between and
after them without any test that involves the sizes.  `error` prints its
message and ends the program. -/

/-- What the size checks of `ReadSSParameters` end with: a call of `error` in the
check of the Reference Set or of the Scatter Set, or the two sizes. -/
inductive SizeCheck where
  | error_ref_set_size
  | error_scatter_set_size
  | sizes (ref_set_size scatter_set_size : Int)
deriving DecidableEq

/-- The suggested size `ceil(1.0 + sqrt(1.0 + 40.0 * nreal) / 2.0)`, computed
with the integer square root: with `r = ⌊sqrt N⌋` for `N = 1 + 40 * nreal`, the
least `k` with `2 * k ≥ sqrt N` is `(r + 1) / 2` when `N` is a square and
`(r + 2) / 2` otherwise. -/
def suggested_ref_set_size (nreal : Nat) : Int :=
  let N := 1 + 40 * nreal
  let r := Nat.sqrt N
  1 + (if r * r = N then ((r + 1) / 2 : Nat) else ((r + 2) / 2 : Nat))

/-- The check of `ref_set_size` in `ReadSSParameters`: `-1` asks for the suggested
value, made even and raised to 20; a value below 20 or not above `nreal` is an
error; an odd value is raised by one.  The outer `none` is an `int` overflow,
the inner `none` the call of `error`. -/
def check_ref_set_size (nreal : Nat) (ref_set_size : Int) : Option (Option Int) :=
  if ref_set_size = -1 then
    let r0 := suggested_ref_set_size nreal
    let r1 := if r0 % 2 ≠ 0 then r0 + 1 else r0
    if r1 ≤ 2147483647 then some (some (if r1 > 20 then r1 else 20)) else none
  else if ref_set_size < 20 ∨ ref_set_size ≤ (nreal : Int) then some none
  else if ref_set_size % 2 ≠ 0 then
    (if ref_set_size + 1 ≤ 2147483647 then some (some (ref_set_size + 1)) else none)
  else some (some ref_set_size)

/-- The check of `scatter_set_size` in `ReadSSParameters`, with `b` the size of
the Reference Set settled before: `-1` gives `MAX(10 * nreal, 40)`; a value
below 40 or not above `b` is an error; an odd value is raised by one. -/
def check_scatter_set_size (nreal : Nat) (b scatter_set_size : Int) : Option SizeCheck :=
  if scatter_set_size = -1 then
    if 10 * (nreal : Int) ≤ 2147483647 then
      some (SizeCheck.sizes b (if 10 * (nreal : Int) > 40 then 10 * (nreal : Int) else 40))
    else none
  else if scatter_set_size < 40 ∨ scatter_set_size ≤ b then
    some SizeCheck.error_scatter_set_size
  else if scatter_set_size % 2 ≠ 0 then
    (if scatter_set_size + 1 ≤ 2147483647 then
      some (SizeCheck.sizes b (scatter_set_size + 1)) else none)
  else some (SizeCheck.sizes b scatter_set_size)

/-- The two size checks of `ReadSSParameters` for `nreal = inp->tra.size` and the
values read for `ref_set_size` and `scatter_set_size`.  `none` where an `int`
operation overflows. -/
def ReadSSParameters_sizes (nreal : Nat) (ref_set_size scatter_set_size : Int) :
    Option SizeCheck :=
  match check_ref_set_size nreal ref_set_size with
  | none => none
  | some none => some SizeCheck.error_ref_set_size
  | some (some b) => check_scatter_set_size nreal b scatter_set_size

/-! ## Vocabulary of the statements

Predicates and bookkeeping functions that the theorems below are stated with;
none of them is part of the embedded program. -/

/-- The list `l2` comes from `l1` by exchanging members at indices between `lo`
and `hi`. -/
inductive RangePerm {α : Type} (lo hi : Nat) : List α → List α → Prop
  | refl (l : List α) : RangePerm lo hi l l
  | step (l1 l2 : List α) (i j : Nat) (a b : α) :
      RangePerm lo hi l1 l2 → lo ≤ i → i ≤ hi → lo ≤ j → j ≤ hi →
      l2[i]? = some a → l2[j]? = some b → RangePerm lo hi l1 ((l2.set i b).set j a)

/-- The numbers mirror the costs of the members at the indices `lo .. hi`. -/
def SyncR (S : List individual) (N : List ℚ) (lo hi : Nat) : Prop :=
  ∀ k, lo ≤ k → k ≤ hi → ∃ a, S[k]? = some a ∧ N[k]? = some a.cost

/-- State of the partition loop of `quick_sort` between `lo` and `hi`: `S0`, `N0`
are the arrays at entry, `pv` the pivot member, `hole` the index whose
content is stale (the pivot member belongs there). -/
structure PInv (S0 : List individual) (N0 : List ℚ) (pv : individual) (lo hi : Nat)
    (S : List individual) (N : List ℚ) (left right hole : Nat) : Prop where
  lo_le : lo ≤ left
  left_le : left ≤ right
  le_hi : right ≤ hi
  hole_lo : lo ≤ hole
  hole_hi : hole ≤ hi
  lenS : hi < S.length
  lenN : N.length = N0.length
  hiN : hi < N.length
  sync : SyncR S N lo hi
  perm : RangePerm lo hi S0 (S.set hole pv)
  frameN : ∀ k, (k < lo ∨ hi < k) → N[k]? = N0[k]?
  low : ∀ k a, lo ≤ k → k < left → S[k]? = some a → a.cost ≤ pv.cost
  high : ∀ k a, right < k → k ≤ hi → S[k]? = some a → pv.cost ≤ a.cost

/-- The members at the indices `lo .. hi` are in ascending order of cost. -/
def SortedR (S : List individual) (lo hi : Nat) : Prop :=
  ∀ i j a b, lo ≤ i → i ≤ j → j ≤ hi → S[i]? = some a → S[j]? = some b → a.cost ≤ b.cost

/-- The costs of `set` are, index by index below `n`, at most those of `orig`. -/
def LeOn (set orig : List individual) (n : Nat) : Prop :=
  ∀ k a o, k < n → set[k]? = some a → orig[k]? = some o → a.cost ≤ o.cost

/-- What the update of the Reference Set keeps: `n` members are in use, the
array has the length of `orig`, and every cost is at most the cost that
`orig` has at the same index. -/
structure LeInv (orig : List individual) (n : Nat) (s : SSType) : Prop where
  size : s.ref_set_size = n
  len : s.ref_set.length = orig.length
  le : LeOn s.ref_set orig n

/-- The number of candidates that the `if` chain of `generate_candiates` emits
for a pair with costs `c1`, `c2`. -/
def pair_count (mid_cost c1 c2 : ℚ) : Nat :=
  if c1 < mid_cost ∧ c2 < mid_cost then 6
  else if c1 < mid_cost ∧ c2 ≥ mid_cost then 4
  else if c1 ≥ mid_cost ∧ c2 ≥ mid_cost then 2
  else 0

/-- The buffers `generate_candiates` works on are allocated as `init_ssParams`
allocates them: room for six candidates per pair, `nreal` parameters in every
member, the elite index inside the Reference Set. -/
structure GenWF (s : SSType) : Prop where
  elite : s.max_elite < s.ref_set.length
  pairs : s.subsets_list_size ≤ s.subsets_list.length
  pair_params : ∀ i p, i < s.subsets_list_size → s.subsets_list[i]? = some p →
    s.nreal ≤ p.1.params.length ∧ s.nreal ≤ p.2.params.length
  bounds_min : s.nreal ≤ s.min_real_var.length
  bounds_max : s.nreal ≤ s.max_real_var.length
  capacity : 6 * s.subsets_list_size ≤ s.candidates_set.length
  cand_params : ∀ c, c ∈ s.candidates_set → s.nreal ≤ c.params.length

/-- The candidate buffer keeps its length and the length of its members. -/
structure GenInv (s : SSType) (st : GenState) : Prop where
  len : st.candidates_set.length = s.candidates_set.length
  params : ∀ c, c ∈ st.candidates_set → s.nreal ≤ c.params.length

/-- Every two members at distinct indices below `n` are related by `R`. -/
def IdxPair (R : individual → individual → Prop) (L : List individual) (n : Nat) : Prop :=
  ∀ i j a b, i < n → j < n → i ≠ j → L[i]? = some a → L[j]? = some b → R a b

/-- The member that the duplicate-replacement branch of `update_step` writes
for the candidate `c`: the copy of `c` over its duplicate, when the candidate
has a duplicate of strictly higher cost; nothing otherwise. -/
def dup_written (s : SSType) (c : individual) : List individual :=
  match is_exist s s.ref_set s.ref_set_size c with
  | none => []
  | some idx =>
    if idx = -1 then []
    else
      match s.ref_set[idx.toNat]? with
      | none => []
      | some d => if c.cost < d.cost then (copy_ind s d c).toList else []

/-- The members written by the duplicate-replacement branch in the course of
`update_loop`. -/
def dup_installed : SSType → List individual → List individual
  | _, [] => []
  | s, c :: rest =>
    match s.ref_set[s.ref_set_size - 1]? with
    | none => []
    | some worst =>
      if c.cost < worst.cost then
        match update_step s c with
        | none => []
        | some s1 => dup_written s c ++ dup_installed s1 rest
      else []

/-- The member written by the copy that opens `update_ref_set` (the best
candidate over the best reference member), if that copy is made. -/
def first_written (s : SSType) : List individual :=
  match s.candidates_set[0]?, s.ref_set[0]? with
  | some c0, some r0 => if c0.cost < r0.cost then (copy_ind s r0 c0).toList else []
  | _, _ => []

/-- The members written by the duplicate-replacement branch during a call of
`update_ref_set`. -/
def dup_installed_by_update (s : SSType) : List individual :=
  match quick_sort_set s.candidates_set s.candidates_set_size with
  | none => []
  | some cands =>
    match update_first { s with candidates_set := cands } with
    | none => []
    | some r => dup_installed r.1 (r.1.candidates_set.drop r.2)

/-- The member written by the opening copy of a call of `update_ref_set`. -/
def first_written_by_update (s : SSType) : List individual :=
  match quick_sort_set s.candidates_set s.candidates_set_size with
  | none => []
  | some cands => first_written { s with candidates_set := cands }

/-- Two members that are equal within `dist_epsilon` include one of the list `E`. -/
def NoDupRel (cfg : SSType) (E : List individual) (a b : individual) : Prop :=
  is_equal cfg a b = some true → a ∈ E ∨ b ∈ E

/-- What the update keeps about duplicates: the configuration is that of `cfg`
and every pair of duplicates among the members in use includes a member of `E`. -/
structure DupInv (cfg : SSType) (E : List individual) (s : SSType) : Prop where
  nreal : s.nreal = cfg.nreal
  eps : s.dist_epsilon = cfg.dist_epsilon
  size : s.ref_set_size = cfg.ref_set_size
  pairs : IdxPair (NoDupRel cfg E) s.ref_set cfg.ref_set_size

/-- The part of the state that makes every read of the update loop land inside
an array: `1 ≤ ref_set_size ≤` length of the Reference Set, `nreal` parameters
in every reference member. -/
structure WfInv (cfg s : SSType) : Prop where
  nreal : s.nreal = cfg.nreal
  size : s.ref_set_size = cfg.ref_set_size
  size_pos : 1 ≤ s.ref_set_size
  size_le : s.ref_set_size ≤ s.ref_set.length
  params : ∀ m, m ∈ s.ref_set → s.nreal ≤ m.params.length

/-- The arrays `update_ref_set` works on are allocated as `init_ssParams`
allocates them and hold members of `nreal` parameters. -/
structure UpdWF (s : SSType) : Prop where
  size_pos : 1 ≤ s.ref_set_size
  size_le : s.ref_set_size ≤ s.ref_set.length
  ref_params : ∀ m, m ∈ s.ref_set → s.nreal ≤ m.params.length
  cand_size : s.candidates_set_size ≤ s.candidates_set.length
  cand_params : ∀ c, c ∈ s.candidates_set → s.nreal ≤ c.params.length

/-- The first `nreal` entries of `ps` lie within `[min_real_var, max_real_var]`. -/
def InBounds (s : SSType) (ps : List ℚ) : Prop :=
  ∀ i, i < s.nreal → ∃ x lo hi, ps[i]? = some x ∧ s.min_real_var[i]? = some lo ∧
    s.max_real_var[i]? = some hi ∧ lo ≤ x ∧ x ≤ hi

/-- The "good enough" filter in the words of the specification:
`|cost - sol| < good_enough_score_diff`. -/
def GoodEnough (s : SSType) (m : individual) : Prop :=
  |m.cost - s.sol| < s.good_enough_score_diff

/-- The "different enough" filter for the member `m` at index `i`, in the words
of the specification: with `c` the closest other member (the member at the
index `closest_member` returns), the Euclidean distance from `m` to `c` exceeds
`different_enough_param_dist` and the cost of `m` is outside
`[c.cost - different_cost_margin * c.cost, c.cost + different_cost_margin * c.cost]`. -/
def DifferentEnough (s : SSType) (set : List individual) (set_size i : Nat)
    (m : individual) : Prop :=
  ∃ j c d, closest_member s set set_size m i = some j ∧ set[j]? = some c ∧
    euclidean_distance_sq s m c = some d ∧
    Real.sqrt (d : ℝ) > (s.different_enough_param_dist : ℝ) ∧
    (m.cost < c.cost - s.different_cost_margin * c.cost ∨
      m.cost > c.cost + s.different_cost_margin * c.cost)

/-- The gate of `refine_set` for the member `m` at index `i`: the filter flags
are those of `cfg` (the state at entry), the thresholds those of the current
state. -/
def RefineGate (cfg : SSType) (st : RefineState) (set_size i : Nat) (m : individual) : Prop :=
  (cfg.filter_good_enough ≠ 0 ∧ cfg.filter_different_enough ≠ 0 ∧
    GoodEnough st.ssParams m ∧ DifferentEnough st.ssParams st.set set_size i m) ∨
  (cfg.filter_good_enough ≠ 0 ∧ cfg.filter_different_enough = 0 ∧
    GoodEnough st.ssParams m) ∨
  (cfg.filter_good_enough = 0 ∧ cfg.filter_different_enough ≠ 0 ∧
    DifferentEnough st.ssParams st.set set_size i m)

/-- The loop that `refine_set` selects for the filter flags of `cfg`, from the
index `i` with `cnt` members left. -/
def refine_rest (objective : List ℚ → ℚ)
    (nelder_mead : SSType → individual → Option (individual × SSType))
    (method : Char) (set_size : Nat) (cfg : SSType) (cnt i : Nat) (st : RefineState) :
    Option RefineState :=
  if cfg.filter_good_enough ≠ 0 ∧ cfg.filter_different_enough ≠ 0 then
    refine_loop_both objective nelder_mead method set_size cnt i st
  else if cfg.filter_good_enough ≠ 0 then
    refine_loop_good objective nelder_mead method cnt i st
  else if cfg.filter_different_enough ≠ 0 then
    refine_loop_different objective nelder_mead method set_size cnt i st
  else some st

/-- Every draw of the generator lies in `[0, 1)`. -/
def UnitDraws (g : Nat → ℚ) : Prop := ∀ n, 0 ≤ g n ∧ g n < 1

/-- The first `nreal` entries of `ps` lie in the sub-region `k` of their
dimension: between `min_boundary_matrix[i][k]` and `max_boundary_matrix[i][k]`. -/
def InRegion (s : SSType) (k : Nat) (ps : List ℚ) : Prop :=
  ∀ i, i < s.nreal → ∃ x lo hi, ps[i]? = some x ∧
    mat_get s.min_boundary_matrix i k = some lo ∧
    mat_get s.max_boundary_matrix i k = some hi ∧ lo ≤ x ∧ x ≤ hi

/-- The sub-region grid is as `init_ssParams` builds it and as
`init_scatter_set` keeps it: `1 ≤ p ≤ scatter_set_size`, bounds with
`min ≤ max`, boundary rows computed from the bounds, frequency rows of `p`
entries that are at least 1, probability rows of `p` entries. -/
structure ScatterWF (s : SSType) : Prop where
  p_pos : 1 ≤ s.p
  p_le : s.p ≤ s.scatter_set_size
  bounds : ∀ i, i < s.nreal → ∃ lo hi, s.min_real_var[i]? = some lo ∧
    s.max_real_var[i]? = some hi ∧ lo ≤ hi ∧
    s.min_boundary_matrix[i]? = some (min_boundary_row s.p lo hi) ∧
    s.max_boundary_matrix[i]? = some (max_boundary_row s.p lo hi)
  freqs : ∀ i, i < s.nreal → ∃ row, s.freqs_matrix[i]? = some row ∧ row.length = s.p ∧
    ∀ f, f ∈ row → 1 ≤ f
  probs : ∀ i, i < s.nreal → ∃ row, s.probs_matrix[i]? = some row ∧ row.length = s.p

/-- What the loops of `init_scatter_set` keep: the set has `len` members of at
least `nreal` parameters, `a` is a sub-region index, the frequency rows have `p`
entries of at least 1, the probability rows have `p` entries, the draws are in
`[0, 1)`. -/
structure ScatterInv (s : SSType) (len : Nat) (st : ScatterState) : Prop where
  len : st.set.length = len
  params : ∀ m, m ∈ st.set → s.nreal ≤ m.params.length
  a_lt : st.a < s.p
  freqs : ∀ i, i < s.nreal → ∃ row, st.freqs_matrix[i]? = some row ∧ row.length = s.p ∧
    ∀ f, f ∈ row → 1 ≤ f
  probs : ∀ i, i < s.nreal → ∃ row, st.probs_matrix[i]? = some row ∧ row.length = s.p
  draws : UnitDraws st.g

/-- The member `r` holds a copy of `c`, as `copy_ind` makes it: the cost and the
`nreal` parameters of `c`. -/
def IsCopy (s : SSType) (r c : individual) : Prop :=
  r.cost = c.cost ∧ ∀ i, i < s.nreal → r.params[i]? = c.params[i]?

/-- The (squared) distance `d` is the least distance from the member at index `y`
of `sc` to the members `0 .. k-1` of `ref`. -/
def IsMinDist (s : SSType) (sc ref : List individual) (k y : Nat) (d : ℚ) : Prop :=
  (∃ j a r, j < k ∧ sc[y]? = some a ∧ ref[j]? = some r ∧
    euclidean_distance_sq s a r = some d) ∧
  ∀ j, j < k → ∃ a r dj, sc[y]? = some a ∧ ref[j]? = some r ∧
    euclidean_distance_sq s a r = some dj ∧ d ≤ dj

/-- The arrays of the expansion loop of `init_ref_set` are allocated as the
routine and `init_ssParams` allocate them, with `h = ref_set_size / 2`. -/
structure BuildInv (s : SSType) (st : RefBuild) : Prop where
  sc_len : s.scatter_set_size ≤ st.scatter_set.length
  sc_par : ∀ c, c ∈ st.scatter_set → s.nreal ≤ c.params.length
  ref_len : s.ref_set_size ≤ st.ref_set.length
  ref_par : ∀ r, r ∈ st.ref_set → s.nreal ≤ r.params.length
  dm_rows : st.dist_matrix.length = s.scatter_set_size - s.ref_set_size / 2
  dm_cols : ∀ row, row ∈ st.dist_matrix → row.length = s.ref_set_size
  md_len : st.min_dists.length = s.scatter_set_size - s.ref_set_size / 2

/-- The arrays of the warm-start state are allocated for `nreal`, `ref_set_size`
and `p`, as `init_ssParams` allocates them. -/
structure WarmWF (s : SSType) : Prop where
  ref_len : s.ref_set_size ≤ s.ref_set.length
  ref_par : ∀ m, m ∈ s.ref_set → s.nreal ≤ m.params.length
  freqs_len : s.nreal ≤ s.freqs_matrix.length
  freqs_row : ∀ row, row ∈ s.freqs_matrix → s.p ≤ row.length
  probs_len : s.nreal ≤ s.probs_matrix.length
  probs_row : ∀ row, row ∈ s.probs_matrix → s.p ≤ row.length

/-- The number of reference members that the loop body of `update_ref_set`
overwrites for the candidate `c`: 1 when it calls `replace`, 0 otherwise. -/
def step_overwrites (s : SSType) (c : individual) : Nat :=
  match is_exist s s.ref_set s.ref_set_size c with
  | none => 0
  | some idx =>
    if idx = -1 then
      if s.perform_flatzone_detection ≠ 0 then
        match is_in_flatzone s s.ref_set s.ref_set_size c with
        | some r => if r.1 then 0 else 1
        | none => 0
      else 1
    else
      match s.ref_set[idx.toNat]? with
      | some d => if c.cost < d.cost then 1 else 0
      | none => 0

/-- The number of reference members overwritten in the course of `update_loop`. -/
def loop_overwrites : SSType → List individual → Nat
  | _, [] => 0
  | s, c :: rest =>
    match s.ref_set[s.ref_set_size - 1]? with
    | none => 0
    | some worst =>
      if c.cost < worst.cost then
        match update_step s c with
        | none => 0
        | some s1 => step_overwrites s c + loop_overwrites s1 rest
      else 0

/-- The number of opening copies of a call of `update_ref_set` (the best
candidate over the best reference member): 1 when the copy is made, else 0. -/
def opening_copies (s : SSType) : Nat :=
  match quick_sort_set s.candidates_set s.candidates_set_size with
  | none => 0
  | some cands =>
    match update_first { s with candidates_set := cands } with
    | none => 0
    | some r => r.2

/-- The number of times a reference member is overwritten by a candidate during
a call of `update_ref_set`: the opening copy and the replacements of the loop. -/
def overwrites_by_update (s : SSType) : Nat :=
  match quick_sort_set s.candidates_set s.candidates_set_size with
  | none => 0
  | some cands =>
    match update_first { s with candidates_set := cands } with
    | none => 0
    | some r => r.2 + loop_overwrites r.1 (r.1.candidates_set.drop r.2)

/-- The number of rounds of the `while` loop of `update_ref_set`: the candidates
that pass its test and are examined by its body. -/
def loop_rounds : SSType → List individual → Nat
  | _, [] => 0
  | s, c :: rest =>
    match s.ref_set[s.ref_set_size - 1]? with
    | none => 0
    | some worst =>
      if c.cost < worst.cost then
        match update_step s c with
        | none => 0
        | some s1 => 1 + loop_rounds s1 rest
      else 0

/-- The value of the index `i` when `update_ref_set` leaves its loop: the
candidates below it were taken by the opening copy or examined by the loop,
and the candidate at `i` was read by the test that ended the loop. -/
def final_index (s : SSType) : Nat :=
  match quick_sort_set s.candidates_set s.candidates_set_size with
  | none => 0
  | some cands =>
    match update_first { s with candidates_set := cands } with
    | none => 0
    | some r => r.2 + loop_rounds r.1 (r.1.candidates_set.drop r.2)

/-- In the course of `update_loop` every call of `is_exist` returns -1: no
candidate examined has a duplicate in the Reference Set. -/
def NoDuplicateFound : SSType → List individual → Prop
  | _, [] => True
  | s, c :: rest =>
    match s.ref_set[s.ref_set_size - 1]? with
    | none => True
    | some worst =>
      if c.cost < worst.cost then
        is_exist s s.ref_set s.ref_set_size c = some (-1) ∧
          (match update_step s c with
           | none => True
           | some s1 => NoDuplicateFound s1 rest)
      else True

/-- No candidate examined by the loop of a call of `update_ref_set` has a
duplicate in the Reference Set. -/
def NoDuplicateExamined (s : SSType) : Prop :=
  match quick_sort_set s.candidates_set s.candidates_set_size with
  | none => True
  | some cands =>
    match update_first { s with candidates_set := cands } with
    | none => True
    | some r => NoDuplicateFound r.1 (r.1.candidates_set.drop r.2)

/-- The members at the indices `0 .. n-1` are in ascending order of cost, but
for the member at index `j`, which may cost less than members before it. -/
def SortedBut (S : List individual) (n j : Nat) : Prop :=
  ∀ i1 i2 a b, i1 < i2 → i2 ≤ n - 1 → i2 ≠ j → S[i1]? = some a → S[i2]? = some b →
    a.cost ≤ b.cost

/-- The state in which `init_ref_set` enters its expansion loop: the sorted
Scatter Set, the Reference Set with its best half filled, and the fresh blocks
`dist_matrix` and `min_dists`. -/
def expand_start (s : SSType) (sorted ref0 : List individual) : RefBuild :=
  { scatter_set := sorted, ref_set := ref0,
    dist_matrix := List.replicate (s.scatter_set_size - s.ref_set_size / 2)
      (List.replicate s.ref_set_size (0 : ℚ)),
    min_dists := List.replicate (s.scatter_set_size - s.ref_set_size / 2) (0 : ℚ) }

/-- The candidate pool of round `n` of the expansion loop: the members
`scatter_set[h .. m-1]` with `h = ref_set_size / 2` and `m = scatter_set_size - n`. -/
def pool_of (s : SSType) (st : RefBuild) (n : Nat) : List individual :=
  (st.scatter_set.take (s.scatter_set_size - n)).drop (s.ref_set_size / 2)

/-- After `n` rounds the first `scatter_set_size - n` members of the Scatter Set
are copies of the members of `sorted` at the positions `orig 0 < orig 1 < ...`:
the order of the members that are left is the order they had. -/
def PoolKept (s : SSType) (sorted : List individual) (st : RefBuild) (n : Nat)
    (orig : Nat → Nat) : Prop :=
  (∀ y1 y2, y1 < y2 → y2 < s.scatter_set_size - n → orig y1 < orig y2) ∧
  ∀ y, y < s.scatter_set_size - n → y ≤ orig y ∧ orig y < s.scatter_set_size ∧
    ∃ o c, st.scatter_set[y]? = some o ∧ sorted[orig y]? = some c ∧ IsCopy s o c

/-- After `n` rounds the slots `h .. h+n-1` of the Reference Set are copies of
the members of `sorted` at the positions `sel 0 .. sel (n-1)`, which are
pairwise distinct and are no longer in the Scatter Set. -/
def Selected (s : SSType) (sorted : List individual) (st : RefBuild) (n : Nat)
    (orig sel : Nat → Nat) : Prop :=
  (∀ j, j < n → s.ref_set_size / 2 ≤ sel j ∧ sel j < s.scatter_set_size ∧
    (∀ y, y < s.scatter_set_size - n → orig y ≠ sel j) ∧
    ∃ r c, st.ref_set[s.ref_set_size / 2 + j]? = some r ∧ sorted[sel j]? = some c ∧
      IsCopy s r c) ∧
  ∀ j1 j2, j1 < j2 → j2 < n → sel j1 ≠ sel j2

/-! ## States used as examples -/

/-- Reference Set with costs 1, 5, 6, 10 and two candidates: one of cost 3 at
the parameters of the member of cost 6, one of cost 20. -/
def dup_mid_state : SSType :=
  { nreal := 1, ref_set_size := 4, dist_epsilon := 1,
    ref_set := [{ params := [0], cost := 1 }, { params := [10], cost := 5 },
                { params := [20], cost := 6 }, { params := [30], cost := 10 }],
    candidates_set := [{ params := [20], cost := 3 }, { params := [40], cost := 20 }],
    candidates_set_size := 2 }

/-- The state `update_ref_set` leaves for `dup_mid_state`. -/
def dup_mid_after : SSType :=
  { dup_mid_state with
    ref_set := [{ params := [0], cost := 1 }, { params := [10], cost := 5 },
                { params := [20], cost := 3 }, { params := [30], cost := 10 }],
    n_ref_set_update := 1, n_duplicates := 1, n_duplicate_replaced := 1 }

/-- Reference Set of two members and a candidate buffer that still holds three
candidates of an earlier round, with `candidates_set_size = 0`. -/
def stale_state : SSType :=
  { nreal := 1, ref_set_size := 2, dist_epsilon := 1,
    ref_set := [{ params := [0], cost := 5 }, { params := [3], cost := 9 }],
    candidates_set := [{ params := [7], cost := 1 }, { params := [3], cost := 4 },
                       { params := [50], cost := 100 }],
    candidates_set_size := 0 }

/-- The state after the opening copy of `update_ref_set` on `stale_state`. -/
def stale_mid : SSType :=
  { stale_state with
    ref_set := [{ params := [7], cost := 1 }, { params := [3], cost := 9 }] }

/-- The state `update_ref_set` leaves for `stale_state`. -/
def stale_after : SSType :=
  { stale_state with
    ref_set := [{ params := [7], cost := 1 }, { params := [3], cost := 4 }],
    n_ref_set_update := 1, n_duplicates := 1, n_duplicate_replaced := 1 }

/-- Reference Set with costs 1, 5, 6, 10 and two candidates that are far from
every member: one of cost 4, one of cost 20. -/
def worst_state : SSType :=
  { nreal := 1, ref_set_size := 4, dist_epsilon := 1,
    ref_set := [{ params := [0], cost := 1 }, { params := [10], cost := 5 },
                { params := [20], cost := 6 }, { params := [30], cost := 10 }],
    candidates_set := [{ params := [15], cost := 4 }, { params := [40], cost := 20 }],
    candidates_set_size := 2 }

/-- The state `update_ref_set` leaves for `worst_state`. -/
def worst_after : SSType :=
  { worst_state with
    ref_set := [{ params := [0], cost := 1 }, { params := [15], cost := 4 },
                { params := [10], cost := 5 }, { params := [20], cost := 6 }],
    n_ref_set_update := 1 }

/-- One reference pair of each kind in index order: both elite, one elite, none
elite; the cutoff is the cost 9 of the member at index `max_elite = 2`. -/
def mixed_pairs_state : SSType :=
  { nreal := 1, ref_set_size := 4, max_elite := 2,
    min_real_var := [-10], max_real_var := [10],
    ref_set := [{ params := [0], cost := 5 }, { params := [1], cost := 7 },
                { params := [2], cost := 9 }, { params := [3], cost := 11 }],
    subsets_list := [({ params := [0], cost := 5 }, { params := [1], cost := 7 }),
                     ({ params := [0], cost := 5 }, { params := [2], cost := 9 }),
                     ({ params := [2], cost := 9 }, { params := [3], cost := 11 })],
    subsets_list_size := 3,
    candidates_set := List.replicate 18 { params := [0], cost := 0 } }

/-- A pair list whose only pair has a non-elite first member (cost 9) and an elite
second member (cost 5); the cutoff is the cost 9 of the member at index 1. -/
def second_elite_state : SSType :=
  { nreal := 1, ref_set_size := 2, max_elite := 1,
    min_real_var := [-10], max_real_var := [10],
    ref_set := [{ params := [1], cost := 5 }, { params := [3], cost := 9 }],
    subsets_list := [({ params := [3], cost := 9 }, { params := [1], cost := 5 })],
    subsets_list_size := 1,
    candidates_set := List.replicate 6 { params := [0], cost := 0 } }

/-- Reference Set `[0], [3], [8]` with the pair list left by a call made when
the third member was `[6]`: three pairs and `subsets_list_size = 3`. -/
def pairs_state : SSType :=
  { nreal := 1, ref_set_size := 3, dist_epsilon := 1,
    ref_set := [{ params := [0], cost := 5 }, { params := [3], cost := 9 },
                { params := [8], cost := 10 }],
    subsets_list := [({ params := [0], cost := 5 }, { params := [3], cost := 9 }),
                     ({ params := [0], cost := 5 }, { params := [6], cost := 10 }),
                     ({ params := [3], cost := 9 }, { params := [6], cost := 10 })],
    subsets_list_size := 3 }

/-- Two distant reference members, `[0]` of cost 5 and `[3]` of cost 9, and a best
candidate of cost 1 at the parameters `[3]` of the second member. -/
def dup_first_state : SSType :=
  { nreal := 1, ref_set_size := 2, dist_epsilon := 1,
    ref_set := [{ params := [0], cost := 5 }, { params := [3], cost := 9 }],
    candidates_set := [{ params := [3], cost := 1 }, { params := [50], cost := 100 }],
    candidates_set_size := 2 }

/-- The state `update_ref_set` leaves for `dup_first_state`. -/
def dup_first_after : SSType :=
  { dup_first_state with
    ref_set := [{ params := [3], cost := 1 }, { params := [3], cost := 9 }] }

/-- Three distant reference members of cost 10.0, `fitness_epsilon = 0.05`,
flat-zone detection on; the candidate buffer is left open. -/
def flat_state (cands : List individual) : SSType :=
  { nreal := 1, ref_set_size := 3, dist_epsilon := 1, fitness_epsilon := 0.05,
    perform_flatzone_detection := 1,
    ref_set := [{ params := [0], cost := 10.0 }, { params := [10], cost := 10.0 },
                { params := [20], cost := 10.0 }],
    candidates_set := cands,
    candidates_set_size := 1 }

/-- Two reference members, `[0]` of cost 5 and `[3]` of cost 9, with
`dist_epsilon = 1`. -/
def dup_pair_state : SSType :=
  { nreal := 1, ref_set_size := 2, dist_epsilon := 1,
    ref_set := [{ params := [0], cost := 5 }, { params := [3], cost := 9 }] }

/-- One parameter between 0 and 10, steps of at most 1, two trials per
hill climbing. -/
def hill_state : SSType :=
  { nreal := 1, min_real_var := [0], max_real_var := [10], step_size := 1, max_no_improve := 2 }

/-- Three members `[0]`, `[1]`, `[5]` of costs 1, 2, 3 with both filters on:
target 0 with score margin 4, parameter distance 2 and cost margin 0.1. -/
def gate_state : RefineState :=
  { set := [{ params := [0], cost := 1 }, { params := [1], cost := 2 },
            { params := [5], cost := 3 }],
    ssParams := { nreal := 1, filter_good_enough := 1, filter_different_enough := 1,
                  sol := 0, good_enough_score_diff := 4, different_enough_param_dist := 2,
                  different_cost_margin := 0.1 },
    g := fun _ => 0 }

/-- Configuration with one parameter between 0 and 4, two sub-regions and a
Scatter Set of `size` members. -/
def grid_cfg (size : Nat) : SSType :=
  { nreal := 1, p := 2, scatter_set_size := size, min_real_var := [0], max_real_var := [4] }

/-- The state `init_ssParams` builds for `grid_cfg size`: sub-regions `[0, 2]` and
`[2, 4]`, frequencies 1 and probabilities 1/2. -/
def grid_state (size : Nat) : SSType :=
  { grid_cfg size with
    scatter_set := List.replicate size { params := [0], cost := 0 },
    min_boundary_matrix := [[0, 2]],
    max_boundary_matrix := [[2, 4]],
    freqs_matrix := [[1, 1]],
    probs_matrix := [[1 / 2, 1 / 2]] }

/-- Draws: 3/10 for the third draw, 9/10 for the fifth, 1/2 otherwise. -/
def grid_draws (n : Nat) : ℚ :=
  if n = 2 then 3 / 10 else if n = 4 then 9 / 10 else 1 / 2

/-- A Scatter Set of three evaluated members `[5]`, `[0]`, `[9]` with costs 3, 1, 2
and a Reference Set of two slots. -/
def build_state : SSType :=
  { nreal := 1, ref_set_size := 2, scatter_set_size := 3,
    scatter_set := [{ params := [5], cost := 3 }, { params := [0], cost := 1 },
                    { params := [9], cost := 2 }],
    ref_set := [{ params := [0], cost := 0 }, { params := [0], cost := 0 }] }

/-- Reference Set of three members with `max_elite = 1`, on the grid of
`grid_state 2` (one parameter between 0 and 4, two sub-regions, a Scatter Set of
two members). -/
def regen_state : SSType :=
  { grid_state 2 with
    ref_set_size := 3,
    max_elite := 1,
    ref_set := [{ params := [0], cost := 1 }, { params := [2], cost := 5 },
                { params := [4], cost := 9 }] }

/-- The state of `regen_state` once the fresh Scatter Set `[1]`, `[3]` is built. -/
def regen_fresh : SSType :=
  { regen_state with
    scatter_set := [{ params := [1], cost := 0 }, { params := [3], cost := 0 }] }

/-- The state `re_gen_ref_set` leaves for `regen_state`: slot 2 holds the
evaluated scatter member `[1]`; the slots 0 and 1 are as before. -/
def regen_after : SSType :=
  { regen_state with
    ref_set := [{ params := [0], cost := 1 }, { params := [2], cost := 5 },
                { params := [1], cost := 1 }],
    scatter_set := [{ params := [3], cost := 0 }, { params := [3], cost := 0 }],
    n_function_evals := 1 }

/-- A local optimizer that finds no improvement. -/
def idle_nelder_mead (s : SSType) (ind : individual) : Option (individual × SSType) :=
  some (ind, s)

/-- A state to save: one member with the parameter 0.000001 and the cost 0, one
dimension with three sub-regions of probability 1/3 each. -/
def saved_state : SSType :=
  { nreal := 1, ref_set_size := 1, p := 3,
    ref_set := [{ params := [0.000001], cost := 0 }],
    freqs_matrix := [[1, 1, 1]],
    probs_matrix := [[1 / 3, 1 / 3, 1 / 3]] }

/-- The state that loads: the arrays as `init_ssParams` allocates them. -/
def loading_state : SSType :=
  { nreal := 1, ref_set_size := 1, p := 3,
    ref_set := [{ params := [0], cost := 0 }],
    freqs_matrix := [[1, 1, 1]],
    probs_matrix := [[1 / 3, 1 / 3, 1 / 3]] }

/-- A pair of two elite members, `x1 = [0]` of cost 5 and `x2 = [4]` of cost 7,
with the cutoff 9 (the cost of the member at index `max_elite = 2`) and room
for six candidates. -/
def elite_pair_state : SSType :=
  { nreal := 1, ref_set_size := 3, max_elite := 2,
    min_real_var := [-10], max_real_var := [10],
    ref_set := [{ params := [0], cost := 5 }, { params := [4], cost := 7 },
                { params := [8], cost := 9 }],
    subsets_list := [({ params := [0], cost := 5 }, { params := [4], cost := 7 })],
    subsets_list_size := 1,
    candidates_set := List.replicate 6 { params := [0], cost := 0 } }

/-- The state `generate_candiates` leaves for `elite_pair_state` when every draw
is 1/2. -/
def elite_pair_after : SSType :=
  { elite_pair_state with
    candidates_set := [{ params := [-1], cost := 0 }, { params := [3], cost := 0 },
                       { params := [-1], cost := 0 }, { params := [1], cost := 0 },
                       { params := [5], cost := 0 }, { params := [5], cost := 0 }],
    candidates_set_size := 6 }

/-- A sorted Reference Set `[0]`, `[10]` of costs 5 and 9 and one candidate
`([20], 1)`: `candidates_set_size = 1`, and the buffer still holds `([30], 4)`
and `([50], 100)` from an earlier iteration. -/
def short_state : SSType :=
  { nreal := 1, ref_set_size := 2, dist_epsilon := 1,
    ref_set := [{ params := [0], cost := 5 }, { params := [10], cost := 9 }],
    candidates_set := [{ params := [20], cost := 1 }, { params := [30], cost := 4 },
                       { params := [50], cost := 100 }],
    candidates_set_size := 1 }

/-- The state after the opening copy of `update_ref_set` on `short_state`. -/
def short_mid : SSType :=
  { short_state with
    ref_set := [{ params := [20], cost := 1 }, { params := [10], cost := 9 }] }

/-- The state `update_ref_set` leaves for `short_state`. -/
def short_after : SSType :=
  { short_state with
    ref_set := [{ params := [20], cost := 1 }, { params := [30], cost := 4 }],
    n_ref_set_update := 1 }

/-- A sorted Reference Set and three candidates, none of them within
`dist_epsilon` of a member: the first candidate is copied over the best member,
the second replaces the worst member, the third ends the loop. -/
def sorted_state : SSType :=
  { max_elite := 0, nreal := 1, min_real_var := [], max_real_var := [],
    ref_set_size := 3,
    ref_set := [⟨[0], 2⟩, ⟨[10], 5⟩, ⟨[20], 8⟩],
    subsets_list_size := 0, subsets_list := [],
    candidates_set := [⟨[50], 1⟩, ⟨[60], 3⟩, ⟨[70], 9⟩],
    candidates_set_size := 3,
    dist_epsilon := 1, fitness_epsilon := 0,
    n_ref_set_update := 0, n_duplicates := 0, n_flatzone_detected := 0,
    n_duplicate_replaced := 0, perform_flatzone_detection := 0 }

/-- The state `sorted_state` after the opening copy. -/
def sorted_mid : SSType :=
  { sorted_state with ref_set := [⟨[50], 1⟩, ⟨[10], 5⟩, ⟨[20], 8⟩] }

/-- The state `sorted_state` after `update_ref_set`. -/
def sorted_after : SSType :=
  { sorted_state with
    ref_set := [⟨[50], 1⟩, ⟨[60], 3⟩, ⟨[10], 5⟩], n_ref_set_update := 1 }

/-- The Reference Set of `flat_state` with the two candidates of the scenario,
of cost 10.2 and 10.3, both far from every reference member. -/
def flat_pair_state : SSType :=
  { flat_state [{ params := [50], cost := 10.3 }, { params := [40], cost := 10.2 }] with
    candidates_set_size := 2 }

/-! ## Flat zones -/

theorem is_in_flatzone_loop_spec (ssParams : SSType) (set : List individual) (ind : individual)
    (n : Int) :
    ∀ k i, i + k ≤ set.length →
      ∃ flag, is_in_flatzone_loop ssParams set ind n k i = some (flag, if flag then n + 1 else n) ∧
        (flag = true ↔ ∃ j m, i ≤ j ∧ j < i + k ∧ set[j]? = some m ∧
          m.cost - m.cost * ssParams.fitness_epsilon < ind.cost ∧
          ind.cost < m.cost + m.cost * ssParams.fitness_epsilon) := by
  intro k
  induction k with
  | zero =>
    intro i _
    refine ⟨false, by simp [is_in_flatzone_loop], ?_⟩
    constructor
    · intro h; cases h
    · rintro ⟨j, m, h1, h2, _⟩; omega
  | succ k ih =>
    intro i hi
    have hlt : i < set.length := by omega
    by_cases hc : ind.cost < set[i].cost + set[i].cost * ssParams.fitness_epsilon
        ∧ ind.cost > set[i].cost - set[i].cost * ssParams.fitness_epsilon
    · refine ⟨true, ?_, ?_⟩
      · simp [is_in_flatzone_loop, List.getElem?_eq_getElem hlt, hc]
      · simp only [true_iff]
        exact ⟨i, set[i], le_refl _, by omega, List.getElem?_eq_getElem hlt, hc.2, hc.1⟩
    · obtain ⟨flag, hrun, hiff⟩ := ih (i + 1) (by omega)
      refine ⟨flag, ?_, ?_⟩
      · simp only [is_in_flatzone_loop, List.getElem?_eq_getElem hlt, Option.bind_eq_bind,
          Option.some_bind, hc, if_false]
        exact hrun
      · rw [hiff]
        constructor
        · rintro ⟨j, m, h1, h2, h3, h4⟩
          exact ⟨j, m, by omega, by omega, h3, h4⟩
        · rintro ⟨j, m, h1, h2, h3, h4⟩
          have hne : j ≠ i := by
            rintro rfl
            rw [List.getElem?_eq_getElem hlt] at h3
            simp only [Option.some.injEq] at h3
            subst h3
            exact hc ⟨h4.2, h4.1⟩
          exact ⟨j, m, by omega, by omega, h3, h4⟩

theorem is_in_flatzone_total (ssParams : SSType) (set : List individual) (set_size : Nat)
    (ind : individual) (hsize : set_size ≤ set.length) :
    ∃ flag n, is_in_flatzone ssParams set set_size ind =
      some (flag, { ssParams with n_flatzone_detected := n }) := by
  obtain ⟨flag, hrun, _⟩ :=
    is_in_flatzone_loop_spec ssParams set ind ssParams.n_flatzone_detected set_size 0 (by omega)
  exact ⟨flag, _, by simp [is_in_flatzone, hrun]; rfl⟩

/-- C10: `is_in_flatzone` returns true exactly when some member of the set has
the individual's cost strictly inside its relative `fitness_epsilon` band; the
counter `n_flatzone_detected` grows by one when it returns true and is left
alone when it returns false; nothing else of the state changes. -/
theorem is_in_flatzone_spec (ssParams : SSType) (set : List individual) (set_size : Nat)
    (ind : individual) (hsize : set_size ≤ set.length) :
    ∃ flag, is_in_flatzone ssParams set set_size ind =
        some (flag, { ssParams with n_flatzone_detected :=
          if flag then ssParams.n_flatzone_detected + 1 else ssParams.n_flatzone_detected }) ∧
      (flag = true ↔ ∃ i m, i < set_size ∧ set[i]? = some m ∧
        m.cost - m.cost * ssParams.fitness_epsilon < ind.cost ∧
        ind.cost < m.cost + m.cost * ssParams.fitness_epsilon) := by
  obtain ⟨flag, hrun, hiff⟩ :=
    is_in_flatzone_loop_spec ssParams set ind ssParams.n_flatzone_detected set_size 0 (by omega)
  refine ⟨flag, ?_, ?_⟩
  · simp [is_in_flatzone, hrun]
  · rw [hiff]
    constructor
    · rintro ⟨j, m, _, h2, h3, h4⟩
      exact ⟨j, m, by omega, h3, h4⟩
    · rintro ⟨j, m, h2, h3, h4⟩
      exact ⟨j, m, Nat.zero_le _, by omega, h3, h4⟩

theorem is_in_flatzone_spec_witness :
    ∃ s1, is_in_flatzone { fitness_epsilon := 0.05 }
        [{ params := [1], cost := 10.0 }, { params := [2], cost := 10.0 }] 2
        { params := [3], cost := 10.2 } = some (true, s1) ∧ s1.n_flatzone_detected = 1 := by
  obtain ⟨flag, hrun, hiff⟩ := is_in_flatzone_spec { fitness_epsilon := 0.05 }
    [{ params := [1], cost := 10.0 }, { params := [2], cost := 10.0 }] 2
    { params := [3], cost := 10.2 } (by decide)
  have hflag : flag = true := by
    rw [hiff]
    refine ⟨0, { params := [1], cost := 10.0 }, by decide, rfl, ?_, ?_⟩ <;> norm_num
  subst hflag
  exact ⟨_, hrun, by simp⟩

/-! ## Candidate generation: clipping and exact values -/

theorem MAX_MIN_bounds (v lo hi : ℚ) (h : lo ≤ hi) :
    lo ≤ MAX (MIN v hi) lo ∧ MAX (MIN v hi) lo ≤ hi := by
  unfold MAX MIN
  constructor <;> split_ifs <;> linarith

theorem MAX_MIN_inside (v lo hi : ℚ) (h1 : lo ≤ v) (h2 : v ≤ hi) :
    MAX (MIN v hi) lo = v := by
  unfold MAX MIN
  split_ifs <;> linarith

theorem getD_of_getElem? {l : List ℚ} {i : Nat} {x : ℚ} (h : l[i]? = some x) :
    l.getD i 0 = x := by
  simp [List.getD_eq_getElem?_getD, h]

theorem getElem?_of_lt_getD {l : List ℚ} {i : Nat} (h : i < l.length) :
    l[i]? = some (l.getD i 0) := by
  simp [List.getD_eq_getElem?_getD, List.getElem?_eq_getElem h]

theorem store_clipped_eq (ssParams : SSType) (c : individual) (i : Nat) (v : ℚ)
    (hmin : i < ssParams.min_real_var.length) (hmax : i < ssParams.max_real_var.length)
    (hc : i < c.params.length) :
    store_clipped ssParams c i v =
      some { params := c.params.set i
               (MAX (MIN v (ssParams.max_real_var.getD i 0)) (ssParams.min_real_var.getD i 0)),
             cost := c.cost } := by
  unfold store_clipped wr
  rw [getElem?_of_lt_getD hmin, getElem?_of_lt_getD hmax]
  simp only [Option.bind_eq_bind, Option.some_bind, hc, if_true, Option.pure_def]

theorem rndreal_unit (g : Nat → ℚ) : rndreal 0 1 g = (g 0, fun n => g (n + 1)) := by
  simp [rndreal, RandomReal]

theorem generate_loop0_spec (ssParams : SSType) (base : individual) (dists : List ℚ) (rnd : ℚ)
    (candidate : individual)
    (hb : ssParams.nreal ≤ base.params.length) (hd : ssParams.nreal ≤ dists.length)
    (hc : ssParams.nreal ≤ candidate.params.length)
    (hmin : ssParams.nreal ≤ ssParams.min_real_var.length)
    (hmax : ssParams.nreal ≤ ssParams.max_real_var.length) :
    ∀ n, n ≤ ssParams.nreal →
      ∃ c, generate_loop0 ssParams base dists rnd candidate n = some c ∧
        c.cost = candidate.cost ∧ c.params.length = candidate.params.length ∧
        (∀ i, i < n → c.params[i]? = some
          (MAX (MIN (base.params.getD i 0 - dists.getD i 0 * rnd)
            (ssParams.max_real_var.getD i 0)) (ssParams.min_real_var.getD i 0))) ∧
        (∀ i, n ≤ i → c.params[i]? = candidate.params[i]?) := by
  intro n
  induction n with
  | zero =>
    intro _
    exact ⟨candidate, rfl, rfl, rfl, fun i hi => absurd hi (Nat.not_lt_zero i), fun _ _ => rfl⟩
  | succ n ih =>
    intro hn
    obtain ⟨c, hrun, hcost, hlen, hlow, hhigh⟩ := ih (by omega)
    refine ⟨{ params := c.params.set n (MAX (MIN (base.params.getD n 0 - dists.getD n 0 * rnd)
        (ssParams.max_real_var.getD n 0)) (ssParams.min_real_var.getD n 0)), cost := c.cost },
      ?_, ?_, ?_, ?_, ?_⟩
    · simp only [generate_loop0, hrun, Option.bind_eq_bind, Option.some_bind,
        getElem?_of_lt_getD (show n < base.params.length by omega),
        getElem?_of_lt_getD (show n < dists.length by omega)]
      exact store_clipped_eq ssParams c n _ (by omega) (by omega) (by omega)
    · exact hcost
    · simp [hlen]
    · intro i hi
      by_cases hin : i = n
      · subst hin
        simp [List.getElem?_set, show i < c.params.length by omega]
      · rw [List.getElem?_set_ne (Ne.symm hin)]
        exact hlow i (by omega)
    · intro i hi
      simp only
      rw [List.getElem?_set_ne (by omega)]
      exact hhigh i (by omega)

theorem generate_loop1_spec (ssParams : SSType) (base : individual) (dists : List ℚ)
    (candidate : individual) (g : Nat → ℚ)
    (hb : ssParams.nreal ≤ base.params.length) (hd : ssParams.nreal ≤ dists.length)
    (hc : ssParams.nreal ≤ candidate.params.length)
    (hmin : ssParams.nreal ≤ ssParams.min_real_var.length)
    (hmax : ssParams.nreal ≤ ssParams.max_real_var.length) :
    ∀ n, n ≤ ssParams.nreal →
      ∃ c, generate_loop1 ssParams base dists candidate g n = some (c, fun k => g (k + n)) ∧
        c.cost = candidate.cost ∧ c.params.length = candidate.params.length ∧
        (∀ i, i < n → c.params[i]? = some
          (MAX (MIN (base.params.getD i 0 - g i * dists.getD i 0)
            (ssParams.max_real_var.getD i 0)) (ssParams.min_real_var.getD i 0))) ∧
        (∀ i, n ≤ i → c.params[i]? = candidate.params[i]?) := by
  intro n
  induction n with
  | zero =>
    intro _
    exact ⟨candidate, rfl, rfl, rfl, fun i hi => absurd hi (Nat.not_lt_zero i), fun _ _ => rfl⟩
  | succ n ih =>
    intro hn
    obtain ⟨c, hrun, hcost, hlen, hlow, hhigh⟩ := ih (by omega)
    refine ⟨{ params := c.params.set n (MAX (MIN (base.params.getD n 0 - g n * dists.getD n 0)
        (ssParams.max_real_var.getD n 0)) (ssParams.min_real_var.getD n 0)), cost := c.cost },
      ?_, ?_, ?_, ?_, ?_⟩
    · simp only [generate_loop1, hrun, Option.bind_eq_bind, Option.some_bind, rndreal_unit,
        getElem?_of_lt_getD (show n < base.params.length by omega),
        getElem?_of_lt_getD (show n < dists.length by omega),
        store_clipped_eq ssParams c n _ (show n < _ by omega) (show n < _ by omega)
          (show n < c.params.length by omega), Option.pure_def, Nat.zero_add]
      congr 2
      funext k
      congr 1
      omega
    · exact hcost
    · simp [hlen]
    · intro i hi
      by_cases hin : i = n
      · subst hin
        simp [List.getElem?_set, show i < c.params.length by omega]
      · rw [List.getElem?_set_ne (Ne.symm hin)]
        exact hlow i (by omega)
    · intro i hi
      simp only
      rw [List.getElem?_set_ne (by omega)]
      exact hhigh i (by omega)

theorem generate_loop2_spec (ssParams : SSType) (base : individual) (dists : List ℚ)
    (candidate : individual) (g : Nat → ℚ)
    (hb : ssParams.nreal ≤ base.params.length) (hd : ssParams.nreal ≤ dists.length)
    (hc : ssParams.nreal ≤ candidate.params.length)
    (hmin : ssParams.nreal ≤ ssParams.min_real_var.length)
    (hmax : ssParams.nreal ≤ ssParams.max_real_var.length) :
    ∀ n, n ≤ ssParams.nreal →
      ∃ c, generate_loop2 ssParams base dists candidate g n = some (c, fun k => g (k + n)) ∧
        c.cost = candidate.cost ∧ c.params.length = candidate.params.length ∧
        (∀ i, i < n → c.params[i]? = some
          (MAX (MIN (base.params.getD i 0 + g i * dists.getD i 0)
            (ssParams.max_real_var.getD i 0)) (ssParams.min_real_var.getD i 0))) ∧
        (∀ i, n ≤ i → c.params[i]? = candidate.params[i]?) := by
  intro n
  induction n with
  | zero =>
    intro _
    exact ⟨candidate, rfl, rfl, rfl, fun i hi => absurd hi (Nat.not_lt_zero i), fun _ _ => rfl⟩
  | succ n ih =>
    intro hn
    obtain ⟨c, hrun, hcost, hlen, hlow, hhigh⟩ := ih (by omega)
    refine ⟨{ params := c.params.set n (MAX (MIN (base.params.getD n 0 + g n * dists.getD n 0)
        (ssParams.max_real_var.getD n 0)) (ssParams.min_real_var.getD n 0)), cost := c.cost },
      ?_, ?_, ?_, ?_, ?_⟩
    · simp only [generate_loop2, hrun, Option.bind_eq_bind, Option.some_bind, rndreal_unit,
        getElem?_of_lt_getD (show n < base.params.length by omega),
        getElem?_of_lt_getD (show n < dists.length by omega),
        store_clipped_eq ssParams c n _ (show n < _ by omega) (show n < _ by omega)
          (show n < c.params.length by omega), Option.pure_def, Nat.zero_add]
      congr 2
      funext k
      congr 1
      omega
    · exact hcost
    · simp [hlen]
    · intro i hi
      by_cases hin : i = n
      · subst hin
        simp [List.getElem?_set, show i < c.params.length by omega]
      · rw [List.getElem?_set_ne (Ne.symm hin)]
        exact hlow i (by omega)
    · intro i hi
      simp only
      rw [List.getElem?_set_ne (by omega)]
      exact hhigh i (by omega)

theorem fill_dists_spec (x1 x2 : individual) (dists : List ℚ) (nreal : Nat)
    (h1 : nreal ≤ x1.params.length) (h2 : nreal ≤ x2.params.length)
    (hd : nreal ≤ dists.length) :
    ∀ n, n ≤ nreal →
      ∃ ds, fill_dists x1 x2 dists n = some ds ∧ ds.length = dists.length ∧
        (∀ i, i < n → ds[i]? = some ((x2.params.getD i 0 - x1.params.getD i 0) / 2)) ∧
        (∀ i, n ≤ i → ds[i]? = dists[i]?) := by
  intro n
  induction n with
  | zero =>
    intro _
    exact ⟨dists, rfl, rfl, fun i hi => absurd hi (Nat.not_lt_zero i), fun _ _ => rfl⟩
  | succ n ih =>
    intro hn
    obtain ⟨ds, hrun, hlen, hlow, hhigh⟩ := ih (by omega)
    refine ⟨ds.set n ((x2.params.getD n 0 - x1.params.getD n 0) / 2), ?_, ?_, ?_, ?_⟩
    · simp only [fill_dists, hrun, Option.bind_eq_bind, Option.some_bind,
        getElem?_of_lt_getD (show n < x1.params.length by omega),
        getElem?_of_lt_getD (show n < x2.params.length by omega), wr,
        show n < ds.length by omega, if_true]
    · simp [hlen]
    · intro i hi
      by_cases hin : i = n
      · subst hin
        simp [List.getElem?_set, show i < ds.length by omega]
      · rw [List.getElem?_set_ne (Ne.symm hin)]
        exact hlow i (by omega)
    · intro i hi
      rw [List.getElem?_set_ne (by omega)]
      exact hhigh i (by omega)

theorem fill_dists_of_some (x1 x2 : individual) (dists : List ℚ) :
    ∀ n ds, fill_dists x1 x2 dists n = some ds →
      ds.length = dists.length ∧
      (∀ i a b, i < n → x1.params[i]? = some a → x2.params[i]? = some b →
        ds[i]? = some ((b - a) / 2)) ∧
      (∀ i, n ≤ i → ds[i]? = dists[i]?) := by
  intro n
  induction n with
  | zero =>
    intro ds h
    simp only [fill_dists, Option.some.injEq] at h
    subst h
    exact ⟨rfl, fun i _ _ hi => absurd hi (Nat.not_lt_zero i), fun _ _ => rfl⟩
  | succ n ih =>
    intro ds h
    simp only [fill_dists, Option.bind_eq_bind, Option.bind_eq_some, wr] at h
    obtain ⟨ds0, h0, a0, ha0, b0, hb0, hw⟩ := h
    obtain ⟨hlen, hlow, hhigh⟩ := ih ds0 h0
    split at hw
    · rename_i hlt
      simp only [Option.some.injEq] at hw
      subst hw
      refine ⟨by simp [hlen], ?_, ?_⟩
      · intro i a b hi ha hb
        by_cases hin : i = n
        · subst hin
          rw [ha0] at hb
          rw [hb0] at ha
          simp only [Option.some.injEq] at ha hb
          subst ha
          subst hb
          simp [List.getElem?_set, hlt]
        · rw [List.getElem?_set_ne (Ne.symm hin)]
          exact hlow i a b (by omega) ha hb
      · intro i hi
        rw [List.getElem?_set_ne (by omega)]
        exact hhigh i (by omega)
    · simp at hw

/-- C5: with ordered bounds, every coordinate written by `generate_ind_candidate`
(type `'0'` to `'3'`, any base point, step vector and draws) lies between
`min_real_var[i]` and `max_real_var[i]`. -/
theorem generate_ind_candidate_within_bounds (ssParams : SSType) (base candidate : individual)
    (dists : List ℚ) (type : Char) (g : Nat → ℚ)
    (htype : type = '0' ∨ type = '1' ∨ type = '2' ∨ type = '3')
    (hb : ssParams.nreal ≤ base.params.length) (hd : ssParams.nreal ≤ dists.length)
    (hc : ssParams.nreal ≤ candidate.params.length)
    (hmin : ssParams.nreal ≤ ssParams.min_real_var.length)
    (hmax : ssParams.nreal ≤ ssParams.max_real_var.length)
    (hbounds : ∀ i lo hi, i < ssParams.nreal → ssParams.min_real_var[i]? = some lo →
      ssParams.max_real_var[i]? = some hi → lo ≤ hi) :
    ∃ r, generate_ind_candidate ssParams base candidate dists type g = some r ∧
      ∀ i, i < ssParams.nreal → ∃ lo hi v, ssParams.min_real_var[i]? = some lo ∧
        ssParams.max_real_var[i]? = some hi ∧ r.1.params[i]? = some v ∧ lo ≤ v ∧ v ≤ hi := by
  have key : ∀ (c : individual) (f : Nat → ℚ),
      (∀ i, i < ssParams.nreal → c.params[i]? = some
        (MAX (MIN (f i) (ssParams.max_real_var.getD i 0)) (ssParams.min_real_var.getD i 0))) →
      ∀ i, i < ssParams.nreal → ∃ lo hi v, ssParams.min_real_var[i]? = some lo ∧
        ssParams.max_real_var[i]? = some hi ∧ c.params[i]? = some v ∧ lo ≤ v ∧ v ≤ hi := by
    intro c f hval i hi
    have hlo := getElem?_of_lt_getD (show i < ssParams.min_real_var.length by omega)
    have hhi := getElem?_of_lt_getD (show i < ssParams.max_real_var.length by omega)
    have hord := hbounds i _ _ hi hlo hhi
    exact ⟨_, _, _, hlo, hhi, hval i hi, (MAX_MIN_bounds _ _ _ hord).1,
      (MAX_MIN_bounds _ _ _ hord).2⟩
  rcases htype with h | h | h | h
  · subst h
    obtain ⟨c, hrun, _, _, hval, _⟩ := generate_loop0_spec ssParams base dists
      (rndreal 0 1 g).1 candidate hb hd hc hmin hmax ssParams.nreal (le_refl _)
    refine ⟨(c, (rndreal 0 1 g).2), ?_, key c _ hval⟩
    simp [generate_ind_candidate, hrun]
  · subst h
    obtain ⟨c, hrun, _, _, hval, _⟩ := generate_loop1_spec ssParams base dists
      candidate g hb hd hc hmin hmax ssParams.nreal (le_refl _)
    refine ⟨(c, fun k => g (k + ssParams.nreal)), ?_, key c _ hval⟩
    simp [generate_ind_candidate, hrun]
  · subst h
    obtain ⟨c, hrun, _, _, hval, _⟩ := generate_loop2_spec ssParams base dists
      candidate g hb hd hc hmin hmax ssParams.nreal (le_refl _)
    refine ⟨(c, fun k => g (k + ssParams.nreal)), ?_, key c _ hval⟩
    simp [generate_ind_candidate, hrun]
  · subst h
    obtain ⟨c, hrun, _, _, hval, _⟩ := generate_loop2_spec ssParams base dists
      candidate g hb hd hc hmin hmax ssParams.nreal (le_refl _)
    refine ⟨(c, fun k => g (k + ssParams.nreal)), ?_, key c _ hval⟩
    simp [generate_ind_candidate, hrun]

theorem generate_ind_candidate_within_bounds_witness :
    ∃ r, generate_ind_candidate
        { nreal := 2, min_real_var := [0, -1], max_real_var := [2, 5] }
        { params := [1, 1], cost := 3 } { params := [0, 0], cost := 0 } [4, 2] '2'
        (fun _ => 1 / 2) = some r ∧
      ∀ i, i < 2 → ∃ lo hi v, ([0, -1] : List ℚ)[i]? = some lo ∧
        ([2, 5] : List ℚ)[i]? = some hi ∧ r.1.params[i]? = some v ∧ lo ≤ v ∧ v ≤ hi :=
  generate_ind_candidate_within_bounds
    { nreal := 2, min_real_var := [0, -1], max_real_var := [2, 5] }
    { params := [1, 1], cost := 3 } { params := [0, 0], cost := 0 } [4, 2] '2'
    (fun _ => 1 / 2) (by decide) (by decide) (by decide) (by decide) (by decide) (by decide)
    (by
      intro i lo hi hi2 hlo hhi
      have hcases : i = 0 ∨ i = 1 := by
        have : i < 2 := hi2
        omega
      rcases hcases with h | h <;> subst h <;>
        simp at hlo hhi <;> subst hlo <;> subst hhi <;> norm_num)

/-- C9: the values written by `generate_ind_candidate`.  With `r_i` the `i`-th
draw, type `'1'` writes `MAX (MIN (x_i - r_i * d_i) max_i) min_i` in dimension
`i`, types `'2'` and `'3'` write `MAX (MIN (x_i + r_i * d_i) max_i) min_i`; the
clipping leaves a value inside the bounds as it is; and the step vector that
`generate_candiates` hands over for a pair `(x1, x2)` is `d_i = (x2_i - x1_i) / 2`. -/
theorem generate_ind_candidate_values (ssParams : SSType) (base candidate : individual)
    (dists : List ℚ) (g : Nat → ℚ)
    (hb : ssParams.nreal ≤ base.params.length) (hd : ssParams.nreal ≤ dists.length)
    (hc : ssParams.nreal ≤ candidate.params.length)
    (hmin : ssParams.nreal ≤ ssParams.min_real_var.length)
    (hmax : ssParams.nreal ≤ ssParams.max_real_var.length) :
    (∃ r, generate_ind_candidate ssParams base candidate dists '1' g = some r ∧
      ∀ i x d lo hi, i < ssParams.nreal → base.params[i]? = some x → dists[i]? = some d →
        ssParams.min_real_var[i]? = some lo → ssParams.max_real_var[i]? = some hi →
        r.1.params[i]? = some (MAX (MIN (x - (rndreal 0 1 (fun k => g (k + i))).1 * d) hi) lo)) ∧
    (∀ type, type = '2' ∨ type = '3' →
      ∃ r, generate_ind_candidate ssParams base candidate dists type g = some r ∧
      ∀ i x d lo hi, i < ssParams.nreal → base.params[i]? = some x → dists[i]? = some d →
        ssParams.min_real_var[i]? = some lo → ssParams.max_real_var[i]? = some hi →
        r.1.params[i]? = some (MAX (MIN (x + (rndreal 0 1 (fun k => g (k + i))).1 * d) hi) lo)) ∧
    (∀ v lo hi : ℚ, lo ≤ v → v ≤ hi → MAX (MIN v hi) lo = v) ∧
    (∀ (mid_cost : ℚ) (st0 : GenState) (dists0 : List ℚ) (n : Nat) (out : GenState × List ℚ),
      generate_candiates_loop ssParams mid_cost st0 dists0 (n + 1) = some out →
      ∃ prev x1 x2, generate_candiates_loop ssParams mid_cost st0 dists0 n = some prev ∧
        ssParams.subsets_list[n]? = some (x1, x2) ∧
        generate_for_pair ssParams mid_cost x1 x2 out.2 prev.1 = some out.1 ∧
        ∀ i a b, i < ssParams.nreal → x1.params[i]? = some a → x2.params[i]? = some b →
          out.2[i]? = some ((b - a) / 2)) := by
  refine ⟨?_, ?_, MAX_MIN_inside, ?_⟩
  · obtain ⟨c, hrun, _, _, hval, _⟩ := generate_loop1_spec ssParams base dists
      candidate g hb hd hc hmin hmax ssParams.nreal (le_refl _)
    refine ⟨(c, fun k => g (k + ssParams.nreal)), ?_, ?_⟩
    · simp [generate_ind_candidate, hrun]
    · intro i x d lo hi hi2 hx hdd hlo hhi
      rw [hval i hi2, getD_of_getElem? hx, getD_of_getElem? hdd, getD_of_getElem? hlo,
        getD_of_getElem? hhi, rndreal_unit]
      simp
  · intro type htype
    obtain ⟨c, hrun, _, _, hval, _⟩ := generate_loop2_spec ssParams base dists
      candidate g hb hd hc hmin hmax ssParams.nreal (le_refl _)
    refine ⟨(c, fun k => g (k + ssParams.nreal)), ?_, ?_⟩
    · rcases htype with h | h
      · subst h
        simp [generate_ind_candidate, hrun]
      · subst h
        simp [generate_ind_candidate, hrun]
    · intro i x d lo hi hi2 hx hdd hlo hhi
      rw [hval i hi2, getD_of_getElem? hx, getD_of_getElem? hdd, getD_of_getElem? hlo,
        getD_of_getElem? hhi, rndreal_unit]
      simp
  · intro mid_cost st0 dists0 n out hout
    simp only [generate_candiates_loop, Option.bind_eq_bind, Option.bind_eq_some,
      Option.pure_def, Option.some.injEq] at hout
    obtain ⟨prev, hprev, p, hp, dists1, hfill, st, hpair, hout⟩ := hout
    subst hout
    refine ⟨prev, p.1, p.2, hprev, hp, hpair, ?_⟩
    intro i a b hi ha hbb
    exact (fill_dists_of_some p.1 p.2 prev.2 ssParams.nreal dists1 hfill).2.1 i a b hi ha hbb

theorem generate_ind_candidate_values_witness :
    ∃ r, generate_ind_candidate
        { nreal := 2, min_real_var := [-10, -10], max_real_var := [10, 10] }
        { params := [1.0, 1.0], cost := 0 } { params := [0, 0], cost := 0 } [1.0, 2.0] '1'
        (fun _ => 0.5) = some r ∧
      r.1.params[0]? = some (0.5 : ℚ) ∧ r.1.params[1]? = some (0.0 : ℚ) := by
  obtain ⟨⟨r, hrun, hval⟩, _⟩ := generate_ind_candidate_values
    { nreal := 2, min_real_var := [-10, -10], max_real_var := [10, 10] }
    { params := [1.0, 1.0], cost := 0 } { params := [0, 0], cost := 0 } [1.0, 2.0]
    (fun _ => 0.5) (by decide) (by decide) (by decide) (by decide) (by decide)
  refine ⟨r, hrun, ?_, ?_⟩
  · rw [hval 0 1.0 1.0 (-10) 10 (by decide) rfl rfl rfl rfl]
    norm_num [MAX, MIN, rndreal, RandomReal]
  · rw [hval 1 1.0 2.0 (-10) 10 (by decide) rfl rfl rfl rfl]
    norm_num [MAX, MIN, rndreal, RandomReal]

/-! ## Sorting: permutations inside an index range -/

theorem cons_set_perm {α : Type} (x b : α) :
    ∀ (l : List α) (j : Nat), l[j]? = some b → (b :: l.set j x).Perm (x :: l) := by
  intro l
  induction l with
  | nil => intro j h; simp at h
  | cons y ys ih =>
    intro j h
    cases j with
    | zero =>
      simp only [List.getElem?_cons_zero, Option.some.injEq] at h
      subst h
      simp only [List.set_cons_zero]
      exact List.Perm.swap _ _ _
    | succ j =>
      simp only [List.getElem?_cons_succ] at h
      simp only [List.set_cons_succ]
      have h1 : (b :: y :: ys.set j x).Perm (y :: b :: ys.set j x) := List.Perm.swap _ _ _
      have h2 : (y :: b :: ys.set j x).Perm (y :: x :: ys) := List.Perm.cons _ (ih j h)
      have h3 : (y :: x :: ys).Perm (x :: y :: ys) := List.Perm.swap _ _ _
      exact (h1.trans h2).trans h3

theorem set_set_swap_perm {α : Type} :
    ∀ (l : List α) (i j : Nat) (a b : α), l[i]? = some a → l[j]? = some b →
      ((l.set i b).set j a).Perm l := by
  intro l
  induction l with
  | nil => intro i j a b h; simp at h
  | cons x xs ih =>
    intro i j a b hi hj
    cases i with
    | zero =>
      simp only [List.getElem?_cons_zero, Option.some.injEq] at hi
      subst hi
      cases j with
      | zero =>
        simp only [List.getElem?_cons_zero, Option.some.injEq] at hj
        subst hj
        simp
      | succ j =>
        simp only [List.getElem?_cons_succ] at hj
        simp only [List.set_cons_zero, List.set_cons_succ]
        exact cons_set_perm _ _ xs j hj
    | succ i =>
      simp only [List.getElem?_cons_succ] at hi
      cases j with
      | zero =>
        simp only [List.getElem?_cons_zero, Option.some.injEq] at hj
        subst hj
        simp only [List.set_cons_zero, List.set_cons_succ]
        exact cons_set_perm _ _ xs i hi
      | succ j =>
        simp only [List.getElem?_cons_succ] at hj
        simp only [List.set_cons_succ]
        exact List.Perm.cons _ (ih i j a b hi hj)

theorem rangePerm_length_eq {α : Type} {lo hi : Nat} {l1 l2 : List α}
    (h : RangePerm lo hi l1 l2) : l2.length = l1.length := by
  induction h with
  | refl => rfl
  | step l2 i j a b _ _ _ _ _ _ _ ih => simp [ih]

theorem rangePerm_perm {α : Type} {lo hi : Nat} {l1 l2 : List α}
    (h : RangePerm lo hi l1 l2) : l2.Perm l1 := by
  induction h with
  | refl => exact List.Perm.refl _
  | step l2 i j a b _ _ _ _ _ hi hj ih => exact (set_set_swap_perm l2 i j a b hi hj).trans ih

theorem rangePerm_outside {α : Type} {lo hi : Nat} {l1 l2 : List α}
    (h : RangePerm lo hi l1 l2) (k : Nat) (hk : k < lo ∨ hi < k) : l2[k]? = l1[k]? := by
  induction h with
  | refl => rfl
  | step l2 i j a b _ _ _ _ _ _ _ ih =>
    rw [List.getElem?_set_ne (by omega), List.getElem?_set_ne (by omega)]
    exact ih

theorem rangePerm_inside {α : Type} {lo hi : Nat} {l1 l2 : List α}
    (h : RangePerm lo hi l1 l2) (P : α → Prop)
    (hP : ∀ k a, lo ≤ k → k ≤ hi → l1[k]? = some a → P a) :
    ∀ k a, lo ≤ k → k ≤ hi → l2[k]? = some a → P a := by
  induction h with
  | refl => exact hP
  | step l2 i j a b _ hi1 hi2 hj1 hj2 hi hj ih =>
    intro k c hk1 hk2 hc
    rw [List.getElem?_set] at hc
    split at hc
    · split at hc
      · simp only [Option.some.injEq] at hc
        subst hc
        exact ih i _ hi1 hi2 hi
      · simp at hc
    · rw [List.getElem?_set] at hc
      split at hc
      · split at hc
        · simp only [Option.some.injEq] at hc
          subst hc
          exact ih j _ hj1 hj2 hj
        · simp at hc
      · exact ih k c hk1 hk2 hc

theorem rangePerm_trans {α : Type} {lo hi : Nat} {l1 l2 l3 : List α}
    (h12 : RangePerm lo hi l1 l2) (h23 : RangePerm lo hi l2 l3) : RangePerm lo hi l1 l3 := by
  induction h23 with
  | refl => exact h12
  | step l3 i j a b _ hi1 hi2 hj1 hj2 hi hj ih =>
    exact RangePerm.step _ _ i j a b ih hi1 hi2 hj1 hj2 hi hj

theorem rangePerm_mono {α : Type} {lo hi lo2 hi2 : Nat} {l1 l2 : List α}
    (h : RangePerm lo hi l1 l2) (hlo : lo2 ≤ lo) (hhi : hi ≤ hi2) : RangePerm lo2 hi2 l1 l2 := by
  induction h with
  | refl => exact RangePerm.refl _
  | step l2 i j a b _ hi1 hi2 hj1 hj2 hi hj ih =>
    exact RangePerm.step _ _ i j a b ih (by omega) (by omega) (by omega) (by omega) hi hj

theorem scan_right_spec (N : List ℚ) (pivot : ℚ) (left : Nat) :
    ∀ right, left ≤ right → right < N.length →
      ∃ r1, scan_right N pivot left right = some r1 ∧ left ≤ r1 ∧ r1 ≤ right ∧
        (∀ k x, r1 < k → k ≤ right → N[k]? = some x → pivot ≤ x) ∧
        (r1 = left ∨ ∃ x, N[r1]? = some x ∧ x < pivot) := by
  intro right
  induction right with
  | zero =>
    intro h1 h2
    have h0 : left = 0 := by omega
    refine ⟨0, ?_, by omega, le_refl _, fun k x hk1 hk2 => by omega, Or.inl h0.symm⟩
    simp [scan_right, List.getElem?_eq_getElem h2]
  | succ n ih =>
    intro h1 h2
    by_cases hc : pivot ≤ N[n + 1] ∧ left < n + 1
    · obtain ⟨r1, hrun, hb1, hb2, hge, hlast⟩ := ih (by omega) (by omega)
      refine ⟨r1, ?_, hb1, by omega, ?_, hlast⟩
      · simp only [scan_right, List.getElem?_eq_getElem h2, hc, and_self, if_true]
        exact hrun
      · intro k x hk1 hk2 hx
        by_cases hkn : k = n + 1
        · subst hkn
          rw [List.getElem?_eq_getElem h2] at hx
          simp only [Option.some.injEq] at hx
          subst hx
          exact hc.1
        · exact hge k x hk1 (by omega) hx
    · refine ⟨n + 1, ?_, h1, le_refl _, fun k x hk1 hk2 => by omega, ?_⟩
      · simp only [scan_right, List.getElem?_eq_getElem h2, hc, if_false]
      · by_cases hl : left < n + 1
        · right
          refine ⟨N[n + 1], List.getElem?_eq_getElem h2, ?_⟩
          by_contra hcon
          exact hc ⟨not_lt.mp hcon, hl⟩
        · left
          omega

theorem scan_left_spec (N : List ℚ) (pivot : ℚ) (right : Nat) (hr : right < N.length) :
    ∀ d left, right - left = d → left ≤ right →
      ∃ l2, scan_left N pivot right left = some l2 ∧ left ≤ l2 ∧ l2 ≤ right ∧
        (∀ k x, left ≤ k → k < l2 → N[k]? = some x → x ≤ pivot) ∧
        (l2 = right ∨ ∃ x, N[l2]? = some x ∧ pivot < x) := by
  intro d
  induction d with
  | zero =>
    intro left hd hle
    have h0 : left = right := by omega
    subst h0
    refine ⟨left, ?_, le_refl _, le_refl _, fun k x hk1 hk2 => by omega, Or.inl rfl⟩
    rw [scan_left]
    simp [List.getElem?_eq_getElem hr]
  | succ d ih =>
    intro left hd hle
    have hlt : left < N.length := by omega
    by_cases hc : N[left] ≤ pivot ∧ left < right
    · obtain ⟨l2, hrun, hb1, hb2, hlow, hlast⟩ := ih (left + 1) (by omega) (by omega)
      refine ⟨l2, ?_, by omega, hb2, ?_, hlast⟩
      · rw [scan_left]
        simp only [List.getElem?_eq_getElem hlt, hc, and_self, if_true]
        exact hrun
      · intro k x hk1 hk2 hx
        by_cases hkn : k = left
        · subst hkn
          rw [List.getElem?_eq_getElem hlt] at hx
          simp only [Option.some.injEq] at hx
          subst hx
          exact hc.1
        · exact hlow k x (by omega) hk2 hx
    · refine ⟨left, ?_, le_refl _, hle, fun k x hk1 hk2 => by omega, ?_⟩
      · rw [scan_left]
        simp only [List.getElem?_eq_getElem hlt, hc, if_false]
      · right
        refine ⟨N[left], List.getElem?_eq_getElem hlt, ?_⟩
        by_contra hcon
        exact hc ⟨not_lt.mp hcon, by omega⟩

theorem move_member_eq (S : List individual) (N : List ℚ) (dst src : Nat) (m : individual)
    (x : ℚ) (hS : S[src]? = some m) (hN : N[src]? = some x) (hdS : dst < S.length)
    (hdN : dst < N.length) :
    move_member S N dst src = some (S.set dst m, N.set dst x) := by
  simp [move_member, hS, hN, wr, hdS, hdN]

theorem pinv_shrink_right {S0 : List individual} {N0 : List ℚ} {pv : individual} {lo hi : Nat}
    {S : List individual} {N : List ℚ} {left right hole : Nat}
    (h : PInv S0 N0 pv lo hi S N left right hole) (r1 : Nat) (h1 : left ≤ r1) (h2 : r1 ≤ right)
    (hge : ∀ k x, r1 < k → k ≤ right → N[k]? = some x → pv.cost ≤ x) :
    PInv S0 N0 pv lo hi S N left r1 hole := by
  refine { h with left_le := h1, le_hi := le_trans h2 h.le_hi, high := ?_ }
  intro k a hk1 hk2 ha
  by_cases hkr : right < k
  · exact h.high k a hkr hk2 ha
  · obtain ⟨a2, ha2, hn⟩ := h.sync k (by have := h.lo_le; omega) hk2
    rw [ha] at ha2
    simp only [Option.some.injEq] at ha2
    subst ha2
    exact hge k _ hk1 (by omega) hn

theorem pinv_grow_left {S0 : List individual} {N0 : List ℚ} {pv : individual} {lo hi : Nat}
    {S : List individual} {N : List ℚ} {left right hole : Nat}
    (h : PInv S0 N0 pv lo hi S N left right hole) (l2 : Nat) (h1 : left ≤ l2) (h2 : l2 ≤ right)
    (hle : ∀ k x, left ≤ k → k < l2 → N[k]? = some x → x ≤ pv.cost) :
    PInv S0 N0 pv lo hi S N l2 right hole := by
  refine { h with lo_le := le_trans h.lo_le h1, left_le := h2, low := ?_ }
  intro k a hk1 hk2 ha
  by_cases hkl : k < left
  · exact h.low k a hk1 hkl ha
  · obtain ⟨a2, ha2, hn⟩ := h.sync k hk1 (by have := h.le_hi; omega)
    rw [ha] at ha2
    simp only [Option.some.injEq] at ha2
    subst ha2
    exact hle k _ (by omega) hk2 hn

theorem syncR_set {S : List individual} {N : List ℚ} {lo hi : Nat} (h : SyncR S N lo hi)
    (i : Nat) (m : individual) (hS : i < S.length) (hN : i < N.length) :
    SyncR (S.set i m) (N.set i m.cost) lo hi := by
  intro k hk1 hk2
  by_cases hki : i = k
  · subst hki
    exact ⟨m, List.getElem?_set_self hS, List.getElem?_set_self hN⟩
  · rw [List.getElem?_set_ne hki, List.getElem?_set_ne hki]
    exact h k hk1 hk2

theorem pinv_move_down {S0 : List individual} {N0 : List ℚ} {pv : individual} {lo hi : Nat}
    {S : List individual} {N : List ℚ} {left right : Nat}
    (h : PInv S0 N0 pv lo hi S N left right left) (hlt : left < right) (m : individual)
    (hm : S[right]? = some m) (hcost : m.cost ≤ pv.cost) :
    PInv S0 N0 pv lo hi (S.set left m) (N.set left m.cost) (left + 1) right right := by
  have hlS : left < S.length := by have := h.lenS; have := h.le_hi; omega
  have hlN : left < N.length := by have := h.hiN; have := h.le_hi; omega
  refine { lo_le := by have := h.lo_le; omega, left_le := by omega, le_hi := h.le_hi,
           hole_lo := by have := h.lo_le; omega, hole_hi := h.le_hi,
           lenS := by simpa using h.lenS, lenN := by simpa using h.lenN,
           hiN := by simpa using h.hiN, sync := syncR_set h.sync left m hlS hlN,
           perm := ?_, frameN := ?_, low := ?_, high := ?_ }
  · have hstep := RangePerm.step S0 (S.set left pv) left right pv m h.perm h.lo_le
      (by have := h.le_hi; omega) (by have := h.lo_le; omega) h.le_hi
      (List.getElem?_set_self hlS)
      (by rw [List.getElem?_set_ne (by omega)]; exact hm)
    rw [List.set_set] at hstep
    exact hstep
  · intro k hk
    rw [List.getElem?_set_ne (by have := h.lo_le; have := h.le_hi; omega)]
    exact h.frameN k hk
  · intro k a hk1 hk2 ha
    by_cases hkl : left = k
    · subst hkl
      rw [List.getElem?_set_self hlS] at ha
      simp only [Option.some.injEq] at ha
      subst ha
      exact hcost
    · rw [List.getElem?_set_ne hkl] at ha
      exact h.low k a hk1 (by omega) ha
  · intro k a hk1 hk2 ha
    rw [List.getElem?_set_ne (by omega)] at ha
    exact h.high k a hk1 hk2 ha

theorem pinv_move_up {S0 : List individual} {N0 : List ℚ} {pv : individual} {lo hi : Nat}
    {S : List individual} {N : List ℚ} {left right : Nat}
    (h : PInv S0 N0 pv lo hi S N left right right) (hlt : left < right) (m : individual)
    (hm : S[left]? = some m) (hcost : pv.cost ≤ m.cost) :
    PInv S0 N0 pv lo hi (S.set right m) (N.set right m.cost) left (right - 1) left := by
  have hrS : right < S.length := by have := h.lenS; have := h.le_hi; omega
  have hrN : right < N.length := by have := h.hiN; have := h.le_hi; omega
  refine { lo_le := h.lo_le, left_le := by omega, le_hi := by have := h.le_hi; omega,
           hole_lo := h.lo_le, hole_hi := by have := h.le_hi; omega,
           lenS := by simpa using h.lenS, lenN := by simpa using h.lenN,
           hiN := by simpa using h.hiN, sync := syncR_set h.sync right m hrS hrN,
           perm := ?_, frameN := ?_, low := ?_, high := ?_ }
  · have hstep := RangePerm.step S0 (S.set right pv) right left pv m h.perm
      (by have := h.lo_le; omega) h.le_hi h.lo_le (by have := h.le_hi; omega)
      (List.getElem?_set_self hrS)
      (by rw [List.getElem?_set_ne (by omega)]; exact hm)
    rw [List.set_set] at hstep
    exact hstep
  · intro k hk
    rw [List.getElem?_set_ne (by have := h.lo_le; have := h.le_hi; omega)]
    exact h.frameN k hk
  · intro k a hk1 hk2 ha
    rw [List.getElem?_set_ne (by omega)] at ha
    exact h.low k a hk1 hk2 ha
  · intro k a hk1 hk2 ha
    by_cases hkr : right = k
    · subst hkr
      rw [List.getElem?_set_self hrS] at ha
      simp only [Option.some.injEq] at ha
      subst ha
      exact hcost
    · rw [List.getElem?_set_ne hkr] at ha
      exact h.high k a (by omega) hk2 ha

theorem partition_step_inv {S0 : List individual} {N0 : List ℚ} {pv : individual} {lo hi : Nat}
    {S : List individual} {N : List ℚ} {left right : Nat}
    (h : PInv S0 N0 pv lo hi S N left right left) (hlt : left < right) :
    ∃ r, partition_step S N pv.cost left right = some r ∧
      PInv S0 N0 pv lo hi r.1 r.2.1 r.2.2.1 r.2.2.2 r.2.2.1 := by
  have hrN : right < N.length := by have := h.hiN; have := h.le_hi; omega
  obtain ⟨r1, hrun1, hb1, hb2, hge, hlast⟩ := scan_right_spec N pv.cost left right h.left_le hrN
  have hA := pinv_shrink_right h r1 hb1 hb2 hge
  by_cases hr : left = r1
  · subst hr
    obtain ⟨l2, hrun2, hc1, hc2, _, _⟩ :=
      scan_left_spec N pv.cost left (by omega) 0 left (by omega) (le_refl _)
    have hl2 : l2 = left := by omega
    subst hl2
    refine ⟨(S, N, l2, l2), ?_, hA⟩
    simp [partition_step, hrun1, hrun2]
  · have hlt1 : left < r1 := by omega
    obtain ⟨x, hx, hxlt⟩ : ∃ x, N[r1]? = some x ∧ x < pv.cost := by
      rcases hlast with h0 | h0
      · omega
      · exact h0
    obtain ⟨m, hm, hmN⟩ := h.sync r1 (by have := h.lo_le; omega) (by have := h.le_hi; omega)
    have hxm : x = m.cost := by
      rw [hx] at hmN
      simpa using hmN
    subst hxm
    have hB := pinv_move_down hA hlt1 m hm (le_of_lt hxlt)
    have hmove1 := move_member_eq S N left r1 m m.cost hm hx
      (by have := h.lenS; have := h.le_hi; omega) (by omega)
    obtain ⟨l2, hrun2, hc1, hc2, hle, hlast2⟩ :=
      scan_left_spec (N.set left m.cost) pv.cost r1 (by simp; omega) (r1 - (left + 1))
        (left + 1) rfl (by omega)
    have hC := pinv_grow_left hB l2 hc1 hc2 hle
    by_cases hl : l2 = r1
    · subst hl
      refine ⟨(S.set left m, N.set left m.cost, l2, l2), ?_, hC⟩
      simp [partition_step, hrun1, hr, hmove1, hrun2]
    · have hlt2 : l2 < r1 := by omega
      obtain ⟨y, hy, hygt⟩ : ∃ y, (N.set left m.cost)[l2]? = some y ∧ pv.cost < y := by
        rcases hlast2 with h0 | h0
        · omega
        · exact h0
      obtain ⟨m2, hm2, hm2N⟩ := hC.sync l2 hC.lo_le (by have := hC.le_hi; omega)
      have hym : y = m2.cost := by
        rw [hy] at hm2N
        simpa using hm2N
      subst hym
      have hD := pinv_move_up hC hlt2 m2 hm2 (le_of_lt hygt)
      have hmove2 := move_member_eq (S.set left m) (N.set left m.cost) r1 l2 m2 m2.cost hm2 hy
        (by have := hC.lenS; have := hC.le_hi; omega)
        (by have := hC.hiN; have := hC.le_hi; omega)
      refine ⟨((S.set left m).set r1 m2, (N.set left m.cost).set r1 m2.cost, l2, r1 - 1), ?_, hD⟩
      simp [partition_step, hrun1, hr, hmove1, hrun2, hl, hmove2]

theorem partition_loop_inv {S0 : List individual} {N0 : List ℚ} {pv : individual} {lo hi : Nat} :
    ∀ (d : Nat) (S : List individual) (N : List ℚ) (left right : Nat),
      right - left = d → PInv S0 N0 pv lo hi S N left right left →
      ∃ r, partition_loop S N pv.cost left right = some r ∧
        PInv S0 N0 pv lo hi r.1 r.2.1 r.2.2 r.2.2 r.2.2 := by
  intro d
  induction d using Nat.strong_induction_on with
  | _ d ih =>
    intro S N left right hd h
    rw [partition_loop]
    by_cases hlr : left < right
    · obtain ⟨r, hstep, hinv⟩ := partition_step_inv h hlr
      have hdec := (partition_step_bounds hstep hlr).2.2.2
      obtain ⟨r2, hrun, hinv2⟩ := ih (r.2.2.2 - r.2.2.1) (by omega) r.1 r.2.1 r.2.2.1 r.2.2.2
        rfl hinv
      refine ⟨r2, ?_, hinv2⟩
      simp only [hlr, dif_pos]
      split
      · rename_i hnone
        rw [hstep] at hnone
        simp at hnone
      · rename_i r3 hsome
        rw [hstep] at hsome
        simp only [Option.some.injEq] at hsome
        subst hsome
        exact hrun
    · have heq : left = right := by have := h.left_le; omega
      subst heq
      refine ⟨(S, N, left), ?_, h⟩
      simp

theorem quick_sort_spec :
    ∀ (d : Nat) (S : List individual) (N : List ℚ) (lo hi : Nat),
      hi - lo = d → lo ≤ hi → hi < S.length → hi < N.length → SyncR S N lo hi →
      ∃ r, quick_sort S N lo hi = some r ∧ RangePerm lo hi S r.1 ∧
        r.2.length = N.length ∧ (∀ k, (k < lo ∨ hi < k) → r.2[k]? = N[k]?) ∧
        SyncR r.1 r.2 lo hi ∧ SortedR r.1 lo hi := by
  intro d
  induction d using Nat.strong_induction_on with
  | _ d ih =>
    intro S N lo hi hd hle hS hN hsync
    obtain ⟨pv, hpv, hpvN⟩ := hsync lo (le_refl _) hle
    have h0 : PInv S N pv lo hi S N lo hi lo := by
      refine { lo_le := le_refl _, left_le := hle, le_hi := le_refl _, hole_lo := le_refl _,
               hole_hi := hle, lenS := hS, lenN := rfl, hiN := hN, sync := hsync,
               perm := ?_, frameN := fun _ _ => rfl,
               low := fun k a hk1 hk2 => by omega, high := fun k a hk1 hk2 => by omega }
      have : S.set lo pv = S := by
        apply List.ext_getElem?
        intro k
        by_cases hk : lo = k
        · subst hk
          rw [List.getElem?_set_self (by omega), hpv]
        · rw [List.getElem?_set_ne hk]
      rw [this]
      exact RangePerm.refl _
    obtain ⟨r, hloop, hinv⟩ := partition_loop_inv (hi - lo) S N lo hi rfl h0
    obtain ⟨S1, N1, l⟩ := r
    simp only at hinv
    have hl1 : lo ≤ l := hinv.lo_le
    have hl2 : l ≤ hi := hinv.le_hi
    have hlS : l < S1.length := by have := hinv.lenS; omega
    have hlN : l < N1.length := by have := hinv.hiN; omega
    -- state after the pivot is written back
    have hsync2 : SyncR (S1.set l pv) (N1.set l pv.cost) lo hi := syncR_set hinv.sync l pv hlS hlN
    have hperm2 : RangePerm lo hi S (S1.set l pv) := hinv.perm
    have hlow2 : ∀ k a, lo ≤ k → k < l → (S1.set l pv)[k]? = some a → a.cost ≤ pv.cost := by
      intro k a hk1 hk2 ha
      rw [List.getElem?_set_ne (by omega)] at ha
      exact hinv.low k a hk1 hk2 ha
    have hhigh2 : ∀ k a, l < k → k ≤ hi → (S1.set l pv)[k]? = some a → pv.cost ≤ a.cost := by
      intro k a hk1 hk2 ha
      rw [List.getElem?_set_ne (by omega)] at ha
      exact hinv.high k a hk1 hk2 ha
    -- first recursive call
    have hfirst : ∃ q, (if lo < l then quick_sort (S1.set l pv) (N1.set l pv.cost) lo (l - 1)
          else some (S1.set l pv, N1.set l pv.cost)) = some q ∧
        RangePerm lo (l - 1) (S1.set l pv) q.1 ∧ q.2.length = N.length ∧
        (∀ k, (k < lo ∨ l ≤ k) → q.2[k]? = (N1.set l pv.cost)[k]?) ∧
        (∀ k, l ≤ k → q.1[k]? = (S1.set l pv)[k]?) ∧
        SyncR q.1 q.2 lo hi ∧ SortedR q.1 lo (l - 1) ∧
        (∀ k a, lo ≤ k → k < l → q.1[k]? = some a → a.cost ≤ pv.cost) := by
      by_cases hlo : lo < l
      · obtain ⟨q, hq, hqperm, hqlen, hqframe, hqsync, hqsorted⟩ :=
          ih (l - 1 - lo) (by omega) (S1.set l pv) (N1.set l pv.cost) lo (l - 1) rfl (by omega)
            (by simp; omega) (by simp; omega)
            (fun k hk1 hk2 => hsync2 k hk1 (by omega))
        refine ⟨q, by simp [hlo, hq], hqperm, ?_, ?_, ?_, ?_, hqsorted, ?_⟩
        · rw [hqlen]
          simp [hinv.lenN]
        · intro k hk
          exact hqframe k (by omega)
        · intro k hk
          exact rangePerm_outside hqperm k (by omega)
        · intro k hk1 hk2
          by_cases hkl : k ≤ l - 1
          · exact hqsync k hk1 hkl
          · rw [rangePerm_outside hqperm k (by omega), hqframe k (by omega)]
            exact hsync2 k hk1 hk2
        · intro k a hk1 hk2 ha
          exact rangePerm_inside hqperm (fun a => a.cost ≤ pv.cost)
            (fun k a hk1 hk2 ha => hlow2 k a hk1 (by omega) ha) k a hk1 (by omega) ha
      · have hll : l = lo := by omega
        subst hll
        refine ⟨(S1.set l pv, N1.set l pv.cost), by simp, RangePerm.refl _, ?_,
          fun _ _ => rfl, fun _ _ => rfl, hsync2, ?_, ?_⟩
        · simp [hinv.lenN]
        · intro i j a b hi1 hij hj ha hb
          have hij2 : i = j := by omega
          subst hij2
          rw [ha] at hb
          simp only [Option.some.injEq] at hb
          subst hb
          exact le_refl _
        · intro k a hk1 hk2
          omega
    obtain ⟨q, hq, hqperm, hqlen, hqframeN, hqframeS, hqsync, hqsorted, hqlow⟩ := hfirst
    have hqS : q.1.length = S.length := by
      rw [rangePerm_length_eq hqperm, rangePerm_length_eq hperm2]
    have hql : q.1[l]? = some pv := by
      rw [hqframeS l (le_refl _)]
      exact List.getElem?_set_self hlS
    have hqhigh : ∀ k a, l < k → k ≤ hi → q.1[k]? = some a → pv.cost ≤ a.cost := by
      intro k a hk1 hk2 ha
      rw [hqframeS k (by omega)] at ha
      exact hhigh2 k a hk1 hk2 ha
    -- second recursive call
    have hsecond : ∃ r, (if hi > l then quick_sort q.1 q.2 (l + 1) hi else some q) = some r ∧
        RangePerm (l + 1) hi q.1 r.1 ∧ r.2.length = N.length ∧
        (∀ k, k ≤ l → r.2[k]? = q.2[k]?) ∧ (∀ k, hi < k → r.2[k]? = q.2[k]?) ∧
        SyncR r.1 r.2 lo hi ∧ SortedR r.1 (l + 1) hi ∧
        (∀ k a, l < k → k ≤ hi → r.1[k]? = some a → pv.cost ≤ a.cost) := by
      by_cases hhi : hi > l
      · obtain ⟨r, hr, hrperm, hrlen, hrframe, hrsync, hrsorted⟩ :=
          ih (hi - (l + 1)) (by omega) q.1 q.2 (l + 1) hi rfl (by omega)
            (by omega) (by omega)
            (fun k hk1 hk2 => hqsync k (by omega) hk2)
        refine ⟨r, by simp [hhi, hr], hrperm, by rw [hrlen, hqlen], ?_, ?_, ?_, hrsorted, ?_⟩
        · intro k hk
          exact hrframe k (by omega)
        · intro k hk
          exact hrframe k (by omega)
        · intro k hk1 hk2
          by_cases hkl : l + 1 ≤ k
          · exact hrsync k hkl hk2
          · rw [rangePerm_outside hrperm k (by omega), hrframe k (by omega)]
            exact hqsync k hk1 hk2
        · intro k a hk1 hk2 ha
          exact rangePerm_inside hrperm (fun a => pv.cost ≤ a.cost)
            (fun k a hk1 hk2 ha => hqhigh k a (by omega) hk2 ha) k a (by omega) hk2 ha
      · refine ⟨q, by simp [hhi], RangePerm.refl _, hqlen, fun _ _ => rfl, fun _ _ => rfl,
          hqsync, ?_, hqhigh⟩
        intro i j a b hi1 hij hj
        omega
    obtain ⟨r, hr, hrperm, hrlen, hrframe1, hrframe2, hrsync, hrsorted, hrhigh⟩ := hsecond
    refine ⟨r, ?_, ?_, hrlen, ?_, hrsync, ?_⟩
    · rw [quick_sort]
      simp only [hpv, hpvN]
      split
      · rename_i hnone
        rw [hloop] at hnone
        simp at hnone
      · rename_i r0 hsome
        rw [hloop] at hsome
        simp only [Option.some.injEq] at hsome
        subst hsome
        simp only [wr, hlN, hlS, if_true]
        split
        · rename_i hnone
          rw [hq] at hnone
          simp at hnone
        · rename_i q0 hsome
          rw [hq] at hsome
          simp only [Option.some.injEq] at hsome
          subst hsome
          exact hr
    · exact rangePerm_trans (rangePerm_trans hperm2 (rangePerm_mono hqperm (le_refl _) (by omega)))
        (rangePerm_mono hrperm (by omega) (le_refl _))
    · intro k hk
      have e1 : r.2[k]? = q.2[k]? := by
        rcases hk with hk | hk
        · exact hrframe1 k (by omega)
        · exact hrframe2 k hk
      rw [e1, hqframeN k (by omega), List.getElem?_set_ne (by omega)]
      exact hinv.frameN k hk
    · intro i j a b hi1 hij hj ha hb
      have hpa : i ≤ l → a.cost ≤ pv.cost := by
        intro hil
        rw [rangePerm_outside hrperm i (by omega)] at ha
        by_cases hil2 : i < l
        · exact hqlow i a hi1 hil2 ha
        · have : i = l := by omega
          subst this
          rw [hql] at ha
          simp only [Option.some.injEq] at ha
          subst ha
          exact le_refl _
      have hpb : l ≤ j → pv.cost ≤ b.cost := by
        intro hlj
        by_cases hlj2 : l < j
        · exact hrhigh j b hlj2 hj hb
        · have : j = l := by omega
          subst this
          rw [rangePerm_outside hrperm j (by omega), hql] at hb
          simp only [Option.some.injEq] at hb
          subst hb
          exact le_refl _
      by_cases hjl : j < l
      · rw [rangePerm_outside hrperm i (by omega)] at ha
        rw [rangePerm_outside hrperm j (by omega)] at hb
        exact hqsorted i j a b hi1 hij (by omega) ha hb
      · by_cases hil : l < i
        · exact hrsorted i j a b (by omega) hij hj ha hb
        · exact le_trans (hpa (by omega)) (hpb (by omega))

theorem quick_sort_set_rangePerm (set : List individual) (set_size : Nat)
    (h1 : 1 ≤ set_size) (h2 : set_size ≤ set.length) :
    ∃ out, quick_sort_set set set_size = some out ∧ RangePerm 0 (set_size - 1) set out ∧
      SortedR out 0 (set_size - 1) := by
  have hsync : SyncR set ((set.take set_size).map (fun m => m.cost)) 0 (set_size - 1) := by
    intro k _ hk
    have hk2 : k < set.length := by omega
    refine ⟨set[k], List.getElem?_eq_getElem hk2, ?_⟩
    rw [List.getElem?_map, List.getElem?_take, if_pos (by omega), List.getElem?_eq_getElem hk2]
    rfl
  obtain ⟨r, hr, hperm, _, _, _, hsorted⟩ := quick_sort_spec (set_size - 1 - 0) set
    ((set.take set_size).map (fun m => m.cost)) 0 (set_size - 1) rfl (Nat.zero_le _)
    (by omega) (by simp; omega) hsync
  refine ⟨r.1, ?_, hperm, hsorted⟩
  unfold quick_sort_set
  rw [if_pos h2, if_neg (by omega)]
  simp only [hr]

theorem quick_sort_set_zero (set : List individual) (h : 1 ≤ set.length) :
    quick_sort_set set 0 = some set := by
  obtain ⟨m, hm⟩ : ∃ m, set[0]? = some m := ⟨set[0], List.getElem?_eq_getElem (by omega)⟩
  have hset : set.set 0 m = set := by
    apply List.ext_getElem?
    intro k
    by_cases hk : 0 = k
    · subst hk
      rw [List.getElem?_set_self (by omega), hm]
    · rw [List.getElem?_set_ne hk]
  have hloop : partition_loop set [0] 0 0 0 = some (set, [0], 0) := by
    rw [partition_loop]
    simp
  have hq : quick_sort set [0] 0 0 = some (set, [0]) := by
    rw [quick_sort]
    simp only [hm, List.getElem?_cons_zero]
    split
    · rename_i hnone
      rw [hloop] at hnone
      simp at hnone
    · rename_i r0 hsome
      rw [hloop] at hsome
      simp only [Option.some.injEq] at hsome
      subst hsome
      have h0 : 0 < set.length := by omega
      simp [wr, h0, hset]
  simp [quick_sort_set, hq]

theorem rangePerm_take_drop {lo : Nat} {l1 l2 : List individual} (n : Nat)
    (h : RangePerm lo (n - 1) l1 l2) (hn : 1 ≤ n) :
    (l2.take n).Perm (l1.take n) ∧ l2.drop n = l1.drop n := by
  have hdrop : l2.drop n = l1.drop n := by
    apply List.ext_getElem?
    intro k
    rw [List.getElem?_drop, List.getElem?_drop]
    exact rangePerm_outside h (n + k) (by omega)
  refine ⟨?_, hdrop⟩
  have hp := rangePerm_perm h
  rw [← List.take_append_drop n l2, ← List.take_append_drop n l1, hdrop] at hp
  exact (List.perm_append_right_iff _).mp hp

/-- C6: for a set of size at least one, `quick_sort_set` returns; the members
below `set_size` come out in ascending order of cost and are a permutation of
the input members, as whole records (parameter vector with its cost); the rest
of the array is untouched. -/
theorem quick_sort_set_sorted_perm (set : List individual) (set_size : Nat)
    (h1 : 1 ≤ set_size) (h2 : set_size ≤ set.length) :
    ∃ out, quick_sort_set set set_size = some out ∧
      (∀ i j a b, i ≤ j → j < set_size → out[i]? = some a → out[j]? = some b →
        a.cost ≤ b.cost) ∧
      (out.take set_size).Perm (set.take set_size) ∧
      out.drop set_size = set.drop set_size ∧ out.length = set.length := by
  obtain ⟨out, hrun, hperm, hsorted⟩ := quick_sort_set_rangePerm set set_size h1 h2
  refine ⟨out, hrun, ?_, (rangePerm_take_drop set_size hperm h1).1,
    (rangePerm_take_drop set_size hperm h1).2, rangePerm_length_eq hperm⟩
  intro i j a b hij hj ha hb
  exact hsorted i j a b (Nat.zero_le _) hij (by omega) ha hb

theorem quick_sort_set_sorted_perm_witness :
    ∃ out, quick_sort_set
        [{ params := [1], cost := 3 }, { params := [2], cost := 1 }, { params := [3], cost := 2 }]
        3 = some out ∧
      (∀ i j a b, i ≤ j → j < 3 → out[i]? = some a → out[j]? = some b → a.cost ≤ b.cost) ∧
      (out.take 3).Perm (List.take 3
        [{ params := [1], cost := 3 }, { params := [2], cost := 1 },
         { params := [3], cost := 2 }]) ∧
      out.drop 3 = List.drop 3
        [{ params := [1], cost := 3 }, { params := [2], cost := 1 },
         { params := [3], cost := 2 }] ∧
      out.length = 3 :=
  quick_sort_set_sorted_perm
    [{ params := [1], cost := 3 }, { params := [2], cost := 1 }, { params := [3], cost := 2 }]
    3 (by decide) (by decide)

theorem pairwise_of_getElem? {α : Type} {R : α → α → Prop} {l : List α}
    (h : ∀ (i j : Nat) (a b : α), i < j → l[i]? = some a → l[j]? = some b → R a b) :
    l.Pairwise R := by
  rw [List.pairwise_iff_getElem]
  intro i j hi hj hij
  exact h i j _ _ hij (List.getElem?_eq_getElem hi) (List.getElem?_eq_getElem hj)

theorem quick_sort_set_of_strictly_sorted (set : List individual) (set_size : Nat)
    (h1 : 1 ≤ set_size) (h2 : set_size ≤ set.length)
    (hs : ∀ i j a b, i < j → j < set_size → set[i]? = some a → set[j]? = some b →
      a.cost < b.cost) :
    quick_sort_set set set_size = some set := by
  obtain ⟨out, hrun, hperm, hsorted⟩ := quick_sort_set_rangePerm set set_size h1 h2
  obtain ⟨htake, hdrop⟩ := rangePerm_take_drop set_size hperm h1
  have hstrict : (set.take set_size).Pairwise (fun a b => a.cost < b.cost) := by
    apply pairwise_of_getElem?
    intro i j a b hij ha hb
    rw [List.getElem?_take] at ha hb
    split at hb
    · rename_i hj
      rw [if_pos (by omega)] at ha
      exact hs i j a b hij hj ha hb
    · simp at hb
  have hne : (set.take set_size).Pairwise (fun a b => a.cost ≠ b.cost) :=
    hstrict.imp (fun h => ne_of_lt h)
  have hnodup : (set.take set_size).Nodup :=
    hne.imp (fun h heq => h (by rw [heq]))
  have hnodup2 : (out.take set_size).Nodup := (List.Perm.nodup_iff htake).mpr hnodup
  have hsym : Symmetric (fun a b : individual => a.cost ≠ b.cost) := fun a b h => Ne.symm h
  have hstrict2 : (out.take set_size).Pairwise (fun a b => a.cost < b.cost) := by
    apply pairwise_of_getElem?
    intro i j a b hij ha hb
    have ha2 := ha
    have hb2 := hb
    rw [List.getElem?_take] at ha2 hb2
    split at hb2
    · rename_i hj
      rw [if_pos (by omega)] at ha2
      have hle := hsorted i j a b (Nat.zero_le _) (by omega) (by omega) ha2 hb2
      have hab : a ≠ b := by
        intro heq
        subst heq
        have := (List.pairwise_iff_getElem.mp hnodup2) i j
          (by have := (List.getElem?_eq_some.mp ha).1; exact this)
          (by have := (List.getElem?_eq_some.mp hb).1; exact this) hij
        rw [(List.getElem?_eq_some.mp ha).2, (List.getElem?_eq_some.mp hb).2] at this
        exact this rfl
      have hamem : a ∈ set.take set_size :=
        htake.subset (List.getElem?_mem ha)
      have hbmem : b ∈ set.take set_size :=
        htake.subset (List.getElem?_mem hb)
      have hcne := List.Pairwise.forall hsym hne hamem hbmem hab
      exact lt_of_le_of_ne hle hcne
    · simp at hb2
  have : IsAntisymm individual (fun a b => a.cost < b.cost) :=
    ⟨fun a b hab hba => absurd hab (not_lt_of_lt hba)⟩
  have heq : out.take set_size = set.take set_size :=
    List.eq_of_perm_of_sorted htake hstrict2 hstrict
  have hout : out = set := by
    rw [← List.take_append_drop set_size out, ← List.take_append_drop set_size set, heq, hdrop]
  rw [hrun, hout]

/-! ## Update of the Reference Set: how `replace` and `update_step` run -/

theorem wr_eq_some {α : Type} {l : List α} {i : Nat} {v : α} {out : List α}
    (h : wr l i v = some out) : i < l.length ∧ out = l.set i v := by
  unfold wr at h
  split at h
  · rename_i hlt
    simp only [Option.some.injEq] at h
    exact ⟨hlt, h.symm⟩
  · simp at h

theorem insertion_sort_loop_rangePerm :
    ∀ (j : Nat) (set out : List individual), insertion_sort_loop set j = some out →
      RangePerm 0 j set out := by
  intro j
  induction j with
  | zero =>
    intro set out h
    simp only [insertion_sort_loop, Option.some.injEq] at h
    subst h
    exact RangePerm.refl _
  | succ j ih =>
    intro set out h
    simp only [insertion_sort_loop, Option.bind_eq_bind, Option.bind_eq_some] at h
    obtain ⟨a, ha, b, hb, h⟩ := h
    split at h
    · simp only [Option.bind_eq_some] at h
      obtain ⟨set1, h1, set2, h2, h3⟩ := h
      obtain ⟨_, e1⟩ := wr_eq_some h1
      obtain ⟨_, e2⟩ := wr_eq_some h2
      subst e1
      subst e2
      have hstep : RangePerm 0 (j + 1) set ((set.set j a).set (j + 1) b) :=
        RangePerm.step set set j (j + 1) b a (RangePerm.refl _) (Nat.zero_le _) (by omega)
          (Nat.zero_le _) (le_refl _) hb ha
      exact rangePerm_trans hstep (rangePerm_mono (ih _ _ h3) (le_refl _) (by omega))
    · simp only [Option.pure_def, Option.some.injEq] at h
      subst h
      exact RangePerm.refl _

theorem insertion_sort_loop_leOn (orig : List individual) (n : Nat)
    (hsorted : SortedR orig 0 (n - 1)) :
    ∀ (j : Nat) (set out : List individual), j < n → orig.length = set.length →
      LeOn set orig n → insertion_sort_loop set j = some out → LeOn out orig n := by
  intro j
  induction j with
  | zero =>
    intro set out _ _ hle h
    simp only [insertion_sort_loop, Option.some.injEq] at h
    subst h
    exact hle
  | succ j ih =>
    intro set out hj hlen hle h
    simp only [insertion_sort_loop, Option.bind_eq_bind, Option.bind_eq_some] at h
    obtain ⟨a, ha, b, hb, h⟩ := h
    split at h
    · rename_i hlt
      simp only [Option.bind_eq_some] at h
      obtain ⟨set1, h1, set2, h2, h3⟩ := h
      obtain ⟨hj1, e1⟩ := wr_eq_some h1
      obtain ⟨hj2, e2⟩ := wr_eq_some h2
      subst e1
      subst e2
      refine ih _ out (by omega) (by simp [hlen]) ?_ h3
      intro k x o hk hx ho
      have hoj : ∃ oj, orig[j]? = some oj :=
        ⟨orig[j], List.getElem?_eq_getElem (by omega)⟩
      obtain ⟨oj, hoj⟩ := hoj
      by_cases hk1 : j + 1 = k
      · subst hk1
        rw [List.getElem?_set_self hj2] at hx
        simp only [Option.some.injEq] at hx
        subst hx
        exact le_trans (hle j _ _ (by omega) hb hoj)
          (hsorted j (j + 1) _ _ (Nat.zero_le _) (by omega) (by omega) hoj ho)
      · rw [List.getElem?_set_ne hk1] at hx
        by_cases hk0 : j = k
        · subst hk0
          rw [List.getElem?_set_self hj1] at hx
          simp only [Option.some.injEq] at hx
          subst hx
          rw [hoj] at ho
          simp only [Option.some.injEq] at ho
          subst ho
          exact le_trans (le_of_lt hlt) (hle j _ _ (by omega) hb hoj)
        · rw [List.getElem?_set_ne hk0] at hx
          exact hle k x o hk hx ho
    · simp only [Option.pure_def, Option.some.injEq] at h
      subst h
      exact hle

theorem copy_ind_cost {ssParams : SSType} {dest src d1 : individual}
    (h : copy_ind ssParams dest src = some d1) : d1.cost = src.cost := by
  unfold copy_ind at h
  split at h
  · simp only [Option.some.injEq] at h
    subst h
    rfl
  · simp at h

theorem replace_eq_some {ssParams s1 : SSType} {dest : Nat} {src : individual}
    (h : replace ssParams dest src = some s1) :
    ∃ d d1 ref2, ssParams.ref_set[dest]? = some d ∧ copy_ind ssParams d src = some d1 ∧
      insertion_sort (ssParams.ref_set.set dest d1) ssParams.ref_set_size = some ref2 ∧
      s1 = { ssParams with ref_set := ref2,
                           n_ref_set_update := ssParams.n_ref_set_update + 1 } := by
  simp only [replace, Option.bind_eq_bind, Option.bind_eq_some, Option.pure_def,
    Option.some.injEq] at h
  obtain ⟨d, hd, d1, hd1, ref1, h1, ref2, h2, h3⟩ := h
  obtain ⟨_, e1⟩ := wr_eq_some h1
  subst e1
  exact ⟨d, d1, ref2, hd, hd1, h2, h3.symm⟩

/-- The four ways `update_step` can end for a candidate `c`. -/
theorem update_step_cases {ssParams s1 : SSType} {c : individual}
    (h : update_step ssParams c = some s1) :
    ∃ idx, is_exist ssParams ssParams.ref_set ssParams.ref_set_size c = some idx ∧
      ((idx = -1 ∧ ssParams.perform_flatzone_detection = 0 ∧
          replace ssParams (ssParams.ref_set_size - 1) c = some s1) ∨
       (idx = -1 ∧ ssParams.perform_flatzone_detection ≠ 0 ∧
          ∃ r, is_in_flatzone ssParams ssParams.ref_set ssParams.ref_set_size c = some r ∧
            ((r.1 = true ∧ s1 = r.2) ∨
             (r.1 = false ∧ replace r.2 (ssParams.ref_set_size - 1) c = some s1))) ∨
       (idx ≠ -1 ∧ ∃ d, ssParams.ref_set[idx.toNat]? = some d ∧
          ((c.cost < d.cost ∧ ∃ s2,
              replace { ssParams with n_duplicates := ssParams.n_duplicates + 1 }
                idx.toNat c = some s2 ∧
              s1 = { s2 with n_duplicate_replaced := s2.n_duplicate_replaced + 1 }) ∨
           (¬ c.cost < d.cost ∧
              s1 = { ssParams with n_duplicates := ssParams.n_duplicates + 1 })))) := by
  simp only [update_step, Option.bind_eq_bind, Option.bind_eq_some] at h
  obtain ⟨idx, hidx, h⟩ := h
  refine ⟨idx, hidx, ?_⟩
  by_cases h1 : idx = -1
  · rw [if_pos h1] at h
    by_cases h2 : ssParams.perform_flatzone_detection = 0
    · rw [if_neg (by simpa using h2)] at h
      exact Or.inl ⟨h1, h2, h⟩
    · rw [if_pos h2] at h
      simp only [Option.bind_eq_some] at h
      obtain ⟨r, hr, h⟩ := h
      refine Or.inr (Or.inl ⟨h1, h2, r, hr, ?_⟩)
      by_cases h3 : r.1 = true
      · rw [if_pos h3] at h
        simp only [Option.pure_def, Option.some.injEq] at h
        exact Or.inl ⟨h3, h.symm⟩
      · rw [if_neg h3] at h
        exact Or.inr ⟨by simpa using h3, h⟩
  · rw [if_neg h1] at h
    simp only [Option.bind_eq_some] at h
    obtain ⟨d, hd, h⟩ := h
    refine Or.inr (Or.inr ⟨h1, d, hd, ?_⟩)
    by_cases h3 : c.cost < d.cost
    · rw [if_pos h3] at h
      simp only [Option.bind_eq_some, Option.pure_def, Option.some.injEq] at h
      obtain ⟨s2, hs2, h⟩ := h
      exact Or.inl ⟨h3, s2, hs2, h.symm⟩
    · rw [if_neg h3] at h
      simp only [Option.pure_def, Option.some.injEq] at h
      exact Or.inr ⟨h3, h.symm⟩

theorem is_exist_loop_spec (ssParams : SSType) (set : List individual) (ind : individual) :
    ∀ (n : Nat) (idx : Int), is_exist_loop ssParams set ind n = some idx →
      (idx = -1 ∧ ∀ k, k < n → ∃ m, set[k]? = some m ∧ is_equal ssParams m ind = some false) ∨
      (∃ k, k < n ∧ idx = (k : Int) ∧ (∃ m, set[k]? = some m ∧
          is_equal ssParams m ind = some true) ∧
        ∀ k2, k < k2 → k2 < n → ∃ m, set[k2]? = some m ∧
          is_equal ssParams m ind = some false) := by
  intro n
  induction n with
  | zero =>
    intro idx h
    simp only [is_exist_loop, Option.some.injEq] at h
    exact Or.inl ⟨h.symm, fun k hk => absurd hk (Nat.not_lt_zero k)⟩
  | succ n ih =>
    intro idx h
    simp only [is_exist_loop, Option.bind_eq_bind, Option.bind_eq_some] at h
    obtain ⟨m, hm, e, he, h⟩ := h
    cases e with
    | true =>
      simp only [if_true, Option.pure_def, Option.some.injEq] at h
      exact Or.inr ⟨n, by omega, h.symm, ⟨m, hm, he⟩, fun k2 h1 h2 => by omega⟩
    | false =>
      simp only [Bool.false_eq_true, if_false] at h
      rcases ih idx h with ⟨h1, h2⟩ | ⟨k, hk, h1, h2, h3⟩
      · refine Or.inl ⟨h1, ?_⟩
        intro k hk
        by_cases hkn : k = n
        · subst hkn
          exact ⟨m, hm, he⟩
        · exact h2 k (by omega)
      · refine Or.inr ⟨k, by omega, h1, h2, ?_⟩
        intro k2 hk1 hk2
        by_cases hkn : k2 = n
        · subst hkn
          exact ⟨m, hm, he⟩
        · exact h3 k2 hk1 (by omega)

theorem is_in_flatzone_state {ssParams : SSType} {set : List individual} {set_size : Nat}
    {ind : individual} {r : Bool × SSType}
    (h : is_in_flatzone ssParams set set_size ind = some r) :
    ∃ n, r.2 = { ssParams with n_flatzone_detected := n } := by
  simp only [is_in_flatzone, Option.bind_eq_bind, Option.bind_eq_some, Option.pure_def,
    Option.some.injEq] at h
  obtain ⟨r0, _, h⟩ := h
  subst h
  exact ⟨r0.2, rfl⟩

theorem replace_leInv {orig : List individual} {n : Nat} (hsorted : SortedR orig 0 (n - 1))
    {s s1 : SSType} (hinv : LeInv orig n s) {dest : Nat} {src d : individual}
    (hdest : dest < n) (hd : s.ref_set[dest]? = some d) (hcost : src.cost ≤ d.cost)
    (h : replace s dest src = some s1) : LeInv orig n s1 := by
  obtain ⟨d0, d1, ref2, hd0, hd1, hsort, hs1⟩ := replace_eq_some h
  rw [hd] at hd0
  simp only [Option.some.injEq] at hd0
  subst hd0
  subst hs1
  have hset : LeOn (s.ref_set.set dest d1) orig n := by
    intro k a o hk ha ho
    by_cases hkd : dest = k
    · subst hkd
      rw [List.getElem?_set_self (List.getElem?_eq_some.mp hd).1] at ha
      simp only [Option.some.injEq] at ha
      subst ha
      rw [copy_ind_cost hd1]
      exact le_trans hcost (hinv.le dest d o hk hd ho)
    · rw [List.getElem?_set_ne hkd] at ha
      exact hinv.le k a o hk ha ho
  unfold insertion_sort at hsort
  rw [hinv.size] at hsort
  refine { size := hinv.size, len := ?_, le := ?_ }
  · have := rangePerm_length_eq (insertion_sort_loop_rangePerm _ _ _ hsort)
    simp only [this, List.length_set]
    exact hinv.len
  · exact insertion_sort_loop_leOn orig n hsorted (n - 1) _ _ (by omega)
      (by simp [hinv.len]) hset hsort

theorem update_step_leInv {orig : List individual} {n : Nat} (hsorted : SortedR orig 0 (n - 1))
    {s s1 : SSType} (hinv : LeInv orig n s) {c w : individual} (hn : n ≠ 0)
    (hw : s.ref_set[n - 1]? = some w) (hcw : c.cost < w.cost)
    (h : update_step s c = some s1) : LeInv orig n s1 := by
  obtain ⟨idx, hidx, hcases⟩ := update_step_cases h
  have hsz := hinv.size
  rcases hcases with ⟨_, _, hrep⟩ | ⟨_, _, r, hr, hcase⟩ | ⟨hne, d, hd, hcase⟩
  · rw [hsz] at hrep
    exact replace_leInv hsorted hinv (by omega) hw (le_of_lt hcw) hrep
  · obtain ⟨m, hm⟩ := is_in_flatzone_state hr
    rw [hsz] at hcase
    have hinv2 : LeInv orig n r.2 := by
      rw [hm]
      exact { size := hinv.size, len := hinv.len, le := hinv.le }
    rcases hcase with ⟨_, hs1⟩ | ⟨_, hrep⟩
    · rw [hs1]
      exact hinv2
    · refine replace_leInv hsorted hinv2 (by omega) ?_ (le_of_lt hcw) hrep
      rw [hm]
      exact hw
  · have hinv2 : LeInv orig n { s with n_duplicates := s.n_duplicates + 1 } :=
      { size := hinv.size, len := hinv.len, le := hinv.le }
    rcases hcase with ⟨hlt, s2, hrep, hs1⟩ | ⟨_, hs1⟩
    · have hidx2 : idx.toNat < n := by
        unfold is_exist at hidx
        rcases is_exist_loop_spec _ _ _ _ _ hidx with ⟨h1, _⟩ | ⟨k, hk, h1, _⟩
        · exact absurd h1 hne
        · rw [hinv.size] at hk
          subst h1
          simpa using hk
      have := replace_leInv hsorted hinv2 hidx2 hd (le_of_lt hlt) hrep
      rw [hs1]
      exact { size := this.size, len := this.len, le := this.le }
    · rw [hs1]
      exact hinv2

theorem update_loop_leInv {orig : List individual} {n : Nat} (hsorted : SortedR orig 0 (n - 1)) :
    ∀ (cands : List individual) (s s1 : SSType), LeInv orig n s →
      update_loop s cands = some s1 → LeInv orig n s1 := by
  intro cands
  induction cands with
  | nil =>
    intro s s1 _ h
    simp [update_loop] at h
  | cons c rest ih =>
    intro s s1 hinv h
    simp only [update_loop] at h
    split at h
    · simp at h
    · rename_i hn
      rw [hinv.size] at hn
      split at h
      · simp at h
      · rename_i w hw
        rw [hinv.size] at hw
        split at h
        · rename_i hcw
          split at h
          · simp at h
          · rename_i s2 hstep
            exact ih s2 s1 (update_step_leInv hsorted hinv hn hw hcw hstep) h
        · simp only [Option.some.injEq] at h
          subst h
          exact hinv

theorem update_first_leInv {orig : List individual} {n : Nat}
    {s : SSType} {r : SSType × Nat} (hinv : LeInv orig n s)
    (h : update_first s = some r) : LeInv orig n r.1 := by
  simp only [update_first, Option.bind_eq_bind, Option.bind_eq_some] at h
  obtain ⟨c0, hc0, r0, hr0, h⟩ := h
  split at h
  · rename_i hlt
    simp only [Option.bind_eq_some, Option.pure_def, Option.some.injEq] at h
    obtain ⟨r1, hr1, ref1, hw, h⟩ := h
    obtain ⟨h0, e1⟩ := wr_eq_some hw
    subst e1
    subst h
    refine { size := hinv.size, len := by simpa using hinv.len, le := ?_ }
    intro k a o hk ha ho
    simp only at ha
    by_cases hk0 : 0 = k
    · subst hk0
      rw [List.getElem?_set_self h0] at ha
      simp only [Option.some.injEq] at ha
      subst ha
      rw [copy_ind_cost hr1]
      exact le_trans (le_of_lt hlt) (hinv.le 0 r0 o hk hr0 ho)
    · rw [List.getElem?_set_ne hk0] at ha
      exact hinv.le k a o hk ha ho
  · simp only [Option.pure_def, Option.some.injEq] at h
    subst h
    exact hinv

/-! ## Running `update_ref_set` on given states -/

theorem update_ref_set_eval {ssParams s1 : SSType} {cands : List individual}
    {r : SSType × Nat}
    (hsort : quick_sort_set ssParams.candidates_set ssParams.candidates_set_size = some cands)
    (hfirst : update_first { ssParams with candidates_set := cands } = some r)
    (hloop : update_loop r.1 (r.1.candidates_set.drop r.2) = some s1) :
    update_ref_set ssParams = some s1 := by
  simp only [update_ref_set, Option.bind_eq_bind, hsort, Option.some_bind, hfirst]
  exact hloop

theorem update_loop_continue (ssParams : SSType) (w : individual) {s1 : SSType}
    {c : individual} {rest : List individual}
    (hsz : ssParams.ref_set_size ≠ 0)
    (hw : ssParams.ref_set[ssParams.ref_set_size - 1]? = some w) (hlt : c.cost < w.cost)
    (hstep : update_step ssParams c = some s1) :
    update_loop ssParams (c :: rest) = update_loop s1 rest := by
  simp only [update_loop, hsz, if_false, hw, hlt, if_true, hstep]

theorem update_loop_stop (ssParams : SSType) (w : individual) {c : individual}
    {rest : List individual}
    (hsz : ssParams.ref_set_size ≠ 0)
    (hw : ssParams.ref_set[ssParams.ref_set_size - 1]? = some w) (hlt : ¬ c.cost < w.cost) :
    update_loop ssParams (c :: rest) = some ssParams := by
  simp only [update_loop, hsz, if_false, hw, hlt]

theorem update_step_of_is_exist {ssParams : SSType} {c : individual} {idx : Int}
    (h : is_exist ssParams ssParams.ref_set ssParams.ref_set_size c = some idx) :
    update_step ssParams c =
      if idx = -1 then
        if ssParams.perform_flatzone_detection ≠ 0 then
          (is_in_flatzone ssParams ssParams.ref_set ssParams.ref_set_size c).bind (fun r =>
            if r.1 then some r.2 else replace r.2 (ssParams.ref_set_size - 1) c)
        else replace ssParams (ssParams.ref_set_size - 1) c
      else
        (ssParams.ref_set[idx.toNat]?).bind (fun d =>
          if c.cost < d.cost then
            (replace { ssParams with n_duplicates := ssParams.n_duplicates + 1 }
              idx.toNat c).bind (fun s2 =>
                some { s2 with n_duplicate_replaced := s2.n_duplicate_replaced + 1 })
          else some { ssParams with n_duplicates := ssParams.n_duplicates + 1 }) := by
  simp only [update_step, h, Option.bind_eq_bind, Option.some_bind, Option.pure_def]

theorem strictly_sorted_pair (a b : individual) (rest : List individual) (h : a.cost < b.cost) :
    ∀ i j x y, i < j → j < 2 → (a :: b :: rest)[i]? = some x → (a :: b :: rest)[j]? = some y →
      x.cost < y.cost := by
  intro i j x y hij hj hx hy
  have hi0 : i = 0 := by omega
  have hj1 : j = 1 := by omega
  subst hi0
  subst hj1
  simp only [List.getElem?_cons_zero, List.getElem?_cons_succ, Option.some.injEq] at hx hy
  subst hx
  subst hy
  exact h

theorem dup_mid_run : update_ref_set dup_mid_state = some dup_mid_after := by
  have hsort : quick_sort_set dup_mid_state.candidates_set dup_mid_state.candidates_set_size
      = some dup_mid_state.candidates_set :=
    quick_sort_set_of_strictly_sorted _ _ (by decide) (by decide)
      (strictly_sorted_pair _ _ _ (by norm_num))
  have hfirst : update_first { dup_mid_state with candidates_set := dup_mid_state.candidates_set }
      = some (dup_mid_state, 0) := rfl
  have hexist : is_exist dup_mid_state dup_mid_state.ref_set dup_mid_state.ref_set_size
      { params := [20], cost := 3 } = some 2 := by
    norm_num [is_exist, is_exist_loop, is_equal, euclidean_distance_sq, euclidean_distance_sum,
      dup_mid_state]
  have hstep : update_step dup_mid_state { params := [20], cost := 3 } = some dup_mid_after := by
    rw [update_step_of_is_exist hexist]
    rfl
  refine update_ref_set_eval hsort hfirst ?_
  show update_loop dup_mid_state [{ params := [20], cost := 3 }, { params := [40], cost := 20 }]
    = some dup_mid_after
  rw [update_loop_continue dup_mid_state { params := [30], cost := 10 } (by decide) rfl
    (by decide) hstep]
  exact update_loop_stop dup_mid_after { params := [30], cost := 10 } (by decide) rfl (by decide)

/-- C1 (evaluation at the failing input): the Reference Set is sorted before the
call (costs 1, 5, 6, 10); the candidate of cost 3 overwrites its duplicate at
index 2 and `insertion_sort` only moves the last member, so the call leaves
the costs 1, 5, 3, 10, which are not in ascending order. -/
theorem update_ref_set_unsorted_after_duplicate :
    (∀ i j a b, i ≤ j → j < dup_mid_state.ref_set_size → dup_mid_state.ref_set[i]? = some a →
      dup_mid_state.ref_set[j]? = some b → a.cost ≤ b.cost) ∧
    ∃ s1, update_ref_set dup_mid_state = some s1 ∧
      s1.ref_set.map (fun m => m.cost) = [1, 5, 3, 10] ∧
      ∃ a b, s1.ref_set[1]? = some a ∧ s1.ref_set[2]? = some b ∧ 1 + 1 < s1.ref_set_size ∧
        ¬ a.cost ≤ b.cost := by
  constructor
  · intro i j a b hij hj ha hb
    have hj4 : j < 4 := hj
    have : (i = 0 ∨ i = 1 ∨ i = 2 ∨ i = 3) := by omega
    have : (j = 0 ∨ j = 1 ∨ j = 2 ∨ j = 3) := by omega
    rcases ‹i = 0 ∨ i = 1 ∨ i = 2 ∨ i = 3› with h | h | h | h <;>
    rcases ‹j = 0 ∨ j = 1 ∨ j = 2 ∨ j = 3› with h2 | h2 | h2 | h2 <;>
    subst h <;> subst h2 <;>
    first
    | omega
    | (simp [dup_mid_state] at ha hb; subst ha; subst hb; norm_num)
  · refine ⟨dup_mid_after, dup_mid_run, rfl, { params := [10], cost := 5 },
      { params := [20], cost := 3 }, rfl, rfl, by decide, by norm_num⟩

theorem sorted_index_of_pairwise (l : List individual) (n : Nat)
    (h : (l.take n).Pairwise (fun a b => a.cost ≤ b.cost)) :
    ∀ i j a b, i ≤ j → j < n → l[i]? = some a → l[j]? = some b → a.cost ≤ b.cost := by
  intro i j a b hij hj ha hb
  by_cases hij2 : i = j
  · subst hij2
    rw [ha] at hb
    simp only [Option.some.injEq] at hb
    subst hb
    exact le_refl _
  · have hi2 : i < (l.take n).length := by
      have := (List.getElem?_eq_some.mp ha).1
      simp only [List.length_take]
      omega
    have hj2 : j < (l.take n).length := by
      have := (List.getElem?_eq_some.mp hb).1
      simp only [List.length_take]
      omega
    have := (List.pairwise_iff_getElem.mp h) i j hi2 hj2 (by omega)
    simp only [List.getElem_take] at this
    rw [(List.getElem?_eq_some.mp ha).2.symm, (List.getElem?_eq_some.mp hb).2.symm]
    exact this

/-- C3 (evaluation at the failing input): with `candidates_set_size = 0` the call
still reads the candidate buffer; here it overwrites both reference members and
raises `n_ref_set_update`, `n_duplicates` and `n_duplicate_replaced`. -/
theorem update_ref_set_empty_reads_stale :
    stale_state.candidates_set_size = 0 ∧
    update_ref_set stale_state = some stale_after ∧
    stale_after.ref_set ≠ stale_state.ref_set ∧
    stale_after.n_ref_set_update = stale_state.n_ref_set_update + 1 ∧
    stale_after.n_duplicates = stale_state.n_duplicates + 1 ∧
    stale_after.n_duplicate_replaced = stale_state.n_duplicate_replaced + 1 := by
  refine ⟨rfl, ?_, by decide, rfl, rfl, rfl⟩
  have hsort : quick_sort_set stale_state.candidates_set stale_state.candidates_set_size
      = some stale_state.candidates_set :=
    quick_sort_set_zero _ (by decide)
  have hfirst : update_first { stale_state with candidates_set := stale_state.candidates_set }
      = some (stale_mid, 1) :=
    rfl
  have hexist : is_exist stale_mid stale_mid.ref_set stale_mid.ref_set_size
      { params := [3], cost := 4 } = some 1 := by
    norm_num [is_exist, is_exist_loop, is_equal, euclidean_distance_sq, euclidean_distance_sum,
      stale_state, stale_mid]
  have hstep : update_step stale_mid { params := [3], cost := 4 } = some stale_after := by
    rw [update_step_of_is_exist hexist]
    rfl
  refine update_ref_set_eval hsort hfirst ?_
  show update_loop stale_mid [{ params := [3], cost := 4 }, { params := [50], cost := 100 }]
    = some stale_after
  rw [update_loop_continue stale_mid { params := [3], cost := 9 } (by decide) rfl (by decide)
    hstep]
  exact update_loop_stop stale_after { params := [3], cost := 4 } (by decide) rfl (by decide)

theorem worst_run : update_ref_set worst_state = some worst_after := by
  have hsort : quick_sort_set worst_state.candidates_set worst_state.candidates_set_size
      = some worst_state.candidates_set :=
    quick_sort_set_of_strictly_sorted _ _ (by decide) (by decide)
      (strictly_sorted_pair _ _ _ (by norm_num))
  have hfirst : update_first { worst_state with candidates_set := worst_state.candidates_set }
      = some (worst_state, 0) := rfl
  have hexist : is_exist worst_state worst_state.ref_set worst_state.ref_set_size
      { params := [15], cost := 4 } = some (-1) := by
    norm_num [is_exist, is_exist_loop, is_equal, euclidean_distance_sq, euclidean_distance_sum,
      worst_state]
  have hstep : update_step worst_state { params := [15], cost := 4 } = some worst_after := by
    rw [update_step_of_is_exist hexist]
    rfl
  refine update_ref_set_eval hsort hfirst ?_
  show update_loop worst_state [{ params := [15], cost := 4 }, { params := [40], cost := 20 }]
    = some worst_after
  rw [update_loop_continue worst_state { params := [30], cost := 10 } (by decide) rfl
    (by decide) hstep]
  exact update_loop_stop worst_after { params := [20], cost := 6 } (by decide) rfl (by decide)

/-! ## Candidate generation: how many candidates are emitted -/

theorem emit_candidate_count {ssParams : SSType} {base : individual} {dists : List ℚ}
    {type : Char} {st st1 : GenState}
    (h : emit_candidate ssParams base dists type st = some st1) :
    st1.candidates_count = st.candidates_count + 1 := by
  simp only [emit_candidate, Option.bind_eq_bind, Option.bind_eq_some, Option.pure_def,
    Option.some.injEq] at h
  obtain ⟨_, _, _, _, _, _, h⟩ := h
  subst h
  rfl

theorem generate_for_pair_count {ssParams : SSType} {mid_cost : ℚ} {x1 x2 : individual}
    {dists : List ℚ} {st st1 : GenState}
    (h : generate_for_pair ssParams mid_cost x1 x2 dists st = some st1) :
    st1.candidates_count = st.candidates_count + pair_count mid_cost x1.cost x2.cost := by
  unfold generate_for_pair at h
  unfold pair_count
  split at h
  · rename_i hc
    rw [if_pos hc]
    simp only [Option.bind_eq_bind, Option.bind_eq_some] at h
    obtain ⟨a1, h1, a2, h2, a3, h3, a4, h4, a5, h5, h6⟩ := h
    have e1 := emit_candidate_count h1
    have e2 := emit_candidate_count h2
    have e3 := emit_candidate_count h3
    have e4 := emit_candidate_count h4
    have e5 := emit_candidate_count h5
    have e6 := emit_candidate_count h6
    omega
  · rename_i hc
    rw [if_neg hc]
    split at h
    · rename_i hc2
      rw [if_pos hc2]
      simp only [Option.bind_eq_bind, Option.bind_eq_some] at h
      obtain ⟨a1, h1, a2, h2, a3, h3, h4⟩ := h
      have e1 := emit_candidate_count h1
      have e2 := emit_candidate_count h2
      have e3 := emit_candidate_count h3
      have e4 := emit_candidate_count h4
      omega
    · rename_i hc2
      rw [if_neg hc2]
      split at h
      · rename_i hc3
        rw [if_pos hc3]
        simp only [Option.bind_eq_bind, Option.bind_eq_some] at h
        obtain ⟨a1, h1, h2⟩ := h
        have e2 := emit_candidate_count h2
        have e1 : a1.candidates_count = st.candidates_count + 1 := by
          split at h1
          · exact (emit_candidate_count h1).trans rfl
          · exact (emit_candidate_count h1).trans rfl
        omega
      · rename_i hc3
        rw [if_neg hc3]
        simp only [Option.some.injEq] at h
        subst h
        rfl

theorem generate_candiates_loop_count (ssParams : SSType) (mid_cost : ℚ) (st0 : GenState)
    (dists0 : List ℚ) :
    ∀ (n : Nat) (r : GenState × List ℚ),
      generate_candiates_loop ssParams mid_cost st0 dists0 n = some r →
      n ≤ ssParams.subsets_list.length ∧
      r.1.candidates_count = st0.candidates_count +
        ((ssParams.subsets_list.take n).map
          (fun p => pair_count mid_cost p.1.cost p.2.cost)).sum := by
  intro n
  induction n with
  | zero =>
    intro r h
    simp only [generate_candiates_loop, Option.some.injEq] at h
    subst h
    simp
  | succ n ih =>
    intro r h
    simp only [generate_candiates_loop, Option.bind_eq_bind, Option.bind_eq_some,
      Option.pure_def, Option.some.injEq] at h
    obtain ⟨prev, hprev, p, hp, dists, _, st, hpair, hr⟩ := h
    subst hr
    obtain ⟨_, hcount⟩ := ih prev hprev
    have hlt := (List.getElem?_eq_some.mp hp).1
    refine ⟨by omega, ?_⟩
    rw [generate_for_pair_count hpair, hcount, List.take_succ, hp]
    simp [Nat.add_assoc]

theorem pair_count_le (mid_cost c1 c2 : ℚ) : pair_count mid_cost c1 c2 ≤ 6 := by
  unfold pair_count
  split_ifs <;> omega

theorem sum_map_le_mul {α : Type} (f : α → Nat) (b : Nat) (hf : ∀ a, f a ≤ b) :
    ∀ l : List α, (l.map f).sum ≤ b * l.length := by
  intro l
  induction l with
  | nil => simp
  | cons a l ih =>
    simp only [List.map_cons, List.sum_cons, List.length_cons]
    have := hf a
    rw [Nat.mul_succ]
    omega

/-- What `generate_candiates` leaves in `candidates_set_size`, for any pair list. -/
theorem generate_candiates_count {ssParams : SSType} {g : Nat → ℚ} {r : SSType × (Nat → ℚ)}
    (h : generate_candiates ssParams g = some r) :
    ∃ mid, ssParams.ref_set[ssParams.max_elite]? = some mid ∧
      ssParams.subsets_list_size ≤ ssParams.subsets_list.length ∧
      r.1.candidates_set_size =
        ((ssParams.subsets_list.take ssParams.subsets_list_size).map
          (fun p => pair_count mid.cost p.1.cost p.2.cost)).sum := by
  simp only [generate_candiates, Option.bind_eq_bind, Option.bind_eq_some, Option.pure_def,
    Option.some.injEq] at h
  obtain ⟨mid, hmid, r0, hloop, hr⟩ := h
  subst hr
  obtain ⟨hlen, hcount⟩ := generate_candiates_loop_count _ _ _ _ _ _ hloop
  refine ⟨mid, hmid, hlen, ?_⟩
  simp only [hcount, Nat.zero_add]

theorem generate_ind_candidate_total (ssParams : SSType) (base candidate : individual)
    (dists : List ℚ) (type : Char) (g : Nat → ℚ)
    (hb : ssParams.nreal ≤ base.params.length) (hd : ssParams.nreal ≤ dists.length)
    (hc : ssParams.nreal ≤ candidate.params.length)
    (hmin : ssParams.nreal ≤ ssParams.min_real_var.length)
    (hmax : ssParams.nreal ≤ ssParams.max_real_var.length) :
    ∃ r, generate_ind_candidate ssParams base candidate dists type g = some r ∧
      r.1.params.length = candidate.params.length := by
  unfold generate_ind_candidate
  obtain ⟨c0, h0, _, l0, _⟩ := generate_loop0_spec ssParams base dists (rndreal 0 1 g).1
    candidate hb hd hc hmin hmax ssParams.nreal (le_refl _)
  obtain ⟨c1, h1, _, l1, _⟩ := generate_loop1_spec ssParams base dists
    candidate g hb hd hc hmin hmax ssParams.nreal (le_refl _)
  obtain ⟨c2, h2, _, l2, _⟩ := generate_loop2_spec ssParams base dists
    candidate g hb hd hc hmin hmax ssParams.nreal (le_refl _)
  split_ifs
  · exact ⟨(c0, (rndreal 0 1 g).2), by simp [h0], l0⟩
  · exact ⟨_, h1, l1⟩
  · exact ⟨_, h2, l2⟩
  · exact ⟨_, h2, l2⟩
  · exact ⟨_, rfl, rfl⟩

theorem emit_candidate_total {s : SSType} (hwf : GenWF s) {st : GenState} (hinv : GenInv s st)
    (base : individual) (dists : List ℚ) (type : Char)
    (hcount : st.candidates_count < s.candidates_set.length)
    (hb : s.nreal ≤ base.params.length) (hd : s.nreal ≤ dists.length) :
    ∃ st1, emit_candidate s base dists type st = some st1 ∧ GenInv s st1 := by
  have hlt : st.candidates_count < st.candidates_set.length := by rw [hinv.len]; exact hcount
  have hslot := List.getElem?_eq_getElem hlt
  have hsp : s.nreal ≤ (st.candidates_set[st.candidates_count]).params.length :=
    hinv.params _ (List.getElem_mem _)
  obtain ⟨r, hr, hrlen⟩ := generate_ind_candidate_total s base
    (st.candidates_set[st.candidates_count]) dists type st.g hb hd hsp
    hwf.bounds_min hwf.bounds_max
  refine ⟨{ candidates_set := st.candidates_set.set st.candidates_count r.1,
            candidates_count := st.candidates_count + 1, g := r.2 }, ?_, ?_⟩
  · simp [emit_candidate, hslot, hr, wr, hlt]
  · refine { len := by simpa using hinv.len, params := ?_ }
    intro c hc
    rcases List.mem_or_eq_of_mem_set hc with h | h
    · exact hinv.params c h
    · subst h
      omega

theorem generate_for_pair_total {s : SSType} (hwf : GenWF s) {st : GenState}
    (hinv : GenInv s st) (mid_cost : ℚ) (x1 x2 : individual) (dists : List ℚ)
    (hcount : st.candidates_count + 6 ≤ s.candidates_set.length)
    (h1 : s.nreal ≤ x1.params.length) (h2 : s.nreal ≤ x2.params.length)
    (hd : s.nreal ≤ dists.length) :
    ∃ st1, generate_for_pair s mid_cost x1 x2 dists st = some st1 ∧ GenInv s st1 := by
  unfold generate_for_pair
  split_ifs with hc1 hc2 hc3
  · obtain ⟨a1, e1, i1⟩ := emit_candidate_total hwf hinv x1 dists '0' (by omega) h1 hd
    have n1 := emit_candidate_count e1
    obtain ⟨a2, e2, i2⟩ := emit_candidate_total hwf i1 x2 dists '0' (by omega) h2 hd
    have n2 := emit_candidate_count e2
    obtain ⟨a3, e3, i3⟩ := emit_candidate_total hwf i2 x1 dists '1' (by omega) h1 hd
    have n3 := emit_candidate_count e3
    obtain ⟨a4, e4, i4⟩ := emit_candidate_total hwf i3 x1 dists '2' (by omega) h1 hd
    have n4 := emit_candidate_count e4
    obtain ⟨a5, e5, i5⟩ := emit_candidate_total hwf i4 x2 dists '3' (by omega) h2 hd
    have n5 := emit_candidate_count e5
    obtain ⟨a6, e6, i6⟩ := emit_candidate_total hwf i5 x2 dists '3' (by omega) h2 hd
    exact ⟨a6, by simp [e1, e2, e3, e4, e5, e6], i6⟩
  · obtain ⟨a1, e1, i1⟩ := emit_candidate_total hwf hinv x1 dists '0' (by omega) h1 hd
    have n1 := emit_candidate_count e1
    obtain ⟨a2, e2, i2⟩ := emit_candidate_total hwf i1 x1 dists '1' (by omega) h1 hd
    have n2 := emit_candidate_count e2
    obtain ⟨a3, e3, i3⟩ := emit_candidate_total hwf i2 x1 dists '2' (by omega) h1 hd
    have n3 := emit_candidate_count e3
    obtain ⟨a4, e4, i4⟩ := emit_candidate_total hwf i3 x2 dists '3' (by omega) h2 hd
    exact ⟨a4, by simp [e1, e2, e3, e4], i4⟩
  · have hinv0 : GenInv s { st with g := (rndreal 0 1 st.g).2 } :=
      { len := hinv.len, params := hinv.params }
    have hfirst : ∃ a1, (if (rndreal 0 1 st.g).1 < 0.5
          then emit_candidate s x1 dists '1' { st with g := (rndreal 0 1 st.g).2 }
          else emit_candidate s x2 dists '3' { st with g := (rndreal 0 1 st.g).2 }) = some a1 ∧
        GenInv s a1 ∧ a1.candidates_count = st.candidates_count + 1 := by
      split_ifs
      · obtain ⟨a1, e1, i1⟩ := emit_candidate_total hwf hinv0 x1 dists '1'
          (by simp only; omega) h1 hd
        exact ⟨a1, e1, i1, (emit_candidate_count e1).trans rfl⟩
      · obtain ⟨a1, e1, i1⟩ := emit_candidate_total hwf hinv0 x2 dists '3'
          (by simp only; omega) h2 hd
        exact ⟨a1, e1, i1, (emit_candidate_count e1).trans rfl⟩
    obtain ⟨a1, e1, i1, n1⟩ := hfirst
    obtain ⟨a2, e2, i2⟩ := emit_candidate_total hwf i1 x1 dists '2' (by omega) h1 hd
    exact ⟨a2, by simp [e1, e2], i2⟩
  · exact ⟨st, rfl, hinv⟩

theorem generate_candiates_loop_total {s : SSType} (hwf : GenWF s) (mid_cost : ℚ)
    (g : Nat → ℚ) :
    ∀ n, n ≤ s.subsets_list_size →
      ∃ r, generate_candiates_loop s mid_cost
          { candidates_set := s.candidates_set, candidates_count := 0, g := g }
          (List.replicate s.nreal 0) n = some r ∧
        GenInv s r.1 ∧ r.2.length = s.nreal ∧ r.1.candidates_count ≤ 6 * n := by
  intro n
  induction n with
  | zero =>
    intro _
    exact ⟨_, rfl, { len := rfl, params := hwf.cand_params }, by simp, by simp⟩
  | succ n ih =>
    intro hn
    obtain ⟨prev, hprev, hinv, hdl, hcnt⟩ := ih (by omega)
    have hlt : n < s.subsets_list.length := by have := hwf.pairs; omega
    have hp := List.getElem?_eq_getElem hlt
    obtain ⟨hp1, hp2⟩ := hwf.pair_params n _ (by omega) hp
    obtain ⟨ds, hds, hdslen, _, _⟩ := fill_dists_spec (s.subsets_list[n]).1 (s.subsets_list[n]).2
      prev.2 s.nreal hp1 hp2 (by omega) s.nreal (le_refl _)
    obtain ⟨st1, hst1, hinv1⟩ := generate_for_pair_total hwf hinv mid_cost
      (s.subsets_list[n]).1 (s.subsets_list[n]).2 ds
      (by have := hwf.capacity; omega) hp1 hp2 (by omega)
    refine ⟨(st1, ds), ?_, hinv1, ?_, ?_⟩
    · simp [generate_candiates_loop, hprev, hp, hds, hst1]
    · show ds.length = s.nreal
      omega
    · show st1.candidates_count ≤ 6 * (n + 1)
      rw [generate_for_pair_count hst1]
      have := pair_count_le mid_cost (s.subsets_list[n]).1.cost (s.subsets_list[n]).2.cost
      omega

theorem generate_candiates_total {s : SSType} (hwf : GenWF s) (g : Nat → ℚ) :
    ∃ r, generate_candiates s g = some r := by
  obtain ⟨mid, hmid⟩ : ∃ m, s.ref_set[s.max_elite]? = some m :=
    ⟨_, List.getElem?_eq_getElem hwf.elite⟩
  obtain ⟨r, hr, _⟩ := generate_candiates_loop_total hwf mid.cost g s.subsets_list_size
    (le_refl _)
  simp only [generate_candiates, hmid, Option.bind_eq_bind, Option.some_bind, hr,
    Option.pure_def]
  exact ⟨_, rfl⟩

theorem mem_take_getElem? {α : Type} {l : List α} {n : Nat} {a : α} (h : a ∈ l.take n) :
    ∃ i, i < n ∧ l[i]? = some a := by
  obtain ⟨i, hi, hget⟩ := List.getElem_of_mem h
  have hi2 : i < n ∧ i < l.length := by
    simp only [List.length_take] at hi
    omega
  refine ⟨i, hi2.1, ?_⟩
  rw [List.getElem_take] at hget
  rw [List.getElem?_eq_getElem hi2.2, hget]

/-- C8 (amended): for a pair list in which no pair has its second member below
the elite cutoff `mid_cost` (the cost of the reference member at index
`max_elite`) while its first member is not, `generate_candiates` returns and
emits six candidates for a pair with both costs below the cutoff, four for a
pair with exactly one cost below it, two for a pair with none;
`candidates_set_size` is the sum of these numbers over the pairs and is at
most `6 * subsets_list_size`. -/
theorem generate_candiates_counts (ssParams : SSType) (g : Nat → ℚ) (mid : individual)
    (hwf : GenWF ssParams) (hmid : ssParams.ref_set[ssParams.max_elite]? = some mid)
    (hord : ∀ i p, i < ssParams.subsets_list_size → ssParams.subsets_list[i]? = some p →
      ¬ (p.2.cost < mid.cost ∧ ¬ p.1.cost < mid.cost)) :
    ∃ r, generate_candiates ssParams g = some r ∧
      r.1.candidates_set_size =
        ((ssParams.subsets_list.take ssParams.subsets_list_size).map
          (fun p => if p.1.cost < mid.cost ∧ p.2.cost < mid.cost then 6
                    else if p.1.cost < mid.cost ∨ p.2.cost < mid.cost then 4
                    else 2)).sum ∧
      r.1.candidates_set_size ≤ 6 * ssParams.subsets_list_size := by
  obtain ⟨r, hr⟩ := generate_candiates_total hwf g
  obtain ⟨mid2, hmid2, hlen, hcount⟩ := generate_candiates_count hr
  rw [hmid] at hmid2
  simp only [Option.some.injEq] at hmid2
  subst hmid2
  refine ⟨r, hr, ?_, ?_⟩
  · rw [hcount]
    congr 1
    apply List.map_congr_left
    intro p hp
    obtain ⟨i, hi, hget⟩ := mem_take_getElem? hp
    have hno := hord i p hi hget
    unfold pair_count
    by_cases h1 : p.1.cost < mid.cost <;> by_cases h2 : p.2.cost < mid.cost
    · simp [h1, h2]
    · simp [h1, h2, not_lt.mp h2]
    · exact absurd ⟨h2, h1⟩ hno
    · simp [h1, h2, not_lt.mp h1, not_lt.mp h2]
  · rw [hcount]
    have := sum_map_le_mul (fun p : individual × individual =>
      pair_count mid.cost p.1.cost p.2.cost) 6 (fun p => pair_count_le _ _ _)
      (ssParams.subsets_list.take ssParams.subsets_list_size)
    simp only [List.length_take] at this
    omega

theorem generate_candiates_counts_witness :
    ∃ r, generate_candiates mixed_pairs_state (fun _ => 1 / 2) = some r ∧
      r.1.candidates_set_size =
        ((mixed_pairs_state.subsets_list.take mixed_pairs_state.subsets_list_size).map
          (fun p => if p.1.cost < (9 : ℚ) ∧ p.2.cost < (9 : ℚ) then 6
                    else if p.1.cost < (9 : ℚ) ∨ p.2.cost < (9 : ℚ) then 4
                    else 2)).sum ∧
      r.1.candidates_set_size ≤ 6 * mixed_pairs_state.subsets_list_size := by
  have hwf : GenWF mixed_pairs_state := by
    refine { elite := by decide, pairs := by decide, pair_params := ?_,
             bounds_min := by decide, bounds_max := by decide, capacity := by decide,
             cand_params := ?_ }
    · intro i p hi hp
      have hi3 : i < 3 := hi
      have : i = 0 ∨ i = 1 ∨ i = 2 := by omega
      rcases this with h | h | h <;> subst h <;>
        simp [mixed_pairs_state] at hp <;> subst hp <;> decide
    · intro c hc
      simp only [mixed_pairs_state, List.mem_replicate] at hc
      rw [hc.2]
      decide
  exact generate_candiates_counts mixed_pairs_state (fun _ => 1 / 2)
    { params := [2], cost := 9 } hwf rfl (by
      intro i p hi hp
      have hi3 : i < 3 := hi
      have : i = 0 ∨ i = 1 ∨ i = 2 := by omega
      rcases this with h | h | h <;> subst h <;>
        simp [mixed_pairs_state] at hp <;> subst hp <;> norm_num)

/-- C8 (counterexample): for a pair of which only the second member is below the
cutoff, exactly one of the two costs is below it, and `generate_candiates`
emits no candidate at all instead of four. -/
theorem generate_candiates_second_elite_only :
    ∃ mid x1 x2 r, second_elite_state.ref_set[second_elite_state.max_elite]? = some mid ∧
      second_elite_state.subsets_list = [(x1, x2)] ∧
      second_elite_state.subsets_list_size = 1 ∧
      (¬ x1.cost < mid.cost ∧ x2.cost < mid.cost) ∧
      generate_candiates second_elite_state (fun _ => 1 / 2) = some r ∧
      r.1.candidates_set_size = 0 ∧ r.1.candidates_set_size ≠ 4 := by
  refine ⟨{ params := [3], cost := 9 }, { params := [3], cost := 9 },
    { params := [1], cost := 5 },
    ({ second_elite_state with candidates_set_size := 0 }, fun _ => 1 / 2), rfl, rfl, rfl,
    by norm_num, ?_, rfl, by decide⟩
  norm_num [generate_candiates, generate_candiates_loop, fill_dists, generate_for_pair, wr,
    second_elite_state]

/-! ## Pair selection -/

theorem pairs_state_run_stale :
    select_subsets_list pairs_state pairs_state.ref_set =
      some { pairs_state with
        subsets_list := [({ params := [0], cost := 5 }, { params := [8], cost := 10 }),
                         ({ params := [3], cost := 9 }, { params := [8], cost := 10 }),
                         ({ params := [3], cost := 9 }, { params := [6], cost := 10 })],
        subsets_list_size := 2 } := by
  norm_num [select_subsets_list, select_subsets_outer, select_subsets_inner, is_equal,
    euclidean_distance_sq, euclidean_distance_sum, is_exist_in_subsets_list,
    is_exist_in_subsets_list_loop, copy_ind, wr, pairs_state]

theorem pairs_state_run_fresh :
    select_subsets_list { pairs_state with subsets_list_size := 0 } pairs_state.ref_set =
      some { pairs_state with
        subsets_list := [({ params := [0], cost := 5 }, { params := [3], cost := 9 }),
                         ({ params := [0], cost := 5 }, { params := [8], cost := 10 }),
                         ({ params := [3], cost := 9 }, { params := [8], cost := 10 })],
        subsets_list_size := 3 } := by
  norm_num [select_subsets_list, select_subsets_outer, select_subsets_inner, is_equal,
    euclidean_distance_sq, euclidean_distance_sum, is_exist_in_subsets_list,
    is_exist_in_subsets_list_loop, copy_ind, wr, pairs_state]

/-- C7 (evaluation at the failing input): with the list and `subsets_list_size`
of an earlier call still in place, `select_subsets_list` drops the pair
`([0], [3])`, which matches a stale entry, and returns two pairs with a stale
third entry behind them; started from `subsets_list_size = 0` on the same
Reference Set it returns the three pairs in lexicographic order. -/
theorem select_subsets_list_reads_stale_list :
    select_subsets_list pairs_state pairs_state.ref_set =
      some { pairs_state with
        subsets_list := [({ params := [0], cost := 5 }, { params := [8], cost := 10 }),
                         ({ params := [3], cost := 9 }, { params := [8], cost := 10 }),
                         ({ params := [3], cost := 9 }, { params := [6], cost := 10 })],
        subsets_list_size := 2 } ∧
    select_subsets_list { pairs_state with subsets_list_size := 0 } pairs_state.ref_set =
      some { pairs_state with
        subsets_list := [({ params := [0], cost := 5 }, { params := [3], cost := 9 }),
                         ({ params := [0], cost := 5 }, { params := [8], cost := 10 }),
                         ({ params := [3], cost := 9 }, { params := [8], cost := 10 })],
        subsets_list_size := 3 } :=
  ⟨pairs_state_run_stale, pairs_state_run_fresh⟩

/-! ## Duplicates in the Reference Set -/

theorem euclidean_distance_sum_symm (a b : individual) :
    ∀ n, euclidean_distance_sum a b n = euclidean_distance_sum b a n := by
  intro n
  induction n with
  | zero => rfl
  | succ n ih =>
    simp only [euclidean_distance_sum, ih, Option.bind_eq_bind, Option.pure_def]
    cases euclidean_distance_sum b a n with
    | none => rfl
    | some d =>
      cases a.params[n]? with
      | none =>
        cases b.params[n]? with
        | none => rfl
        | some y => rfl
      | some x =>
        cases b.params[n]? with
        | none => rfl
        | some y =>
          simp only [Option.some_bind, Option.some.injEq]
          ring

theorem is_equal_symm (s : SSType) (a b : individual) : is_equal s a b = is_equal s b a := by
  simp only [is_equal, euclidean_distance_sq, euclidean_distance_sum_symm a b]

theorem euclidean_distance_sum_congr (x v c : individual) :
    ∀ n, (∀ i, i < n → v.params[i]? = c.params[i]?) →
      euclidean_distance_sum x v n = euclidean_distance_sum x c n := by
  intro n
  induction n with
  | zero => intro _; rfl
  | succ n ih =>
    intro h
    simp only [euclidean_distance_sum, ih (fun i hi => h i (by omega)), h n (by omega)]

theorem is_equal_congr_right (s : SSType) (x v c : individual)
    (h : ∀ i, i < s.nreal → v.params[i]? = c.params[i]?) :
    is_equal s x v = is_equal s x c := by
  simp only [is_equal, euclidean_distance_sq, euclidean_distance_sum_congr x v c s.nreal h]

theorem is_equal_cfg {s cfg : SSType} (h1 : s.nreal = cfg.nreal)
    (h2 : s.dist_epsilon = cfg.dist_epsilon) (a b : individual) :
    is_equal s a b = is_equal cfg a b := by
  simp only [is_equal, euclidean_distance_sq, h1, h2]

theorem copy_ind_params {s : SSType} {d c v : individual} (h : copy_ind s d c = some v) :
    ∀ i, i < s.nreal → v.params[i]? = c.params[i]? := by
  unfold copy_ind at h
  split at h
  · rename_i hlen
    simp only [Option.some.injEq] at h
    subst h
    intro i hi
    simp only
    rw [List.getElem?_append_left (by simp; omega), List.getElem?_take, if_pos hi]
  · simp at h

theorem getElem?_swap {α : Type} (L : List α) (i j : Nat) (a b : α) (hi : L[i]? = some a)
    (hj : L[j]? = some b) (p : Nat) :
    ((L.set i b).set j a)[p]? = L[if p = j then i else if p = i then j else p]? := by
  have hil := (List.getElem?_eq_some.mp hi).1
  have hjl := (List.getElem?_eq_some.mp hj).1
  by_cases h1 : p = j
  · subst h1
    rw [if_pos rfl, List.getElem?_set_self (by simpa using hjl), hi]
  · rw [if_neg h1, List.getElem?_set_ne (Ne.symm h1)]
    by_cases h2 : p = i
    · subst h2
      rw [if_pos rfl, List.getElem?_set_self hil, hj]
    · rw [if_neg h2, List.getElem?_set_ne (Ne.symm h2)]

theorem idxPair_rangePerm {R : individual → individual → Prop} {n : Nat} {L L2 : List individual}
    (hn : 1 ≤ n) (hperm : RangePerm 0 (n - 1) L L2) (h : IdxPair R L n) : IdxPair R L2 n := by
  induction hperm with
  | refl => exact h
  | step L2 i j a b _ _ hi2 _ hj2 hi hj ih =>
    intro p q x y hp hq hpq hx hy
    rw [getElem?_swap L2 i j a b hi hj] at hx hy
    refine ih _ _ x y ?_ ?_ ?_ hx hy
    · split_ifs <;> omega
    · split_ifs <;> omega
    · split_ifs <;> omega

theorem idxPair_set {R : individual → individual → Prop} {n : Nat} {L : List individual}
    (h : IdxPair R L n) (d : Nat) (v : individual)
    (hv : ∀ k x, k < n → k ≠ d → L[k]? = some x → R v x ∧ R x v) :
    IdxPair R (L.set d v) n := by
  intro i j a b hi hj hij ha hb
  by_cases hid : d = i
  · subst hid
    have hav : a = v := by
      rw [List.getElem?_set] at ha
      simp only [if_true] at ha
      split at ha
      · simpa using ha.symm
      · simp at ha
    subst hav
    rw [List.getElem?_set_ne hij] at hb
    exact (hv j b hj (Ne.symm hij) hb).1
  · rw [List.getElem?_set_ne hid] at ha
    by_cases hjd : d = j
    · subst hjd
      have hbv : b = v := by
        rw [List.getElem?_set] at hb
        simp only [if_true] at hb
        split at hb
        · simpa using hb.symm
        · simp at hb
      subst hbv
      exact (hv i a hi (Ne.symm hid) ha).2
    · rw [List.getElem?_set_ne hjd] at hb
      exact h i j a b hi hj hij ha hb

theorem idxPair_mono {R R2 : individual → individual → Prop} {n : Nat} {L : List individual}
    (h : IdxPair R L n) (himp : ∀ a b, R a b → R2 a b) : IdxPair R2 L n :=
  fun i j a b hi hj hij ha hb => himp a b (h i j a b hi hj hij ha hb)

theorem noDupRel_mono (cfg : SSType) {E E2 : List individual} (h : ∀ x, x ∈ E → x ∈ E2)
    (a b : individual) : NoDupRel cfg E a b → NoDupRel cfg E2 a b := by
  intro hr he
  rcases hr he with h1 | h1
  · exact Or.inl (h _ h1)
  · exact Or.inr (h _ h1)

theorem replace_dupInv {cfg : SSType} {E E2 : List individual} {s s1 : SSType}
    (hinv : DupInv cfg E s) (hsub : ∀ x, x ∈ E → x ∈ E2) {dest : Nat} {c d : individual}
    (hdest : dest < cfg.ref_set_size) (hd : s.ref_set[dest]? = some d)
    (hnew : ∀ v, copy_ind s d c = some v → ∀ k x, k < cfg.ref_set_size → k ≠ dest →
      s.ref_set[k]? = some x → NoDupRel cfg E2 v x ∧ NoDupRel cfg E2 x v)
    (h : replace s dest c = some s1) : DupInv cfg E2 s1 := by
  obtain ⟨d0, d1, ref2, hd0, hd1, hsort, hs1⟩ := replace_eq_some h
  rw [hd] at hd0
  simp only [Option.some.injEq] at hd0
  subst hd0
  subst hs1
  unfold insertion_sort at hsort
  rw [hinv.size] at hsort
  have hperm := insertion_sort_loop_rangePerm _ _ _ hsort
  refine { nreal := hinv.nreal, eps := hinv.eps, size := hinv.size, pairs := ?_ }
  refine idxPair_rangePerm (by omega) hperm ?_
  exact idxPair_set (idxPair_mono hinv.pairs (noDupRel_mono cfg hsub)) dest d1 (hnew d1 hd1)

theorem update_step_dupInv {cfg : SSType} {E : List individual} {s s1 : SSType}
    (hinv : DupInv cfg E s) {c : individual} (hn : cfg.ref_set_size ≠ 0)
    (h : update_step s c = some s1) : DupInv cfg (E ++ dup_written s c) s1 := by
  obtain ⟨idx, hidx, hcases⟩ := update_step_cases h
  have hsz := hinv.size
  have hlast : cfg.ref_set_size - 1 < cfg.ref_set_size := by omega
  have hsub : ∀ x, x ∈ E → x ∈ E ++ dup_written s c := fun x hx => List.mem_append_left _ hx
  have hspec := is_exist_loop_spec s s.ref_set c s.ref_set_size idx hidx
  -- a candidate without duplicate, copied over the worst member
  have hfresh : idx = -1 → ∀ (s0 : SSType), s0.nreal = s.nreal → s0.ref_set = s.ref_set →
      ∀ w, s0.ref_set[cfg.ref_set_size - 1]? = some w →
      ∀ v, copy_ind s0 w c = some v → ∀ k x, k < cfg.ref_set_size →
        k ≠ cfg.ref_set_size - 1 → s0.ref_set[k]? = some x →
        NoDupRel cfg (E ++ dup_written s c) v x ∧ NoDupRel cfg (E ++ dup_written s c) x v := by
    intro hm1 s0 hs0n hs0r w _ v hv k x hk _ hx
    rcases hspec with ⟨_, hall⟩ | ⟨k2, _, hk2, _⟩
    · obtain ⟨m, hm, hne⟩ := hall k (lt_of_lt_of_eq hk hsz.symm)
      rw [hs0r, hm] at hx
      simp only [Option.some.injEq] at hx
      subst hx
      have e1 : is_equal cfg m v = some false := by
        rw [← is_equal_cfg hinv.nreal hinv.eps,
          is_equal_congr_right s m v c (fun i hi => copy_ind_params hv i (by omega))]
        exact hne
      constructor
      · intro he
        rw [is_equal_symm, e1] at he
        simp at he
      · intro he
        rw [e1] at he
        simp at he
    · subst hk2
      omega
  rcases hcases with ⟨hm1, _, hrep⟩ | ⟨hm1, _, r, hr, hcase⟩ | ⟨hne, d, hd, hcase⟩
  · rw [hsz] at hrep
    obtain ⟨w, _, _, hw, _⟩ := replace_eq_some hrep
    exact replace_dupInv hinv hsub hlast hw (hfresh hm1 s rfl rfl w hw) hrep
  · obtain ⟨m, hm⟩ := is_in_flatzone_state hr
    rw [hsz] at hcase
    have hinv2 : DupInv cfg E r.2 := by
      rw [hm]
      exact { nreal := hinv.nreal, eps := hinv.eps, size := hinv.size, pairs := hinv.pairs }
    rcases hcase with ⟨_, hs1⟩ | ⟨_, hrep⟩
    · rw [hs1]
      exact { nreal := hinv2.nreal, eps := hinv2.eps, size := hinv2.size,
              pairs := idxPair_mono hinv2.pairs (noDupRel_mono cfg hsub) }
    · obtain ⟨w, _, _, hw, _⟩ := replace_eq_some hrep
      refine replace_dupInv hinv2 hsub hlast hw ?_ hrep
      exact hfresh hm1 r.2 (by rw [hm]) (by rw [hm]) w hw
  · have hinv2 : DupInv cfg E { s with n_duplicates := s.n_duplicates + 1 } :=
      { nreal := hinv.nreal, eps := hinv.eps, size := hinv.size, pairs := hinv.pairs }
    have hidx2 : idx.toNat < cfg.ref_set_size := by
      rcases hspec with ⟨h1, _⟩ | ⟨k, hk, h1, _⟩
      · exact absurd h1 hne
      · rw [hsz] at hk
        subst h1
        simpa using hk
    rcases hcase with ⟨hlt, s2, hrep, hs1⟩ | ⟨_, hs1⟩
    · have hwritten : ∀ v, copy_ind s d c = some v → v ∈ E ++ dup_written s c := by
        intro v hv
        apply List.mem_append_right
        simp [dup_written, hidx, hne, hd, hlt, hv]
      have := replace_dupInv hinv2 hsub hidx2 hd (fun v hv k x _ _ _ =>
        ⟨fun _ => Or.inl (hwritten v hv), fun _ => Or.inr (hwritten v hv)⟩) hrep
      rw [hs1]
      exact { nreal := this.nreal, eps := this.eps, size := this.size, pairs := this.pairs }
    · rw [hs1]
      exact { nreal := hinv2.nreal, eps := hinv2.eps, size := hinv2.size,
              pairs := idxPair_mono hinv2.pairs (noDupRel_mono cfg hsub) }

theorem update_loop_dupInv {cfg : SSType} (hn : cfg.ref_set_size ≠ 0) :
    ∀ (cands : List individual) (E : List individual) (s s1 : SSType), DupInv cfg E s →
      update_loop s cands = some s1 → DupInv cfg (E ++ dup_installed s cands) s1 := by
  intro cands
  induction cands with
  | nil =>
    intro E s s1 _ h
    simp [update_loop] at h
  | cons c rest ih =>
    intro E s s1 hinv h
    simp only [update_loop] at h
    split at h
    · simp at h
    · split at h
      · simp at h
      · rename_i w hw
        split at h
        · rename_i hcw
          split at h
          · simp at h
          · rename_i s2 hstep
            have h2 := ih _ s2 s1 (update_step_dupInv hinv hn hstep) h
            simp only [dup_installed, hw, hcw, if_true, hstep]
            rw [← List.append_assoc]
            exact h2
        · simp only [Option.some.injEq] at h
          subst h
          exact { nreal := hinv.nreal, eps := hinv.eps, size := hinv.size,
                  pairs := idxPair_mono hinv.pairs
                    (noDupRel_mono cfg (fun x hx => List.mem_append_left _ hx)) }

theorem update_first_dupInv {cfg : SSType} {s : SSType} {r : SSType × Nat}
    (hinv : DupInv cfg [] s) (h : update_first s = some r) :
    DupInv cfg (first_written s) r.1 := by
  simp only [update_first, Option.bind_eq_bind, Option.bind_eq_some] at h
  obtain ⟨c0, hc0, r0, hr0, h⟩ := h
  split at h
  · rename_i hlt
    simp only [Option.bind_eq_some, Option.pure_def, Option.some.injEq] at h
    obtain ⟨r1, hr1, ref1, hw, h⟩ := h
    obtain ⟨h0, e1⟩ := wr_eq_some hw
    subst e1
    subst h
    have hmem : r1 ∈ first_written s := by
      simp [first_written, hc0, hr0, hlt, hr1]
    refine { nreal := hinv.nreal, eps := hinv.eps, size := hinv.size, pairs := ?_ }
    refine idxPair_set (idxPair_mono hinv.pairs (noDupRel_mono cfg (fun x hx => ?_))) 0 r1 ?_
    · simp at hx
    · intro k x _ _ _
      exact ⟨fun _ => Or.inl hmem, fun _ => Or.inr hmem⟩
  · simp only [Option.pure_def, Option.some.injEq] at h
    subst h
    exact { nreal := hinv.nreal, eps := hinv.eps, size := hinv.size,
            pairs := idxPair_mono hinv.pairs (noDupRel_mono cfg (fun x hx => by simp at hx)) }

theorem update_loop_size_zero (s : SSType) (cands : List individual)
    (h : s.ref_set_size = 0) : update_loop s cands = none := by
  cases cands with
  | nil => rfl
  | cons c rest => simp [update_loop, h]

/-- C4 (amended): if no two distinct reference members are duplicates before the
call and `update_ref_set` returns, then every two distinct reference members
that are duplicates of each other after the call include a member written by
the duplicate-replacement branch or the member written by the opening copy
of the best candidate over the best reference member. -/
theorem update_ref_set_duplicates (ssParams s1 : SSType)
    (hnodup : ∀ i j a b, i < ssParams.ref_set_size → j < ssParams.ref_set_size → i ≠ j →
      ssParams.ref_set[i]? = some a → ssParams.ref_set[j]? = some b →
      is_equal ssParams a b ≠ some true)
    (h : update_ref_set ssParams = some s1) :
    ∀ i j a b, i < s1.ref_set_size → j < s1.ref_set_size → i ≠ j →
      s1.ref_set[i]? = some a → s1.ref_set[j]? = some b → is_equal s1 a b = some true →
      (a ∈ dup_installed_by_update ssParams ∨ b ∈ dup_installed_by_update ssParams) ∨
      (a ∈ first_written_by_update ssParams ∨ b ∈ first_written_by_update ssParams) := by
  have hrun := h
  simp only [update_ref_set, Option.bind_eq_bind, Option.bind_eq_some] at h
  obtain ⟨cands, hcands, r, hfirst, hloop⟩ := h
  have h0 : DupInv ssParams [] { ssParams with candidates_set := cands } := by
    refine { nreal := rfl, eps := rfl, size := rfl, pairs := ?_ }
    intro i j a b hi hj hij ha hb he
    exact absurd he (hnodup i j a b hi hj hij ha hb)
  have h1 := update_first_dupInv h0 hfirst
  have hn : ssParams.ref_set_size ≠ 0 := by
    intro hz
    rw [update_loop_size_zero r.1 _ (by rw [h1.size]; exact hz)] at hloop
    simp at hloop
  have h2 := update_loop_dupInv hn _ _ _ _ h1 hloop
  intro i j a b hi hj hij ha hb he
  rw [h2.size] at hi hj
  rw [is_equal_cfg h2.nreal h2.eps] at he
  have hmem := h2.pairs i j a b hi hj hij ha hb he
  have hE : ∀ x, x ∈ first_written { ssParams with candidates_set := cands } ++
      dup_installed r.1 (r.1.candidates_set.drop r.2) →
      x ∈ dup_installed_by_update ssParams ∨ x ∈ first_written_by_update ssParams := by
    intro x hx
    rcases List.mem_append.mp hx with hx1 | hx1
    · right
      simp only [first_written_by_update, hcands]
      exact hx1
    · left
      simp only [dup_installed_by_update, hcands, hfirst]
      exact hx1
  rcases hmem with hm | hm
  · rcases hE a hm with h3 | h3
    · exact Or.inl (Or.inl h3)
    · exact Or.inr (Or.inl h3)
  · rcases hE b hm with h3 | h3
    · exact Or.inl (Or.inr h3)
    · exact Or.inr (Or.inr h3)

theorem not_equal_of_pair (s : SSType) (x y : individual) (rest : List individual)
    (h1 : is_equal s x y = some false) :
    ∀ i j a b, i < 2 → j < 2 → i ≠ j → (x :: y :: rest)[i]? = some a →
      (x :: y :: rest)[j]? = some b → is_equal s a b ≠ some true := by
  intro i j a b hi hj hij ha hb
  have hcases : (i = 0 ∧ j = 1) ∨ (i = 1 ∧ j = 0) := by omega
  rcases hcases with ⟨e1, e2⟩ | ⟨e1, e2⟩
  · subst e1
    subst e2
    simp only [List.getElem?_cons_zero, List.getElem?_cons_succ, Option.some.injEq] at ha hb
    subst ha
    subst hb
    rw [h1]
    simp
  · subst e1
    subst e2
    simp only [List.getElem?_cons_zero, List.getElem?_cons_succ, Option.some.injEq] at ha hb
    subst ha
    subst hb
    rw [is_equal_symm, h1]
    simp

theorem dup_first_sort :
    quick_sort_set dup_first_state.candidates_set dup_first_state.candidates_set_size
      = some dup_first_state.candidates_set :=
  quick_sort_set_of_strictly_sorted _ _ (by decide) (by decide)
    (strictly_sorted_pair _ _ _ (by norm_num))

theorem dup_first_run : update_ref_set dup_first_state = some dup_first_after := by
  have hfirst : update_first
      { dup_first_state with candidates_set := dup_first_state.candidates_set }
      = some (dup_first_after, 1) := rfl
  refine update_ref_set_eval dup_first_sort hfirst ?_
  exact update_loop_stop dup_first_after { params := [3], cost := 9 } (by decide) rfl
    (by decide)

theorem update_ref_set_duplicates_witness :
    update_ref_set dup_first_state = some dup_first_after ∧
    ∀ i j a b, i < dup_first_after.ref_set_size → j < dup_first_after.ref_set_size → i ≠ j →
      dup_first_after.ref_set[i]? = some a → dup_first_after.ref_set[j]? = some b →
      is_equal dup_first_after a b = some true →
      (a ∈ dup_installed_by_update dup_first_state ∨
        b ∈ dup_installed_by_update dup_first_state) ∨
      (a ∈ first_written_by_update dup_first_state ∨
        b ∈ first_written_by_update dup_first_state) :=
  ⟨dup_first_run, update_ref_set_duplicates dup_first_state dup_first_after
    (not_equal_of_pair dup_first_state _ _ []
      (by norm_num [is_equal, euclidean_distance_sq, euclidean_distance_sum, dup_first_state]))
    dup_first_run⟩

/-- C4 (counterexample): no two reference members are duplicates before the call,
the duplicate-replacement branch writes no member during the call, and yet the
two reference members are duplicates of each other after it: the opening copy
put the best candidate, which sits on the second member, at index 0. -/
theorem update_ref_set_duplicate_from_first_copy :
    (∀ i j a b, i < dup_first_state.ref_set_size → j < dup_first_state.ref_set_size → i ≠ j →
      dup_first_state.ref_set[i]? = some a → dup_first_state.ref_set[j]? = some b →
      is_equal dup_first_state a b ≠ some true) ∧
    ∃ s1 a b, update_ref_set dup_first_state = some s1 ∧
      s1.ref_set[0]? = some a ∧ s1.ref_set[1]? = some b ∧ 1 < s1.ref_set_size ∧
      is_equal s1 a b = some true ∧
      dup_installed_by_update dup_first_state = [] ∧
      s1.n_duplicate_replaced = dup_first_state.n_duplicate_replaced := by
  refine ⟨not_equal_of_pair dup_first_state _ _ []
      (by norm_num [is_equal, euclidean_distance_sq, euclidean_distance_sum, dup_first_state]),
    dup_first_after, { params := [3], cost := 1 }, { params := [3], cost := 9 },
    dup_first_run, rfl, rfl, by decide, ?_, ?_, rfl⟩
  · norm_num [is_equal, euclidean_distance_sq, euclidean_distance_sum, dup_first_after,
      dup_first_state]
  · have hfirst : update_first
        { dup_first_state with candidates_set := dup_first_state.candidates_set }
        = some (dup_first_after, 1) := rfl
    simp only [dup_installed_by_update, dup_first_sort, hfirst]
    rfl

/-! ## `update_ref_set` returns on well-formed states -/

theorem euclidean_distance_sum_total (a b : individual) :
    ∀ n, n ≤ a.params.length → n ≤ b.params.length →
      ∃ d, euclidean_distance_sum a b n = some d ∧ 0 ≤ d := by
  intro n
  induction n with
  | zero => intro _ _; exact ⟨0, rfl, le_refl _⟩
  | succ n ih =>
    intro ha hb
    obtain ⟨d, hd, hd0⟩ := ih (by omega) (by omega)
    refine ⟨d + (a.params[n] - b.params[n]) * (a.params[n] - b.params[n]), ?_, ?_⟩
    · simp [euclidean_distance_sum, hd, List.getElem?_eq_getElem (show n < a.params.length by omega),
        List.getElem?_eq_getElem (show n < b.params.length by omega)]
    · have := mul_self_nonneg (a.params[n] - b.params[n])
      linarith

theorem is_equal_total (s : SSType) (a b : individual) (ha : s.nreal ≤ a.params.length)
    (hb : s.nreal ≤ b.params.length) : ∃ e, is_equal s a b = some e := by
  obtain ⟨d, hd, _⟩ := euclidean_distance_sum_total a b s.nreal ha hb
  simp only [is_equal, euclidean_distance_sq, hd, Option.bind_eq_bind,
    Option.some_bind, Option.pure_def]
  exact ⟨_, rfl⟩

theorem is_exist_loop_total (s : SSType) (set : List individual) (ind : individual)
    (hset : ∀ m, m ∈ set → s.nreal ≤ m.params.length) (hind : s.nreal ≤ ind.params.length) :
    ∀ n, n ≤ set.length → ∃ idx, is_exist_loop s set ind n = some idx := by
  intro n
  induction n with
  | zero => intro _; exact ⟨-1, rfl⟩
  | succ n ih =>
    intro hn
    have hlt : n < set.length := by omega
    obtain ⟨e, he⟩ := is_equal_total s set[n] ind (hset _ (List.getElem_mem _)) hind
    obtain ⟨idx, hidx⟩ := ih (by omega)
    cases e with
    | true =>
      exact ⟨(n : Int), by simp [is_exist_loop, List.getElem?_eq_getElem hlt, he]⟩
    | false =>
      exact ⟨idx, by simp [is_exist_loop, List.getElem?_eq_getElem hlt, he, hidx]⟩

theorem copy_ind_total (s : SSType) (d c : individual) (hd : s.nreal ≤ d.params.length)
    (hc : s.nreal ≤ c.params.length) :
    ∃ v, copy_ind s d c = some v ∧ v.params.length = d.params.length := by
  refine ⟨{ params := c.params.take s.nreal ++ d.params.drop s.nreal, cost := c.cost }, ?_, ?_⟩
  · simp [copy_ind, hd, hc]
  · simp only [List.length_append, List.length_take, List.length_drop]
    omega

theorem insertion_sort_loop_total :
    ∀ (j : Nat) (set : List individual), j < set.length →
      ∃ out, insertion_sort_loop set j = some out := by
  intro j
  induction j with
  | zero => intro set _; exact ⟨set, rfl⟩
  | succ j ih =>
    intro set hj
    have h1 : j + 1 < set.length := hj
    have h0 : j < set.length := by omega
    by_cases hc : set[j + 1].cost < set[j].cost
    · obtain ⟨out, hout⟩ := ih ((set.set j set[j + 1]).set (j + 1) set[j]) (by simp; omega)
      exact ⟨out, by simp [insertion_sort_loop, List.getElem?_eq_getElem h1,
        List.getElem?_eq_getElem h0, hc, wr, h0, h1, hout]⟩
    · exact ⟨set, by simp [insertion_sort_loop, List.getElem?_eq_getElem h1,
        List.getElem?_eq_getElem h0, hc]⟩

theorem replace_total {cfg s : SSType} (hinv : WfInv cfg s) (dest : Nat) (c : individual)
    (hdest : dest < s.ref_set_size) (hc : s.nreal ≤ c.params.length) :
    ∃ s1, replace s dest c = some s1 ∧ WfInv cfg s1 := by
  have hlt : dest < s.ref_set.length := by have := hinv.size_le; omega
  obtain ⟨v, hv, hvlen⟩ := copy_ind_total s s.ref_set[dest] c
    (hinv.params _ (List.getElem_mem _)) hc
  obtain ⟨out, hout⟩ := insertion_sort_loop_total (s.ref_set_size - 1)
    (s.ref_set.set dest v) (by simp; have := hinv.size_le; have := hinv.size_pos; omega)
  have hperm := insertion_sort_loop_rangePerm _ _ _ hout
  refine ⟨{ s with ref_set := out, n_ref_set_update := s.n_ref_set_update + 1 }, ?_, ?_⟩
  · simp [replace, List.getElem?_eq_getElem hlt, hv, wr, hlt, insertion_sort, hout]
  · refine { nreal := hinv.nreal, size := hinv.size, size_pos := hinv.size_pos,
             size_le := ?_, params := ?_ }
    · simp only [rangePerm_length_eq hperm, List.length_set]
      exact hinv.size_le
    · intro m hm
      have hm2 : m ∈ s.ref_set.set dest v := (rangePerm_perm hperm).mem_iff.mp hm
      rcases List.mem_or_eq_of_mem_set hm2 with h | h
      · exact hinv.params m h
      · subst h
        have := hinv.params _ (List.getElem_mem hlt)
        simp only
        omega

theorem update_step_total {cfg s : SSType} (hinv : WfInv cfg s) (c : individual)
    (hc : s.nreal ≤ c.params.length) :
    ∃ s1, update_step s c = some s1 ∧ WfInv cfg s1 := by
  obtain ⟨idx, hidx⟩ := is_exist_loop_total s s.ref_set c hinv.params hc s.ref_set_size
    hinv.size_le
  have hspec := is_exist_loop_spec s s.ref_set c s.ref_set_size idx hidx
  have hlast : s.ref_set_size - 1 < s.ref_set_size := by have := hinv.size_pos; omega
  rw [update_step_of_is_exist hidx]
  by_cases h1 : idx = -1
  · rw [if_pos h1]
    by_cases h2 : s.perform_flatzone_detection ≠ 0
    · rw [if_pos h2]
      obtain ⟨flag, m, hflag⟩ := is_in_flatzone_total s s.ref_set s.ref_set_size c
        hinv.size_le
      rw [hflag]
      simp only [Option.some_bind]
      have hinv2 : WfInv cfg { s with n_flatzone_detected := m } :=
        { nreal := hinv.nreal, size := hinv.size, size_pos := hinv.size_pos,
          size_le := hinv.size_le, params := hinv.params }
      cases flag with
      | true => exact ⟨_, rfl, hinv2⟩
      | false => exact replace_total hinv2 _ c hlast hc
    · rw [if_neg h2]
      exact replace_total hinv _ c hlast hc
  · rw [if_neg h1]
    have hinv2 : WfInv cfg { s with n_duplicates := s.n_duplicates + 1 } :=
      { nreal := hinv.nreal, size := hinv.size, size_pos := hinv.size_pos,
        size_le := hinv.size_le, params := hinv.params }
    have hidx2 : idx.toNat < s.ref_set_size := by
      rcases hspec with ⟨h3, _⟩ | ⟨k, hk, h3, _⟩
      · exact absurd h3 h1
      · subst h3
        simpa using hk
    have hlt : idx.toNat < s.ref_set.length := by have := hinv.size_le; omega
    rw [List.getElem?_eq_getElem hlt]
    simp only [Option.some_bind]
    by_cases h3 : c.cost < s.ref_set[idx.toNat].cost
    · rw [if_pos h3]
      obtain ⟨s2, hs2, hinv3⟩ := replace_total hinv2 idx.toNat c hidx2 hc
      rw [hs2]
      exact ⟨_, rfl, { nreal := hinv3.nreal, size := hinv3.size, size_pos := hinv3.size_pos,
                       size_le := hinv3.size_le, params := hinv3.params }⟩
    · rw [if_neg h3]
      exact ⟨_, rfl, hinv2⟩

theorem update_loop_total {cfg : SSType} {orig : List individual} {n : Nat}
    (hsorted : SortedR orig 0 (n - 1)) (W : individual) (hW : orig[n - 1]? = some W) :
    ∀ (cands : List individual) (s : SSType), WfInv cfg s → LeInv orig n s →
      (∀ c, c ∈ cands → s.nreal ≤ c.params.length) →
      (∃ c, c ∈ cands ∧ W.cost ≤ c.cost) → ∃ s1, update_loop s cands = some s1 := by
  intro cands
  induction cands with
  | nil =>
    intro s _ _ _ hsent
    obtain ⟨c, hc, _⟩ := hsent
    simp at hc
  | cons c rest ih =>
    intro s hwf hle hparams hsent
    have hn : s.ref_set_size ≠ 0 := by have := hwf.size_pos; omega
    have hlt : s.ref_set_size - 1 < s.ref_set.length := by
      have := hwf.size_le
      have := hwf.size_pos
      omega
    have hw := List.getElem?_eq_getElem hlt
    by_cases hcw : c.cost < (s.ref_set[s.ref_set_size - 1]).cost
    · obtain ⟨s1, hstep, hwf1⟩ := update_step_total hwf c (hparams c (List.mem_cons_self _ _))
      rw [update_loop_continue s _ hn hw hcw hstep]
      have hn2 : n ≠ 0 := by rw [← hle.size]; exact hn
      have hw2 : s.ref_set[n - 1]? = some (s.ref_set[s.ref_set_size - 1]) := by
        rw [← hle.size]
        exact hw
      have hle1 := update_step_leInv hsorted hle hn2 hw2 hcw hstep
      refine ih s1 hwf1 hle1 ?_ ?_
      · intro c2 hc2
        rw [hwf1.nreal, ← hwf.nreal]
        exact hparams c2 (List.mem_cons_of_mem _ hc2)
      · obtain ⟨c2, hc2, hcost⟩ := hsent
        rcases List.mem_cons.mp hc2 with h | h
        · subst h
          have := hle.le (n - 1) _ W (by omega) hw2 hW
          linarith
        · exact ⟨c2, h, hcost⟩
    · exact ⟨s, update_loop_stop s _ hn hw hcw⟩

theorem update_first_total {cfg s : SSType} (hinv : WfInv cfg s)
    (hcands : 1 ≤ s.candidates_set.length)
    (hparams : ∀ c, c ∈ s.candidates_set → s.nreal ≤ c.params.length) :
    ∃ r, update_first s = some r ∧ WfInv cfg r.1 ∧ r.1.candidates_set = s.candidates_set ∧
      (r.2 = 0 ∨ (r.2 = 1 ∧ ∃ c0 r0, s.candidates_set[0]? = some c0 ∧
        s.ref_set[0]? = some r0 ∧ c0.cost < r0.cost)) := by
  have h0 : 0 < s.candidates_set.length := by omega
  have hr0 : 0 < s.ref_set.length := by
    have := hinv.size_le
    have := hinv.size_pos
    omega
  have hc0 := List.getElem?_eq_getElem h0
  have hrr := List.getElem?_eq_getElem hr0
  by_cases hlt : (s.candidates_set[0]).cost < (s.ref_set[0]).cost
  · obtain ⟨v, hv, hvlen⟩ := copy_ind_total s s.ref_set[0] s.candidates_set[0]
      (hinv.params _ (List.getElem_mem _)) (hparams _ (List.getElem_mem _))
    refine ⟨({ s with ref_set := s.ref_set.set 0 v }, 1), ?_, ?_, rfl,
      Or.inr ⟨rfl, _, _, hc0, hrr, hlt⟩⟩
    · simp [update_first, hc0, hrr, hlt, hv, wr, hr0]
    · refine { nreal := hinv.nreal, size := hinv.size, size_pos := hinv.size_pos,
               size_le := by simpa using hinv.size_le, params := ?_ }
      intro m hm
      rcases List.mem_or_eq_of_mem_set hm with h | h
      · exact hinv.params m h
      · subst h
        have := hinv.params _ (List.getElem_mem hr0)
        simp only
        omega
  · exact ⟨(s, 0), by simp [update_first, hc0, hrr, hlt], hinv, rfl, Or.inl rfl⟩

theorem update_ref_set_total (s : SSType) (hwf : UpdWF s)
    (hsorted : ∀ i j a b, i ≤ j → j < s.ref_set_size →
      s.ref_set[i]? = some a → s.ref_set[j]? = some b → a.cost ≤ b.cost)
    (hsent : ∃ c, c ∈ s.candidates_set.take s.candidates_set_size ∧
      ∀ w, s.ref_set[s.ref_set_size - 1]? = some w → w.cost ≤ c.cost) :
    ∃ s1, update_ref_set s = some s1 := by
  obtain ⟨c, hc, hcW⟩ := hsent
  have hn1 : 1 ≤ s.candidates_set_size := by
    by_contra hcon
    have h0 : s.candidates_set_size = 0 := by omega
    rw [h0] at hc
    simp at hc
  obtain ⟨cands, hsort, hperm, _⟩ := quick_sort_set_rangePerm s.candidates_set
    s.candidates_set_size hn1 hwf.cand_size
  have hmem : ∀ x, x ∈ cands ↔ x ∈ s.candidates_set := fun x => (rangePerm_perm hperm).mem_iff
  have hc2 : c ∈ cands :=
    List.mem_of_mem_take ((rangePerm_take_drop _ hperm hn1).1.mem_iff.mpr hc)
  have hlastlt : s.ref_set_size - 1 < s.ref_set.length := by
    have := hwf.size_le
    have := hwf.size_pos
    omega
  have hW := List.getElem?_eq_getElem hlastlt
  have hs : SortedR s.ref_set 0 (s.ref_set_size - 1) := by
    intro i j a b _ hij hj ha hb
    exact hsorted i j a b hij (by have := hwf.size_pos; omega) ha hb
  have hwf0 : WfInv s { s with candidates_set := cands } :=
    { nreal := rfl, size := rfl, size_pos := hwf.size_pos, size_le := hwf.size_le,
      params := hwf.ref_params }
  have hle0 : LeInv s.ref_set s.ref_set_size { s with candidates_set := cands } := by
    refine { size := rfl, len := rfl, le := ?_ }
    intro k a o _ ha ho
    simp only at ha
    rw [ha] at ho
    simp only [Option.some.injEq] at ho
    subst ho
    exact le_refl _
  have hclen : 1 ≤ cands.length := by
    rw [rangePerm_length_eq hperm]
    have := hwf.cand_size
    omega
  obtain ⟨r, hfirst, hwf1, hcs, hidx⟩ := update_first_total hwf0 hclen
    (fun x hx => hwf.cand_params x ((hmem x).mp hx))
  have hle1 := update_first_leInv hle0 hfirst
  have hloop : ∃ s1, update_loop r.1 (r.1.candidates_set.drop r.2) = some s1 := by
    refine update_loop_total hs _ hW _ r.1 hwf1 hle1 ?_ ?_
    · intro x hx
      rw [hwf1.nreal]
      rw [hcs] at hx
      exact hwf.cand_params x ((hmem x).mp (List.mem_of_mem_drop hx))
    · refine ⟨c, ?_, hcW _ hW⟩
      rw [hcs]
      rcases hidx with h0 | ⟨h1, c0, r0, hc0, hr0, hlt⟩
      · rw [h0]
        simpa using hc2
      · rw [h1]
        simp only at hc0 hr0
        have hr0W : r0.cost ≤ (s.ref_set[s.ref_set_size - 1]).cost :=
          hs 0 (s.ref_set_size - 1) _ _ (le_refl _) (Nat.zero_le _) (le_refl _) hr0 hW
        have hcost := hcW _ hW
        cases hcd : cands with
        | nil =>
          rw [hcd] at hc0
          simp at hc0
        | cons x rest =>
          rw [hcd] at hc0 hc2
          simp only [List.getElem?_cons_zero, Option.some.injEq] at hc0
          subst hc0
          simp only [List.drop_one, List.tail_cons]
          rcases List.mem_cons.mp hc2 with h | h
          · subst h
            linarith
          · exact h
  obtain ⟨s1, hs1⟩ := hloop
  exact ⟨s1, update_ref_set_eval hsort hfirst hs1⟩

/-- C2: for a Reference Set that is sorted by cost before the call, every call of
`update_ref_set` that returns leaves the number of reference members and the
length of the array unchanged and, at every index, a cost that is at most the
cost stored there before the call; and the call does return when the arrays
are well formed and some candidate of the candidate set costs at least as much
as the worst reference member. -/
theorem update_ref_set_pointwise_le (ssParams : SSType)
    (hsorted : ∀ i j a b, i ≤ j → j < ssParams.ref_set_size →
      ssParams.ref_set[i]? = some a → ssParams.ref_set[j]? = some b → a.cost ≤ b.cost) :
    (∀ s1, update_ref_set ssParams = some s1 →
      s1.ref_set_size = ssParams.ref_set_size ∧
      s1.ref_set.length = ssParams.ref_set.length ∧
      ∀ i a b, i < ssParams.ref_set_size → ssParams.ref_set[i]? = some a →
        s1.ref_set[i]? = some b → b.cost ≤ a.cost) ∧
    (UpdWF ssParams →
      (∃ c, c ∈ ssParams.candidates_set.take ssParams.candidates_set_size ∧
        ∀ w, ssParams.ref_set[ssParams.ref_set_size - 1]? = some w → w.cost ≤ c.cost) →
      ∃ s1, update_ref_set ssParams = some s1) := by
  refine ⟨fun s1 h => ?_, fun hwf hsent => update_ref_set_total ssParams hwf hsorted hsent⟩
  simp only [update_ref_set, Option.bind_eq_bind, Option.bind_eq_some] at h
  obtain ⟨cands, _, r, hfirst, hloop⟩ := h
  have hs : SortedR ssParams.ref_set 0 (ssParams.ref_set_size - 1) := by
    intro i j a b _ hij hj ha hb
    by_cases hn : ssParams.ref_set_size = 0
    · have hi0 : i = j := by omega
      subst hi0
      rw [ha] at hb
      simp only [Option.some.injEq] at hb
      subst hb
      exact le_refl _
    · exact hsorted i j a b hij (by omega) ha hb
  have h0 : LeInv ssParams.ref_set ssParams.ref_set_size
      { ssParams with candidates_set := cands } := by
    refine { size := rfl, len := rfl, le := ?_ }
    intro k a o _ ha ho
    simp only at ha
    rw [ha] at ho
    simp only [Option.some.injEq] at ho
    subst ho
    exact le_refl _
  have h1 := update_first_leInv h0 hfirst
  have h2 := update_loop_leInv hs _ _ _ h1 hloop
  exact ⟨h2.size, h2.len, fun i a b hi ha hb => h2.le i b a hi hb ha⟩

theorem update_ref_set_pointwise_le_witness :
    update_ref_set worst_state = some worst_after ∧
    worst_after.ref_set_size = worst_state.ref_set_size ∧
    worst_after.ref_set.length = worst_state.ref_set.length ∧
    ∀ i a b, i < worst_state.ref_set_size → worst_state.ref_set[i]? = some a →
      worst_after.ref_set[i]? = some b → b.cost ≤ a.cost :=
  ⟨worst_run, (update_ref_set_pointwise_le worst_state
    (sorted_index_of_pairwise _ _ (by decide))).1 worst_after worst_run⟩

/-! ## The distance test and the square root -/

theorem euclidean_distance_sum_nonneg (a b : individual) :
    ∀ n d, euclidean_distance_sum a b n = some d → 0 ≤ d := by
  intro n
  induction n with
  | zero =>
    intro d h
    simp only [euclidean_distance_sum, Option.some.injEq] at h
    rw [← h]
  | succ n ih =>
    intro d h
    simp only [euclidean_distance_sum, Option.bind_eq_bind, Option.bind_eq_some,
      Option.pure_def, Option.some.injEq] at h
    obtain ⟨d0, hd0, x, _, y, _, h⟩ := h
    have := ih d0 hd0
    have := mul_self_nonneg (x - y)
    rw [← h]
    linarith

/-- The test of `is_equal`, written on the sum of squares, is the comparison
`sqrt(sum) < dist_epsilon` of the C code. -/
theorem is_equal_iff_sqrt (s : SSType) (a b : individual) (e : Bool)
    (h : is_equal s a b = some e) :
    ∃ d : ℚ, euclidean_distance_sq s a b = some d ∧ 0 ≤ d ∧
      (e = true ↔ Real.sqrt (d : ℝ) < (s.dist_epsilon : ℝ)) := by
  simp only [is_equal, Option.bind_eq_bind, Option.bind_eq_some, Option.pure_def,
    Option.some.injEq] at h
  obtain ⟨d, hd, he⟩ := h
  have hd0 : 0 ≤ d := euclidean_distance_sum_nonneg a b _ d hd
  refine ⟨d, hd, hd0, ?_⟩
  rw [← he, decide_eq_true_iff]
  constructor
  · rintro ⟨hpos, hlt⟩
    have hpos2 : (0 : ℝ) < (s.dist_epsilon : ℝ) := by exact_mod_cast hpos
    rw [Real.sqrt_lt' hpos2]
    have : (d : ℝ) < (s.dist_epsilon : ℝ) * (s.dist_epsilon : ℝ) := by exact_mod_cast hlt
    nlinarith
  · intro hlt
    have hpos2 : (0 : ℝ) < (s.dist_epsilon : ℝ) := lt_of_le_of_lt (Real.sqrt_nonneg _) hlt
    have hpos : 0 < s.dist_epsilon := by exact_mod_cast hpos2
    refine ⟨hpos, ?_⟩
    rw [Real.sqrt_lt' hpos2] at hlt
    have : (d : ℝ) < (s.dist_epsilon : ℝ) * (s.dist_epsilon : ℝ) := by nlinarith
    exact_mod_cast this

/-! ## The flat-zone scenario -/

theorem flat_state_run (c : individual) (hc : (10 : ℚ) ≤ c.cost) :
    update_ref_set (flat_state [c]) = some (flat_state [c]) := by
  have hsort : quick_sort_set (flat_state [c]).candidates_set
      (flat_state [c]).candidates_set_size = some [c] := by
    have := quick_sort_set_of_strictly_sorted [c] 1 (by decide) (by simp)
      (by intro i j x y hij hj; omega)
    exact this
  have hfirst : update_first { flat_state [c] with candidates_set := [c] }
      = some (flat_state [c], 0) := by
    have h : ¬ c.cost < (10.0 : ℚ) := by norm_num; exact hc
    simp [update_first, flat_state, h]
  refine update_ref_set_eval hsort hfirst ?_
  show update_loop (flat_state [c]) [c] = some (flat_state [c])
  exact update_loop_stop (flat_state [c]) { params := [20], cost := 10.0 }
    (by show (3 : Nat) ≠ 0; decide) rfl
    (by show ¬ c.cost < (10.0 : ℚ); norm_num; exact hc)
theorem is_in_flatzone_eval (ssParams : SSType) (set : List individual) (set_size : Nat)
    (ind : individual) (hsize : set_size ≤ set.length) :
    ∃ flag, is_in_flatzone ssParams set set_size ind =
        some (flag, { ssParams with n_flatzone_detected :=
          if flag then ssParams.n_flatzone_detected + 1 else ssParams.n_flatzone_detected }) ∧
      (flag = true ↔ ∃ i m, i < set_size ∧ set[i]? = some m ∧
        m.cost - m.cost * ssParams.fitness_epsilon < ind.cost ∧
        ind.cost < m.cost + m.cost * ssParams.fitness_epsilon) := by
  obtain ⟨flag, hrun, hiff⟩ :=
    is_in_flatzone_loop_spec ssParams set ind ssParams.n_flatzone_detected set_size 0 (by omega)
  refine ⟨flag, ?_, ?_⟩
  · simp [is_in_flatzone, hrun]
  · rw [hiff]
    constructor
    · rintro ⟨j, m, _, h2, h3, h4⟩
      exact ⟨j, m, by omega, h3, h4⟩
    · rintro ⟨j, m, h2, h3, h4⟩
      exact ⟨j, m, Nat.zero_le _, by omega, h3, h4⟩

theorem update_loop_step (ssParams : SSType) (w c : individual) (rest : List individual)
    (hsz : ssParams.ref_set_size ≠ 0)
    (hw : ssParams.ref_set[ssParams.ref_set_size - 1]? = some w) (hlt : c.cost < w.cost) :
    update_loop ssParams (c :: rest) =
      (update_step ssParams c).bind (fun s1 => update_loop s1 rest) := by
  simp only [update_loop, hsz, if_false, hw, hlt, if_true]
  cases update_step ssParams c <;> rfl

theorem flat_state_wf (cands : List individual) :
    (∀ m, m ∈ (flat_state cands).ref_set → (flat_state cands).nreal ≤ m.params.length) ∧
    (∀ i m, i < (flat_state cands).ref_set_size → (flat_state cands).ref_set[i]? = some m →
      m.cost = 10.0) := by
  constructor
  · intro m hm
    simp only [flat_state, List.mem_cons, List.mem_singleton, List.not_mem_nil, or_false] at hm
    rcases hm with h | h | h <;> subst h <;> exact Nat.le_refl 1
  · intro i m hi hm
    have hi3 : i < 3 := hi
    have : i = 0 ∨ i = 1 ∨ i = 2 := by omega
    rcases this with h | h | h <;> subst h <;>
      simp only [flat_state, List.getElem?_cons_zero, List.getElem?_cons_succ,
        Option.some.injEq] at hm <;> subst hm <;> rfl

theorem flat_state_no_duplicate (cands : List individual) (x : ℚ) :
    is_exist (flat_state cands) (flat_state cands).ref_set (flat_state cands).ref_set_size
      { params := [40], cost := x } = some (-1) := by
  norm_num [is_exist, is_exist_loop, is_equal, euclidean_distance_sq, euclidean_distance_sum,
    flat_state]

/-- C11, as amended: with all reference costs equal to 10.0 and
`fitness_epsilon = 0.05`, `is_in_flatzone` reports a candidate to be in the band
exactly when its cost lies strictly between 9.5 and 10.5, so that the
candidates of cost 10.3 and of cost 10.2 are both in the band.  When every
candidate costs 10.0 or more, `update_ref_set` examines none of them, with
flat-zone detection on as well as off: it returns, and but for the Candidate
Set being sorted the state is as it was, so that no reference member is
replaced and `n_flatzone_detected` is not raised. -/
theorem update_ref_set_flatzone_not_examined (ssParams : SSType)
    (hpos : 1 ≤ ssParams.ref_set_size) (hle : ssParams.ref_set_size ≤ ssParams.ref_set.length)
    (hcost : ∀ i m, i < ssParams.ref_set_size → ssParams.ref_set[i]? = some m → m.cost = 10.0)
    (heps : ssParams.fitness_epsilon = 0.05)
    (hcpos : 1 ≤ ssParams.candidates_set_size)
    (hcle : ssParams.candidates_set_size ≤ ssParams.candidates_set.length)
    (hcands : ∀ c, c ∈ ssParams.candidates_set.take ssParams.candidates_set_size →
      10.0 ≤ c.cost) :
    (∀ c : individual, ∃ flag,
      is_in_flatzone ssParams ssParams.ref_set ssParams.ref_set_size c =
        some (flag, { ssParams with n_flatzone_detected :=
          if flag then ssParams.n_flatzone_detected + 1 else ssParams.n_flatzone_detected }) ∧
      (flag = true ↔ 9.5 < c.cost ∧ c.cost < 10.5) ∧
      (c.cost = 10.3 ∨ c.cost = 10.2 → flag = true)) ∧
    ∃ cands, quick_sort_set ssParams.candidates_set ssParams.candidates_set_size = some cands ∧
      (cands.take ssParams.candidates_set_size).Perm
        (ssParams.candidates_set.take ssParams.candidates_set_size) ∧
      update_ref_set ssParams = some { ssParams with candidates_set := cands } := by
  have hsz : ssParams.ref_set_size ≠ 0 := by omega
  have hlt : ssParams.ref_set_size - 1 < ssParams.ref_set.length := by omega
  have hw : ssParams.ref_set[ssParams.ref_set_size - 1]? =
      some ssParams.ref_set[ssParams.ref_set_size - 1] := List.getElem?_eq_getElem hlt
  have hwc : ssParams.ref_set[ssParams.ref_set_size - 1].cost = 10.0 :=
    hcost _ _ (by omega) hw
  have h0 : ssParams.ref_set[0]? = some ssParams.ref_set[0] :=
    List.getElem?_eq_getElem (by omega)
  have h0c : ssParams.ref_set[0].cost = 10.0 := hcost _ _ (by omega) h0
  constructor
  · intro c
    obtain ⟨flag, hrun, hiff⟩ :=
      is_in_flatzone_eval ssParams ssParams.ref_set ssParams.ref_set_size c hle
    have hband : flag = true ↔ (9.5 < c.cost ∧ c.cost < 10.5) := by
      rw [hiff, heps]
      constructor
      · rintro ⟨i, m, hi, hm, h1, h2⟩
        rw [hcost i m hi hm] at h1 h2
        norm_num at h1 h2 ⊢
        exact ⟨h1, h2⟩
      · rintro ⟨h1, h2⟩
        refine ⟨ssParams.ref_set_size - 1, _, by omega, hw, ?_, ?_⟩
        · rw [hwc]; norm_num at h1 ⊢; exact h1
        · rw [hwc]; norm_num at h2 ⊢; exact h2
    refine ⟨flag, hrun, hband, ?_⟩
    intro hc
    rw [hband]
    rcases hc with hc | hc <;> rw [hc] <;> norm_num
  · obtain ⟨cands, hs1, hs2, _⟩ := quick_sort_set_rangePerm ssParams.candidates_set
      ssParams.candidates_set_size hcpos hcle
    have hperm := (rangePerm_take_drop _ hs2 hcpos).1
    have hlen : cands.length = ssParams.candidates_set.length := rangePerm_length_eq hs2
    refine ⟨cands, hs1, hperm, ?_⟩
    cases hcs : cands with
    | nil =>
      rw [hcs] at hlen
      simp only [List.length_nil] at hlen
      omega
    | cons c0 rest =>
      have hmem : c0 ∈ cands.take ssParams.candidates_set_size := by
        rw [hcs]
        obtain ⟨k, hk⟩ : ∃ k, ssParams.candidates_set_size = k + 1 := ⟨_, (Nat.sub_add_cancel hcpos).symm⟩
        rw [hk, List.take_succ_cons]
        exact List.mem_cons_self _ _
      have hc0 : (10.0 : ℚ) ≤ c0.cost := hcands c0 (hperm.mem_iff.mp hmem)
      have hfirst : update_first { ssParams with candidates_set := cands } =
          some ({ ssParams with candidates_set := cands }, 0) := by
        have hn : ¬ c0.cost < ssParams.ref_set[0].cost := by
          rw [h0c]
          exact not_lt.mpr hc0
        simp only [update_first, hcs, List.getElem?_cons_zero, h0, Option.bind_eq_bind,
          Option.some_bind, if_neg hn, Option.pure_def]
      rw [← hcs]
      refine update_ref_set_eval hs1 hfirst ?_
      show update_loop { ssParams with candidates_set := cands } (List.drop 0 cands) = _
      rw [List.drop_zero, hcs]
      exact @update_loop_stop { ssParams with candidates_set := c0 :: rest }
        ssParams.ref_set[ssParams.ref_set_size - 1] c0 rest hsz hw
        (by rw [hwc]; exact not_lt.mpr hc0)

theorem update_ref_set_flatzone_not_examined_witness :
    (∀ c : individual, ∃ flag,
      is_in_flatzone flat_pair_state flat_pair_state.ref_set flat_pair_state.ref_set_size c =
        some (flag, { flat_pair_state with n_flatzone_detected :=
          if flag then flat_pair_state.n_flatzone_detected + 1
          else flat_pair_state.n_flatzone_detected }) ∧
      (flag = true ↔ 9.5 < c.cost ∧ c.cost < 10.5) ∧
      (c.cost = 10.3 ∨ c.cost = 10.2 → flag = true)) ∧
    ∃ cands, quick_sort_set flat_pair_state.candidates_set flat_pair_state.candidates_set_size =
        some cands ∧
      (cands.take flat_pair_state.candidates_set_size).Perm
        (flat_pair_state.candidates_set.take flat_pair_state.candidates_set_size) ∧
      update_ref_set flat_pair_state = some { flat_pair_state with candidates_set := cands } :=
  update_ref_set_flatzone_not_examined flat_pair_state (by decide) (by decide)
    (flat_state_wf [{ params := [50], cost := 10.3 }, { params := [40], cost := 10.2 }]).2 rfl
    (by decide) (by decide)
    (by
      intro c hc
      simp only [flat_pair_state, flat_state, List.take_succ_cons, List.take_zero,
        List.mem_cons, List.mem_singleton, List.not_mem_nil, or_false] at hc
      rcases hc with h | h <;> subst h <;> norm_num)

/-- C11 (the scenario as stated fails): with all reference costs 10.0 and
`fitness_epsilon = 0.05`, the candidate of cost 10.3 without duplicate is inside
the band of `is_in_flatzone`, and `update_ref_set` does not replace the worst
member with it; for the candidate of cost 10.2 the call leaves
`n_flatzone_detected` as it was.  Both calls return the state unchanged. -/
theorem update_ref_set_flatzone_scenario :
    is_exist (flat_state []) (flat_state []).ref_set (flat_state []).ref_set_size
      { params := [40], cost := 10.3 } = some (-1) ∧
    (∃ s1, is_in_flatzone (flat_state []) (flat_state []).ref_set (flat_state []).ref_set_size
      { params := [40], cost := 10.3 } = some (true, s1)) ∧
    update_ref_set (flat_state [{ params := [40], cost := 10.3 }]) =
      some (flat_state [{ params := [40], cost := 10.3 }]) ∧
    is_exist (flat_state []) (flat_state []).ref_set (flat_state []).ref_set_size
      { params := [40], cost := 10.2 } = some (-1) ∧
    update_ref_set (flat_state [{ params := [40], cost := 10.2 }]) =
      some (flat_state [{ params := [40], cost := 10.2 }]) ∧
    (flat_state [{ params := [40], cost := 10.2 }]).n_flatzone_detected = 0 := by
  refine ⟨flat_state_no_duplicate [] _, ?_, flat_state_run _ (by norm_num),
    flat_state_no_duplicate [] _, flat_state_run _ (by norm_num), rfl⟩
  obtain ⟨flag, hrun, hiff⟩ := is_in_flatzone_eval (flat_state []) (flat_state []).ref_set
    (flat_state []).ref_set_size { params := [40], cost := 10.3 } (by decide)
  have hflag : flag = true := by
    rw [hiff]
    refine ⟨0, { params := [0], cost := 10.0 }, by decide, rfl, ?_, ?_⟩ <;>
      norm_num [flat_state]
  subst hflag
  exact ⟨_, hrun⟩

/-! ## Candidates with a duplicate in the Reference Set -/

/-- C12: for a candidate `c` of the update loop that has a reference member within
`dist_epsilon`, `is_exist` returns the largest index `k` of such a member; if
`c.cost < ref_set[k].cost` the step copies `c` over member `k`, runs
`insertion_sort`, and raises `n_duplicates`, `n_ref_set_update` and
`n_duplicate_replaced` by one each; otherwise it raises `n_duplicates` by one and
changes nothing else. -/
theorem update_step_duplicate (ssParams : SSType) (c : individual)
    (hpos : 1 ≤ ssParams.ref_set_size) (hle : ssParams.ref_set_size ≤ ssParams.ref_set.length)
    (hparams : ∀ m, m ∈ ssParams.ref_set → ssParams.nreal ≤ m.params.length)
    (hc : ssParams.nreal ≤ c.params.length)
    (hdup : ∃ i m, i < ssParams.ref_set_size ∧ ssParams.ref_set[i]? = some m ∧
      is_equal ssParams m c = some true) :
    ∃ (k : Nat) (d : individual), is_exist ssParams ssParams.ref_set ssParams.ref_set_size c = some (k : Int) ∧
      k < ssParams.ref_set_size ∧ ssParams.ref_set[k]? = some d ∧
      is_equal ssParams d c = some true ∧
      (∀ j m, k < j → j < ssParams.ref_set_size → ssParams.ref_set[j]? = some m →
        is_equal ssParams m c = some false) ∧
      (c.cost < d.cost → ∃ d1 ref2, copy_ind ssParams d c = some d1 ∧
        insertion_sort (ssParams.ref_set.set k d1) ssParams.ref_set_size = some ref2 ∧
        update_step ssParams c = some { ssParams with
          ref_set := ref2,
          n_duplicates := ssParams.n_duplicates + 1,
          n_ref_set_update := ssParams.n_ref_set_update + 1,
          n_duplicate_replaced := ssParams.n_duplicate_replaced + 1 }) ∧
      (¬ c.cost < d.cost → update_step ssParams c =
        some { ssParams with n_duplicates := ssParams.n_duplicates + 1 }) := by
  obtain ⟨idx, hidx⟩ := is_exist_loop_total ssParams ssParams.ref_set c hparams hc
    ssParams.ref_set_size hle
  rcases is_exist_loop_spec ssParams ssParams.ref_set c ssParams.ref_set_size idx hidx with
    ⟨_, hall⟩ | ⟨k, hk, hidxk, ⟨d, hd, hdeq⟩, hafter⟩
  · obtain ⟨i, m, hi, hm, he⟩ := hdup
    obtain ⟨m2, hm2, he2⟩ := hall i hi
    rw [hm] at hm2
    simp only [Option.some.injEq] at hm2
    subst hm2
    rw [he] at he2
    simp at he2
  · subst hidxk
    have hne : ((k : Nat) : Int) ≠ -1 := by omega
    have hstep := update_step_of_is_exist hidx
    rw [if_neg hne, Int.toNat_ofNat, hd] at hstep
    simp only [Option.some_bind] at hstep
    refine ⟨k, d, hidx, hk, hd, hdeq, ?_, ?_, ?_⟩
    · intro j m hj1 hj2 hm
      obtain ⟨m2, hm2, he2⟩ := hafter j hj1 hj2
      rw [hm] at hm2
      simp only [Option.some.injEq] at hm2
      subst hm2
      exact he2
    · intro hlt
      have hinv : WfInv ssParams { ssParams with n_duplicates := ssParams.n_duplicates + 1 } :=
        { nreal := rfl, size := rfl, size_pos := hpos, size_le := hle, params := hparams }
      obtain ⟨s2, hs2, _⟩ := replace_total hinv k c hk hc
      obtain ⟨d0, d1, ref2, hd0, hd1, hsort, hs⟩ := replace_eq_some hs2
      have hd0b : ssParams.ref_set[k]? = some d0 := hd0
      rw [hd] at hd0b
      simp only [Option.some.injEq] at hd0b
      subst hd0b
      refine ⟨d1, ref2, hd1, hsort, ?_⟩
      rw [hstep, if_pos hlt, hs2, hs]
      rfl
    · intro hlt
      rw [hstep, if_neg hlt]

theorem update_step_duplicate_witness :
    update_step dup_pair_state { params := [3], cost := 4 } =
      some { dup_pair_state with
        ref_set := [{ params := [3], cost := 4 }, { params := [0], cost := 5 }],
        n_duplicates := 1, n_ref_set_update := 1, n_duplicate_replaced := 1 } := by
  have hex : ∃ i m, i < dup_pair_state.ref_set_size ∧ dup_pair_state.ref_set[i]? = some m ∧
      is_equal dup_pair_state m { params := [3], cost := 4 } = some true :=
    ⟨1, { params := [3], cost := 9 }, by decide, rfl, by
      norm_num [is_equal, euclidean_distance_sq, euclidean_distance_sum, dup_pair_state]⟩
  obtain ⟨k, d, hk, _, hd, _, _, hyes, _⟩ :=
    update_step_duplicate dup_pair_state { params := [3], cost := 4 } (by decide) (by decide)
      (by decide) (by decide) hex
  have hidx : is_exist dup_pair_state dup_pair_state.ref_set dup_pair_state.ref_set_size
      { params := [3], cost := 4 } = some 1 := by
    norm_num [is_exist, is_exist_loop, is_equal, euclidean_distance_sq, euclidean_distance_sum,
      dup_pair_state]
  rw [hidx] at hk
  have hk1 : k = 1 := by
    simp only [Option.some.injEq] at hk
    omega
  subst hk1
  have hd9 : d = { params := [3], cost := 9 } := by
    have h : dup_pair_state.ref_set[1]? = some { params := [3], cost := 9 } := rfl
    rw [h] at hd
    simp only [Option.some.injEq] at hd
    exact hd.symm
  subst hd9
  obtain ⟨d1, ref2, hd1, hsort, hrun⟩ := hyes (by norm_num)
  have e1 : d1 = { params := [3], cost := 4 } := by
    have h : copy_ind dup_pair_state { params := [3], cost := 9 } { params := [3], cost := 4 }
      = some { params := [3], cost := 4 } := rfl
    rw [h] at hd1
    simp only [Option.some.injEq] at hd1
    exact hd1.symm
  subst e1
  have e2 : ref2 = [{ params := [3], cost := 4 }, { params := [0], cost := 5 }] := by
    have h : insertion_sort (dup_pair_state.ref_set.set 1 { params := [3], cost := 4 })
        dup_pair_state.ref_set_size =
        some [{ params := [3], cost := 4 }, { params := [0], cost := 5 }] := by
      norm_num [insertion_sort, insertion_sort_loop, dup_pair_state, wr]
    rw [h] at hsort
    simp only [Option.some.injEq] at hsort
    exact hsort.symm
  subst e2
  exact hrun

/-! ## Stochastic hill climbing -/

theorem closest_member_loop_spec (s : SSType) (set : List individual) (ind : individual)
    (ii n : Nat)
    (hset : ∀ t, t < n → ∃ ct dt, set[t]? = some ct ∧ euclidean_distance_sq s ind ct = some dt) :
    ∀ cnt i mn mi, i + cnt = n → mi < n → mi ≠ ii →
      (∃ cm, set[mi]? = some cm ∧ euclidean_distance_sq s ind cm = some mn) →
      (∀ t ct dt, t < i → t ≠ ii → set[t]? = some ct →
        euclidean_distance_sq s ind ct = some dt → mn ≤ dt) →
      ∃ j cj dj, closest_member_loop s set ind ii cnt i mn mi = some j ∧ j < n ∧ j ≠ ii ∧
        set[j]? = some cj ∧ euclidean_distance_sq s ind cj = some dj ∧ dj ≤ mn ∧
        ∀ t ct dt, t < n → t ≠ ii → set[t]? = some ct →
          euclidean_distance_sq s ind ct = some dt → dj ≤ dt := by
  intro cnt
  induction cnt with
  | zero =>
    intro i mn mi hi hmi hne hcm hmin
    obtain ⟨cm, hcm1, hcm2⟩ := hcm
    refine ⟨mi, cm, mn, rfl, hmi, hne, hcm1, hcm2, le_refl _, ?_⟩
    intro t ct dt ht htne hct hdt
    exact hmin t ct dt (by omega) htne hct hdt
  | succ cnt ih =>
    intro i mn mi hi hmi hne hcm hmin
    by_cases hii : i = ii
    · have hstep : closest_member_loop s set ind ii (cnt + 1) i mn mi =
          closest_member_loop s set ind ii cnt (i + 1) mn mi := by
        simp only [closest_member_loop, hii, ne_eq, not_true_eq_false, if_false]
      rw [hstep]
      refine ih (i + 1) mn mi (by omega) hmi hne hcm ?_
      intro t ct dt ht htne hct hdt
      by_cases hti : t = i
      · exact absurd (hti.trans hii) htne
      · exact hmin t ct dt (by omega) htne hct hdt
    · obtain ⟨ci, di, hci, hdi⟩ := hset i (by omega)
      by_cases hlt : di < mn
      · have hstep : closest_member_loop s set ind ii (cnt + 1) i mn mi =
            closest_member_loop s set ind ii cnt (i + 1) di i := by
          simp only [closest_member_loop, ne_eq, hii, not_false_eq_true, if_true, hci, hdi, hlt]
        rw [hstep]
        obtain ⟨j, cj, dj, h1, h2, h3, h4, h5, h6, h7⟩ :=
          ih (i + 1) di i (by omega) (by omega) hii ⟨ci, hci, hdi⟩ (by
            intro t ct dt ht htne hct hdt
            by_cases hti : t = i
            · subst hti
              rw [hci] at hct
              simp only [Option.some.injEq] at hct
              subst hct
              rw [hdi] at hdt
              simp only [Option.some.injEq] at hdt
              subst hdt
              exact le_refl _
            · exact le_trans (le_of_lt hlt) (hmin t ct dt (by omega) htne hct hdt))
        exact ⟨j, cj, dj, h1, h2, h3, h4, h5, le_trans h6 (le_of_lt hlt), h7⟩
      · have hstep : closest_member_loop s set ind ii (cnt + 1) i mn mi =
            closest_member_loop s set ind ii cnt (i + 1) mn mi := by
          simp only [closest_member_loop, ne_eq, hii, not_false_eq_true, if_true, hci, hdi, hlt,
            if_false]
        rw [hstep]
        refine ih (i + 1) mn mi (by omega) hmi hne hcm ?_
        intro t ct dt ht htne hct hdt
        by_cases hti : t = i
        · subst hti
          rw [hci] at hct
          simp only [Option.some.injEq] at hct
          subst hct
          rw [hdi] at hdt
          simp only [Option.some.injEq] at hdt
          subst hdt
          exact not_lt.mp hlt
        · exact hmin t ct dt (by omega) htne hct hdt

theorem closest_member_spec (s : SSType) (set : List individual) (ind : individual)
    (ii n : Nat) (hn : 2 ≤ n) (hii : ii < n)
    (hset : ∀ t, t < n → ∃ ct dt, set[t]? = some ct ∧ euclidean_distance_sq s ind ct = some dt) :
    ∃ j cj dj, closest_member s set n ind ii = some j ∧ j < n ∧ j ≠ ii ∧
      set[j]? = some cj ∧ euclidean_distance_sq s ind cj = some dj ∧
      ∀ t ct dt, t < n → t ≠ ii → set[t]? = some ct →
        euclidean_distance_sq s ind ct = some dt → dj ≤ dt := by
  have hstart : ∃ start, start < n ∧ start ≠ ii ∧
      (if ii + 1 = n then (if 2 ≤ n then some (n - 2) else none)
       else if ii = 0 then some 1 else some (ii - 1)) = some start := by
    by_cases h1 : ii + 1 = n
    · exact ⟨n - 2, by omega, by omega, by rw [if_pos h1, if_pos hn]⟩
    · by_cases h2 : ii = 0
      · exact ⟨1, by omega, by omega, by rw [if_neg h1, if_pos h2]⟩
      · exact ⟨ii - 1, by omega, by omega, by rw [if_neg h1, if_neg h2]⟩
  obtain ⟨start, hs1, hs2, hs3⟩ := hstart
  obtain ⟨cm, dm, hcm, hdm⟩ := hset start hs1
  obtain ⟨j, cj, dj, h1, h2, h3, h4, h5, _, h7⟩ :=
    closest_member_loop_spec s set ind ii n hset n 0 dm start (by omega) hs1 hs2
      ⟨cm, hcm, hdm⟩ (fun t _ _ ht => absurd ht (Nat.not_lt_zero t))
  refine ⟨j, cj, dj, ?_, h2, h3, h4, h5, h7⟩
  simp only [closest_member, hs3, Option.bind_eq_bind, Option.some_bind, hcm, hdm]
  exact h1

theorem sqrt_gt_iff (d t : ℚ) :
    (t < 0 ∨ t * t < d) ↔ Real.sqrt (d : ℝ) > (t : ℝ) := by
  by_cases ht : t < 0
  · have ht2 : (t : ℝ) < 0 := by exact_mod_cast ht
    constructor
    · intro _
      exact lt_of_lt_of_le ht2 (Real.sqrt_nonneg _)
    · intro _
      exact Or.inl ht
  · have ht2 : (0 : ℝ) ≤ (t : ℝ) := by exact_mod_cast not_lt.mp ht
    rw [gt_iff_lt, Real.lt_sqrt ht2]
    constructor
    · rintro (h | h)
      · exact absurd h ht
      · have : (t : ℝ) * (t : ℝ) < (d : ℝ) := by exact_mod_cast h
        nlinarith
    · intro h
      refine Or.inr ?_
      have : (t : ℝ) * (t : ℝ) < (d : ℝ) := by nlinarith
      exact_mod_cast this

theorem different_flags_spec (set_size i : Nat) (m : individual) (st : RefineState)
    (hn : 2 ≤ set_size) (hi : i < set_size) (hle : set_size ≤ st.set.length)
    (hpar : ∀ c, c ∈ st.set → st.ssParams.nreal ≤ c.params.length)
    (hm : st.set[i]? = some m) :
    ∃ b, different_flags set_size i m st = some b ∧
      (b = true ↔ DifferentEnough st.ssParams st.set set_size i m) := by
  have hmp : st.ssParams.nreal ≤ m.params.length := hpar m (List.getElem?_mem hm)
  have hset : ∀ t, t < set_size → ∃ ct dt, st.set[t]? = some ct ∧
      euclidean_distance_sq st.ssParams m ct = some dt := by
    intro t ht
    have hlt : t < st.set.length := by omega
    obtain ⟨d, hd, _⟩ := euclidean_distance_sum_total m st.set[t] st.ssParams.nreal hmp
      (hpar _ (List.getElem_mem _))
    exact ⟨st.set[t], d, List.getElem?_eq_getElem hlt, hd⟩
  obtain ⟨j, cj, dj, h1, _, _, h4, h5, _⟩ :=
    closest_member_spec st.ssParams st.set m i set_size hn hi hset
  refine ⟨_, by
    simp only [different_flags, h1, Option.bind_eq_bind, Option.some_bind, h4,
      has_params_different_enough, h5, Option.pure_def]; rfl, ?_⟩
  simp only [has_cost_different_enough, Bool.and_eq_true, decide_eq_true_iff]
  constructor
  · rintro ⟨ha, hb⟩
    exact ⟨j, cj, dj, h1, h4, h5, (sqrt_gt_iff dj _).mp ha, hb.symm⟩
  · rintro ⟨j2, c2, d2, e1, e2, e3, e4, e5⟩
    rw [h1] at e1
    simp only [Option.some.injEq] at e1
    subst e1
    rw [h4] at e2
    simp only [Option.some.injEq] at e2
    subst e2
    rw [h5] at e3
    simp only [Option.some.injEq] at e3
    subst e3
    exact ⟨(sqrt_gt_iff dj _).mpr e4, e5.symm⟩

theorem refine_rest_step (objective : List ℚ → ℚ)
    (nelder_mead : SSType → individual → Option (individual × SSType))
    (method : Char) (set_size : Nat) (cfg : SSType) (cnt i : Nat) (st : RefineState)
    (m : individual) (hm : st.set[i]? = some m) (bd : Bool)
    (hbd : different_flags set_size i m st = some bd) :
    refine_rest objective nelder_mead method set_size cfg (cnt + 1) i st =
      (if (cfg.filter_good_enough ≠ 0 ∧ cfg.filter_different_enough ≠ 0 ∧
            is_good_enough st.ssParams m = true ∧ bd = true) ∨
          (cfg.filter_good_enough ≠ 0 ∧ cfg.filter_different_enough = 0 ∧
            is_good_enough st.ssParams m = true) ∨
          (cfg.filter_good_enough = 0 ∧ cfg.filter_different_enough ≠ 0 ∧ bd = true)
        then refine_member objective nelder_mead method i st else some st).bind
        (fun st1 => refine_rest objective nelder_mead method set_size cfg cnt (i + 1) st1) := by
  by_cases h1 : cfg.filter_good_enough = 0 <;> by_cases h2 : cfg.filter_different_enough = 0 <;>
    cases hg : is_good_enough st.ssParams m <;> cases bd <;>
    simp [refine_rest, refine_loop_both, refine_loop_good, refine_loop_different, h1, h2, hm,
      hg, hbd]

/-- C19: `refine_set` runs the loop selected by the two filter flags
(`refine_rest`), and in that loop the member `m` at index `i`, in the state
reached when its turn comes, is handed to `refine_individual` exactly when it
passes the gate `RefineGate`: both tests with both filters on, the one test of
the only filter that is on, never with both filters off.  The closest member
used by the second test is at an index `j ≠ i` whose distance to `m` is least
among the other members. -/
theorem refine_set_gate (objective : List ℚ → ℚ)
    (nelder_mead : SSType → individual → Option (individual × SSType))
    (method : Char) (set_size : Nat) (cfg : SSType) (cnt i : Nat) (st : RefineState)
    (m : individual) (hn : 2 ≤ set_size) (hi : i < set_size)
    (hle : set_size ≤ st.set.length)
    (hpar : ∀ c, c ∈ st.set → st.ssParams.nreal ≤ c.params.length)
    (hm : st.set[i]? = some m) :
    refine_set objective nelder_mead set_size method st =
      refine_rest objective nelder_mead method set_size st.ssParams set_size 0 st ∧
    (∃ j cj dj, closest_member st.ssParams st.set set_size m i = some j ∧ j < set_size ∧
      j ≠ i ∧ st.set[j]? = some cj ∧ euclidean_distance_sq st.ssParams m cj = some dj ∧
      ∀ t ct dt, t < set_size → t ≠ i → st.set[t]? = some ct →
        euclidean_distance_sq st.ssParams m ct = some dt → dj ≤ dt) ∧
    (RefineGate cfg st set_size i m →
      refine_rest objective nelder_mead method set_size cfg (cnt + 1) i st =
        (refine_member objective nelder_mead method i st).bind
          (fun st1 => refine_rest objective nelder_mead method set_size cfg cnt (i + 1) st1)) ∧
    (¬ RefineGate cfg st set_size i m →
      refine_rest objective nelder_mead method set_size cfg (cnt + 1) i st =
        refine_rest objective nelder_mead method set_size cfg cnt (i + 1) st) ∧
    (cfg.filter_good_enough = 0 → cfg.filter_different_enough = 0 →
      ¬ RefineGate cfg st set_size i m) := by
  have hmp : st.ssParams.nreal ≤ m.params.length := hpar m (List.getElem?_mem hm)
  have hset : ∀ t, t < set_size → ∃ ct dt, st.set[t]? = some ct ∧
      euclidean_distance_sq st.ssParams m ct = some dt := by
    intro t ht
    have hlt : t < st.set.length := by omega
    obtain ⟨d, hd, _⟩ := euclidean_distance_sum_total m st.set[t] st.ssParams.nreal hmp
      (hpar _ (List.getElem_mem _))
    exact ⟨st.set[t], d, List.getElem?_eq_getElem hlt, hd⟩
  obtain ⟨bd, hbd, hbdiff⟩ := different_flags_spec set_size i m st hn hi hle hpar hm
  have hstep := refine_rest_step objective nelder_mead method set_size cfg cnt i st m hm bd hbd
  have hgood : is_good_enough st.ssParams m = true ↔ GoodEnough st.ssParams m := by
    simp only [is_good_enough, decide_eq_true_iff, GoodEnough]
  have hgate : RefineGate cfg st set_size i m ↔
      ((cfg.filter_good_enough ≠ 0 ∧ cfg.filter_different_enough ≠ 0 ∧
            is_good_enough st.ssParams m = true ∧ bd = true) ∨
          (cfg.filter_good_enough ≠ 0 ∧ cfg.filter_different_enough = 0 ∧
            is_good_enough st.ssParams m = true) ∨
          (cfg.filter_good_enough = 0 ∧ cfg.filter_different_enough ≠ 0 ∧ bd = true)) := by
    rw [hgood, hbdiff]
    rfl
  refine ⟨rfl, closest_member_spec st.ssParams st.set m i set_size hn hi hset, ?_, ?_, ?_⟩
  · intro hg
    rw [hstep, if_pos (hgate.mp hg)]
  · intro hg
    rw [hstep, if_neg (fun h => hg (hgate.mpr h))]
    rfl
  · intro h1 h2 hg
    rcases hg with ⟨h, _⟩ | ⟨h, _⟩ | ⟨_, h, _⟩
    · exact h h1
    · exact h h1
    · exact h h2

theorem refine_set_gate_witness :
    RefineGate gate_state.ssParams gate_state 3 2 { params := [5], cost := 3 } ∧
    refine_rest (fun ps => ps.sum) (fun _ _ => none) 't' 3 gate_state.ssParams 1 2 gate_state =
      (refine_member (fun ps => ps.sum) (fun _ _ => none) 't' 2 gate_state).bind
        (fun st1 => refine_rest (fun ps => ps.sum) (fun _ _ => none) 't' 3
          gate_state.ssParams 0 3 st1) := by
  have hgate : RefineGate gate_state.ssParams gate_state 3 2 { params := [5], cost := 3 } := by
    refine Or.inl ⟨by decide, by decide, ?_, 1, { params := [1], cost := 2 }, 16, ?_, rfl, ?_,
      ?_, ?_⟩
    · norm_num [GoodEnough, gate_state]
    · norm_num [closest_member, closest_member_loop, euclidean_distance_sq,
        euclidean_distance_sum, gate_state]
    · norm_num [euclidean_distance_sq, euclidean_distance_sum, gate_state]
    · exact (sqrt_gt_iff 16 2).mp (Or.inr (by norm_num))
    · norm_num [gate_state]
  refine ⟨hgate, (refine_set_gate (fun ps => ps.sum) (fun _ _ => none) 't' 3
    gate_state.ssParams 0 2 gate_state { params := [5], cost := 3 } (by decide) (by decide)
    (by decide) ?_ rfl).2.2.1 hgate⟩
  intro c hc
  simp only [gate_state, List.mem_cons, List.mem_singleton, List.not_mem_nil, or_false] at hc
  rcases hc with h | h | h <;> subst h <;> exact Nat.le_refl 1

/-! ## The Scatter Set: every parameter in its sub-region -/

theorem rndreal_between (lo hi : ℚ) (g : Nat → ℚ) (h : lo ≤ hi) (hg : UnitDraws g) :
    lo ≤ (rndreal lo hi g).1 ∧ (rndreal lo hi g).1 ≤ hi ∧ UnitDraws (rndreal lo hi g).2 := by
  obtain ⟨h0, h1⟩ := hg 0
  simp only [rndreal, RandomReal]
  have hd : 0 ≤ hi - lo := by linarith
  have hm1 : 0 ≤ (hi - lo) * g 0 := mul_nonneg hd h0
  have hm2 : (hi - lo) * g 0 ≤ hi - lo := by
    have := mul_le_mul_of_nonneg_left (le_of_lt h1) hd
    linarith
  exact ⟨by linarith, by linarith, fun n => hg (n + 1)⟩

theorem boundary_rows (p : Nat) (lo hi : ℚ) (hp : 1 ≤ p) (h : lo ≤ hi) (k : Nat) (hk : k < p) :
    ∃ a b, (min_boundary_row p lo hi)[k]? = some a ∧ (max_boundary_row p lo hi)[k]? = some b ∧
      lo ≤ a ∧ a ≤ b ∧ b ≤ hi := by
  have hp0 : (0 : ℚ) < (p : ℚ) := by exact_mod_cast hp
  have hw : 0 ≤ (hi - lo) / (p : ℚ) := div_nonneg (by linarith) (le_of_lt hp0)
  have hk0 : (0 : ℚ) ≤ (k : ℚ) := by exact_mod_cast Nat.zero_le k
  have hk1 : (k : ℚ) + 1 ≤ (p : ℚ) := by exact_mod_cast hk
  refine ⟨lo + ((hi - lo) / (p : ℚ)) * (k : ℚ), lo + ((hi - lo) / (p : ℚ)) * ((k : ℚ) + 1),
    ?_, ?_, ?_, ?_, ?_⟩
  · simp only [min_boundary_row, List.getElem?_map, List.getElem?_range hk, Option.map_some']
  · simp only [max_boundary_row, List.getElem?_map, List.getElem?_range hk, Option.map_some']
  · have := mul_nonneg hw hk0
    linarith
  · have : ((hi - lo) / (p : ℚ)) * (k : ℚ) ≤ ((hi - lo) / (p : ℚ)) * ((k : ℚ) + 1) :=
      mul_le_mul_of_nonneg_left (by linarith) hw
    linarith
  · have h1 : ((hi - lo) / (p : ℚ)) * ((k : ℚ) + 1) ≤ ((hi - lo) / (p : ℚ)) * (p : ℚ) :=
      mul_le_mul_of_nonneg_left hk1 hw
    have h2 : ((hi - lo) / (p : ℚ)) * (p : ℚ) = hi - lo := by
      field_simp
    linarith

theorem region_bounds {s : SSType} (hwf : ScatterWF s) (i k : Nat) (hi : i < s.nreal)
    (hk : k < s.p) :
    ∃ lo hi a b, s.min_real_var[i]? = some lo ∧ s.max_real_var[i]? = some hi ∧
      mat_get s.min_boundary_matrix i k = some a ∧ mat_get s.max_boundary_matrix i k = some b ∧
      lo ≤ a ∧ a ≤ b ∧ b ≤ hi := by
  obtain ⟨lo, hi2, h1, h2, h3, h4, h5⟩ := hwf.bounds i hi
  obtain ⟨a, b, e1, e2, e3, e4, e5⟩ := boundary_rows s.p lo hi2 hwf.p_pos h3 k hk
  exact ⟨lo, hi2, a, b, h1, h2, by simp [mat_get, h4, e1], by simp [mat_get, h5, e2], e3, e4, e5⟩

theorem inRegion_inBounds {s : SSType} (hwf : ScatterWF s) (k : Nat) (hk : k < s.p)
    (ps : List ℚ) (h : InRegion s k ps) : InBounds s ps := by
  intro i hi
  obtain ⟨x, a, b, hx, ha, hb, h1, h2⟩ := h i hi
  obtain ⟨lo, hi2, a2, b2, e1, e2, e3, e4, e5, e6, e7⟩ := region_bounds hwf i k hi hk
  rw [ha] at e3
  rw [hb] at e4
  simp only [Option.some.injEq] at e3 e4
  subst e3
  subst e4
  exact ⟨x, lo, hi2, hx, e1, e2, by linarith, by linarith⟩

theorem set_param_spec (set : List individual) (k i : Nat) (v : ℚ) (m : individual)
    (hm : set[k]? = some m) (hi : i < m.params.length) :
    set_param set k i v = some (set.set k { m with params := m.params.set i v }) := by
  have hk : k < set.length := (List.getElem?_eq_some.mp hm).1
  simp only [set_param, hm, Option.bind_eq_bind, Option.some_bind, wr, hi, if_true, hk]

/-- One parameter of the member `kk` is drawn in the sub-region `a` of the
dimension `n`. -/
theorem draw_in_region {s : SSType} (hwf : ScatterWF s) {len : Nat} {st : ScatterState}
    (hinv : ScatterInv s len st) (kk n a : Nat) (hkk : kk < len) (hn : n < s.nreal)
    (ha : a < s.p) :
    ∃ lo hi m set1, mat_get s.min_boundary_matrix n a = some lo ∧
      mat_get s.max_boundary_matrix n a = some hi ∧ st.set[kk]? = some m ∧
      set_param st.set kk n (rndreal lo hi st.g).1 = some set1 ∧
      set1 = st.set.set kk { m with params := m.params.set n (rndreal lo hi st.g).1 } ∧
      lo ≤ (rndreal lo hi st.g).1 ∧ (rndreal lo hi st.g).1 ≤ hi ∧
      ScatterInv s len { st with set := set1, g := (rndreal lo hi st.g).2 } := by
  obtain ⟨blo, bhi, lo, hi, _, _, e3, e4, _, e6, _⟩ := region_bounds hwf n a hn ha
  have hlt : kk < st.set.length := by rw [hinv.len]; exact hkk
  have hm : st.set[kk]? = some st.set[kk] := List.getElem?_eq_getElem hlt
  have hmp : s.nreal ≤ st.set[kk].params.length := hinv.params _ (List.getElem_mem _)
  obtain ⟨b1, b2, b3⟩ := rndreal_between lo hi st.g e6 hinv.draws
  refine ⟨lo, hi, st.set[kk], _, e3, e4, hm, set_param_spec _ _ _ _ _ hm (by omega), rfl,
    b1, b2, ?_⟩
  refine { len := ?_, params := ?_, a_lt := hinv.a_lt, freqs := hinv.freqs,
           probs := hinv.probs, draws := b3 }
  · simp only [List.length_set]
    exact hinv.len
  · intro m hm2
    rcases List.mem_or_eq_of_mem_set hm2 with h | h
    · exact hinv.params m h
    · subst h
      simp only [List.length_set]
      exact hmp

theorem uniform_member_spec {s : SSType} (hwf : ScatterWF s) {len : Nat} (k : Nat)
    (hk : k < s.p) (hkl : k < len) (st : ScatterState) (hinv : ScatterInv s len st) :
    ∀ n, n ≤ s.nreal → ∃ st1, uniform_member s k st n = some st1 ∧ ScatterInv s len st1 ∧
      (∀ k2, k2 ≠ k → st1.set[k2]? = st.set[k2]?) ∧
      ∃ m, st1.set[k]? = some m ∧ ∀ i, i < n → ∃ x lo hi, m.params[i]? = some x ∧
        mat_get s.min_boundary_matrix i k = some lo ∧
        mat_get s.max_boundary_matrix i k = some hi ∧ lo ≤ x ∧ x ≤ hi := by
  intro n
  induction n with
  | zero =>
    intro _
    have hlt : k < st.set.length := by rw [hinv.len]; exact hkl
    exact ⟨st, rfl, hinv, fun _ _ => rfl, st.set[k], List.getElem?_eq_getElem hlt,
      fun i hi => absurd hi (Nat.not_lt_zero i)⟩
  | succ n ih =>
    intro hn
    obtain ⟨st1, hrun, hinv1, hother, m, hm, hdone⟩ := ih (by omega)
    obtain ⟨lo, hi, m2, set1, e1, e2, e3, e4, e5, e6, e7, hinv2⟩ :=
      draw_in_region hwf hinv1 k n k hkl (by omega) hk
    rw [hm] at e3
    simp only [Option.some.injEq] at e3
    subst e3
    have hlt : k < st1.set.length := (List.getElem?_eq_some.mp hm).1
    have hnp : n < m.params.length := by
      have := hinv1.params m (List.getElem?_mem hm)
      omega
    refine ⟨{ st1 with set := set1, g := (rndreal lo hi st1.g).2 }, ?_, hinv2, ?_, ?_⟩
    · simp only [uniform_member, hrun, Option.bind_eq_bind, Option.some_bind, e1, e2, e4,
        Option.pure_def]
    · intro k2 hk2
      rw [← hother k2 hk2, e5]
      exact List.getElem?_set_ne (fun h => hk2 h.symm)
    · refine ⟨{ m with params := m.params.set n (rndreal lo hi st1.g).1 }, ?_, ?_⟩
      · rw [e5]
        simp only [List.getElem?_set_self hlt]
      · intro i hi2
        by_cases hin : i = n
        · subst hin
          exact ⟨_, lo, hi, by simp only [List.getElem?_set_self hnp], e1, e2, e6, e7⟩
        · obtain ⟨x, lo2, hi3, h1, h2⟩ := hdone i (by omega)
          refine ⟨x, lo2, hi3, ?_, h2⟩
          simp only [List.getElem?_set_ne (fun h => hin h.symm)]
          exact h1

theorem uniform_members_spec {s : SSType} (hwf : ScatterWF s) {len : Nat}
    (hlen : s.scatter_set_size ≤ len) (st : ScatterState) (hinv : ScatterInv s len st) :
    ∀ n, n ≤ s.p → ∃ st1, uniform_members s st n = some st1 ∧ ScatterInv s len st1 ∧
      (st1.freqs_matrix = st.freqs_matrix ∧ st1.probs_matrix = st.probs_matrix ∧
        st1.a = st.a ∧ st1.probs_sum = st.probs_sum) ∧
      ∀ k, k < n → ∃ m, st1.set[k]? = some m ∧ InRegion s k m.params := by
  intro n
  induction n with
  | zero =>
    intro _
    exact ⟨st, rfl, hinv, ⟨rfl, rfl, rfl, rfl⟩, fun k hk => absurd hk (Nat.not_lt_zero k)⟩
  | succ n ih =>
    intro hn
    obtain ⟨st1, hrun, hinv1, hsame, hdone⟩ := ih (by omega)
    have hframe : ∀ m, ∀ st2, uniform_member s n st1 m = some st2 →
        st2.freqs_matrix = st1.freqs_matrix ∧ st2.probs_matrix = st1.probs_matrix ∧
        st2.a = st1.a ∧ st2.probs_sum = st1.probs_sum := by
      intro m
      induction m with
      | zero =>
        intro st2 h
        simp only [uniform_member, Option.some.injEq] at h
        subst h
        exact ⟨rfl, rfl, rfl, rfl⟩
      | succ m ihm =>
        intro st2 h
        simp only [uniform_member, Option.bind_eq_bind, Option.bind_eq_some, Option.pure_def,
          Option.some.injEq] at h
        obtain ⟨st3, h3, lo, _, hi, _, set1, _, h4⟩ := h
        subst h4
        exact ihm st3 h3
    obtain ⟨st2, hrun2, hinv2, hother, m, hm, hreg⟩ :=
      uniform_member_spec hwf n (by omega) (by have := hwf.p_le; omega) st1 hinv1 s.nreal
        (le_refl _)
    obtain ⟨f1, f2, f3, f4⟩ := hframe _ _ hrun2
    refine ⟨st2, ?_, hinv2, ⟨f1.trans hsame.1, f2.trans hsame.2.1, f3.trans hsame.2.2.1,
      f4.trans hsame.2.2.2⟩, ?_⟩
    · simp only [uniform_members, hrun, Option.bind_eq_bind, Option.some_bind, hrun2]
    · intro k hk
      by_cases hkn : k = n
      · subst hkn
        exact ⟨m, hm, hreg⟩
      · obtain ⟨m2, hm2, hreg2⟩ := hdone k (by omega)
        exact ⟨m2, by rw [hother k hkn]; exact hm2, hreg2⟩

theorem mat_set_spec {α : Type} (M : List (List α)) (i j : Nat) (v : α) (row : List α)
    (hrow : M[i]? = some row) (hj : j < row.length) :
    mat_set M i j v = some (M.set i (row.set j v)) := by
  have hi : i < M.length := (List.getElem?_eq_some.mp hrow).1
  simp only [mat_set, hrow, Option.some_bind, wr, hj, if_true, hi]

theorem f_col_prob_loop_total (freqs : List (List Int)) (i : Nat) (row : List Int)
    (hrow : freqs[i]? = some row) (hpos : ∀ f, f ∈ row → 1 ≤ f) :
    ∀ n, n ≤ row.length → ∃ v, f_col_prob_loop freqs i n = some v ∧ 0 ≤ v := by
  intro n
  induction n with
  | zero => intro _; exact ⟨0, rfl, le_refl _⟩
  | succ n ih =>
    intro hn
    obtain ⟨v, hv, hv0⟩ := ih (by omega)
    have hlt : n < row.length := by omega
    have hf : 1 ≤ row[n] := hpos _ (List.getElem_mem _)
    have hne : row[n] ≠ 0 := by omega
    refine ⟨v + 1 / (row[n] : ℚ), ?_, ?_⟩
    · simp only [f_col_prob_loop, hv, Option.bind_eq_bind, Option.some_bind, mat_get, hrow,
        List.getElem?_eq_getElem hlt, hne, if_false, Option.pure_def]
    · have h1 : (0 : ℚ) < (row[n] : ℚ) := by exact_mod_cast (show (0 : Int) < row[n] by omega)
      have := div_nonneg (zero_le_one (α := ℚ)) (le_of_lt h1)
      linarith

theorem select_region_spec {s : SSType} {len : Nat} (i : Nat) (hi : i < s.nreal) (rnd : ℚ) :
    ∀ cnt j (st : ScatterState), j + cnt ≤ s.p → ScatterInv s len st →
      ∃ st1, select_region s i rnd cnt j st = some st1 ∧ ScatterInv s len st1 ∧
        st1.set = st.set ∧ st1.g = st.g := by
  intro cnt
  induction cnt with
  | zero =>
    intro j st _ hinv
    exact ⟨st, rfl, hinv, rfl, rfl⟩
  | succ cnt ih =>
    intro j st hj hinv
    obtain ⟨prow, hprow, hplen⟩ := hinv.probs i hi
    obtain ⟨frow, hfrow, hflen, hfpos⟩ := hinv.freqs i hi
    have hjp : j < prow.length := by omega
    have hjf : j < frow.length := by omega
    have hpj : mat_get st.probs_matrix i j = some prow[j] := by
      simp only [mat_get, hprow, Option.some_bind, List.getElem?_eq_getElem hjp]
    by_cases hc : rnd ≤ st.probs_sum + prow[j]
    · have hfj : mat_get st.freqs_matrix i j = some frow[j] := by
        simp only [mat_get, hfrow, Option.some_bind, List.getElem?_eq_getElem hjf]
      have hil : i < st.freqs_matrix.length := (List.getElem?_eq_some.mp hfrow).1
      have hilp : i < st.probs_matrix.length := (List.getElem?_eq_some.mp hprow).1
      have hrow1 : (st.freqs_matrix.set i (frow.set j (frow[j] + 1)))[i]? =
          some (frow.set j (frow[j] + 1)) := by
        simp only [List.getElem?_set_self hil]
      have hpos1 : ∀ f, f ∈ frow.set j (frow[j] + 1) → 1 ≤ f := by
        intro f hf
        rcases List.mem_or_eq_of_mem_set hf with h | h
        · exact hfpos f h
        · have := hfpos frow[j] (List.getElem_mem _)
          omega
      obtain ⟨v, hv, _⟩ := f_col_prob_loop_total _ i _ hrow1 hpos1 s.p
        (by simp only [List.length_set]; omega)
      have hfa : mat_get (st.freqs_matrix.set i (frow.set j (frow[j] + 1))) i j =
          some (frow[j] + 1) := by
        simp only [mat_get, hrow1, Option.some_bind, List.getElem?_set_self hjf]
      have hne : frow[j] + 1 ≠ 0 := by
        have := hfpos frow[j] (List.getElem_mem _)
        omega
      refine ⟨{ st with a := j, freqs_matrix := st.freqs_matrix.set i (frow.set j (frow[j] + 1)),
                        probs_matrix := st.probs_matrix.set i
                          (prow.set j ((1 / ((frow[j] + 1 : Int) : ℚ)) / v)),
                        probs_sum := 0 }, ?_, ?_, rfl, rfl⟩
      · simp only [select_region, hpj, Option.bind_eq_bind, Option.some_bind, hc, if_true, hfj,
          mat_set_spec _ i j _ frow hfrow hjf, hv, hfa, hne, if_false,
          mat_set_spec _ i j _ prow hprow hjp, Option.pure_def]
      · refine { len := hinv.len, params := hinv.params, a_lt := by simp only; omega,
                 freqs := ?_, probs := ?_, draws := hinv.draws }
        · intro i2 hi2
          by_cases h : i2 = i
          · subst h
            exact ⟨_, hrow1, by simp only [List.length_set]; exact hflen, hpos1⟩
          · simp only [List.getElem?_set_ne (fun e => h e.symm)]
            exact hinv.freqs i2 hi2
        · intro i2 hi2
          by_cases h : i2 = i
          · subst h
            exact ⟨_, List.getElem?_set_self hilp,
              by simp only [List.length_set]; exact hplen⟩
          · simp only [List.getElem?_set_ne (fun e => h e.symm)]
            exact hinv.probs i2 hi2
    · have hinv2 : ScatterInv s len { st with probs_sum := st.probs_sum + prow[j] } :=
        { len := hinv.len, params := hinv.params, a_lt := hinv.a_lt, freqs := hinv.freqs,
          probs := hinv.probs, draws := hinv.draws }
      obtain ⟨st1, hrun, hinv1, h1, h2⟩ := ih (j + 1) _ (by omega) hinv2
      refine ⟨st1, ?_, hinv1, h1, h2⟩
      simp only [select_region, hpj, Option.bind_eq_bind, Option.some_bind, hc, if_false]
      exact hrun

theorem biased_member_spec {s : SSType} (hwf : ScatterWF s) {len : Nat} (k : Nat)
    (hkl : s.p + k < len) (st : ScatterState) (hinv : ScatterInv s len st) :
    ∀ n, n ≤ s.nreal → ∃ st1, biased_member s k st n = some st1 ∧ ScatterInv s len st1 ∧
      (∀ k2, k2 ≠ s.p + k → st1.set[k2]? = st.set[k2]?) ∧
      ∃ m, st1.set[s.p + k]? = some m ∧ ∀ i, i < n → ∃ x lo hi, m.params[i]? = some x ∧
        s.min_real_var[i]? = some lo ∧ s.max_real_var[i]? = some hi ∧ lo ≤ x ∧ x ≤ hi := by
  intro n
  induction n with
  | zero =>
    intro _
    have hlt : s.p + k < st.set.length := by rw [hinv.len]; exact hkl
    exact ⟨st, rfl, hinv, fun _ _ => rfl, st.set[s.p + k], List.getElem?_eq_getElem hlt,
      fun i hi => absurd hi (Nat.not_lt_zero i)⟩
  | succ n ih =>
    intro hn
    obtain ⟨st1, hrun, hinv1, hother, m, hm, hdone⟩ := ih (by omega)
    have hinv1b : ScatterInv s len { st1 with g := (rndreal 0 1 st1.g).2 } :=
      { len := hinv1.len, params := hinv1.params, a_lt := hinv1.a_lt, freqs := hinv1.freqs,
        probs := hinv1.probs,
        draws := (rndreal_between 0 1 st1.g zero_le_one hinv1.draws).2.2 }
    obtain ⟨st2, hsel, hinv2, hset2, _⟩ :=
      @select_region_spec s len n (by omega) (rndreal 0 1 st1.g).1 s.p 0
        { st1 with g := (rndreal 0 1 st1.g).2 } (by omega) hinv1b
    obtain ⟨lo, hi, m2, set1, e1, e2, e3, e4, e5, e6, e7, hinv3⟩ :=
      draw_in_region hwf hinv2 (s.p + k) n st2.a hkl (by omega) hinv2.a_lt
    have hset2b : st2.set = st1.set := hset2
    rw [hset2b, hm] at e3
    simp only [Option.some.injEq] at e3
    subst e3
    have hlt : s.p + k < st1.set.length := (List.getElem?_eq_some.mp hm).1
    have hnp : n < m.params.length := by
      have := hinv1.params m (List.getElem?_mem hm)
      omega
    obtain ⟨blo, bhi, a2, b2, g1, g2, g3, g4, g5, _, g7⟩ :=
      region_bounds hwf n st2.a (by omega) hinv2.a_lt
    rw [e1] at g3
    rw [e2] at g4
    simp only [Option.some.injEq] at g3 g4
    subst g3
    subst g4
    refine ⟨{ st2 with set := set1, g := (rndreal lo hi st2.g).2 }, ?_, hinv3, ?_, ?_⟩
    · simp only [biased_member, hrun, Option.bind_eq_bind, Option.some_bind, hsel, e1, e2, e4,
        Option.pure_def]
    · intro k2 hk2
      rw [← hother k2 hk2, e5, hset2b]
      exact List.getElem?_set_ne (fun h => hk2 h.symm)
    · refine ⟨{ m with params := m.params.set n (rndreal lo hi st2.g).1 }, ?_, ?_⟩
      · rw [e5, hset2b]
        simp only [List.getElem?_set_self hlt]
      · intro i hi2
        by_cases hin : i = n
        · subst hin
          exact ⟨_, blo, bhi, List.getElem?_set_self hnp, g1, g2,
            by linarith, by linarith⟩
        · obtain ⟨x, lo2, hi3, h1, h2⟩ := hdone i (by omega)
          refine ⟨x, lo2, hi3, ?_, h2⟩
          simp only [List.getElem?_set_ne (fun h => hin h.symm)]
          exact h1

theorem biased_members_spec {s : SSType} (hwf : ScatterWF s) {len : Nat}
    (hlen : s.scatter_set_size ≤ len) (st : ScatterState) (hinv : ScatterInv s len st) :
    ∀ n, s.p + n ≤ s.scatter_set_size → ∃ st1, biased_members s st n = some st1 ∧
      ScatterInv s len st1 ∧ (∀ k2, k2 < s.p → st1.set[k2]? = st.set[k2]?) ∧
      ∀ k, k < n → ∃ m, st1.set[s.p + k]? = some m ∧ InBounds s m.params := by
  intro n
  induction n with
  | zero =>
    intro _
    exact ⟨st, rfl, hinv, fun _ _ => rfl, fun k hk => absurd hk (Nat.not_lt_zero k)⟩
  | succ n ih =>
    intro hn
    obtain ⟨st1, hrun, hinv1, hlow, hdone⟩ := ih (by omega)
    obtain ⟨st2, hrun2, hinv2, hother, m, hm, hb⟩ :=
      biased_member_spec hwf n (by omega) st1 hinv1 s.nreal (le_refl _)
    refine ⟨st2, ?_, hinv2, ?_, ?_⟩
    · simp only [biased_members, hrun, Option.bind_eq_bind, Option.some_bind, hrun2]
    · intro k2 hk2
      rw [hother k2 (by omega)]
      exact hlow k2 hk2
    · intro k hk
      by_cases hkn : k = n
      · subst hkn
        exact ⟨m, hm, hb⟩
      · obtain ⟨m2, hm2, hb2⟩ := hdone k (by omega)
        exact ⟨m2, by rw [hother (s.p + k) (by omega)]; exact hm2, hb2⟩

/-- C15: on a grid as `init_ssParams` builds it (bounds with `min ≤ max`,
`1 ≤ p ≤ scatter_set_size`) and with draws in `[0, 1)`, `init_scatter_set`
returns; parameter `i` of member `k` lies between `min_boundary_matrix[i][k]`
and `max_boundary_matrix[i][k]` for every `k < p`, and every parameter of each
of the `scatter_set_size` members lies between `min_real_var[i]` and
`max_real_var[i]`. -/
theorem init_scatter_set_in_regions (ssParams : SSType) (set : List individual) (g : Nat → ℚ)
    (hwf : ScatterWF ssParams) (hset : ssParams.scatter_set_size ≤ set.length)
    (hpar : ∀ m, m ∈ set → ssParams.nreal ≤ m.params.length) (hg : UnitDraws g) :
    ∃ r, init_scatter_set ssParams set g = some r ∧
      (∀ k, k < ssParams.p → ∃ m, r.1[k]? = some m ∧ InRegion ssParams k m.params) ∧
      (∀ k, k < ssParams.scatter_set_size → ∃ m, r.1[k]? = some m ∧
        InBounds ssParams m.params) := by
  have hinv0 : ScatterInv ssParams set.length
      { set := set, freqs_matrix := ssParams.freqs_matrix,
        probs_matrix := ssParams.probs_matrix, a := 0, probs_sum := 0, g := g } :=
    { len := rfl, params := hpar, a_lt := hwf.p_pos, freqs := hwf.freqs, probs := hwf.probs,
      draws := hg }
  obtain ⟨st1, hrun1, hinv1, _, hreg⟩ :=
    uniform_members_spec hwf hset _ hinv0 ssParams.p (le_refl _)
  obtain ⟨st2, hrun2, _, hlow, hb⟩ :=
    biased_members_spec hwf hset st1 hinv1 (ssParams.scatter_set_size - ssParams.p)
      (by have := hwf.p_le; omega)
  have hregion : ∀ k, k < ssParams.p → ∃ m, st2.set[k]? = some m ∧
      InRegion ssParams k m.params := by
    intro k hk
    obtain ⟨m, hm, hr⟩ := hreg k hk
    exact ⟨m, by rw [hlow k hk]; exact hm, hr⟩
  refine ⟨(st2.set, { ssParams with freqs_matrix := st2.freqs_matrix,
                                    probs_matrix := st2.probs_matrix }, st2.g), by
    simp only [init_scatter_set, hrun1, Option.bind_eq_bind, Option.some_bind, hrun2,
      Option.pure_def], hregion, ?_⟩
  intro k hk
  by_cases hkp : k < ssParams.p
  · obtain ⟨m, hm, hr⟩ := hregion k hkp
    exact ⟨m, hm, inRegion_inBounds hwf k hkp m.params hr⟩
  · obtain ⟨m, hm, hr⟩ := hb (k - ssParams.p) (by omega)
    have e : ssParams.p + (k - ssParams.p) = k := by omega
    rw [e] at hm
    exact ⟨m, hm, hr⟩

theorem init_ssParams_wf (cfg : SSType)
    (hb : ∀ i, i < cfg.nreal → ∃ lo hi, cfg.min_real_var[i]? = some lo ∧
      cfg.max_real_var[i]? = some hi ∧ lo ≤ hi)
    (hp : 1 ≤ cfg.p) (hps : cfg.p ≤ cfg.scatter_set_size) :
    ∃ s, init_ssParams cfg = some s ∧ ScatterWF s ∧
      s.scatter_set_size ≤ s.scatter_set.length ∧
      (∀ m, m ∈ s.scatter_set → s.nreal ≤ m.params.length) := by
  have hlen : cfg.nreal ≤ cfg.min_real_var.length ∧ cfg.nreal ≤ cfg.max_real_var.length := by
    by_cases h0 : cfg.nreal = 0
    · omega
    · obtain ⟨lo, hi, h1, h2, _⟩ := hb (cfg.nreal - 1) (by omega)
      have := (List.getElem?_eq_some.mp h1).1
      have := (List.getElem?_eq_some.mp h2).1
      omega
  obtain ⟨s, hs⟩ : ∃ s, init_ssParams cfg = some s := by
    unfold init_ssParams
    rw [if_pos hlen]
    exact ⟨_, rfl⟩
  refine ⟨s, hs, ?_⟩
  unfold init_ssParams at hs
  rw [if_pos hlen] at hs
  simp only [Option.some.injEq] at hs
  subst hs
  refine ⟨?_, ?_, ?_⟩
  · refine { p_pos := hp, p_le := hps, bounds := ?_, freqs := ?_, probs := ?_ }
    · intro i hi
      have hi2 : i < cfg.nreal := hi
      obtain ⟨lo, hi3, h1, h2, h3⟩ := hb i hi2
      refine ⟨lo, hi3, h1, h2, h3, ?_, ?_⟩
      · simp only [List.getElem?_map, List.getElem?_range hi2, Option.map_some',
          List.getD_eq_getElem?_getD, h1, h2, Option.getD_some]
      · simp only [List.getElem?_map, List.getElem?_range hi2, Option.map_some',
          List.getD_eq_getElem?_getD, h1, h2, Option.getD_some]
    · intro i hi
      have hi2 : i < cfg.nreal := hi
      refine ⟨List.replicate cfg.p 1, ?_, List.length_replicate _ _, ?_⟩
      · simp only [List.getElem?_replicate, hi2, if_true]
      · intro f hf
        rw [List.eq_of_mem_replicate hf]
    · intro i hi
      have hi2 : i < cfg.nreal := hi
      exact ⟨List.replicate cfg.p (1 / (cfg.p : ℚ)),
        by simp only [List.getElem?_replicate, hi2, if_true], List.length_replicate _ _⟩
  · simp only [allocate_set_memory, List.length_replicate, le_refl]
  · intro m hm
    simp only [allocate_set_memory] at hm
    rw [List.eq_of_mem_replicate hm]
    simp only [allocate_ind_memory, List.length_replicate, le_refl]

theorem grid_state_init (size : Nat) : init_ssParams (grid_cfg size) = some (grid_state size) := by
  simp only [init_ssParams, grid_cfg, grid_state, List.length_singleton, le_refl, and_self,
    if_true, Option.some.injEq]
  norm_num [allocate_set_memory, allocate_ind_memory, min_boundary_row, max_boundary_row,
    List.range_succ, List.replicate]

theorem grid_draws_unit : UnitDraws grid_draws := by
  intro n
  unfold grid_draws
  split_ifs <;> norm_num

theorem grid_draws_values :
    grid_draws 0 = 1 / 2 ∧ grid_draws 1 = 1 / 2 ∧ grid_draws 2 = 3 / 10 ∧
    grid_draws 3 = 1 / 2 ∧ grid_draws 4 = 9 / 10 ∧ grid_draws 5 = 1 / 2 := by
  norm_num [grid_draws]

theorem grid_uniform (size : Nat) (rest : List individual) :
    uniform_members (grid_state size)
      { set := { params := [0], cost := 0 } :: { params := [0], cost := 0 } :: rest,
        freqs_matrix := [[1, 1]],
        probs_matrix := [[1 / 2, 1 / 2]], a := 0, probs_sum := 0, g := grid_draws } 2 =
    some { set := { params := [1], cost := 0 } :: { params := [3], cost := 0 } :: rest,
           freqs_matrix := [[1, 1]], probs_matrix := [[1 / 2, 1 / 2]], a := 0, probs_sum := 0,
           g := fun n => grid_draws (n + 2) } := by
  norm_num [uniform_members, uniform_member, mat_get, set_param, wr, rndreal, RandomReal,
    grid_state, grid_cfg, grid_draws_values]

theorem grid_first_biased (size : Nat) (rest : List individual) :
    biased_member (grid_state size) 0
      { set := { params := [1], cost := 0 } :: { params := [3], cost := 0 } ::
                 { params := [0], cost := 0 } :: rest,
        freqs_matrix := [[1, 1]], probs_matrix := [[1 / 2, 1 / 2]], a := 0, probs_sum := 0,
        g := fun n => grid_draws (n + 2) } 1 =
    some { set := { params := [1], cost := 0 } :: { params := [3], cost := 0 } ::
                    { params := [1], cost := 0 } :: rest,
           freqs_matrix := [[2, 1]], probs_matrix := [[1 / 3, 1 / 2]], a := 0, probs_sum := 0,
           g := fun n => grid_draws (n + 4) } := by
  norm_num [biased_member, select_region, f_col_prob_loop, mat_get, mat_set, set_param, wr,
    rndreal, RandomReal, grid_state, grid_cfg, grid_draws_values]

theorem grid_second_biased (size : Nat) (rest : List individual) :
    biased_member (grid_state size) 1
      { set := { params := [1], cost := 0 } :: { params := [3], cost := 0 } ::
                 { params := [1], cost := 0 } :: { params := [0], cost := 0 } :: rest,
        freqs_matrix := [[2, 1]], probs_matrix := [[1 / 3, 1 / 2]], a := 0, probs_sum := 0,
        g := fun n => grid_draws (n + 4) } 1 =
    some { set := { params := [1], cost := 0 } :: { params := [3], cost := 0 } ::
                    { params := [1], cost := 0 } :: { params := [1], cost := 0 } :: rest,
           freqs_matrix := [[2, 1]], probs_matrix := [[1 / 3, 1 / 2]], a := 0,
           probs_sum := 5 / 6,
           g := fun n => grid_draws (n + 6) } := by
  norm_num [biased_member, select_region, f_col_prob_loop, mat_get, mat_set, set_param, wr,
    rndreal, RandomReal, grid_state, grid_cfg, grid_draws_values]

theorem grid_run_three :
    init_scatter_set (grid_state 3) (grid_state 3).scatter_set grid_draws =
      some ([{ params := [1], cost := 0 }, { params := [3], cost := 0 },
             { params := [1], cost := 0 }],
            { grid_state 3 with freqs_matrix := [[2, 1]], probs_matrix := [[1 / 3, 1 / 2]] },
            fun n => grid_draws (n + 4)) := by
  have h1 := grid_uniform 3 [{ params := [0], cost := 0 }]
  have h2 := grid_first_biased 3 []
  have e1 : (grid_state 3).scatter_set = [{ params := [0], cost := 0 },
      { params := [0], cost := 0 }, { params := [0], cost := 0 }] := rfl
  have e2 : (grid_state 3).freqs_matrix = [[1, 1]] := rfl
  have e3 : (grid_state 3).probs_matrix = [[1 / 2, 1 / 2]] := rfl
  have e4 : (grid_state 3).p = 2 := rfl
  have e5 : (grid_state 3).scatter_set_size - (grid_state 3).p = 1 := rfl
  have e6 : (grid_state 3).nreal = 1 := rfl
  simp only [init_scatter_set, e1, e2, e3, e5, biased_members, Option.bind_eq_bind,
    Option.some_bind, Option.pure_def]
  rw [e4, h1]
  simp only [Option.some_bind, e6, h2]

theorem grid_run_four :
    init_scatter_set (grid_state 4) (grid_state 4).scatter_set grid_draws =
      some ([{ params := [1], cost := 0 }, { params := [3], cost := 0 },
             { params := [1], cost := 0 }, { params := [1], cost := 0 }],
            { grid_state 4 with freqs_matrix := [[2, 1]], probs_matrix := [[1 / 3, 1 / 2]] },
            fun n => grid_draws (n + 6)) := by
  have h1 := grid_uniform 4 [{ params := [0], cost := 0 }, { params := [0], cost := 0 }]
  have h2 := grid_first_biased 4 [{ params := [0], cost := 0 }]
  have h3 := grid_second_biased 4 []
  have e1 : (grid_state 4).scatter_set = [{ params := [0], cost := 0 },
      { params := [0], cost := 0 }, { params := [0], cost := 0 },
      { params := [0], cost := 0 }] := rfl
  have e2 : (grid_state 4).freqs_matrix = [[1, 1]] := rfl
  have e3 : (grid_state 4).probs_matrix = [[1 / 2, 1 / 2]] := rfl
  have e4 : (grid_state 4).p = 2 := rfl
  have e5 : (grid_state 4).scatter_set_size - (grid_state 4).p = 2 := rfl
  have e6 : (grid_state 4).nreal = 1 := rfl
  simp only [init_scatter_set, e1, e2, e3, e5, biased_members, Option.bind_eq_bind,
    Option.some_bind, Option.pure_def]
  rw [e4, h1]
  simp only [Option.some_bind, e6, h2, h3]

/-- C16 (evaluation at the failing input): two sub-regions, frequencies 1 and
probabilities 1/2; the one frequency-biased draw picks sub-region 0, whose
frequency becomes 2.  The row sum of `1/freqs` is then 3/2 and entry 0 is set
to `(1/2)/(3/2) = 1/3`; entry 1 keeps the value 1/2, not `(1/1)/(3/2) = 2/3`,
and the row sums to 5/6. -/
theorem init_scatter_set_probs_row_stale :
    init_ssParams (grid_cfg 3) = some (grid_state 3) ∧
    (∃ set1 g1, init_scatter_set (grid_state 3) (grid_state 3).scatter_set grid_draws =
      some (set1, { grid_state 3 with freqs_matrix := [[2, 1]],
                                      probs_matrix := [[1 / 3, 1 / 2]] }, g1)) ∧
    f_col_prob_loop [[2, 1]] 0 2 = some (3 / 2) ∧
    mat_get [[(1 / 3 : ℚ), 1 / 2]] 0 1 = some (1 / 2) ∧
    (1 / 2 : ℚ) ≠ (1 / ((1 : Int) : ℚ)) / (3 / 2) ∧
    (1 / 3 + 1 / 2 : ℚ) ≠ 1 := by
  refine ⟨grid_state_init 3, ⟨_, _, grid_run_three⟩, ?_, rfl, ?_, ?_⟩
  · norm_num [f_col_prob_loop, mat_get]
  · norm_num
  · norm_num

/-- C17 (evaluation at the failing input): after the first frequency-biased draw
the probability row is `[1/3, 1/2]`.  For the second one `r = 9/10`: the running
sums 1/3 and 5/6 stay below `r`, the selection loop ends without setting `a`,
no frequency is raised (the row stays `[2, 1]` after two draws), `probs_sum`
keeps 5/6, and the parameter of member 3 is drawn in the sub-region `a = 0`
left by the draw before. -/
theorem init_scatter_set_draw_without_region :
    init_ssParams (grid_cfg 4) = some (grid_state 4) ∧
    init_scatter_set (grid_state 4) (grid_state 4).scatter_set grid_draws =
      some ([{ params := [1], cost := 0 }, { params := [3], cost := 0 },
             { params := [1], cost := 0 }, { params := [1], cost := 0 }],
            { grid_state 4 with freqs_matrix := [[2, 1]], probs_matrix := [[1 / 3, 1 / 2]] },
            fun n => grid_draws (n + 6)) ∧
    grid_draws 4 = 9 / 10 ∧ (1 / 3 : ℚ) < 9 / 10 ∧ (1 / 3 + 1 / 2 : ℚ) < 9 / 10 ∧
    ∀ st : ScatterState, st.freqs_matrix = [[2, 1]] → st.probs_matrix = [[1 / 3, 1 / 2]] →
      st.probs_sum = 0 →
      select_region (grid_state 4) 0 (9 / 10) 2 0 st = some { st with probs_sum := 5 / 6 } := by
  refine ⟨grid_state_init 4, grid_run_four, grid_draws_values.2.2.2.2.1, by norm_num,
    by norm_num, ?_⟩
  intro st h1 h2 h3
  norm_num [select_region, mat_get, h1, h2, h3]

theorem init_scatter_set_in_regions_witness :
    init_ssParams (grid_cfg 3) = some (grid_state 3) ∧
    ∃ r, init_scatter_set (grid_state 3) (grid_state 3).scatter_set grid_draws = some r ∧
      (∀ k, k < (grid_state 3).p → ∃ m, r.1[k]? = some m ∧
        InRegion (grid_state 3) k m.params) ∧
      (∀ k, k < (grid_state 3).scatter_set_size → ∃ m, r.1[k]? = some m ∧
        InBounds (grid_state 3) m.params) := by
  obtain ⟨s, hs, hwf, hlen, hpar⟩ := init_ssParams_wf (grid_cfg 3)
    (by
      intro i hi
      have hi0 : i = 0 := by
        have : i < 1 := hi
        omega
      subst hi0
      exact ⟨0, 4, rfl, rfl, by norm_num⟩)
    (by decide) (by decide)
  rw [grid_state_init 3] at hs
  simp only [Option.some.injEq] at hs
  subst hs
  exact ⟨grid_state_init 3,
    init_scatter_set_in_regions (grid_state 3) (grid_state 3).scatter_set grid_draws hwf hlen
      hpar grid_draws_unit⟩

/-! ## Building the Reference Set -/

theorem min_loop_spec (arr : List ℚ) :
    ∀ cnt i mn idx, i + cnt ≤ arr.length → idx < i → arr[idx]? = some mn →
      (∀ t x, t < i → arr[t]? = some x → mn ≤ x) →
      (∀ t x, t < idx → arr[t]? = some x → mn < x) →
      ∃ v j, min_loop arr cnt i mn idx = some (v, j) ∧ j < i + cnt ∧ arr[j]? = some v ∧
        (∀ t x, t < i + cnt → arr[t]? = some x → v ≤ x) ∧
        (∀ t x, t < j → arr[t]? = some x → v < x) := by
  intro cnt
  induction cnt with
  | zero =>
    intro i mn idx _ hidx hmn hle hlt
    exact ⟨mn, idx, rfl, by omega, hmn, hle, hlt⟩
  | succ cnt ih =>
    intro i mn idx hlen hidx hmn hle hlt
    have hi : i < arr.length := by omega
    have hx : arr[i]? = some arr[i] := List.getElem?_eq_getElem hi
    by_cases hc : mn > arr[i]
    · obtain ⟨v, j, h1, h2, h3, h4, h5⟩ := ih (i + 1) arr[i] i (by omega) (by omega) hx
        (by
          intro t x ht htx
          by_cases hti : t = i
          · subst hti
            rw [hx] at htx
            simp only [Option.some.injEq] at htx
            subst htx
            exact le_refl _
          · exact le_trans (le_of_lt hc) (hle t x (by omega) htx))
        (by
          intro t x ht htx
          exact lt_of_lt_of_le hc (hle t x ht htx))
      refine ⟨v, j, ?_, by omega, h3, fun t x ht => h4 t x (by omega), h5⟩
      simp only [min_loop, hx, hc, if_true]
      exact h1
    · obtain ⟨v, j, h1, h2, h3, h4, h5⟩ := ih (i + 1) mn idx (by omega) (by omega) hmn
        (by
          intro t x ht htx
          by_cases hti : t = i
          · subst hti
            rw [hx] at htx
            simp only [Option.some.injEq] at htx
            subst htx
            exact not_lt.mp hc
          · exact hle t x (by omega) htx)
        hlt
      refine ⟨v, j, ?_, by omega, h3, fun t x ht => h4 t x (by omega), h5⟩
      simp only [min_loop, hx, hc, if_false]
      exact h1

theorem min_spec (arr : List ℚ) (len : Nat) (h1 : 1 ≤ len) (h2 : len ≤ arr.length) :
    ∃ v j, min arr len = some (v, j) ∧ j < len ∧ arr[j]? = some v ∧
      (∀ t x, t < len → arr[t]? = some x → v ≤ x) ∧
      (∀ t x, t < j → arr[t]? = some x → v < x) := by
  have h0 : 0 < arr.length := by omega
  have hx : arr[0]? = some arr[0] := List.getElem?_eq_getElem h0
  obtain ⟨v, j, e1, e2, e3, e4, e5⟩ := min_loop_spec arr (len - 1) 1 arr[0] 0 (by omega)
    (by omega) hx
    (by
      intro t x ht htx
      have ht0 : t = 0 := by omega
      subst ht0
      rw [hx] at htx
      simp only [Option.some.injEq] at htx
      subst htx
      exact le_refl _)
    (fun t x ht _ => absurd ht (Nat.not_lt_zero t))
  refine ⟨v, j, ?_, by omega, e3, fun t x ht => e4 t x (by omega), e5⟩
  simp only [min, hx]
  exact e1

theorem max_loop_spec (arr : List ℚ) :
    ∀ cnt i mx idx, i + cnt ≤ arr.length → idx < i → arr[idx]? = some mx →
      (∀ t x, t < i → arr[t]? = some x → x ≤ mx) →
      (∀ t x, t < idx → arr[t]? = some x → x < mx) →
      ∃ v j, max_loop arr cnt i mx idx = some (v, j) ∧ j < i + cnt ∧ arr[j]? = some v ∧
        (∀ t x, t < i + cnt → arr[t]? = some x → x ≤ v) ∧
        (∀ t x, t < j → arr[t]? = some x → x < v) := by
  intro cnt
  induction cnt with
  | zero =>
    intro i mx idx _ hidx hmx hle hlt
    exact ⟨mx, idx, rfl, by omega, hmx, hle, hlt⟩
  | succ cnt ih =>
    intro i mx idx hlen hidx hmx hle hlt
    have hi : i < arr.length := by omega
    have hx : arr[i]? = some arr[i] := List.getElem?_eq_getElem hi
    by_cases hc : mx < arr[i]
    · obtain ⟨v, j, h1, h2, h3, h4, h5⟩ := ih (i + 1) arr[i] i (by omega) (by omega) hx
        (by
          intro t x ht htx
          by_cases hti : t = i
          · subst hti
            rw [hx] at htx
            simp only [Option.some.injEq] at htx
            subst htx
            exact le_refl _
          · exact le_trans (hle t x (by omega) htx) (le_of_lt hc))
        (by
          intro t x ht htx
          exact lt_of_le_of_lt (hle t x ht htx) hc)
      refine ⟨v, j, ?_, by omega, h3, fun t x ht => h4 t x (by omega), h5⟩
      simp only [max_loop, hx, hc, if_true]
      exact h1
    · obtain ⟨v, j, h1, h2, h3, h4, h5⟩ := ih (i + 1) mx idx (by omega) (by omega) hmx
        (by
          intro t x ht htx
          by_cases hti : t = i
          · subst hti
            rw [hx] at htx
            simp only [Option.some.injEq] at htx
            subst htx
            exact not_lt.mp hc
          · exact hle t x (by omega) htx)
        hlt
      refine ⟨v, j, ?_, by omega, h3, fun t x ht => h4 t x (by omega), h5⟩
      simp only [max_loop, hx, hc, if_false]
      exact h1

theorem max_spec (arr : List ℚ) (len : Nat) (h1 : 1 ≤ len) (h2 : len ≤ arr.length) :
    ∃ v j, max arr len = some (v, j) ∧ j < len ∧ arr[j]? = some v ∧
      (∀ t x, t < len → arr[t]? = some x → x ≤ v) ∧
      (∀ t x, t < j → arr[t]? = some x → x < v) := by
  have h0 : 0 < arr.length := by omega
  have hx : arr[0]? = some arr[0] := List.getElem?_eq_getElem h0
  obtain ⟨v, j, e1, e2, e3, e4, e5⟩ := max_loop_spec arr (len - 1) 1 arr[0] 0 (by omega)
    (by omega) hx
    (by
      intro t x ht htx
      have ht0 : t = 0 := by omega
      subst ht0
      rw [hx] at htx
      simp only [Option.some.injEq] at htx
      subst htx
      exact le_refl _)
    (fun t x ht _ => absurd ht (Nat.not_lt_zero t))
  refine ⟨v, j, ?_, by omega, e3, fun t x ht => e4 t x (by omega), e5⟩
  simp only [max, hx]
  exact e1

theorem min_total (arr : List ℚ) (len : Nat) (h1 : 1 ≤ arr.length) (h2 : len ≤ arr.length) :
    ∃ r, min arr len = some r := by
  by_cases h0 : len = 0
  · subst h0
    have hx : arr[0]? = some arr[0] := List.getElem?_eq_getElem (by omega)
    exact ⟨(arr[0], 0), by simp only [min, hx, min_loop]⟩
  · obtain ⟨v, j, h, _⟩ := min_spec arr len (by omega) h2
    exact ⟨_, h⟩

theorem isCopy_of_copy_ind {s : SSType} {d c v : individual} (h : copy_ind s d c = some v) :
    IsCopy s v c ∧ v.params.length = d.params.length := by
  refine ⟨⟨copy_ind_cost h, copy_ind_params h⟩, ?_⟩
  unfold copy_ind at h
  split at h
  · simp only [Option.some.injEq] at h
    subst h
    simp only [List.length_append, List.length_take, List.length_drop]
    omega
  · simp at h

theorem delete_and_shift_loop_spec (s : SSType) :
    ∀ cnt i (set : List individual), i + cnt < set.length →
      (∀ c, c ∈ set → s.nreal ≤ c.params.length) →
      ∃ out, delete_and_shift_loop s cnt i set = some out ∧ out.length = set.length ∧
        (∀ c, c ∈ out → s.nreal ≤ c.params.length) ∧
        (∀ y, y < i → out[y]? = set[y]?) ∧
        (∀ y, i ≤ y → y < i + cnt → ∃ o c, out[y]? = some o ∧ set[y + 1]? = some c ∧
          IsCopy s o c) ∧
        (∀ y, i + cnt ≤ y → out[y]? = set[y]?) := by
  intro cnt
  induction cnt with
  | zero =>
    intro i set _ hpar
    exact ⟨set, rfl, rfl, hpar, fun _ _ => rfl, fun y h1 h2 => by omega, fun _ _ => rfl⟩
  | succ cnt ih =>
    intro i set hlen hpar
    have hi : i < set.length := by omega
    have hi1 : i + 1 < set.length := by omega
    obtain ⟨v, hv, hvlen⟩ := copy_ind_total s set[i] set[i + 1] (hpar _ (List.getElem_mem _))
      (hpar _ (List.getElem_mem _))
    have hcopy := (isCopy_of_copy_ind hv).1
    have hpar1 : ∀ c, c ∈ set.set i v → s.nreal ≤ c.params.length := by
      intro c hc
      rcases List.mem_or_eq_of_mem_set hc with h | h
      · exact hpar c h
      · subst h
        rw [hvlen]
        exact hpar _ (List.getElem_mem _)
    obtain ⟨out, h1, h2, h3, h4, h5, h6⟩ := ih (i + 1) (set.set i v)
      (by simp only [List.length_set]; omega) hpar1
    refine ⟨out, ?_, by rw [h2, List.length_set], h3, ?_, ?_, ?_⟩
    · simp only [delete_and_shift_loop, List.getElem?_eq_getElem hi,
        List.getElem?_eq_getElem hi1, Option.bind_eq_bind, Option.some_bind, hv, wr, hi, if_true]
      exact h1
    · intro y hy
      rw [h4 y (by omega), List.getElem?_set_ne (by omega)]
    · intro y hy1 hy2
      by_cases hyi : y = i
      · subst hyi
        refine ⟨v, set[y + 1], ?_, List.getElem?_eq_getElem hi1, hcopy⟩
        rw [h4 y (by omega), List.getElem?_set_self hi]
      · obtain ⟨o, c, e1, e2, e3⟩ := h5 y (by omega) (by omega)
        refine ⟨o, c, e1, ?_, e3⟩
        rw [List.getElem?_set_ne (by omega)] at e2
        exact e2
    · intro y hy
      rw [h6 y (by omega), List.getElem?_set_ne (by omega)]

theorem delete_and_shift_spec (s : SSType) (set : List individual) (size idx : Nat)
    (hsize : size ≤ set.length) (hidx : idx < size)
    (hpar : ∀ c, c ∈ set → s.nreal ≤ c.params.length) :
    ∃ out, delete_and_shift s set size idx = some out ∧ out.length = set.length ∧
      (∀ c, c ∈ out → s.nreal ≤ c.params.length) ∧
      (∀ y, y < idx → out[y]? = set[y]?) ∧
      (∀ y, idx ≤ y → y + 1 < size → ∃ o c, out[y]? = some o ∧ set[y + 1]? = some c ∧
        IsCopy s o c) ∧
      (∀ y, size - 1 ≤ y → out[y]? = set[y]?) := by
  obtain ⟨out, h1, h2, h3, h4, h5, h6⟩ :=
    delete_and_shift_loop_spec s (size - 1 - idx) idx set (by omega) hpar
  exact ⟨out, h1, h2, h3, h4, fun y a b => h5 y a (by omega), fun y a => h6 y (by omega)⟩

theorem copy_best_spec (s : SSType) (sc ref : List individual)
    (hsc : ∀ c, c ∈ sc → s.nreal ≤ c.params.length)
    (href : ∀ r, r ∈ ref → s.nreal ≤ r.params.length) :
    ∀ n, n ≤ sc.length → n ≤ ref.length →
      ∃ ref1, copy_best s sc ref n = some ref1 ∧ ref1.length = ref.length ∧
        (∀ r, r ∈ ref1 → s.nreal ≤ r.params.length) ∧
        (∀ i, i < n → ∃ r c, ref1[i]? = some r ∧ sc[i]? = some c ∧ IsCopy s r c) ∧
        (∀ i, n ≤ i → ref1[i]? = ref[i]?) := by
  intro n
  induction n with
  | zero =>
    intro _ _
    exact ⟨ref, rfl, rfl, href, fun i hi => absurd hi (Nat.not_lt_zero i), fun _ _ => rfl⟩
  | succ n ih =>
    intro h1 h2
    obtain ⟨ref1, e1, e2, e3, e4, e5⟩ := ih (by omega) (by omega)
    have hn : n < ref1.length := by omega
    have hns : n < sc.length := by omega
    obtain ⟨v, hv, hvlen⟩ := copy_ind_total s ref1[n] sc[n] (e3 _ (List.getElem_mem _))
      (hsc _ (List.getElem_mem _))
    refine ⟨ref1.set n v, ?_, by rw [List.length_set, e2], ?_, ?_, ?_⟩
    · simp only [copy_best, e1, Option.bind_eq_bind, Option.some_bind,
        List.getElem?_eq_getElem hn, List.getElem?_eq_getElem hns, hv, wr, hn, if_true]
    · intro r hr
      rcases List.mem_or_eq_of_mem_set hr with h | h
      · exact e3 r h
      · subst h
        rw [hvlen]
        exact e3 _ (List.getElem_mem _)
    · intro i hi
      by_cases hin : i = n
      · subst hin
        exact ⟨v, sc[i], List.getElem?_set_self hn, List.getElem?_eq_getElem hns,
          (isCopy_of_copy_ind hv).1⟩
      · obtain ⟨r, c, a1, a2, a3⟩ := e4 i (by omega)
        exact ⟨r, c, by rw [List.getElem?_set_ne (by omega)]; exact a1, a2, a3⟩
    · intro i hi
      rw [List.getElem?_set_ne (by omega)]
      exact e5 i (by omega)

theorem fill_dist_row_spec (s : SSType) (st : RefBuild) (i : Nat) (hinv : BuildInv s st)
    (hi1 : s.ref_set_size / 2 ≤ i) (hi2 : i < s.scatter_set_size) :
    ∀ n, n ≤ s.ref_set_size → ∃ dm row, fill_dist_row s st i n = some dm ∧
      dm.length = st.dist_matrix.length ∧ (∀ r, r ∈ dm → r.length = s.ref_set_size) ∧
      dm[i - s.ref_set_size / 2]? = some row ∧
      ∀ j, j < n → ∃ a r d, st.scatter_set[i]? = some a ∧ st.ref_set[j]? = some r ∧
        euclidean_distance_sq s a r = some d ∧ row[j]? = some d := by
  intro n
  induction n with
  | zero =>
    intro _
    have hlt : i - s.ref_set_size / 2 < st.dist_matrix.length := by
      rw [hinv.dm_rows]
      omega
    exact ⟨st.dist_matrix, st.dist_matrix[i - s.ref_set_size / 2], rfl, rfl, hinv.dm_cols,
      List.getElem?_eq_getElem hlt, fun j hj => absurd hj (Nat.not_lt_zero j)⟩
  | succ n ih =>
    intro hn
    obtain ⟨dm, row, e1, e2, e3, e4, e5⟩ := ih (by omega)
    have hil : i < st.scatter_set.length := by have := hinv.sc_len; omega
    have hnl : n < st.ref_set.length := by have := hinv.ref_len; omega
    obtain ⟨d, hd, _⟩ := euclidean_distance_sum_total st.scatter_set[i] st.ref_set[n] s.nreal
      (hinv.sc_par _ (List.getElem_mem _)) (hinv.ref_par _ (List.getElem_mem _))
    have hrl : row.length = s.ref_set_size := e3 row (List.getElem?_mem e4)
    have hnr : n < row.length := by omega
    have hrow : i - s.ref_set_size / 2 < dm.length := (List.getElem?_eq_some.mp e4).1
    refine ⟨dm.set (i - s.ref_set_size / 2) (row.set n d), row.set n d, ?_, ?_, ?_, ?_, ?_⟩
    · simp only [fill_dist_row, e1, Option.bind_eq_bind, Option.some_bind,
        List.getElem?_eq_getElem hil, List.getElem?_eq_getElem hnl, euclidean_distance_sq, hd,
        mat_set_spec dm _ n d row e4 hnr]
    · rw [List.length_set, e2]
    · intro r hr
      rcases List.mem_or_eq_of_mem_set hr with h | h
      · exact e3 r h
      · subst h
        rw [List.length_set]
        exact hrl
    · exact List.getElem?_set_self hrow
    · intro j hj
      by_cases hjn : j = n
      · subst hjn
        exact ⟨_, _, d, List.getElem?_eq_getElem hil, List.getElem?_eq_getElem hnl, hd,
          List.getElem?_set_self hnr⟩
      · obtain ⟨a, r, d2, a1, a2, a3, a4⟩ := e5 j (by omega)
        exact ⟨a, r, d2, a1, a2, a3, by rw [List.getElem?_set_ne (by omega)]; exact a4⟩

theorem pool_dists_spec (s : SSType) (k : Nat) (hk : k < s.ref_set_size) :
    ∀ cnt i (st : RefBuild), i + cnt ≤ s.scatter_set_size → s.ref_set_size / 2 ≤ i →
      BuildInv s st →
      (1 ≤ k → ∀ y, s.ref_set_size / 2 ≤ y → y < i → ∃ d,
        st.min_dists[y - s.ref_set_size / 2]? = some d ∧
        IsMinDist s st.scatter_set st.ref_set k y d) →
      ∃ st1, pool_dists s k cnt i st = some st1 ∧ BuildInv s st1 ∧
        st1.scatter_set = st.scatter_set ∧ st1.ref_set = st.ref_set ∧
        (1 ≤ k → ∀ y, s.ref_set_size / 2 ≤ y → y < i + cnt → ∃ d,
          st1.min_dists[y - s.ref_set_size / 2]? = some d ∧
          IsMinDist s st.scatter_set st.ref_set k y d) := by
  intro cnt
  induction cnt with
  | zero =>
    intro i st _ _ hinv hdone
    exact ⟨st, rfl, hinv, rfl, rfl, hdone⟩
  | succ cnt ih =>
    intro i st hlen hi hinv hdone
    obtain ⟨dm, row, e1, e2, e3, e4, e5⟩ :=
      fill_dist_row_spec s st i hinv hi (by omega) k (by omega)
    have hrl : row.length = s.ref_set_size := e3 row (List.getElem?_mem e4)
    obtain ⟨r, hr⟩ := min_total row k (by omega) (by omega)
    have hmd : i - s.ref_set_size / 2 < st.min_dists.length := by
      rw [hinv.md_len]
      omega
    have hinv1 : BuildInv s
        { st with
          dist_matrix := dm,
          min_dists := st.min_dists.set (i - s.ref_set_size / 2) r.1 } :=
      { sc_len := hinv.sc_len, sc_par := hinv.sc_par, ref_len := hinv.ref_len,
        ref_par := hinv.ref_par, dm_rows := e2.trans hinv.dm_rows,
        dm_cols := e3, md_len := (List.length_set _ _ _).trans hinv.md_len }
    obtain ⟨st1, f1, f2, f3, f4, f5⟩ := ih (i + 1) _ (by omega) (by omega) hinv1 (by
      intro hk1 y hy1 hy2
      by_cases hyi : y = i
      · subst hyi
        obtain ⟨v, j, m1, m2, m3, m4, _⟩ := min_spec row k hk1 (by omega)
        rw [hr] at m1
        simp only [Option.some.injEq] at m1
        subst m1
        refine ⟨v, List.getElem?_set_self hmd, ?_, ?_⟩
        · obtain ⟨a, r2, d, a1, a2, a3, a4⟩ := e5 j m2
          rw [m3] at a4
          simp only [Option.some.injEq] at a4
          subst a4
          exact ⟨j, a, r2, m2, a1, a2, a3⟩
        · intro j2 hj2
          obtain ⟨a, r2, d, a1, a2, a3, a4⟩ := e5 j2 hj2
          exact ⟨a, r2, d, a1, a2, a3, m4 j2 d hj2 a4⟩
      · obtain ⟨d, d1, d2⟩ := hdone hk1 y hy1 (by omega)
        refine ⟨d, ?_, d2⟩
        show (st.min_dists.set (i - s.ref_set_size / 2) r.1)[y - s.ref_set_size / 2]? = some d
        rw [List.getElem?_set_ne (by omega)]
        exact d1)
    refine ⟨st1, ?_, f2, f3, f4, fun hk1 y hy1 hy2 => f5 hk1 y hy1 (by omega)⟩
    simp only [pool_dists, e1, Option.bind_eq_bind, Option.some_bind, e4, hr, wr, hmd, if_true]
    exact f1

theorem expand_step_spec (s : SSType) (k m : Nat) (st : RefBuild) (hinv : BuildInv s st)
    (hk2 : k < s.ref_set_size)
    (hm1 : s.ref_set_size / 2 < m) (hm2 : m ≤ s.scatter_set_size) :
    ∃ st1 x, expand_step s k m st = some st1 ∧ BuildInv s st1 ∧
      s.ref_set_size / 2 ≤ x ∧ x < m ∧
      (∃ r c, st1.ref_set[k]? = some r ∧ st.scatter_set[x]? = some c ∧ IsCopy s r c) ∧
      (∀ j, j ≠ k → st1.ref_set[j]? = st.ref_set[j]?) ∧
      (1 ≤ k → ∃ dx, IsMinDist s st.scatter_set st.ref_set k x dx ∧
        ∀ y, s.ref_set_size / 2 ≤ y → y < m → ∃ dy,
          IsMinDist s st.scatter_set st.ref_set k y dy ∧ dy ≤ dx ∧ (y < x → dy < dx)) ∧
      (∀ y, y < x → st1.scatter_set[y]? = st.scatter_set[y]?) ∧
      (∀ y, x ≤ y → y + 1 < s.scatter_set_size → ∃ o c, st1.scatter_set[y]? = some o ∧
        st.scatter_set[y + 1]? = some c ∧ IsCopy s o c) := by
  obtain ⟨st1, p1, p2, p3, p4, p5⟩ := pool_dists_spec s k hk2 (m - s.ref_set_size / 2)
    (s.ref_set_size / 2) st (by omega) (le_refl _) hinv (fun _ y h1 h2 => by omega)
  have hmdl : st1.min_dists.length = s.scatter_set_size - s.ref_set_size / 2 := p2.md_len
  obtain ⟨v, j, q1, q2, q3, q4, q5⟩ := max_spec st1.min_dists (m - s.ref_set_size / 2)
    (by omega) (by omega)
  have hkl : k < st1.ref_set.length := by have := p2.ref_len; omega
  have hxl : s.ref_set_size / 2 + j < st1.scatter_set.length := by
    have := p2.sc_len
    omega
  obtain ⟨w, hw, hwlen⟩ := copy_ind_total s st1.ref_set[k] st1.scatter_set[s.ref_set_size / 2 + j]
    (p2.ref_par _ (List.getElem_mem _)) (p2.sc_par _ (List.getElem_mem _))
  obtain ⟨sc, d1, d2, d3, d4, d5, _⟩ := delete_and_shift_spec s st1.scatter_set
    s.scatter_set_size (s.ref_set_size / 2 + j) p2.sc_len (by omega) p2.sc_par
  refine ⟨{ st1 with ref_set := st1.ref_set.set k w, scatter_set := sc },
    s.ref_set_size / 2 + j, ?_, ?_, by omega, by omega, ?_, ?_, ?_, ?_, ?_⟩
  · simp only [expand_step, p1, Option.bind_eq_bind, Option.some_bind, q1,
      List.getElem?_eq_getElem hkl, List.getElem?_eq_getElem hxl, hw, wr, hkl, if_true, d1,
      Option.pure_def]
  · refine { sc_len := by rw [d2]; exact p2.sc_len, sc_par := d3,
             ref_len := by rw [List.length_set]; exact p2.ref_len, ref_par := ?_,
             dm_rows := p2.dm_rows, dm_cols := p2.dm_cols, md_len := p2.md_len }
    intro r hr
    rcases List.mem_or_eq_of_mem_set hr with h | h
    · exact p2.ref_par r h
    · subst h
      rw [hwlen]
      exact p2.ref_par _ (List.getElem_mem _)
  · refine ⟨w, st1.scatter_set[s.ref_set_size / 2 + j], List.getElem?_set_self hkl, ?_,
      (isCopy_of_copy_ind hw).1⟩
    rw [← p3]
    exact List.getElem?_eq_getElem hxl
  · intro j2 hj2
    show (st1.ref_set.set k w)[j2]? = st.ref_set[j2]?
    rw [List.getElem?_set_ne (fun h => hj2 h.symm), p4]
  · intro hk
    obtain ⟨dx, a1, a2⟩ := p5 hk (s.ref_set_size / 2 + j) (by omega) (by omega)
    have e : s.ref_set_size / 2 + j - s.ref_set_size / 2 = j := by omega
    rw [e, q3] at a1
    simp only [Option.some.injEq] at a1
    subst a1
    refine ⟨v, a2, ?_⟩
    intro y hy1 hy2
    obtain ⟨dy, b1, b2⟩ := p5 hk y hy1 (by omega)
    refine ⟨dy, b2, q4 _ dy (by omega) b1, ?_⟩
    intro hyx
    exact q5 _ dy (by omega) b1
  · intro y hy
    show sc[y]? = st.scatter_set[y]?
    rw [d4 y hy, p3]
  · intro y hy1 hy2
    obtain ⟨o, c, c1, c2, c3⟩ := d5 y hy1 hy2
    exact ⟨o, c, c1, by rw [← p3]; exact c2, c3⟩

theorem expand_loop_spec (s : SSType) (st0 : RefBuild) (hinv0 : BuildInv s st0)
    (hbm : s.ref_set_size ≤ s.scatter_set_size) :
    ∀ n, n ≤ s.ref_set_size - s.ref_set_size / 2 →
      ∃ st, expand_loop s st0 n = some st ∧ BuildInv s st ∧
        (∀ j, s.ref_set_size / 2 + n ≤ j → st.ref_set[j]? = st0.ref_set[j]?) ∧
        ∀ n1 st1, n1 ≤ n → expand_loop s st0 n1 = some st1 →
          ∀ j, j < s.ref_set_size / 2 + n1 → st.ref_set[j]? = st1.ref_set[j]? := by
  intro n
  induction n with
  | zero =>
    intro _
    refine ⟨st0, rfl, hinv0, fun _ _ => rfl, ?_⟩
    intro n1 st1 hn1 h1 j _
    have h0 : n1 = 0 := by omega
    subst h0
    simp only [expand_loop, Option.some.injEq] at h1
    subst h1
    rfl
  | succ n ih =>
    intro hn
    obtain ⟨st, h1, h2, h3, h4⟩ := ih (by omega)
    obtain ⟨st1, x, e1, e2, _, _, _, e6, _⟩ := expand_step_spec s (s.ref_set_size / 2 + n)
      (s.scatter_set_size - n) st h2 (by omega) (by omega) (by omega)
    have hrun : expand_loop s st0 (n + 1) = some st1 := by
      simp only [expand_loop, h1, Option.bind_eq_bind, Option.some_bind, e1]
    refine ⟨st1, hrun, e2, ?_, ?_⟩
    · intro j hj
      rw [e6 j (by omega)]
      exact h3 j (by omega)
    · intro n1 st2 hn1 hst2 j hj
      by_cases hc : n1 = n + 1
      · subst hc
        rw [hrun] at hst2
        simp only [Option.some.injEq] at hst2
        subst hst2
        rfl
      · rw [e6 j (by omega)]
        exact h4 n1 st2 (by omega) hst2 j hj

theorem init_ref_set_run (ssParams : SSType)
    (hbm : ssParams.ref_set_size ≤ ssParams.scatter_set_size)
    (hpos : 1 ≤ ssParams.scatter_set_size)
    (hsc : ssParams.scatter_set_size ≤ ssParams.scatter_set.length)
    (hscp : ∀ c, c ∈ ssParams.scatter_set → ssParams.nreal ≤ c.params.length)
    (href : ssParams.ref_set_size ≤ ssParams.ref_set.length)
    (hrefp : ∀ r, r ∈ ssParams.ref_set → ssParams.nreal ≤ r.params.length) :
    ∃ sorted ref0 fin,
      quick_sort_set ssParams.scatter_set ssParams.scatter_set_size = some sorted ∧
      RangePerm 0 (ssParams.scatter_set_size - 1) ssParams.scatter_set sorted ∧
      SortedR sorted 0 (ssParams.scatter_set_size - 1) ∧
      copy_best ssParams sorted ssParams.ref_set (ssParams.ref_set_size / 2) = some ref0 ∧
      (∀ i, i < ssParams.ref_set_size / 2 → ∃ r c, ref0[i]? = some r ∧ sorted[i]? = some c ∧
        IsCopy ssParams r c) ∧
      BuildInv ssParams
        { scatter_set := sorted, ref_set := ref0,
          dist_matrix := List.replicate (ssParams.scatter_set_size - ssParams.ref_set_size / 2)
            (List.replicate ssParams.ref_set_size (0 : ℚ)),
          min_dists := List.replicate (ssParams.scatter_set_size - ssParams.ref_set_size / 2)
            (0 : ℚ) } ∧
      expand_loop ssParams
        { scatter_set := sorted, ref_set := ref0,
          dist_matrix := List.replicate (ssParams.scatter_set_size - ssParams.ref_set_size / 2)
            (List.replicate ssParams.ref_set_size (0 : ℚ)),
          min_dists := List.replicate (ssParams.scatter_set_size - ssParams.ref_set_size / 2)
            (0 : ℚ) } (ssParams.ref_set_size - ssParams.ref_set_size / 2) = some fin ∧
      init_ref_set ssParams = some { ssParams with scatter_set := fin.scatter_set,
                                                   ref_set := fin.ref_set } := by
  obtain ⟨sorted, hs1, hs2, hs3⟩ := quick_sort_set_rangePerm ssParams.scatter_set
    ssParams.scatter_set_size hpos hsc
  have hslen : sorted.length = ssParams.scatter_set.length := rangePerm_length_eq hs2
  have hspar : ∀ c, c ∈ sorted → ssParams.nreal ≤ c.params.length := by
    intro c hc
    exact hscp c ((rangePerm_perm hs2).mem_iff.mp hc)
  obtain ⟨ref0, c1, c2, c3, c4, _⟩ := copy_best_spec ssParams sorted ssParams.ref_set hspar
    hrefp (ssParams.ref_set_size / 2) (by omega) (by omega)
  have hinv0 : BuildInv ssParams
      { scatter_set := sorted, ref_set := ref0,
        dist_matrix := List.replicate (ssParams.scatter_set_size - ssParams.ref_set_size / 2)
          (List.replicate ssParams.ref_set_size (0 : ℚ)),
        min_dists := List.replicate (ssParams.scatter_set_size - ssParams.ref_set_size / 2)
          (0 : ℚ) } :=
    { sc_len := by rw [hslen]; exact hsc, sc_par := hspar,
      ref_len := by rw [c2]; exact href, ref_par := c3,
      dm_rows := List.length_replicate _ _,
      dm_cols := fun row hrow => by
        rw [List.eq_of_mem_replicate hrow]
        exact List.length_replicate _ _,
      md_len := List.length_replicate _ _ }
  obtain ⟨fin, f1, _, _, _⟩ := expand_loop_spec ssParams _ hinv0 hbm
    (ssParams.ref_set_size - ssParams.ref_set_size / 2) (le_refl _)
  refine ⟨sorted, ref0, fin, hs1, hs2, hs3, c1, c4, hinv0, f1, ?_⟩
  simp only [init_ref_set, hs1, Option.bind_eq_bind, Option.some_bind, c1, f1, Option.pure_def]

/-- C13: with `scatter_set_size ≥ ref_set_size`, `init_ref_set` returns; for
`h = ref_set_size / 2` the reference members `0 .. h-1` are copies of the first
`h` members of the sorted Scatter Set (a permutation of the evaluated one):
their costs are in ascending order, and every member of the sorted Scatter Set
at an index from `h` on costs at least as much as `ref_set[h-1]`. -/
theorem init_ref_set_elite (ssParams : SSType)
    (hbm : ssParams.ref_set_size ≤ ssParams.scatter_set_size)
    (hpos : 1 ≤ ssParams.scatter_set_size)
    (hsc : ssParams.scatter_set_size ≤ ssParams.scatter_set.length)
    (hscp : ∀ c, c ∈ ssParams.scatter_set → ssParams.nreal ≤ c.params.length)
    (href : ssParams.ref_set_size ≤ ssParams.ref_set.length)
    (hrefp : ∀ r, r ∈ ssParams.ref_set → ssParams.nreal ≤ r.params.length) :
    ∃ sorted s1,
      quick_sort_set ssParams.scatter_set ssParams.scatter_set_size = some sorted ∧
      (sorted.take ssParams.scatter_set_size).Perm
        (ssParams.scatter_set.take ssParams.scatter_set_size) ∧
      init_ref_set ssParams = some s1 ∧
      (∀ i, i < ssParams.ref_set_size / 2 → ∃ r c, s1.ref_set[i]? = some r ∧
        sorted[i]? = some c ∧ IsCopy ssParams r c) ∧
      (∀ i j ri rj, i ≤ j → j < ssParams.ref_set_size / 2 → s1.ref_set[i]? = some ri →
        s1.ref_set[j]? = some rj → ri.cost ≤ rj.cost) ∧
      (∀ j c w, ssParams.ref_set_size / 2 ≤ j → j < ssParams.scatter_set_size →
        sorted[j]? = some c → 1 ≤ ssParams.ref_set_size / 2 →
        s1.ref_set[ssParams.ref_set_size / 2 - 1]? = some w → w.cost ≤ c.cost) := by
  obtain ⟨sorted, ref0, fin, h1, h2, h3, h4, h5, h6, h7, h8⟩ :=
    init_ref_set_run ssParams hbm hpos hsc hscp href hrefp
  obtain ⟨fin2, g1, _, _, g4⟩ := expand_loop_spec ssParams _ h6 hbm
    (ssParams.ref_set_size - ssParams.ref_set_size / 2) (le_refl _)
  rw [h7] at g1
  simp only [Option.some.injEq] at g1
  subst g1
  have hfix : ∀ j, j < ssParams.ref_set_size / 2 → fin.ref_set[j]? = ref0[j]? := by
    intro j hj
    exact g4 0 _ (Nat.zero_le _) rfl j (by omega)
  have hcopy : ∀ i, i < ssParams.ref_set_size / 2 → ∃ r c, fin.ref_set[i]? = some r ∧
      sorted[i]? = some c ∧ IsCopy ssParams r c := by
    intro i hi
    obtain ⟨r, c, a1, a2, a3⟩ := h5 i hi
    exact ⟨r, c, by rw [hfix i hi]; exact a1, a2, a3⟩
  refine ⟨sorted, _, h1, (rangePerm_take_drop _ h2 hpos).1, h8, hcopy, ?_, ?_⟩
  · intro i j ri rj hij hj hri hrj
    obtain ⟨r1, c1, a1, a2, a3⟩ := hcopy i (by omega)
    obtain ⟨r2, c2, b1, b2, b3⟩ := hcopy j hj
    have e1 : fin.ref_set[i]? = some ri := hri
    have e2 : fin.ref_set[j]? = some rj := hrj
    rw [a1] at e1
    rw [b1] at e2
    simp only [Option.some.injEq] at e1 e2
    subst e1
    subst e2
    rw [a3.1, b3.1]
    exact h3 i j c1 c2 (Nat.zero_le _) hij (by omega) a2 b2
  · intro j c w hj1 hj2 hc hh hw
    obtain ⟨r1, c1, a1, a2, a3⟩ := hcopy (ssParams.ref_set_size / 2 - 1) (by omega)
    have e1 : fin.ref_set[ssParams.ref_set_size / 2 - 1]? = some w := hw
    rw [a1] at e1
    simp only [Option.some.injEq] at e1
    subst e1
    rw [a3.1]
    exact h3 _ j c1 c (Nat.zero_le _) (by omega) (by omega) a2 hc

theorem init_ref_set_elite_witness :
    ∃ sorted s1,
      quick_sort_set build_state.scatter_set build_state.scatter_set_size = some sorted ∧
      (sorted.take build_state.scatter_set_size).Perm
        (build_state.scatter_set.take build_state.scatter_set_size) ∧
      init_ref_set build_state = some s1 ∧
      (∀ i, i < build_state.ref_set_size / 2 → ∃ r c, s1.ref_set[i]? = some r ∧
        sorted[i]? = some c ∧ IsCopy build_state r c) ∧
      (∀ i j ri rj, i ≤ j → j < build_state.ref_set_size / 2 → s1.ref_set[i]? = some ri →
        s1.ref_set[j]? = some rj → ri.cost ≤ rj.cost) ∧
      (∀ j c w, build_state.ref_set_size / 2 ≤ j → j < build_state.scatter_set_size →
        sorted[j]? = some c → 1 ≤ build_state.ref_set_size / 2 →
        s1.ref_set[build_state.ref_set_size / 2 - 1]? = some w → w.cost ≤ c.cost) :=
  init_ref_set_elite build_state (by decide) (by decide) (by decide) (by decide) (by decide)
    (by decide)

/-- C14: with `scatter_set_size ≥ ref_set_size ≥ 2`, round `n` of the expansion
loop fills the slot `k = h + n` with a copy of the member at index `x` of the
remaining pool `scatter_set[h .. scatter_set_size - n - 1]`: the least distance
of member `x` to the reference members `0 .. k-1` is the largest one over the
pool, and strictly larger than that of every pool member at a lower index.  The
slot and the reference members before it keep these values until the routine
returns.  (Distances are compared squared.) -/
theorem init_ref_set_maximin (ssParams : SSType)
    (hbm : ssParams.ref_set_size ≤ ssParams.scatter_set_size)
    (hb : 2 ≤ ssParams.ref_set_size)
    (hsc : ssParams.scatter_set_size ≤ ssParams.scatter_set.length)
    (hscp : ∀ c, c ∈ ssParams.scatter_set → ssParams.nreal ≤ c.params.length)
    (href : ssParams.ref_set_size ≤ ssParams.ref_set.length)
    (hrefp : ∀ r, r ∈ ssParams.ref_set → ssParams.nreal ≤ r.params.length) :
    ∃ sorted ref0 s1,
      quick_sort_set ssParams.scatter_set ssParams.scatter_set_size = some sorted ∧
      copy_best ssParams sorted ssParams.ref_set (ssParams.ref_set_size / 2) = some ref0 ∧
      init_ref_set ssParams = some s1 ∧
      ∀ n, n < ssParams.ref_set_size - ssParams.ref_set_size / 2 →
        ∃ st x,
          expand_loop ssParams
            { scatter_set := sorted, ref_set := ref0,
              dist_matrix :=
                List.replicate (ssParams.scatter_set_size - ssParams.ref_set_size / 2)
                  (List.replicate ssParams.ref_set_size (0 : ℚ)),
              min_dists :=
                List.replicate (ssParams.scatter_set_size - ssParams.ref_set_size / 2)
                  (0 : ℚ) } n = some st ∧
          ssParams.ref_set_size / 2 ≤ x ∧ x < ssParams.scatter_set_size - n ∧
          (∀ j, j < ssParams.ref_set_size / 2 + n → s1.ref_set[j]? = st.ref_set[j]?) ∧
          (∃ r c, s1.ref_set[ssParams.ref_set_size / 2 + n]? = some r ∧
            st.scatter_set[x]? = some c ∧ IsCopy ssParams r c) ∧
          ∃ dx, IsMinDist ssParams st.scatter_set st.ref_set (ssParams.ref_set_size / 2 + n)
              x dx ∧
            ∀ y, ssParams.ref_set_size / 2 ≤ y → y < ssParams.scatter_set_size - n →
              ∃ dy, IsMinDist ssParams st.scatter_set st.ref_set
                  (ssParams.ref_set_size / 2 + n) y dy ∧
                dy ≤ dx ∧ (y < x → dy < dx) := by
  obtain ⟨sorted, ref0, fin, h1, _, _, h4, _, h6, h7, h8⟩ :=
    init_ref_set_run ssParams hbm (by omega) hsc hscp href hrefp
  obtain ⟨fin2, g1, _, _, g4⟩ := expand_loop_spec ssParams _ h6 hbm
    (ssParams.ref_set_size - ssParams.ref_set_size / 2) (le_refl _)
  rw [h7] at g1
  simp only [Option.some.injEq] at g1
  subst g1
  refine ⟨sorted, ref0, _, h1, h4, h8, ?_⟩
  intro n hn
  obtain ⟨st, a1, a2, _, _⟩ := expand_loop_spec ssParams _ h6 hbm n (by omega)
  obtain ⟨st1, x, e1, _, e3, e4, ⟨r, c, e5a, e5b, e5c⟩, e6, e7, _, _⟩ :=
    expand_step_spec ssParams (ssParams.ref_set_size / 2 + n) (ssParams.scatter_set_size - n)
      st a2 (by omega) (by omega) (by omega)
  have hrun : expand_loop ssParams
      { scatter_set := sorted, ref_set := ref0,
        dist_matrix := List.replicate (ssParams.scatter_set_size - ssParams.ref_set_size / 2)
          (List.replicate ssParams.ref_set_size (0 : ℚ)),
        min_dists := List.replicate (ssParams.scatter_set_size - ssParams.ref_set_size / 2)
          (0 : ℚ) } (n + 1) = some st1 := by
    simp only [expand_loop, a1, Option.bind_eq_bind, Option.some_bind, e1]
  have hkeep := g4 (n + 1) st1 (by omega) hrun
  refine ⟨st, x, a1, e3, e4, ?_, ⟨r, c, ?_, e5b, e5c⟩, e7 (by omega)⟩
  · intro j hj
    show fin.ref_set[j]? = st.ref_set[j]?
    rw [hkeep j (by omega), e6 j (by omega)]
  · show fin.ref_set[ssParams.ref_set_size / 2 + n]? = some r
    rw [hkeep _ (by omega)]
    exact e5a

theorem init_ref_set_maximin_witness :
    ∃ sorted ref0 s1,
      quick_sort_set build_state.scatter_set build_state.scatter_set_size = some sorted ∧
      copy_best build_state sorted build_state.ref_set (build_state.ref_set_size / 2) =
        some ref0 ∧
      init_ref_set build_state = some s1 ∧
      ∀ n, n < build_state.ref_set_size - build_state.ref_set_size / 2 →
        ∃ st x,
          expand_loop build_state
            { scatter_set := sorted, ref_set := ref0,
              dist_matrix :=
                List.replicate (build_state.scatter_set_size - build_state.ref_set_size / 2)
                  (List.replicate build_state.ref_set_size (0 : ℚ)),
              min_dists :=
                List.replicate (build_state.scatter_set_size - build_state.ref_set_size / 2)
                  (0 : ℚ) } n = some st ∧
          build_state.ref_set_size / 2 ≤ x ∧ x < build_state.scatter_set_size - n ∧
          (∀ j, j < build_state.ref_set_size / 2 + n → s1.ref_set[j]? = st.ref_set[j]?) ∧
          (∃ r c, s1.ref_set[build_state.ref_set_size / 2 + n]? = some r ∧
            st.scatter_set[x]? = some c ∧ IsCopy build_state r c) ∧
          ∃ dx, IsMinDist build_state st.scatter_set st.ref_set
              (build_state.ref_set_size / 2 + n) x dx ∧
            ∀ y, build_state.ref_set_size / 2 ≤ y → y < build_state.scatter_set_size - n →
              ∃ dy, IsMinDist build_state st.scatter_set st.ref_set
                  (build_state.ref_set_size / 2 + n) y dy ∧
                dy ≤ dx ∧ (y < x → dy < dx) :=
  init_ref_set_maximin build_state (by decide) (by decide) (by decide) (by decide) (by decide)
    (by decide)

/-! ## Regeneration: which slots are rewritten -/

theorem regen_state_scatter :
    init_scatter_set regen_state regen_state.scatter_set grid_draws =
      some ([{ params := [1], cost := 0 }, { params := [3], cost := 0 }], regen_state,
            fun n => grid_draws (n + 2)) := by
  have h1 := grid_uniform 2 []
  have e1 : regen_state.scatter_set = [{ params := [0], cost := 0 },
      { params := [0], cost := 0 }] := rfl
  have e2 : regen_state.freqs_matrix = [[1, 1]] := rfl
  have e3 : regen_state.probs_matrix = [[1 / 2, 1 / 2]] := rfl
  have e4 : regen_state.p = 2 := rfl
  have e5 : regen_state.scatter_set_size - regen_state.p = 0 := rfl
  have h2 : uniform_members regen_state
      { set := [{ params := [0], cost := 0 }, { params := [0], cost := 0 }],
        freqs_matrix := [[1, 1]], probs_matrix := [[1 / 2, 1 / 2]], a := 0, probs_sum := 0,
        g := grid_draws } 2 =
      some { set := [{ params := [1], cost := 0 }, { params := [3], cost := 0 }],
             freqs_matrix := [[1, 1]], probs_matrix := [[1 / 2, 1 / 2]], a := 0,
             probs_sum := 0, g := fun n => grid_draws (n + 2) } := h1
  simp only [init_scatter_set, e1, e2, e3, e5, biased_members, Option.bind_eq_bind,
    Option.some_bind, Option.pure_def]
  rw [e4, h2]
  rfl

theorem regen_state_Mt :
    compute_Mt regen_fresh [[0, 0, 0]] 1 2 = some [[-2, -4, 0]] := by
  norm_num [compute_Mt, compute_Mt_rows, compute_Mt_row, mat_set, wr, regen_fresh, regen_state]

theorem regen_state_pool :
    regen_pool 2 2 0
      { ssParams := regen_fresh, M := [[-2, -4, 0]], P := [[0, 0, 0], [0, 0, 0]],
        tmp_row := [[0]], msp := [0, 0] } =
    some { ssParams := regen_fresh, M := [[-2, -4, 0]], P := [[2, 4, 0], [6, 12, 0]],
           tmp_row := [[-3]], msp := [4, 12] } := by
  norm_num [regen_pool, fill_tmp_row, matrix_product, matrix_product_rows, matrix_product_row,
    matrix_product_sum, double_to_int, mat_get, mat_set, wr, max, max_loop, regen_fresh,
    regen_state, grid_state, grid_cfg]

theorem regen_state_step :
    regen_step (fun ps => ps.sum) 2 2
      { ssParams := regen_fresh, M := [[0, 0, 0]], P := [[0, 0, 0], [0, 0, 0]],
        tmp_row := [[0]], msp := [0, 0] } =
    some { ssParams := regen_after, M := [[-2, -4, 0]], P := [[2, 4, 0], [6, 12, 0]],
           tmp_row := [[-3]], msp := [4, 12] } := by
  have e1 : regen_fresh.nreal = 1 := rfl
  simp only [regen_step, e1, regen_state_Mt, Option.bind_eq_bind, Option.some_bind,
    regen_state_pool]
  norm_num [min, min_loop, evaluate_ind, copy_ind, wr, delete_and_shift,
    delete_and_shift_loop, regen_fresh, regen_after, regen_state, grid_state, grid_cfg]

theorem regen_state_run :
    re_gen_ref_set (fun ps => ps.sum) regen_state grid_draws =
      some (regen_after, fun n => grid_draws (n + 2)) := by
  have e1 : regen_state.max_elite ≤ regen_state.ref_set_size := by decide
  unfold re_gen_ref_set
  rw [if_pos e1]
  simp only [regen_state_scatter, Option.bind_eq_bind, Option.some_bind]
  change (regen_loop (fun ps => ps.sum) 2 2
    { ssParams := regen_fresh, M := [[0, 0, 0]], P := [[0, 0, 0], [0, 0, 0]],
      tmp_row := [[0]], msp := [0, 0] } 1).bind _ = _
  simp only [regen_loop, Nat.add_zero, Nat.sub_zero, Option.bind_eq_bind, Option.some_bind,
    regen_state_step, Option.pure_def]

theorem regen_pool_ssParams (k : Nat) :
    ∀ cnt i (st st1 : RegenState), regen_pool k cnt i st = some st1 →
      st1.ssParams = st.ssParams := by
  intro cnt
  induction cnt with
  | zero =>
    intro i st st1 h
    simp only [regen_pool, Option.some.injEq] at h
    subst h
    rfl
  | succ cnt ih =>
    intro i st st1 h
    simp only [regen_pool, Option.bind_eq_bind, Option.bind_eq_some] at h
    obtain ⟨t, _, Pi, _, row, _, r, _, msp1, _, h⟩ := h
    have h3 := ih _ _ _ h
    exact h3

theorem regen_step_frame (objective : List ℚ → ℚ) (k m : Nat) (st st1 : RegenState)
    (h : regen_step objective k m st = some st1) :
    ∀ j, j ≠ k → st1.ssParams.ref_set[j]? = st.ssParams.ref_set[j]? := by
  simp only [regen_step, Option.bind_eq_bind, Option.bind_eq_some, Option.pure_def,
    Option.some.injEq] at h
  obtain ⟨M1, _, st2, h2, r, _, c, _, e, he, sc1, _, dest, _, v, _, ref1, href, sc2, _, h⟩ := h
  have hs : st2.ssParams = st.ssParams := by
    have h3 := regen_pool_ssParams k m 0 _ _ h2
    exact h3
  have he2 : e.2.ref_set = st2.ssParams.ref_set := by
    unfold evaluate_ind at he
    split at he
    · simp only [Option.some.injEq] at he
      subst he
      rfl
    · simp at he
  obtain ⟨_, e1⟩ := wr_eq_some href
  subst h
  intro j hj
  show ref1[j]? = st.ssParams.ref_set[j]?
  rw [e1, List.getElem?_set_ne (fun e => hj e.symm), he2, hs]

theorem regen_loop_frame (objective : List ℚ → ℚ) (h m : Nat) (st : RegenState) :
    ∀ n st1, regen_loop objective h m st n = some st1 →
      ∀ j, j < h → st1.ssParams.ref_set[j]? = st.ssParams.ref_set[j]? := by
  intro n
  induction n with
  | zero =>
    intro st1 h1 j _
    simp only [regen_loop, Option.some.injEq] at h1
    subst h1
    rfl
  | succ n ih =>
    intro st1 h1 j hj
    simp only [regen_loop, Option.bind_eq_bind, Option.bind_eq_some] at h1
    obtain ⟨st2, h2, h3⟩ := h1
    rw [regen_step_frame objective _ _ _ _ h3 j (by omega)]
    exact ih st2 h2 j hj

/-- Whatever `max_elite` is, a call of `re_gen_ref_set` that returns leaves the
reference members at the indices below `ref_set_size - max_elite` as they
were. -/
theorem re_gen_ref_set_frame (objective : List ℚ → ℚ) (ssParams : SSType) (g : Nat → ℚ)
    (r : SSType × (Nat → ℚ)) (h : re_gen_ref_set objective ssParams g = some r) :
    ∀ j, j < ssParams.ref_set_size - ssParams.max_elite →
      r.1.ref_set[j]? = ssParams.ref_set[j]? := by
  unfold re_gen_ref_set at h
  split at h
  · simp only [Option.bind_eq_bind, Option.bind_eq_some, Option.pure_def,
      Option.some.injEq] at h
    obtain ⟨r0, h0, st, h1, h2⟩ := h
    subst h2
    have hinit : r0.2.1.ref_set = ssParams.ref_set := by
      simp only [init_scatter_set, Option.bind_eq_bind, Option.bind_eq_some, Option.pure_def,
        Option.some.injEq] at h0
      obtain ⟨_, _, _, _, h0⟩ := h0
      subst h0
      rfl
    intro j hj
    rw [regen_loop_frame objective _ _ _ _ st h1 j hj]
    exact congrArg (fun l => l[j]?) hinit
  · simp at h

/-- C18 (evaluation at the failing input): three reference members with
`max_elite = 1`.  The loop of `re_gen_ref_set` starts at `h = b - g = 2`, so only
slot 2 receives a member of the fresh Scatter Set (`[1]`, evaluated to cost 1);
the member at index 1, which is not elite, is left as it was (`[2]` with cost 5,
not a member of the fresh Scatter Set `[1]`, `[3]`). -/
theorem re_gen_ref_set_rewrites_last_slots :
    regen_state.max_elite = 1 ∧ regen_state.ref_set_size = 3 ∧
    init_scatter_set regen_state regen_state.scatter_set grid_draws =
      some ([{ params := [1], cost := 0 }, { params := [3], cost := 0 }], regen_state,
            fun n => grid_draws (n + 2)) ∧
    re_gen_ref_set (fun ps => ps.sum) regen_state grid_draws =
      some (regen_after, fun n => grid_draws (n + 2)) ∧
    regen_after.ref_set[1]? = regen_state.ref_set[1]? ∧
    regen_after.ref_set[1]? = some { params := [2], cost := 5 } ∧
    regen_after.ref_set[2]? = some { params := [1], cost := 1 } :=
  ⟨rfl, rfl, regen_state_scatter, regen_state_run, rfl, rfl, rfl⟩

/-! ## The main loop: no routine of the body writes `n_iter` or `max_iter` -/

theorem round_half_even_of_near (x : ℚ) (z : Int) (h1 : (z : ℚ) - 1 / 2 < x)
    (h2 : x < (z : ℚ) + 1 / 2) : round_half_even x = z := by
  unfold round_half_even
  have hf := Int.floor_le x
  have hl := Int.lt_floor_add_one x
  by_cases hlt : x - ⌊x⌋ < 1 / 2
  · rw [if_pos hlt]
    have a1 : ((⌊x⌋ : Int) : ℚ) < (z : ℚ) + 1 := by linarith
    have a2 : (z : ℚ) < ((⌊x⌋ : Int) : ℚ) + 1 := by linarith
    have b1 : ⌊x⌋ < z + 1 := by exact_mod_cast a1
    have b2 : z < ⌊x⌋ + 1 := by exact_mod_cast a2
    omega
  · rw [if_neg hlt]
    have hge : (1 : ℚ) / 2 ≤ x - ⌊x⌋ := not_lt.mp hlt
    have a1 : ((⌊x⌋ : Int) : ℚ) < (z : ℚ) := by linarith
    have a2 : (z : ℚ) < ((⌊x⌋ : Int) : ℚ) + 2 := by linarith
    have b1 : ⌊x⌋ < z := by exact_mod_cast a1
    have b2 : z < ⌊x⌋ + 2 := by exact_mod_cast a2
    have hz : z = ⌊x⌋ + 1 := by omega
    by_cases hgt : x - ⌊x⌋ > 1 / 2
    · rw [if_pos hgt, hz]
    · exfalso
      have he : x - ⌊x⌋ = 1 / 2 := le_antisymm (not_lt.mp hgt) hge
      have : (z : ℚ) = ((⌊x⌋ : Int) : ℚ) + 1 := by rw [hz]; push_cast; ring
      linarith

theorem fixed_of_near (d : Nat) (x : ℚ) (z : Int) (h1 : (z : ℚ) - 1 / 2 < x * 10 ^ d)
    (h2 : x * 10 ^ d < (z : ℚ) + 1 / 2) : fixed d x = (z : ℚ) / 10 ^ d := by
  unfold fixed
  rw [round_half_even_of_near _ z h1 h2]

theorem fixed_of_decimal (d : Nat) (x : ℚ) (z : Int) (h : x * 10 ^ d = (z : ℚ)) :
    fixed d x = x := by
  rw [fixed_of_near d x z (by rw [h]; linarith) (by rw [h]; linarith), ← h]
  field_simp

theorem parse_row_loop_spec {α : Type} :
    ∀ (tokens : List α) (i : Nat) (row : List α), row.length = i + tokens.length →
      parse_row_loop tokens i row = some (row.take i ++ tokens) := by
  intro tokens
  induction tokens with
  | nil =>
    intro i row h
    simp only [parse_row_loop, List.append_nil, Option.some.injEq]
    rw [List.take_of_length_le (by simp at h; omega)]
  | cons t ts ih =>
    intro i row h
    simp only [List.length_cons] at h
    have hi : i < row.length := by omega
    simp only [parse_row_loop, wr, if_pos hi, Option.some_bind]
    rw [ih (i + 1) (row.set i t) (by rw [List.length_set]; omega)]
    congr 1
    apply List.ext_getElem?
    intro k
    by_cases hk : k < i
    · rw [List.getElem?_append_left (by rw [List.length_take, List.length_set]; omega),
        List.getElem?_append_left (by rw [List.length_take]; omega),
        List.getElem?_take_of_lt (by omega), List.getElem?_take_of_lt hk,
        List.getElem?_set_ne (by omega)]
    · have htl : ((row.set i t).take (i + 1)).length = i + 1 := by
        rw [List.length_take, List.length_set]; omega
      have htl2 : (row.take i).length = i := by
        rw [List.length_take]; omega
      by_cases hki : k = i
      · subst hki
        rw [List.getElem?_append_left (by omega),
          List.getElem?_take_of_lt (by omega), List.getElem?_set_self hi,
          List.getElem?_append_right (by omega), htl2]
        simp
      · rw [List.getElem?_append_right (by omega), htl,
          List.getElem?_append_right (by omega), htl2]
        have : k - i = (k - (i + 1)) + 1 := by omega
        rw [this, List.getElem?_cons_succ]

theorem parse_double_row_full (tokens : List ℚ) (h : tokens ≠ []) :
    parse_double_row tokens (List.replicate tokens.length 0) = some tokens := by
  cases tokens with
  | nil => exact absurd rfl h
  | cons t ts =>
    simp only [parse_double_row]
    rw [parse_row_loop_spec _ 0 _ (by simp)]
    simp

theorem parse_int_row_full (tokens : List Int) (h : tokens ≠ []) :
    parse_int_row tokens (List.replicate tokens.length 0) = some tokens := by
  cases tokens with
  | nil => exact absurd rfl h
  | cons t ts =>
    simp only [parse_int_row]
    rw [parse_row_loop_spec _ 0 _ (by simp)]
    simp

theorem write_ind_tokens {m : individual} {n : Nat} {l : Line ℚ}
    (h : write_ind m n (-1) = some l) :
    n ≤ m.params.length ∧
      l.tokens = (m.params.take n).map (fixed 5) ++ [fixed 6 m.cost] := by
  unfold write_ind at h
  split at h
  · rename_i hn
    simp only [Option.some.injEq] at h
    subst h
    refine ⟨hn, ?_⟩
    simp
  · simp at h

theorem read_ref_set_spec (t : SSType) (S : List individual) :
    ∀ (cnt i : Nat) (lines : List (Line ℚ)) (ref : List individual),
      write_set_loop S t.nreal (-1) cnt i = some lines →
      (∀ l, l ∈ lines → l.length ≤ 4097) →
      i + cnt ≤ t.ref_set_size → t.ref_set_size ≤ ref.length →
      (∀ m, m ∈ ref → t.nreal ≤ m.params.length) →
      ∃ ref', read_ref_set t lines i ref = some ref' ∧ ref'.length = ref.length ∧
        (∀ k, k < i → ref'[k]? = ref[k]?) ∧
        (∀ k m, i ≤ k → k < i + cnt → S[k]? = some m →
          ∃ m', ref'[k]? = some m' ∧ m'.cost = fixed 6 m.cost ∧
            ∀ j, j < t.nreal → m'.params[j]? = (m.params[j]?).map (fixed 5)) := by
  intro cnt
  induction cnt with
  | zero =>
    intro i lines ref hw _ _ _ _
    simp only [write_set_loop, Option.some.injEq] at hw
    subst hw
    refine ⟨ref, rfl, rfl, fun _ _ => rfl, ?_⟩
    intro k m h1 h2
    omega
  | succ cnt ih =>
    intro i lines ref hw hlen hi hsize hpar
    simp only [write_set_loop, Option.bind_eq_bind, Option.bind_eq_some, Option.pure_def,
      Option.some.injEq] at hw
    obtain ⟨m, hm, l, hl, ls, hls, hw⟩ := hw
    subst hw
    obtain ⟨hmn, htok⟩ := write_ind_tokens hl
    have hilt : i < t.ref_set_size := by omega
    have hiref : i < ref.length := by omega
    have hll : ¬ 4097 < l.length := by
      have := hlen l (List.mem_cons_self _ _)
      omega
    have htl : l.tokens.length = t.nreal + 1 := by
      rw [htok]
      simp only [List.length_append, List.length_map, List.length_take, List.length_singleton]
      omega
    have hne : l.tokens ≠ [] := by
      intro h0
      rw [h0] at htl
      simp at htl
    have hparse : parse_double_row l.tokens (List.replicate (t.nreal + 1) 0) = some l.tokens := by
      rw [← htl]
      exact parse_double_row_full _ hne
    obtain ⟨m0, hm0⟩ : ∃ m0, ref[i]? = some m0 := ⟨ref[i], List.getElem?_eq_getElem hiref⟩
    have hm0n : t.nreal ≤ m0.params.length := hpar m0 (List.mem_iff_getElem?.mpr ⟨i, hm0⟩)
    have hc : l.tokens[t.nreal]? = some (fixed 6 m.cost) := by
      rw [htok, List.getElem?_append_right (by simp)]
      simp only [List.length_map, List.length_take]
      rw [Nat.min_eq_left hmn, Nat.sub_self]
      rfl
    have hpar1 : ∀ x, x ∈ ref.set i
        { params := l.tokens.take t.nreal ++ m0.params.drop t.nreal,
          cost := fixed 6 m.cost } → t.nreal ≤ x.params.length := by
      intro x hx
      rcases List.mem_or_eq_of_mem_set hx with h | h
      · exact hpar x h
      · subst h
        simp only [List.length_append, List.length_take, List.length_drop]
        omega
    obtain ⟨ref', hr, hlen', hfr, hval⟩ := ih (i + 1) ls
      (ref.set i { params := l.tokens.take t.nreal ++ m0.params.drop t.nreal,
                   cost := fixed 6 m.cost })
      hls (fun x hx => hlen x (List.mem_cons_of_mem _ hx)) (by omega)
      (by rw [List.length_set]; exact hsize) hpar1
    refine ⟨ref', ?_, ?_, ?_, ?_⟩
    · simp only [read_ref_set, if_pos hilt, if_neg hll, hparse, Option.bind_eq_bind,
        Option.some_bind, hm0, hc, if_pos hm0n, wr, if_pos hiref]
      exact hr
    · rw [hlen', List.length_set]
    · intro k hk
      rw [hfr k (by omega), List.getElem?_set_ne (by omega)]
    · intro k mk h1 h2 hk
      by_cases hki : k = i
      · subst hki
        rw [hm] at hk
        simp only [Option.some.injEq] at hk
        subst hk
        refine ⟨{ params := l.tokens.take t.nreal ++ m0.params.drop t.nreal,
                  cost := fixed 6 m.cost }, ?_, rfl, ?_⟩
        · rw [hfr k (by omega), List.getElem?_set_self hiref]
        · intro j hj
          simp only
          rw [List.getElem?_append_left (by rw [List.length_take]; omega),
            List.getElem?_take_of_lt hj, htok,
            List.getElem?_append_left (by simp; omega), List.getElem?_map,
            List.getElem?_take_of_lt hj]
      · exact hval k mk (by omega) (by omega) hk

theorem read_freqs_spec (t : SSType) (F : List (List Int)) (hp : 1 ≤ t.p) :
    ∀ (cnt i : Nat) (lines : List (Line Int)) (freqs : List (List Int)),
      write_int_matrix_loop F t.p (-1) cnt i = some lines →
      (∀ l, l ∈ lines → l.length ≤ 4097) →
      i + cnt ≤ t.nreal → t.nreal ≤ freqs.length →
      (∀ row, row ∈ freqs → t.p ≤ row.length) →
      ∃ freqs', read_freqs t lines i freqs = some freqs' ∧ freqs'.length = freqs.length ∧
        (∀ k, k < i → freqs'[k]? = freqs[k]?) ∧
        (∀ k j, i ≤ k → k < i + cnt → j < t.p → mat_get freqs' k j = mat_get F k j) := by
  intro cnt
  induction cnt with
  | zero =>
    intro i lines freqs hw _ _ _ _
    simp only [write_int_matrix_loop, Option.some.injEq] at hw
    subst hw
    refine ⟨freqs, rfl, rfl, fun _ _ => rfl, ?_⟩
    intro k j h1 h2
    omega
  | succ cnt ih =>
    intro i lines freqs hw hlen hi hsize hrow
    simp only [write_int_matrix_loop, Option.bind_eq_bind, Option.bind_eq_some, Option.pure_def,
      Option.some.injEq] at hw
    obtain ⟨row, hrowi, l, hl, ls, hls, hw⟩ := hw
    subst hw
    split at hl
    swap
    · simp at hl
    rename_i hpr
    simp only [Option.some.injEq] at hl
    have htok : l.tokens = row.take t.p := by
      rw [← hl]
      simp
    have hilt : i < t.nreal := by omega
    have hif : i < freqs.length := by omega
    have hll : ¬ 4097 < l.length := by
      have := hlen l (List.mem_cons_self _ _)
      omega
    have htl : l.tokens.length = t.p := by
      rw [htok, List.length_take]
      omega
    have hne : l.tokens ≠ [] := by
      intro h0
      rw [h0] at htl
      simp at htl
      omega
    have hparse : parse_int_row l.tokens (List.replicate t.p 0) = some l.tokens := by
      have := parse_int_row_full _ hne
      rw [htl] at this
      exact this
    obtain ⟨old, hold⟩ : ∃ old, freqs[i]? = some old := ⟨freqs[i], List.getElem?_eq_getElem hif⟩
    have holdp : t.p ≤ old.length := hrow old (List.mem_iff_getElem?.mpr ⟨i, hold⟩)
    have hrow1 : ∀ x, x ∈ freqs.set i (l.tokens.take t.p ++ old.drop t.p) → t.p ≤ x.length := by
      intro x hx
      rcases List.mem_or_eq_of_mem_set hx with h | h
      · exact hrow x h
      · subst h
        simp only [List.length_append, List.length_take, List.length_drop]
        omega
    obtain ⟨freqs', hr, hlen', hfr, hval⟩ := ih (i + 1) ls
      (freqs.set i (l.tokens.take t.p ++ old.drop t.p))
      hls (fun x hx => hlen x (List.mem_cons_of_mem _ hx)) (by omega)
      (by rw [List.length_set]; exact hsize) hrow1
    refine ⟨freqs', ?_, ?_, ?_, ?_⟩
    · simp only [read_freqs, if_pos hilt, if_neg hll, hparse, Option.bind_eq_bind,
        Option.some_bind, hold, if_pos holdp, wr, if_pos hif]
      exact hr
    · rw [hlen', List.length_set]
    · intro k hk
      rw [hfr k (by omega), List.getElem?_set_ne (by omega)]
    · intro k j h1 h2 hj
      by_cases hki : k = i
      · subst hki
        simp only [mat_get]
        rw [hfr k (by omega), List.getElem?_set_self hif, hrowi]
        simp only [Option.some_bind]
        rw [List.getElem?_append_left (by rw [List.length_take]; omega),
          List.getElem?_take_of_lt hj, htok, List.getElem?_take_of_lt hj]
      · exact hval k j (by omega) (by omega) hj

theorem read_probs_spec (t : SSType) (P : List (List ℚ)) (hp : 1 ≤ t.p) :
    ∀ (cnt i : Nat) (lines : List (Line ℚ)) (probs : List (List ℚ)),
      write_double_matrix_loop P t.p (-1) cnt i = some lines →
      (∀ l, l ∈ lines → l.length ≤ 4097) →
      i + cnt ≤ probs.length →
      (∀ row, row ∈ probs → t.p ≤ row.length) →
      ∃ probs', read_probs t lines i probs = some probs' ∧ probs'.length = probs.length ∧
        (∀ k, k < i → probs'[k]? = probs[k]?) ∧
        (∀ k j, i ≤ k → k < i + cnt → j < t.p →
          mat_get probs' k j = (mat_get P k j).map (fixed 6)) := by
  intro cnt
  induction cnt with
  | zero =>
    intro i lines probs hw _ _ _
    simp only [write_double_matrix_loop, Option.some.injEq] at hw
    subst hw
    refine ⟨probs, rfl, rfl, fun _ _ => rfl, ?_⟩
    intro k j h1 h2
    omega
  | succ cnt ih =>
    intro i lines probs hw hlen hi hrow
    simp only [write_double_matrix_loop, Option.bind_eq_bind, Option.bind_eq_some,
      Option.pure_def, Option.some.injEq] at hw
    obtain ⟨row, hrowi, l, hl, ls, hls, hw⟩ := hw
    subst hw
    split at hl
    swap
    · simp at hl
    rename_i hpr
    simp only [Option.some.injEq] at hl
    have htok : l.tokens = (row.take t.p).map (fixed 6) := by
      rw [← hl]
      simp
    have hif : i < probs.length := by omega
    have hll : ¬ 4097 < l.length := by
      have := hlen l (List.mem_cons_self _ _)
      omega
    have htl : l.tokens.length = t.p := by
      rw [htok, List.length_map, List.length_take]
      omega
    have hne : l.tokens ≠ [] := by
      intro h0
      rw [h0] at htl
      simp at htl
      omega
    have hparse : parse_double_row l.tokens (List.replicate t.p 0) = some l.tokens := by
      have := parse_double_row_full _ hne
      rw [htl] at this
      exact this
    obtain ⟨old, hold⟩ : ∃ old, probs[i]? = some old := ⟨probs[i], List.getElem?_eq_getElem hif⟩
    have holdp : t.p ≤ old.length := hrow old (List.mem_iff_getElem?.mpr ⟨i, hold⟩)
    have hrow1 : ∀ x, x ∈ probs.set i (l.tokens.take t.p ++ old.drop t.p) → t.p ≤ x.length := by
      intro x hx
      rcases List.mem_or_eq_of_mem_set hx with h | h
      · exact hrow x h
      · subst h
        simp only [List.length_append, List.length_take, List.length_drop]
        omega
    obtain ⟨probs', hr, hlen', hfr, hval⟩ := ih (i + 1) ls
      (probs.set i (l.tokens.take t.p ++ old.drop t.p))
      hls (fun x hx => hlen x (List.mem_cons_of_mem _ hx))
      (by rw [List.length_set]; omega) hrow1
    refine ⟨probs', ?_, ?_, ?_, ?_⟩
    · simp only [read_probs, if_neg hll, hparse, Option.bind_eq_bind,
        Option.some_bind, hold, if_pos holdp, wr, if_pos hif]
      exact hr
    · rw [hlen', List.length_set]
    · intro k hk
      rw [hfr k (by omega), List.getElem?_set_ne (by omega)]
    · intro k j h1 h2 hj
      by_cases hki : k = i
      · subst hki
        simp only [mat_get]
        rw [hfr k (by omega), List.getElem?_set_self hif, hrowi]
        simp only [Option.some_bind]
        rw [List.getElem?_append_left (by rw [List.length_take]; omega),
          List.getElem?_take_of_lt hj, htok, List.getElem?_map, List.getElem?_take_of_lt hj]
      · exact hval k j (by omega) (by omega) hj

theorem write_set_loop_total (S : List individual) (n : Nat) (iter : Int)
    (hpar : ∀ m, m ∈ S → n ≤ m.params.length) :
    ∀ cnt i, i + cnt ≤ S.length → ∃ lines, write_set_loop S n iter cnt i = some lines := by
  intro cnt
  induction cnt with
  | zero =>
    intro i _
    exact ⟨[], rfl⟩
  | succ cnt ih =>
    intro i hi
    have hil : i < S.length := by omega
    obtain ⟨ls, hls⟩ := ih (i + 1) (by omega)
    have hm : S[i]? = some S[i] := List.getElem?_eq_getElem hil
    have hn : n ≤ S[i].params.length := hpar _ (List.getElem_mem hil)
    simp only [write_set_loop, hm, Option.bind_eq_bind, Option.some_bind, write_ind, if_pos hn,
      hls, Option.pure_def]
    exact ⟨_, rfl⟩

theorem write_int_matrix_loop_total (F : List (List Int)) (col : Nat) (iter : Int)
    (hrow : ∀ row, row ∈ F → col ≤ row.length) :
    ∀ cnt r, r + cnt ≤ F.length → ∃ lines, write_int_matrix_loop F col iter cnt r = some lines := by
  intro cnt
  induction cnt with
  | zero =>
    intro r _
    exact ⟨[], rfl⟩
  | succ cnt ih =>
    intro r hr
    have hrl : r < F.length := by omega
    obtain ⟨ls, hls⟩ := ih (r + 1) (by omega)
    have hm : F[r]? = some F[r] := List.getElem?_eq_getElem hrl
    have hn : col ≤ F[r].length := hrow _ (List.getElem_mem hrl)
    simp only [write_int_matrix_loop, hm, Option.bind_eq_bind, Option.some_bind, if_pos hn,
      hls, Option.pure_def]
    exact ⟨_, rfl⟩

theorem write_double_matrix_loop_total (P : List (List ℚ)) (col : Nat) (iter : Int)
    (hrow : ∀ row, row ∈ P → col ≤ row.length) :
    ∀ cnt r, r + cnt ≤ P.length →
      ∃ lines, write_double_matrix_loop P col iter cnt r = some lines := by
  intro cnt
  induction cnt with
  | zero =>
    intro r _
    exact ⟨[], rfl⟩
  | succ cnt ih =>
    intro r hr
    have hrl : r < P.length := by omega
    obtain ⟨ls, hls⟩ := ih (r + 1) (by omega)
    have hm : P[r]? = some P[r] := List.getElem?_eq_getElem hrl
    have hn : col ≤ P[r].length := hrow _ (List.getElem_mem hrl)
    simp only [write_double_matrix_loop, hm, Option.bind_eq_bind, Option.some_bind, if_pos hn,
      hls, Option.pure_def]
    exact ⟨_, rfl⟩

theorem init_warm_start_of_files (s t : SSType) (ht : WarmWF t)
    (hn : t.nreal = s.nreal) (hb : t.ref_set_size = s.ref_set_size) (hp : t.p = s.p)
    (hp1 : 1 ≤ s.p) (f1 : List (Line ℚ)) (f2 : List (Line Int)) (f3 : List (Line ℚ))
    (h1 : write_set s.ref_set s.ref_set_size s.nreal (-1) = some f1)
    (h2 : write_int_matrix s.freqs_matrix s.nreal s.p (-1) = some f2)
    (h3 : write_double_matrix s.probs_matrix s.nreal s.p (-1) = some f3)
    (l1 : ∀ l, l ∈ f1 → l.length ≤ 4097) (l2 : ∀ l, l ∈ f2 → l.length ≤ 4097)
    (l3 : ∀ l, l ∈ f3 → l.length ≤ 4097) :
    ∃ t', init_warm_start t f1 f2 f3 = some t' ∧
      (∀ i m, i < s.ref_set_size → s.ref_set[i]? = some m →
        ∃ m', t'.ref_set[i]? = some m' ∧ m'.cost = fixed 6 m.cost ∧
          ∀ j, j < s.nreal → m'.params[j]? = (m.params[j]?).map (fixed 5)) ∧
      (∀ i j, i < s.nreal → j < s.p →
        mat_get t'.freqs_matrix i j = mat_get s.freqs_matrix i j) ∧
      (∀ i j, i < s.nreal → j < s.p →
        mat_get t'.probs_matrix i j = (mat_get s.probs_matrix i j).map (fixed 6)) := by
  unfold write_set at h1
  unfold write_int_matrix at h2
  unfold write_double_matrix at h3
  rw [← hn, ← hb] at h1
  rw [← hn, ← hp] at h2 h3
  obtain ⟨ref', hr, _, _, hrv⟩ := read_ref_set_spec t s.ref_set t.ref_set_size 0 f1 t.ref_set
    h1 l1 (by omega) ht.ref_len ht.ref_par
  obtain ⟨freqs', hf, _, _, hfv⟩ := read_freqs_spec t s.freqs_matrix (by omega) t.nreal 0 f2
    t.freqs_matrix h2 l2 (by omega) ht.freqs_len ht.freqs_row
  obtain ⟨probs', hq, _, _, hqv⟩ := read_probs_spec t s.probs_matrix (by omega) t.nreal 0 f3
    t.probs_matrix h3 l3 (by have := ht.probs_len; omega) ht.probs_row
  refine ⟨{ t with ref_set := ref', freqs_matrix := freqs', probs_matrix := probs' }, ?_, ?_,
    ?_, ?_⟩
  · simp only [init_warm_start, hr, hf, hq, Option.bind_eq_bind, Option.some_bind,
      Option.pure_def]
  · intro i m hi hm
    obtain ⟨m', a, b, c⟩ := hrv i m (by omega) (by omega) hm
    exact ⟨m', a, b, fun j hj => c j (by omega)⟩
  · intro i j hi hj
    exact hfv i j (by omega) (by omega) (by omega)
  · intro i j hi hj
    exact hqv i j (by omega) (by omega) (by omega)

theorem saved_state_numerals :
    fixed 5 (0.000001 : ℚ) = 0 ∧ fixed 6 (0 : ℚ) = 0 ∧
    fixed 6 (1 / 3 : ℚ) = 333333 / 1000000 ∧
    fixed_width 5 (0.000001 : ℚ) = 7 ∧ fixed_width 6 (0 : ℚ) = 8 ∧
    fixed_width 6 (1 / 3 : ℚ) = 8 ∧ int_width 1 = 1 := by
  have a : fixed 5 (0.000001 : ℚ) = 0 := by
    rw [fixed_of_near 5 _ 0 (by norm_num) (by norm_num)]
    norm_num
  have b : fixed 6 (0 : ℚ) = 0 := by
    rw [fixed_of_near 6 _ 0 (by norm_num) (by norm_num)]
    norm_num
  have c : fixed 6 (1 / 3 : ℚ) = 333333 / 1000000 := by
    rw [fixed_of_near 6 _ 333333 (by norm_num) (by norm_num)]
    norm_num
  have f0 : ⌊|(333333 / 1000000 : ℚ)|⌋ = 0 := by
    rw [Int.floor_eq_iff]
    norm_num [abs_of_pos]
  refine ⟨a, b, c, ?_, ?_, ?_, by decide⟩
  · unfold fixed_width
    rw [a]
    norm_num
    rfl
  · unfold fixed_width
    rw [b]
    norm_num
    rfl
  · unfold fixed_width
    rw [c, f0]
    norm_num
    rfl

theorem saved_state_files :
    write_set saved_state.ref_set 1 1 (-1) =
      some [{ tokens := [0, 0], length := 17 }] ∧
    write_int_matrix saved_state.freqs_matrix 1 3 (-1) =
      some [{ tokens := [1, 1, 1], length := 7 }] ∧
    write_double_matrix saved_state.probs_matrix 1 3 (-1) =
      some [{ tokens := [333333 / 1000000, 333333 / 1000000, 333333 / 1000000],
              length := 28 }] := by
  obtain ⟨a, b, c, wa, wb, wc, wi⟩ := saved_state_numerals
  refine ⟨?_, ?_, ?_⟩
  · simp [write_set, write_set_loop, write_ind, saved_state, a, b, wa, wb]
  · simp [write_int_matrix, write_int_matrix_loop, saved_state, wi]
  · have c1 : fixed 6 (3⁻¹ : ℚ) = 333333 / 1000000 := by rw [← one_div]; exact c
    have wc1 : fixed_width 6 (3⁻¹ : ℚ) = 8 := by rw [← one_div]; exact wc
    simp [write_double_matrix, write_double_matrix_loop, saved_state, c1, wc1]

theorem saved_state_loaded :
    init_warm_start loading_state [{ tokens := [0, 0], length := 17 }]
        [{ tokens := [1, 1, 1], length := 7 }]
        [{ tokens := [333333 / 1000000, 333333 / 1000000, 333333 / 1000000], length := 28 }] =
      some { loading_state with
        probs_matrix := [[333333 / 1000000, 333333 / 1000000, 333333 / 1000000]] } := by
  simp [init_warm_start, read_ref_set, read_freqs, read_probs, parse_double_row, parse_int_row,
    parse_row_loop, wr, loading_state]

theorem saved_state_wf : WarmWF saved_state ∧ WarmWF loading_state := by
  constructor
  · refine { ref_len := by decide, ref_par := ?_, freqs_len := by decide, freqs_row := ?_,
             probs_len := by decide, probs_row := ?_ }
    · intro m hm
      simp only [saved_state, List.mem_singleton] at hm
      subst hm
      decide
    · intro row hrow
      simp only [saved_state, List.mem_singleton] at hrow
      subst hrow
      decide
    · intro row hrow
      simp only [saved_state, List.mem_singleton] at hrow
      subst hrow
      decide
  · refine { ref_len := by decide, ref_par := ?_, freqs_len := by decide, freqs_row := ?_,
             probs_len := by decide, probs_row := ?_ }
    · intro m hm
      simp only [loading_state, List.mem_singleton] at hm
      subst hm
      decide
    · intro row hrow
      simp only [loading_state, List.mem_singleton] at hrow
      subst hrow
      decide
    · intro row hrow
      simp only [loading_state, List.mem_singleton] at hrow
      subst hrow
      decide

/-- C22 (the claim as stated fails).  A Reference Set whose one member has the
parameter 0.000001 and the cost 0, with the probability row `1/3, 1/3, 1/3`
that `init_ssParams` sets for `p = 3`, is written with `write_set`,
`write_int_matrix` and `write_double_matrix` (`iter = -1`) and loaded with
`init_warm_start` under the same `nreal`, `ref_set_size` and `p`: the member
comes back with the parameter 0 and the probabilities come back as 0.333333. -/
theorem warm_start_loses_digits :
    ∃ f1 f2 f3 t',
      write_set saved_state.ref_set saved_state.ref_set_size saved_state.nreal (-1) = some f1 ∧
      write_int_matrix saved_state.freqs_matrix saved_state.nreal saved_state.p (-1) = some f2 ∧
      write_double_matrix saved_state.probs_matrix saved_state.nreal saved_state.p (-1) =
        some f3 ∧
      loading_state.nreal = saved_state.nreal ∧
      loading_state.ref_set_size = saved_state.ref_set_size ∧
      loading_state.p = saved_state.p ∧
      init_warm_start loading_state f1 f2 f3 = some t' ∧
      saved_state.ref_set[0]? = some { params := [0.000001], cost := 0 } ∧
      t'.ref_set[0]? = some { params := [0], cost := 0 } ∧
      t'.ref_set ≠ saved_state.ref_set ∧
      mat_get saved_state.probs_matrix 0 0 = some (1 / 3) ∧
      mat_get t'.probs_matrix 0 0 = some (333333 / 1000000) ∧
      t'.probs_matrix ≠ saved_state.probs_matrix := by
  refine ⟨_, _, _, _, saved_state_files.1, saved_state_files.2.1, saved_state_files.2.2,
    rfl, rfl, rfl, saved_state_loaded, rfl, rfl, ?_, rfl, rfl, ?_⟩
  · norm_num [saved_state, loading_state]
  · norm_num [saved_state, loading_state]

/-- C22 (amended).  For a state `s` to save and a state `t` that loads, both
with arrays allocated for the same `nreal`, `ref_set_size` and `p ≥ 1`, the
three writers (`iter = -1`) return files, and when every line written has at
most 4097 characters (what `fgets` reads whole into the line buffer),
`init_warm_start` on these files returns a state in which every reference
member `i < ref_set_size` has the cost of the member saved rounded to 6
decimals and, in every dimension `j < nreal`, its parameter rounded to 5
decimals; every frequency `[i][j]` is the one saved; every probability `[i][j]`
is the one saved rounded to 6 decimals.  A value with at most `d` decimals is
its own rounding to `d` decimals, so that such values come back exactly. -/
theorem warm_start_round_trip (s t : SSType) (hs : WarmWF s) (ht : WarmWF t)
    (hn : t.nreal = s.nreal) (hb : t.ref_set_size = s.ref_set_size) (hp : t.p = s.p)
    (hp1 : 1 ≤ s.p) :
    (∃ f1 f2 f3,
      write_set s.ref_set s.ref_set_size s.nreal (-1) = some f1 ∧
      write_int_matrix s.freqs_matrix s.nreal s.p (-1) = some f2 ∧
      write_double_matrix s.probs_matrix s.nreal s.p (-1) = some f3 ∧
      ((∀ l, l ∈ f1 → l.length ≤ 4097) → (∀ l, l ∈ f2 → l.length ≤ 4097) →
        (∀ l, l ∈ f3 → l.length ≤ 4097) →
        ∃ t', init_warm_start t f1 f2 f3 = some t' ∧
          (∀ i m, i < s.ref_set_size → s.ref_set[i]? = some m →
            ∃ m', t'.ref_set[i]? = some m' ∧ m'.cost = fixed 6 m.cost ∧
              ∀ j, j < s.nreal → m'.params[j]? = (m.params[j]?).map (fixed 5)) ∧
          (∀ i j, i < s.nreal → j < s.p →
            mat_get t'.freqs_matrix i j = mat_get s.freqs_matrix i j) ∧
          (∀ i j, i < s.nreal → j < s.p →
            mat_get t'.probs_matrix i j = (mat_get s.probs_matrix i j).map (fixed 6)))) ∧
    (∀ (d : Nat) (x : ℚ) (z : Int), x * 10 ^ d = (z : ℚ) → fixed d x = x) := by
  obtain ⟨f1, h1⟩ := write_set_loop_total s.ref_set s.nreal (-1) hs.ref_par
    s.ref_set_size 0 (by have := hs.ref_len; omega)
  obtain ⟨f2, h2⟩ := write_int_matrix_loop_total s.freqs_matrix s.p (-1) hs.freqs_row
    s.nreal 0 (by have := hs.freqs_len; omega)
  obtain ⟨f3, h3⟩ := write_double_matrix_loop_total s.probs_matrix s.p (-1) hs.probs_row
    s.nreal 0 (by have := hs.probs_len; omega)
  refine ⟨⟨f1, f2, f3, h1, h2, h3, ?_⟩, fixed_of_decimal⟩
  intro l1 l2 l3
  exact init_warm_start_of_files s t ht hn hb hp hp1 f1 f2 f3 h1 h2 h3 l1 l2 l3

theorem warm_start_round_trip_witness :
    WarmWF saved_state ∧ WarmWF loading_state ∧
    ((∃ f1 f2 f3,
      write_set saved_state.ref_set saved_state.ref_set_size saved_state.nreal (-1) = some f1 ∧
      write_int_matrix saved_state.freqs_matrix saved_state.nreal saved_state.p (-1) = some f2 ∧
      write_double_matrix saved_state.probs_matrix saved_state.nreal saved_state.p (-1) =
        some f3 ∧
      ((∀ l, l ∈ f1 → l.length ≤ 4097) → (∀ l, l ∈ f2 → l.length ≤ 4097) →
        (∀ l, l ∈ f3 → l.length ≤ 4097) →
        ∃ t', init_warm_start loading_state f1 f2 f3 = some t' ∧
          (∀ i m, i < saved_state.ref_set_size → saved_state.ref_set[i]? = some m →
            ∃ m', t'.ref_set[i]? = some m' ∧ m'.cost = fixed 6 m.cost ∧
              ∀ j, j < saved_state.nreal → m'.params[j]? = (m.params[j]?).map (fixed 5)) ∧
          (∀ i j, i < saved_state.nreal → j < saved_state.p →
            mat_get t'.freqs_matrix i j = mat_get saved_state.freqs_matrix i j) ∧
          (∀ i j, i < saved_state.nreal → j < saved_state.p →
            mat_get t'.probs_matrix i j =
              (mat_get saved_state.probs_matrix i j).map (fixed 6)))) ∧
    (∀ (d : Nat) (x : ℚ) (z : Int), x * 10 ^ d = (z : ℚ) → fixed d x = x)) ∧
    write_set saved_state.ref_set 1 1 (-1) = some [{ tokens := [0, 0], length := 17 }] :=
  ⟨saved_state_wf.1, saved_state_wf.2,
    warm_start_round_trip saved_state loading_state saved_state_wf.1 saved_state_wf.2
      rfl rfl rfl (by decide),
    saved_state_files.1⟩

/-! ## The set sizes that `ReadSSParameters` lets through -/

theorem suggested_ref_set_size_eq_ceil (nreal : Nat) :
    suggested_ref_set_size nreal = ⌈(1 : ℝ) + Real.sqrt (1 + 40 * (nreal : ℝ)) / 2⌉ := by
  symm
  rw [Int.ceil_eq_iff]
  unfold suggested_ref_set_size
  simp only
  have hr1 := Nat.sqrt_le (1 + 40 * nreal)
  have hr2 := Nat.lt_succ_sqrt (1 + 40 * nreal)
  generalize hrdef : Nat.sqrt (1 + 40 * nreal) = r at hr1 hr2 ⊢
  have hN : (1 : ℝ) + 40 * (nreal : ℝ) = ((1 + 40 * nreal : Nat) : ℝ) := by push_cast; ring
  rw [hN]
  have hlo : (r : ℝ) ≤ Real.sqrt ((1 + 40 * nreal : Nat) : ℝ) := by
    apply Real.le_sqrt_of_sq_le
    have : ((r * r : Nat) : ℝ) ≤ ((1 + 40 * nreal : Nat) : ℝ) := by exact_mod_cast hr1
    rw [pow_two]
    exact_mod_cast this
  have hhi : Real.sqrt ((1 + 40 * nreal : Nat) : ℝ) < (r : ℝ) + 1 := by
    rw [Real.sqrt_lt' (by positivity)]
    have : ((1 + 40 * nreal : Nat) : ℝ) < (((r + 1) * (r + 1) : Nat) : ℝ) := by
      exact_mod_cast hr2
    rw [pow_two]
    exact_mod_cast this
  by_cases hsq : r * r = 1 + 40 * nreal
  · rw [if_pos hsq]
    have hs : Real.sqrt ((1 + 40 * nreal : Nat) : ℝ) = (r : ℝ) := by
      rw [← hsq]
      push_cast
      exact Real.sqrt_mul_self (by positivity)
    rw [hs]
    have h2 : 2 * ((r + 1) / 2) = r ∨ 2 * ((r + 1) / 2) = r + 1 := by omega
    generalize (r + 1) / 2 = k at h2 ⊢
    have h2r : (2 : ℝ) * (k : ℝ) = (r : ℝ) ∨ (2 : ℝ) * (k : ℝ) = (r : ℝ) + 1 := by
      rcases h2 with h | h
      · left; exact_mod_cast h
      · right; exact_mod_cast h
    push_cast
    constructor
    · rcases h2r with h | h <;> linarith
    · rcases h2r with h | h <;> linarith
  · rw [if_neg hsq]
    have hlt : (r : ℝ) < Real.sqrt ((1 + 40 * nreal : Nat) : ℝ) := by
      rcases lt_or_eq_of_le hlo with h | h
      · exact h
      · exfalso
        apply hsq
        have h0 : (0 : ℝ) ≤ ((1 + 40 * nreal : Nat) : ℝ) := by positivity
        have := Real.mul_self_sqrt h0
        rw [← h] at this
        exact_mod_cast this
    have h2 : 2 * ((r + 2) / 2) = r + 1 ∨ 2 * ((r + 2) / 2) = r + 2 := by omega
    generalize (r + 2) / 2 = k at h2 ⊢
    have h2r : (2 : ℝ) * (k : ℝ) = (r : ℝ) + 1 ∨ (2 : ℝ) * (k : ℝ) = (r : ℝ) + 2 := by
      rcases h2 with h | h
      · left; exact_mod_cast h
      · right; exact_mod_cast h
    generalize Real.sqrt ((1 + 40 * nreal : Nat) : ℝ) = sq at hlo hhi hlt ⊢
    push_cast
    constructor
    · rcases h2r with h | h <;> linarith
    · rcases h2r with h | h <;> linarith

theorem suggested_ref_set_size_le (nreal : Nat) :
    0 ≤ suggested_ref_set_size nreal ∧
      (suggested_ref_set_size nreal + 1 ≤ 40 ∨
        suggested_ref_set_size nreal + 1 ≤ 10 * (nreal : Int)) := by
  unfold suggested_ref_set_size
  simp only
  have hr1 := Nat.sqrt_le (1 + 40 * nreal)
  generalize Nat.sqrt (1 + 40 * nreal) = r at hr1 ⊢
  have hk : ((if r * r = 1 + 40 * nreal then ((r + 1) / 2 : Nat) else ((r + 2) / 2 : Nat)) : Nat)
      ≤ (r + 2) / 2 := by
    split
    · omega
    · exact le_refl _
  generalize (if r * r = 1 + 40 * nreal then ((r + 1) / 2 : Nat) else ((r + 2) / 2 : Nat)) = k
    at hk ⊢
  refine ⟨by omega, ?_⟩
  by_cases h : r ≤ 74
  · left
    omega
  · right
    have h75 : 75 * r ≤ r * r := Nat.mul_le_mul_right r (by omega)
    generalize r * r = q at hr1 h75
    omega

theorem check_scatter_set_size_explicit (nreal : Nat) (b scatter_set_size b1 m : Int)
    (h : check_scatter_set_size nreal b scatter_set_size = some (SizeCheck.sizes b1 m))
    (hsc : scatter_set_size ≠ -1) : b1 = b ∧ b < m := by
  unfold check_scatter_set_size at h
  rw [if_neg hsc] at h
  by_cases h1 : scatter_set_size < 40 ∨ scatter_set_size ≤ b
  · rw [if_pos h1] at h
    simp at h
  · rw [if_neg h1] at h
    by_cases h2 : scatter_set_size % 2 ≠ 0
    · rw [if_pos h2] at h
      by_cases h3 : scatter_set_size + 1 ≤ 2147483647
      · rw [if_pos h3] at h
        simp only [Option.some.injEq, SizeCheck.sizes.injEq] at h
        omega
      · rw [if_neg h3] at h
        simp at h
    · rw [if_neg h2] at h
      simp only [Option.some.injEq, SizeCheck.sizes.injEq] at h
      omega

theorem check_scatter_set_size_auto (nreal : Nat) (b b1 m : Int)
    (h : check_scatter_set_size nreal b (-1) = some (SizeCheck.sizes b1 m)) :
    b1 = b ∧ 40 ≤ m ∧ 10 * (nreal : Int) ≤ m := by
  unfold check_scatter_set_size at h
  rw [if_pos rfl] at h
  by_cases h1 : 10 * (nreal : Int) ≤ 2147483647
  · rw [if_pos h1] at h
    simp only [Option.some.injEq, SizeCheck.sizes.injEq] at h
    obtain ⟨hb, hm⟩ := h
    subst hm
    refine ⟨hb.symm, ?_, ?_⟩
    · split <;> omega
    · split <;> omega
  · rw [if_neg h1] at h
    simp at h

theorem check_ref_set_size_auto (nreal : Nat) (b : Int)
    (h : check_ref_set_size nreal (-1) = some (some b)) :
    b ≤ 40 ∨ b ≤ 10 * (nreal : Int) := by
  obtain ⟨hs0, hs⟩ := suggested_ref_set_size_le nreal
  unfold check_ref_set_size at h
  rw [if_pos rfl] at h
  simp only at h
  generalize suggested_ref_set_size nreal = sg at h hs hs0
  by_cases h1 : (if sg % 2 ≠ 0 then sg + 1 else sg) ≤ 2147483647
  · rw [if_pos h1] at h
    simp only [Option.some.injEq] at h
    subst h
    by_cases h2 : sg % 2 ≠ 0
    · rw [if_pos h2]
      split <;> omega
    · rw [if_neg h2]
      split <;> omega
  · rw [if_neg h1] at h
    simp at h

theorem ReadSSParameters_sizes_ordered (nreal : Nat) (ref_set_size scatter_set_size b m : Int)
    (h : ReadSSParameters_sizes nreal ref_set_size scatter_set_size = some (SizeCheck.sizes b m))
    (hcomb : ref_set_size = -1 ∨ scatter_set_size ≠ -1) : b ≤ m := by
  unfold ReadSSParameters_sizes at h
  cases hr : check_ref_set_size nreal ref_set_size with
  | none =>
    rw [hr] at h
    simp at h
  | some r =>
    cases r with
    | none =>
      rw [hr] at h
      simp at h
    | some b0 =>
      rw [hr] at h
      simp only at h
      by_cases hsc : scatter_set_size = -1
      · subst hsc
        have hra : ref_set_size = -1 := by
          rcases hcomb with h1 | h1
          · exact h1
          · exact absurd rfl h1
        subst hra
        have h1 := check_ref_set_size_auto nreal b0 hr
        have h2 := check_scatter_set_size_auto nreal b0 b m h
        omega
      · have h2 := check_scatter_set_size_explicit nreal b0 scatter_set_size b m h hsc
        omega

theorem ReadSSParameters_sizes_explicit_auto (nreal : Nat) (ref_set_size : Int)
    (h20 : 20 ≤ ref_set_size) (hn : (nreal : Int) < ref_set_size)
    (heven : ref_set_size % 2 = 0) (hov : 10 * (nreal : Int) ≤ 2147483647) :
    ReadSSParameters_sizes nreal ref_set_size (-1) =
      some (SizeCheck.sizes ref_set_size
        (if 10 * (nreal : Int) > 40 then 10 * (nreal : Int) else 40)) := by
  have hr : check_ref_set_size nreal ref_set_size = some (some ref_set_size) := by
    unfold check_ref_set_size
    rw [if_neg (by omega), if_neg (by omega), if_neg (by omega)]
  unfold ReadSSParameters_sizes
  rw [hr]
  simp only [check_scatter_set_size, if_pos hov, if_true]

theorem quick_sort_set_length {set out : List individual} {n : Nat}
    (h : quick_sort_set set n = some out) : out.length = set.length := by
  by_cases hn : n ≤ set.length
  · by_cases h0 : n = 0
    · subst h0
      by_cases hl : 1 ≤ set.length
      · rw [quick_sort_set_zero set hl] at h
        simp only [Option.some.injEq] at h
        rw [h]
      · have hnil : set = [] := List.length_eq_zero.mp (by omega)
        subst hnil
        exfalso
        have hq : quick_sort ([] : List individual) [0] 0 0 = none := by
          rw [quick_sort]
          simp
        simp [quick_sort_set, hq] at h
    · obtain ⟨out1, h1, _, _, _, hlen⟩ := quick_sort_set_sorted_perm set n (by omega) hn
      rw [h1] at h
      simp only [Option.some.injEq] at h
      rw [← h, hlen]
  · unfold quick_sort_set at h
    rw [if_neg hn] at h
    simp at h

theorem copy_best_short (ssParams : SSType) (sc ref : List individual) :
    ∀ n, sc.length < n → copy_best ssParams sc ref n = none := by
  intro n
  cases n with
  | zero =>
    intro h
    omega
  | succ n =>
    intro h
    have hsrc : sc[n]? = none := List.getElem?_eq_none (by omega)
    simp only [copy_best, Option.bind_eq_bind]
    cases copy_best ssParams sc ref n with
    | none => rfl
    | some ref1 =>
      simp only [Option.some_bind]
      cases ref1[n]? with
      | none => rfl
      | some dest => simp only [Option.some_bind, hsrc, Option.none_bind]

theorem init_ref_set_short_pool (s : SSType) (h : s.scatter_set.length < s.ref_set_size / 2) :
    init_ref_set s = none := by
  unfold init_ref_set
  simp only [Option.bind_eq_bind]
  cases hq : quick_sort_set s.scatter_set s.scatter_set_size with
  | none => rfl
  | some sc =>
    simp only [Option.some_bind]
    rw [copy_best_short s sc s.ref_set _ (by rw [quick_sort_set_length hq]; exact h)]
    rfl

/-- C23 (evaluation at the failing input).  For `nreal = 1`, the explicit
`ref_set_size = 100` and the automatic `scatter_set_size = -1`, the size checks
of `ReadSSParameters` raise no error and return the sizes 100 and 40: the
Scatter Set is smaller than the Reference Set.  The explicit value 41 for
`scatter_set_size` is refused by the test `scatter_set_size <= ref_set_size`,
which the automatic branch does not make.  On a state with these sizes
`init_ref_set` copies the 50 best members of a Scatter Set of 40 and reads
past its end. -/
theorem ReadSSParameters_sizes_auto_scatter_unchecked :
    ReadSSParameters_sizes 1 100 (-1) = some (SizeCheck.sizes 100 40) ∧
    ReadSSParameters_sizes 1 100 41 = some SizeCheck.error_scatter_set_size ∧
    (∀ s : SSType, s.ref_set_size = 100 → s.scatter_set_size = 40 →
      s.scatter_set.length = 40 → init_ref_set s = none) := by
  refine ⟨by decide, by decide, ?_⟩
  intro s hb hm hl
  exact init_ref_set_short_pool s (by rw [hl, hb]; decide)

/-! ## The six candidates of a pair of elite members -/

theorem emit_candidate_of (ssParams : SSType) (base : individual) (dists : List ℚ)
    (type : Char) (cs : List individual) (k : Nat) (g : Nat → ℚ) (slot c : individual)
    (g1 : Nat → ℚ) (hk : k < cs.length) (hslot : cs[k]? = some slot)
    (h : generate_ind_candidate ssParams base slot dists type g = some (c, g1)) :
    emit_candidate ssParams base dists type
        { candidates_set := cs, candidates_count := k, g := g } =
      some { candidates_set := cs.set k c, candidates_count := k + 1, g := g1 } := by
  simp only [emit_candidate, hslot, Option.bind_eq_bind, Option.some_bind, h, wr, if_pos hk,
    Option.pure_def]

theorem elite_pair_run :
    generate_candiates elite_pair_state (fun _ => 1 / 2) =
      some (elite_pair_after, fun _ => 1 / 2) := by
  have e0 : generate_ind_candidate elite_pair_state { params := [0], cost := 5 }
      { params := [0], cost := 0 } [2] '0' (fun _ => 1 / 2) =
      some ({ params := [-1], cost := 0 }, fun _ => 1 / 2) := by
    rw [generate_ind_candidate, if_pos rfl]
    norm_num [generate_loop0, store_clipped, rndreal, RandomReal, MIN, MAX, wr,
      elite_pair_state]
  have e1 : generate_ind_candidate elite_pair_state { params := [4], cost := 7 }
      { params := [0], cost := 0 } [2] '0' (fun _ => 1 / 2) =
      some ({ params := [3], cost := 0 }, fun _ => 1 / 2) := by
    rw [generate_ind_candidate, if_pos rfl]
    norm_num [generate_loop0, store_clipped, rndreal, RandomReal, MIN, MAX, wr,
      elite_pair_state]
  have e2 : generate_ind_candidate elite_pair_state { params := [0], cost := 5 }
      { params := [0], cost := 0 } [2] '1' (fun _ => 1 / 2) =
      some ({ params := [-1], cost := 0 }, fun _ => 1 / 2) := by
    rw [generate_ind_candidate, if_neg (by decide), if_pos rfl]
    norm_num [generate_loop1, store_clipped, rndreal, RandomReal, MIN, MAX, wr,
      elite_pair_state]
  have e3 : generate_ind_candidate elite_pair_state { params := [0], cost := 5 }
      { params := [0], cost := 0 } [2] '2' (fun _ => 1 / 2) =
      some ({ params := [1], cost := 0 }, fun _ => 1 / 2) := by
    rw [generate_ind_candidate, if_neg (by decide), if_neg (by decide), if_pos rfl]
    norm_num [generate_loop2, store_clipped, rndreal, RandomReal, MIN, MAX, wr,
      elite_pair_state]
  have e4 : generate_ind_candidate elite_pair_state { params := [4], cost := 7 }
      { params := [0], cost := 0 } [2] '3' (fun _ => 1 / 2) =
      some ({ params := [5], cost := 0 }, fun _ => 1 / 2) := by
    rw [generate_ind_candidate, if_neg (by decide), if_neg (by decide), if_neg (by decide),
      if_pos rfl]
    norm_num [generate_loop2, store_clipped, rndreal, RandomReal, MIN, MAX, wr,
      elite_pair_state]
  have hd : fill_dists { params := [0], cost := 5 } { params := [4], cost := 7 } [0] 1 =
      some [2] := by
    norm_num [fill_dists, wr]
  have hpair : generate_for_pair elite_pair_state (9 : ℚ)
      { params := [0], cost := 5 } { params := [4], cost := 7 } [2]
      { candidates_set := List.replicate 6 { params := [0], cost := 0 },
        candidates_count := 0, g := fun _ => 1 / 2 } =
      some {
        candidates_set := elite_pair_after.candidates_set,
        candidates_count := 6,
        g := fun _ => 1 / 2 } := by
    unfold generate_for_pair
    rw [if_pos (by norm_num)]
    simp only [Option.bind_eq_bind]
    rw [emit_candidate_of _ _ _ _ _ 0 _ _ _ _ (by decide) rfl e0, Option.some_bind,
      emit_candidate_of _ _ _ _ _ 1 _ _ _ _ (by decide) rfl e1, Option.some_bind,
      emit_candidate_of _ _ _ _ _ 2 _ _ _ _ (by decide) rfl e2, Option.some_bind,
      emit_candidate_of _ _ _ _ _ 3 _ _ _ _ (by decide) rfl e3, Option.some_bind,
      emit_candidate_of _ _ _ _ _ 4 _ _ _ _ (by decide) rfl e4, Option.some_bind,
      emit_candidate_of _ _ _ _ _ 5 _ _ _ _ (by decide) rfl e4]
    rfl
  have hloop : generate_candiates_loop elite_pair_state (9 : ℚ)
      { candidates_set := List.replicate 6 { params := [0], cost := 0 },
        candidates_count := 0, g := fun _ => 1 / 2 } [0] 1 =
      some ({
        candidates_set := elite_pair_after.candidates_set,
        candidates_count := 6,
        g := fun _ => 1 / 2 }, [2]) := by
    simp only [generate_candiates_loop, Option.bind_eq_bind, Option.some_bind]
    rw [show elite_pair_state.subsets_list[0]? =
      some ({ params := [0], cost := 5 }, { params := [4], cost := 7 }) from rfl,
      Option.some_bind, show elite_pair_state.nreal = 1 from rfl, hd, Option.some_bind, hpair]
    rfl
  unfold generate_candiates
  simp only [Option.bind_eq_bind]
  rw [show elite_pair_state.ref_set[elite_pair_state.max_elite]? =
    some { params := [8], cost := 9 } from rfl, Option.some_bind,
    show elite_pair_state.subsets_list_size = 1 from rfl,
    show List.replicate elite_pair_state.nreal (0 : ℚ) = [0] from rfl,
    show elite_pair_state.candidates_set = List.replicate 6 { params := [0], cost := 0 }
      from rfl,
    hloop]
  rfl

/-- C24 (evaluation at the failing input).  For the pair `x1 = [0]`, `x2 = [4]` of
two elite members (`d = 2`), bounds `[-10, 10]` and every draw equal to 1/2,
`generate_candiates` emits the six candidates `-1, 3, -1, 1, 5, 5`.  The second
one, of type 0, is `x2 - r * d = 3`: it is the clamped `x1 - r * d` or
`x1 + r * d` for no `r` in `[0, 1]`, these values lying in `[-2, 2]`. -/
theorem generate_candiates_second_type0_from_x2 :
    generate_candiates elite_pair_state (fun _ => 1 / 2) =
      some (elite_pair_after, fun _ => 1 / 2) ∧
    elite_pair_after.candidates_set.map (fun c => c.params) =
      [[-1], [3], [-1], [1], [5], [5]] ∧
    MAX (MIN ((4 : ℚ) - 2 * (1 / 2)) 10) (-10) = 3 ∧
    (∀ r : ℚ, 0 ≤ r → r ≤ 1 →
      MAX (MIN ((0 : ℚ) - 2 * r) 10) (-10) ≠ 3 ∧ MAX (MIN ((0 : ℚ) + 2 * r) 10) (-10) ≠ 3) := by
  refine ⟨elite_pair_run, rfl, by norm_num [MAX, MIN], ?_⟩
  intro r h0 h1
  have a : MAX (MIN ((0 : ℚ) - 2 * r) 10) (-10) = 0 - 2 * r := by
    unfold MIN
    rw [if_pos (by linarith)]
    unfold MAX
    rw [if_pos (by linarith)]
  have b : MAX (MIN ((0 : ℚ) + 2 * r) 10) (-10) = 0 + 2 * r := by
    unfold MIN
    rw [if_pos (by linarith)]
    unfold MAX
    rw [if_pos (by linarith)]
  rw [a, b]
  constructor
  · intro h
    linarith
  · intro h
    linarith

/-! ## Method `'n'` of `refine_individual` -/

theorem refine_individual_n_eq (objective : List ℚ → ℚ)
    (nelder_mead : SSType → individual → Option (individual × SSType))
    (ssParams : SSType) (ind : individual) (g : Nat → ℚ) (a : individual × SSType)
    (ha : nelder_mead ssParams ind = some a) :
    refine_individual objective nelder_mead ssParams ind 'n' g =
      (hill_climb objective
        { ind := a.1, new_params := List.replicate ssParams.nreal 0, ssParams := a.2, g := g }
        a.2.max_no_improve).bind (fun st =>
          some (st.ind, { st.ssParams with n_refinement := st.ssParams.n_refinement + 1 },
            st.g)) := by
  simp only [refine_individual, Option.bind_eq_bind, Option.pure_def]
  rw [if_pos trivial, ha]
  rfl

theorem hill_state_climb :
    hill_climb (fun ps => ps.sum)
        { ind := { params := [5], cost := 25 }, new_params := [0], ssParams := hill_state,
          g := fun _ => 0 } 2 =
      some { ind := { params := [3], cost := 3 }, new_params := [3],
             ssParams := { hill_state with n_function_evals := 2 }, g := fun _ => 0 } := by
  norm_num [hill_climb, hill_trial, take_step, take_step_loop, evaluate_ind, copy_ind, rndreal,
    RandomReal, MAX, MIN, wr, hill_state]

/-- C25 (evaluation at the failing input).  With one parameter between 0 and 10,
`step_size = 1`, `max_no_improve = 2`, the objective "sum of the parameters",
every draw equal to 0 and a Nelder-Mead run that returns the individual
`([5], 25)` as it was, `refine_individual` with method `'n'` leaves the
individual `([3], 3)`: after `nelder_mead` the two trials of the stochastic
hill climbing of case `'t'` are made (two more evaluations).  In general the
result of method `'n'` is the hill climbing started from the result of
`nelder_mead`. -/
theorem refine_individual_n_falls_through :
    idle_nelder_mead hill_state { params := [5], cost := 25 } =
      some ({ params := [5], cost := 25 }, hill_state) ∧
    refine_individual (fun ps => ps.sum) idle_nelder_mead hill_state
        { params := [5], cost := 25 } 'n' (fun _ => 0) =
      some ({ params := [3], cost := 3 },
        { hill_state with n_function_evals := 2, n_refinement := 1 }, fun _ => 0) ∧
    (∀ (objective : List ℚ → ℚ)
        (nelder_mead : SSType → individual → Option (individual × SSType))
        (ssParams : SSType) (ind : individual) (g : Nat → ℚ) (a : individual × SSType),
      nelder_mead ssParams ind = some a →
      refine_individual objective nelder_mead ssParams ind 'n' g =
        (hill_climb objective
          { ind := a.1, new_params := List.replicate ssParams.nreal 0, ssParams := a.2,
            g := g }
          a.2.max_no_improve).bind (fun st =>
            some (st.ind, { st.ssParams with n_refinement := st.ssParams.n_refinement + 1 },
              st.g))) := by
  refine ⟨rfl, ?_, refine_individual_n_eq⟩
  rw [refine_individual_n_eq _ _ _ _ _ ({ params := [5], cost := 25 }, hill_state) rfl]
  have hc := hill_state_climb
  exact congrArg (fun r => r.bind (fun (st : HillState) =>
    some (st.ind, { st.ssParams with n_refinement := st.ssParams.n_refinement + 1 }, st.g))) hc

/-! ## `matrix_product` accumulates in an `int` -/

theorem double_to_int_half : double_to_int (1 / 2) = some 0 := by
  have hf : ⌊(1 / 2 : ℚ)⌋ = 0 := by
    rw [Int.floor_eq_iff]
    norm_num
  unfold double_to_int
  simp only
  rw [if_pos (by norm_num), hf, if_pos (by norm_num)]

theorem matrix_product_sum_halves :
    matrix_product_sum [[1 / 2, 1 / 2]] [[1], [1]] 0 0 2 = some 0 := by
  have h1 : matrix_product_sum [[1 / 2, 1 / 2]] [[1], [1]] 0 0 1 = some 0 := by
    simp only [matrix_product_sum, mat_get, Option.bind_eq_bind, Option.some_bind,
      List.getElem?_cons_zero]
    norm_num
    exact double_to_int_half
  rw [matrix_product_sum, h1]
  simp only [mat_get, Option.bind_eq_bind, Option.some_bind, List.getElem?_cons_zero,
    List.getElem?_cons_succ]
  norm_num
  exact double_to_int_half

/-- C26 (evaluation at the failing input).  For the 1 x 2 matrix `A = (0.5 0.5)`
and the 2 x 1 matrix `B` of ones, `matrix_product` stores 0 in `P[0][0]`: the
accumulator `sum` is an `int`, and each of the two additions of 0.5 is cut back
to 0.  The matrix product is `0.5 * 1 + 0.5 * 1 = 1`. -/
theorem matrix_product_truncates :
    matrix_product [[1 / 2, 1 / 2]] 1 [[1], [1]] 2 1 [[0]] = some [[0]] ∧
    ((1 / 2 : ℚ) * 1 + (1 / 2 : ℚ) * 1 = 1) ∧
    mat_get ([[0]] : List (List ℚ)) 0 0 ≠ some ((1 / 2 : ℚ) * 1 + (1 / 2 : ℚ) * 1) := by
  refine ⟨?_, by norm_num, by norm_num [mat_get]⟩
  simp only [matrix_product, matrix_product_rows, matrix_product_row, Option.bind_eq_bind,
    Option.some_bind, matrix_product_sum_halves]
  norm_num [mat_set, wr]

/-! ## What `n_ref_set_update` counts -/

theorem replace_counter {s s1 : SSType} {dest : Nat} {src : individual}
    (h : replace s dest src = some s1) : s1.n_ref_set_update = s.n_ref_set_update + 1 := by
  obtain ⟨d, d1, ref2, _, _, _, h⟩ := replace_eq_some h
  subst h
  rfl

theorem is_in_flatzone_counter {s : SSType} {set : List individual} {n : Nat} {c : individual}
    {r : Bool × SSType} (h : is_in_flatzone s set n c = some r) :
    r.2.n_ref_set_update = s.n_ref_set_update := by
  simp only [is_in_flatzone, Option.bind_eq_bind, Option.bind_eq_some, Option.pure_def,
    Option.some.injEq] at h
  obtain ⟨r1, _, h⟩ := h
  subst h
  rfl

theorem update_step_counter {s s1 : SSType} {c : individual}
    (h : update_step s c = some s1) :
    s1.n_ref_set_update = s.n_ref_set_update + step_overwrites s c := by
  obtain ⟨idx, hidx, h⟩ := update_step_cases h
  unfold step_overwrites
  rw [hidx]
  simp only
  rcases h with ⟨h0, hf, h⟩ | ⟨h0, hf, r, hr, h⟩ | ⟨h0, d, hd, h⟩
  · rw [if_pos h0, if_neg (by simpa using hf), replace_counter h]
    rfl
  · rw [if_pos h0, if_pos hf, hr]
    simp only
    rcases h with ⟨hflag, h⟩ | ⟨hflag, h⟩
    · subst h
      rw [if_pos hflag, is_in_flatzone_counter hr]
      simp
    · rw [hflag, replace_counter h, is_in_flatzone_counter hr]
      simp
  · rw [if_neg h0, hd]
    simp only
    rcases h with ⟨hlt, s2, h2, h⟩ | ⟨hlt, h⟩
    · subst h
      rw [if_pos hlt]
      have := replace_counter h2
      simpa using this
    · subst h
      rw [if_neg hlt]
      simp

theorem update_loop_counter :
    ∀ (cands : List individual) (s s1 : SSType), update_loop s cands = some s1 →
      s1.n_ref_set_update = s.n_ref_set_update + loop_overwrites s cands := by
  intro cands
  induction cands with
  | nil =>
    intro s s1 h
    simp [update_loop] at h
  | cons c rest ih =>
    intro s s1 h
    simp only [update_loop] at h
    split at h
    · simp at h
    · split at h
      · simp at h
      · rename_i worst hw
        simp only [loop_overwrites, hw]
        split at h
        · rename_i hlt
          rw [if_pos hlt]
          split at h
          · simp at h
          · rename_i s2 h2
            try rw [h2]
            try simp only
            rw [ih _ _ h, update_step_counter h2]
            push_cast
            ring
        · rename_i hlt
          rw [if_neg hlt]
          simp only [Option.some.injEq] at h
          subst h
          simp

theorem update_first_counter {s : SSType} {r : SSType × Nat}
    (h : update_first s = some r) : r.1.n_ref_set_update = s.n_ref_set_update := by
  simp only [update_first, Option.bind_eq_bind, Option.bind_eq_some] at h
  obtain ⟨c0, _, r0, _, h⟩ := h
  split at h
  · simp only [Option.bind_eq_some, Option.pure_def, Option.some.injEq] at h
    obtain ⟨r1, _, ref1, _, h⟩ := h
    subst h
    rfl
  · simp only [Option.pure_def, Option.some.injEq] at h
    subst h
    rfl

theorem update_ref_set_counter {s s1 : SSType} (h : update_ref_set s = some s1) :
    s1.n_ref_set_update + opening_copies s = s.n_ref_set_update + overwrites_by_update s := by
  simp only [update_ref_set, Option.bind_eq_bind, Option.bind_eq_some] at h
  obtain ⟨cands, hc, r, hr, h⟩ := h
  simp only [opening_copies, overwrites_by_update, hc, hr]
  rw [update_loop_counter _ _ _ h, update_first_counter hr]
  push_cast
  ring

/-- C27 (evaluation at the failing input).  On `dup_first_state` the call of
`update_ref_set` overwrites the reference member at index 0, `([0], 5)`, with
the best candidate `([3], 1)` in its opening copy and makes no other
replacement: one reference member is overwritten by a candidate, and
`n_ref_set_update` is left as it was. -/
theorem update_ref_set_first_copy_not_counted :
    update_ref_set dup_first_state = some dup_first_after ∧
    dup_first_state.ref_set[0]? = some { params := [0], cost := 5 } ∧
    dup_first_state.candidates_set[0]? = some { params := [3], cost := 1 } ∧
    dup_first_after.ref_set[0]? = some { params := [3], cost := 1 } ∧
    overwrites_by_update dup_first_state = 1 ∧
    dup_first_after.n_ref_set_update = dup_first_state.n_ref_set_update := by
  have hfirst : update_first
      { dup_first_state with candidates_set := dup_first_state.candidates_set }
      = some (dup_first_after, 1) := rfl
  refine ⟨dup_first_run, rfl, rfl, rfl, ?_, rfl⟩
  simp only [overwrites_by_update, dup_first_sort, hfirst]
  norm_num [loop_overwrites, dup_first_after, dup_first_state]

/-! ## The loop of `update_ref_set` and the size of the Candidate Set -/

theorem short_state_step :
    update_step short_mid { params := [30], cost := 4 } = some short_after := by
  have hexist : is_exist short_mid short_mid.ref_set short_mid.ref_set_size
      { params := [30], cost := 4 } = some (-1) := by
    norm_num [is_exist, is_exist_loop, is_equal, euclidean_distance_sq, euclidean_distance_sum,
      short_state, short_mid]
  rw [update_step_of_is_exist hexist]
  rfl

/-- C28 (evaluation at the failing input).  The Reference Set of `short_state` is
sorted and `candidates_set_size` is 1.  `update_ref_set` takes the candidate at
index 0 in its opening copy, then its loop examines the candidate at index 1,
which is outside the Candidate Set, and installs it in the Reference Set; the
loop ends at index 2, on a comparison with the buffer entry there. -/
theorem update_ref_set_examines_past_size :
    short_state.candidates_set_size = 1 ∧
    SortedR short_state.ref_set 0 (short_state.ref_set_size - 1) ∧
    update_ref_set short_state = some short_after ∧
    final_index short_state = 2 ∧
    short_state.candidates_set[1]? = some { params := [30], cost := 4 } ∧
    short_after.ref_set[1]? = some { params := [30], cost := 4 } := by
  have hsort : quick_sort_set short_state.candidates_set short_state.candidates_set_size
      = some short_state.candidates_set := by
    apply quick_sort_set_of_strictly_sorted _ _ (by decide) (by decide)
    intro i j a b hij hj
    have hj1 : j < 1 := hj
    omega
  have hfirst : update_first { short_state with candidates_set := short_state.candidates_set }
      = some (short_mid, 1) := rfl
  have hstop : update_loop short_after [{ params := [50], cost := 100 }] = some short_after :=
    update_loop_stop short_after { params := [30], cost := 4 } (by decide) rfl (by decide)
  refine ⟨rfl, ?_, ?_, ?_, rfl, rfl⟩
  · intro i j a b _ hij hj ha hb
    have hj1 : j ≤ 1 := hj
    have hcases : (i = 0 ∧ j = 0) ∨ (i = 0 ∧ j = 1) ∨ (i = 1 ∧ j = 1) := by omega
    rcases hcases with ⟨h1, h2⟩ | ⟨h1, h2⟩ | ⟨h1, h2⟩ <;> subst h1 <;> subst h2 <;>
      simp [short_state] at ha hb <;> subst ha <;> subst hb <;> norm_num
  · refine update_ref_set_eval hsort hfirst ?_
    show update_loop short_mid [{ params := [30], cost := 4 }, { params := [50], cost := 100 }]
      = some short_after
    rw [update_loop_continue short_mid { params := [10], cost := 9 } (by decide) rfl
      (by decide) short_state_step]
    exact hstop
  · simp only [final_index, hsort, hfirst]
    show 1 + loop_rounds short_mid
      [{ params := [30], cost := 4 }, { params := [50], cost := 100 }] = 2
    simp only [loop_rounds, short_state_step]
    norm_num [short_mid, short_state, short_after]

/-! ## The Reference Set stays sorted when no duplicate is found -/

theorem insertion_sort_loop_sorted (n : Nat) :
    ∀ (j : Nat) (set out : List individual), SortedBut set n j →
      insertion_sort_loop set j = some out → SortedR out 0 (n - 1) := by
  intro j
  induction j with
  | zero =>
    intro set out hinv h
    simp only [insertion_sort_loop, Option.some.injEq] at h
    subst h
    intro i1 i2 a b _ h12 h2 ha hb
    rcases Nat.lt_or_eq_of_le h12 with hlt | heq
    · exact hinv i1 i2 a b hlt h2 (by omega) ha hb
    · subst heq
      rw [ha] at hb
      simp only [Option.some.injEq] at hb
      rw [hb]
  | succ j ih =>
    intro set out hinv h
    simp only [insertion_sort_loop, Option.bind_eq_bind, Option.bind_eq_some] at h
    obtain ⟨a, ha, b, hb, h⟩ := h
    split at h
    · rename_i hlt
      simp only [Option.bind_eq_some] at h
      obtain ⟨set1, h1, set2, h2, h⟩ := h
      have hj : j < set.length := by
        by_contra hc
        rw [List.getElem?_eq_none (by omega)] at hb
        simp at hb
      have hj1 : j + 1 < set.length := by
        by_contra hc
        rw [List.getElem?_eq_none (by omega)] at ha
        simp at ha
      simp only [wr, if_pos hj, Option.some.injEq] at h1
      subst h1
      simp only [wr, List.length_set, if_pos hj1, Option.some.injEq] at h2
      subst h2
      apply ih _ _ _ h
      intro i1 i2 x y h12 hi2 hne hx hy
      have get : ∀ k, ((set.set j a).set (j + 1) b)[k]? =
          if k = j + 1 then some b else if k = j then some a else set[k]? := by
        intro k
        by_cases hk1 : k = j + 1
        · subst hk1
          rw [if_pos rfl, List.getElem?_set_self (by rw [List.length_set]; exact hj1)]
        · rw [if_neg hk1, List.getElem?_set_ne (by omega)]
          by_cases hk : k = j
          · subst hk
            rw [if_pos rfl, List.getElem?_set_self hj]
          · rw [if_neg hk, List.getElem?_set_ne (by omega)]
      rw [get] at hx hy
      by_cases hi2j : i2 = j + 1
      · rw [if_pos hi2j] at hy
        simp only [Option.some.injEq] at hy
        subst hy
        by_cases hi1 : i1 = j
        · rw [if_neg (by omega), if_pos hi1] at hx
          simp only [Option.some.injEq] at hx
          subst hx
          exact le_of_lt hlt
        · rw [if_neg (by omega), if_neg hi1] at hx
          exact hinv i1 j x b (by omega) (by omega) (by omega) hx hb
      · rw [if_neg hi2j, if_neg hne] at hy
        by_cases hi1 : i1 = j + 1
        · rw [if_pos hi1] at hx
          simp only [Option.some.injEq] at hx
          subst hx
          exact hinv j i2 b y (by omega) hi2 hi2j hb hy
        · rw [if_neg hi1] at hx
          by_cases hi1j : i1 = j
          · rw [if_pos hi1j] at hx
            simp only [Option.some.injEq] at hx
            subst hx
            exact hinv (j + 1) i2 a y (by omega) hi2 hi2j ha hy
          · rw [if_neg hi1j] at hx
            exact hinv i1 i2 x y h12 hi2 hi2j hx hy
    · rename_i hlt
      simp only [Option.pure_def, Option.some.injEq] at h
      subst h
      intro i1 i2 x y _ h12 hi2 hx hy
      rcases Nat.lt_or_eq_of_le h12 with hlt12 | heq
      · by_cases hi2j : i2 = j + 1
        · subst hi2j
          rw [ha] at hy
          simp only [Option.some.injEq] at hy
          subst hy
          have hbx : x.cost ≤ b.cost := by
            rcases Nat.lt_or_eq_of_le (Nat.lt_succ_iff.mp hlt12) with hl | he
            · exact hinv i1 j x b hl (by omega) (by omega) hx hb
            · subst he
              rw [hx] at hb
              simp only [Option.some.injEq] at hb
              rw [hb]
          exact le_trans hbx (not_lt.mp hlt)
        · exact hinv i1 i2 x y hlt12 hi2 hi2j hx hy
      · subst heq
        rw [hx] at hy
        simp only [Option.some.injEq] at hy
        rw [hy]

theorem replace_last_sorted {s s1 : SSType} {c : individual}
    (hsorted : SortedR s.ref_set 0 (s.ref_set_size - 1))
    (h : replace s (s.ref_set_size - 1) c = some s1) :
    SortedR s1.ref_set 0 (s1.ref_set_size - 1) := by
  obtain ⟨d, d1, ref2, hd, _, hins, h⟩ := replace_eq_some h
  subst h
  show SortedR ref2 0 (s.ref_set_size - 1)
  apply insertion_sort_loop_sorted s.ref_set_size (s.ref_set_size - 1) _ _ _ hins
  intro i1 i2 a b h12 hi2 hne ha hb
  rw [List.getElem?_set_ne (by omega)] at ha hb
  exact hsorted i1 i2 a b (Nat.zero_le _) (le_of_lt h12) hi2 ha hb

theorem is_exist_loop_no_epsilon (s : SSType) (heps : s.dist_epsilon ≤ 0)
    (set : List individual) (c : individual) :
    ∀ n idx, is_exist_loop s set c n = some idx → idx = -1 := by
  intro n
  induction n with
  | zero =>
    intro idx h
    simp only [is_exist_loop, Option.some.injEq] at h
    exact h.symm
  | succ n ih =>
    intro idx h
    simp only [is_exist_loop, Option.bind_eq_bind, Option.bind_eq_some] at h
    obtain ⟨m, _, e, he, h⟩ := h
    simp only [is_equal, Option.bind_eq_bind, Option.bind_eq_some, Option.pure_def,
      Option.some.injEq] at he
    obtain ⟨d, _, he⟩ := he
    have hfalse : e = false := by
      rw [← he]
      simp only [decide_eq_false_iff_not, not_and]
      intro hpos
      exact absurd hpos (not_lt.mpr heps)
    subst hfalse
    simp only [Bool.false_eq_true, if_false] at h
    exact ih idx h

theorem update_step_sorted {s s1 : SSType} {c : individual}
    (hsorted : SortedR s.ref_set 0 (s.ref_set_size - 1))
    (hidx : ∀ idx, is_exist s s.ref_set s.ref_set_size c = some idx → idx = -1)
    (h : update_step s c = some s1) :
    SortedR s1.ref_set 0 (s1.ref_set_size - 1) ∧ s1.dist_epsilon = s.dist_epsilon := by
  obtain ⟨idx, hex, hc⟩ := update_step_cases h
  have h0 := hidx idx hex
  rcases hc with ⟨_, _, hr⟩ | ⟨_, _, r, hr, hc⟩ | ⟨hne, _⟩
  · refine ⟨replace_last_sorted hsorted hr, ?_⟩
    obtain ⟨_, _, _, _, _, _, h1⟩ := replace_eq_some hr
    subst h1
    rfl
  · have hr2 : r.2.ref_set = s.ref_set ∧ r.2.ref_set_size = s.ref_set_size ∧
        r.2.dist_epsilon = s.dist_epsilon := by
      simp only [is_in_flatzone, Option.bind_eq_bind, Option.bind_eq_some, Option.pure_def,
        Option.some.injEq] at hr
      obtain ⟨r1, _, hr⟩ := hr
      subst hr
      exact ⟨rfl, rfl, rfl⟩
    rcases hc with ⟨_, hc⟩ | ⟨_, hc⟩
    · subst hc
      rw [hr2.1, hr2.2.1]
      exact ⟨hsorted, hr2.2.2⟩
    · have hs2 : SortedR r.2.ref_set 0 (r.2.ref_set_size - 1) := by
        rw [hr2.1, hr2.2.1]
        exact hsorted
      rw [← hr2.2.1] at hc
      refine ⟨replace_last_sorted hs2 hc, ?_⟩
      obtain ⟨_, _, _, _, _, _, h1⟩ := replace_eq_some hc
      subst h1
      exact hr2.2.2
  · exact absurd h0 hne

theorem update_loop_sorted :
    ∀ (cands : List individual) (s s1 : SSType),
      SortedR s.ref_set 0 (s.ref_set_size - 1) →
      (s.dist_epsilon ≤ 0 ∨ NoDuplicateFound s cands) →
      update_loop s cands = some s1 → SortedR s1.ref_set 0 (s1.ref_set_size - 1) := by
  intro cands
  induction cands with
  | nil =>
    intro s s1 _ _ h
    simp [update_loop] at h
  | cons c rest ih =>
    intro s s1 hsorted hnd h
    simp only [update_loop] at h
    split at h
    · simp at h
    · cases hw : s.ref_set[s.ref_set_size - 1]? with
      | none =>
        rw [hw] at h
        simp at h
      | some worst =>
        rw [hw] at h
        simp only at h
        by_cases hlt : c.cost < worst.cost
        · rw [if_pos hlt] at h
          cases hst : update_step s c with
          | none =>
            rw [hst] at h
            simp at h
          | some s2 =>
            rw [hst] at h
            simp only at h
            have hidx : ∀ idx, is_exist s s.ref_set s.ref_set_size c = some idx → idx = -1 := by
              rcases hnd with heps | hnd
              · intro idx hi
                exact is_exist_loop_no_epsilon s heps _ _ _ _ hi
              · simp only [NoDuplicateFound, hw, if_pos hlt] at hnd
                intro idx hi
                rw [hnd.1] at hi
                simp only [Option.some.injEq] at hi
                exact hi.symm
            obtain ⟨hs2, he2⟩ := update_step_sorted hsorted hidx hst
            apply ih s2 s1 hs2 _ h
            rcases hnd with heps | hnd
            · left
              rw [he2]
              exact heps
            · right
              simp only [NoDuplicateFound, hw, if_pos hlt, hst] at hnd
              exact hnd.2
        · rw [if_neg hlt] at h
          simp only [Option.some.injEq] at h
          subst h
          exact hsorted

theorem update_first_sorted {s : SSType} {r : SSType × Nat}
    (hsorted : SortedR s.ref_set 0 (s.ref_set_size - 1))
    (h : update_first s = some r) :
    SortedR r.1.ref_set 0 (r.1.ref_set_size - 1) ∧ r.1.dist_epsilon = s.dist_epsilon := by
  simp only [update_first, Option.bind_eq_bind, Option.bind_eq_some] at h
  obtain ⟨c0, _, r0, hr0, h⟩ := h
  split at h
  · rename_i hlt
    simp only [Option.bind_eq_some, Option.pure_def, Option.some.injEq] at h
    obtain ⟨r1, hr1, ref1, href, h⟩ := h
    subst h
    refine ⟨?_, rfl⟩
    show SortedR ref1 0 (s.ref_set_size - 1)
    have hlen : 0 < s.ref_set.length := by
      by_contra hc
      rw [List.getElem?_eq_none (by omega)] at hr0
      simp at hr0
    simp only [wr, if_pos hlen, Option.some.injEq] at href
    subst href
    have hcost : r1.cost = c0.cost := by
      unfold copy_ind at hr1
      split at hr1
      · simp only [Option.some.injEq] at hr1
        rw [← hr1]
      · simp at hr1
    intro i1 i2 a b _ h12 hi2 ha hb
    by_cases hi1 : i1 = 0
    · subst hi1
      rw [List.getElem?_set_self hlen] at ha
      simp only [Option.some.injEq] at ha
      subst ha
      by_cases hi20 : i2 = 0
      · subst hi20
        rw [List.getElem?_set_self hlen] at hb
        simp only [Option.some.injEq] at hb
        rw [hb]
      · rw [List.getElem?_set_ne (by omega)] at hb
        have := hsorted 0 i2 r0 b (le_refl _) (Nat.zero_le _) hi2 hr0 hb
        rw [hcost]
        linarith
    · rw [List.getElem?_set_ne (by omega)] at ha
      rw [List.getElem?_set_ne (by omega)] at hb
      exact hsorted i1 i2 a b (Nat.zero_le _) h12 hi2 ha hb
  · simp only [Option.pure_def, Option.some.injEq] at h
    subst h
    exact ⟨hsorted, rfl⟩

theorem sorted_state_sort :
    quick_sort_set sorted_state.candidates_set sorted_state.candidates_set_size
      = some sorted_state.candidates_set := by
  apply quick_sort_set_of_strictly_sorted _ _ (by decide) (by decide)
  intro i j a b hij hj ha hb
  have hj3 : j < 3 := hj
  interval_cases j <;> interval_cases i <;>
    (simp [sorted_state] at ha hb; subst ha; subst hb; norm_num)

theorem sorted_state_first :
    update_first { sorted_state with candidates_set := sorted_state.candidates_set }
      = some (sorted_mid, 1) := rfl

theorem sorted_mid_exist :
    is_exist sorted_mid sorted_mid.ref_set sorted_mid.ref_set_size ⟨[60], 3⟩ = some (-1) := by
  norm_num [is_exist, is_exist_loop, is_equal, euclidean_distance_sq, euclidean_distance_sum,
    sorted_state, sorted_mid]

theorem sorted_mid_step : update_step sorted_mid ⟨[60], 3⟩ = some sorted_after := by
  rw [update_step_of_is_exist sorted_mid_exist]
  rfl

theorem sorted_state_run : update_ref_set sorted_state = some sorted_after := by
  refine update_ref_set_eval sorted_state_sort sorted_state_first ?_
  show update_loop sorted_mid [⟨[60], 3⟩, ⟨[70], 9⟩] = some sorted_after
  rw [update_loop_continue sorted_mid ⟨[20], 8⟩ (by decide) rfl (by decide) sorted_mid_step]
  exact update_loop_stop sorted_after ⟨[10], 5⟩ (by decide) rfl (by decide)

theorem sorted_state_no_duplicate : NoDuplicateExamined sorted_state := by
  simp only [NoDuplicateExamined, sorted_state_sort, sorted_state_first]
  show NoDuplicateFound sorted_mid [⟨[60], 3⟩, ⟨[70], 9⟩]
  have hw : sorted_mid.ref_set[sorted_mid.ref_set_size - 1]? = some ⟨[20], 8⟩ := rfl
  have hw2 : sorted_after.ref_set[sorted_after.ref_set_size - 1]? = some ⟨[10], 5⟩ := rfl
  simp only [NoDuplicateFound, hw, hw2, sorted_mid_step, sorted_mid_exist]
  norm_num

theorem sorted_state_sorted :
    SortedR sorted_state.ref_set 0 (sorted_state.ref_set_size - 1) := by
  intro i j a b _ hij hj ha hb
  have hj3 : j ≤ 2 := hj
  interval_cases j <;> interval_cases i <;>
    (simp [sorted_state] at ha hb; subst ha; subst hb; norm_num)

/-- C29. If the Reference Set is sorted in ascending order of cost before the
call, and no candidate examined by the loop has a duplicate in the Reference
Set (every call of `is_exist` returns -1, which is the case whenever
`dist_epsilon ≤ 0`), then the Reference Set is sorted in ascending order of
cost after `update_ref_set`. -/
theorem update_ref_set_keeps_sorted (s s1 : SSType)
    (hsorted : SortedR s.ref_set 0 (s.ref_set_size - 1))
    (hnodup : s.dist_epsilon ≤ 0 ∨ NoDuplicateExamined s)
    (hrun : update_ref_set s = some s1) :
    SortedR s1.ref_set 0 (s1.ref_set_size - 1) := by
  simp only [update_ref_set, Option.bind_eq_bind, Option.bind_eq_some] at hrun
  obtain ⟨cands, hq, r, hf, hl⟩ := hrun
  have hs0 : SortedR ({ s with candidates_set := cands } : SSType).ref_set 0
      (({ s with candidates_set := cands } : SSType).ref_set_size - 1) := hsorted
  obtain ⟨hs1, he1⟩ := update_first_sorted hs0 hf
  apply update_loop_sorted _ _ _ hs1 _ hl
  rcases hnodup with heps | hnd
  · left
    rw [he1]
    exact heps
  · right
    simp only [NoDuplicateExamined, hq, hf] at hnd
    exact hnd

theorem update_ref_set_keeps_sorted_witness :
    SortedR sorted_state.ref_set 0 (sorted_state.ref_set_size - 1) ∧
    NoDuplicateExamined sorted_state ∧
    update_ref_set sorted_state = some sorted_after ∧
    sorted_after.ref_set ≠ sorted_state.ref_set ∧
    SortedR sorted_after.ref_set 0 (sorted_after.ref_set_size - 1) :=
  ⟨sorted_state_sorted, sorted_state_no_duplicate, sorted_state_run, by decide,
    update_ref_set_keeps_sorted sorted_state sorted_after sorted_state_sorted
      (Or.inr sorted_state_no_duplicate) sorted_state_run⟩

/-! ## The Reference Set builder: no scatter member is selected twice -/

theorem isCopy_trans {s : SSType} {a b c : individual} (h1 : IsCopy s a b)
    (h2 : IsCopy s b c) : IsCopy s a c :=
  ⟨h1.1.trans h2.1, fun i hi => (h1.2 i hi).trans (h2.2 i hi)⟩

theorem expand_loop_positions (s : SSType) (st0 : RefBuild) (hinv0 : BuildInv s st0)
    (hbm : s.ref_set_size ≤ s.scatter_set_size) :
    ∀ n, n ≤ s.ref_set_size - s.ref_set_size / 2 →
      ∃ st orig sel, expand_loop s st0 n = some st ∧ BuildInv s st ∧
        PoolKept s st0.scatter_set st n orig ∧ Selected s st0.scatter_set st n orig sel ∧
        ∀ j, j < s.ref_set_size / 2 → st.ref_set[j]? = st0.ref_set[j]? := by
  intro n
  induction n with
  | zero =>
    intro _
    refine ⟨st0, fun y => y, fun _ => 0, rfl, hinv0, ⟨fun y1 y2 h _ => h, ?_⟩,
      ⟨fun j hj => absurd hj (Nat.not_lt_zero j), fun j1 j2 _ h => absurd h (Nat.not_lt_zero j2)⟩,
      fun _ _ => rfl⟩
    intro y hy
    have hlen : y < st0.scatter_set.length := by
      have := hinv0.sc_len
      omega
    exact ⟨le_refl _, Nat.lt_of_lt_of_le hy (Nat.sub_le _ _), st0.scatter_set[y], st0.scatter_set[y],
      List.getElem?_eq_getElem hlen, List.getElem?_eq_getElem hlen, rfl, fun _ _ => rfl⟩
  | succ n ih =>
    intro hn
    obtain ⟨st, orig, sel, h1, h2, ⟨hmono, hkept⟩, ⟨hsel, hdist⟩, helite⟩ := ih (by omega)
    obtain ⟨st1, x, e1, e2, e3, e4, ⟨r, c, e5a, e5b, e5c⟩, e6, _, e8, e9⟩ :=
      expand_step_spec s (s.ref_set_size / 2 + n) (s.scatter_set_size - n) st h2 (by omega)
        (by omega) (by omega)
    have hrun : expand_loop s st0 (n + 1) = some st1 := by
      simp only [expand_loop, h1, Option.bind_eq_bind, Option.some_bind, e1]
    refine ⟨st1, fun y => if y < x then orig y else orig (y + 1),
      fun j => if j = n then orig x else sel j, hrun, e2, ⟨?_, ?_⟩, ⟨?_, ?_⟩, ?_⟩
    · intro y1 y2 h12 hy2
      show (if y1 < x then orig y1 else orig (y1 + 1)) < (if y2 < x then orig y2 else orig (y2 + 1))
      by_cases c1 : y1 < x
      · rw [if_pos c1]
        by_cases c2 : y2 < x
        · rw [if_pos c2]
          exact hmono _ _ h12 (by omega)
        · rw [if_neg c2]
          exact hmono _ _ (by omega) (by omega)
      · rw [if_neg c1, if_neg (by omega)]
        exact hmono _ _ (by omega) (by omega)
    · intro y hy
      show y ≤ (if y < x then orig y else orig (y + 1)) ∧
        (if y < x then orig y else orig (y + 1)) < s.scatter_set_size ∧
        ∃ o c, st1.scatter_set[y]? = some o ∧
          st0.scatter_set[if y < x then orig y else orig (y + 1)]? = some c ∧ IsCopy s o c
      by_cases c1 : y < x
      · rw [if_pos c1]
        obtain ⟨a1, a2, o, c2, a3, a4, a5⟩ := hkept y (by omega)
        exact ⟨a1, a2, o, c2, by rw [e8 y c1]; exact a3, a4, a5⟩
      · rw [if_neg c1]
        obtain ⟨a1, a2, o, c2, a3, a4, a5⟩ := hkept (y + 1) (by omega)
        obtain ⟨o1, c3, b1, b2, b3⟩ := e9 y (by omega) (by omega)
        rw [a3] at b2
        simp only [Option.some.injEq] at b2
        subst b2
        exact ⟨by omega, a2, o1, c2, b1, a4, isCopy_trans b3 a5⟩
    · intro j hj
      show s.ref_set_size / 2 ≤ (if j = n then orig x else sel j) ∧
        (if j = n then orig x else sel j) < s.scatter_set_size ∧
        (∀ y, y < s.scatter_set_size - (n + 1) →
          (if y < x then orig y else orig (y + 1)) ≠ (if j = n then orig x else sel j)) ∧
        ∃ r c, st1.ref_set[s.ref_set_size / 2 + j]? = some r ∧
          st0.scatter_set[if j = n then orig x else sel j]? = some c ∧ IsCopy s r c
      by_cases cj : j = n
      · subst cj
        rw [if_pos rfl]
        obtain ⟨a1, a2, o, c2, a3, a4, a5⟩ := hkept x e4
        rw [a3] at e5b
        simp only [Option.some.injEq] at e5b
        subst e5b
        refine ⟨by omega, a2, ?_, r, c2, e5a, a4, isCopy_trans e5c a5⟩
        intro y hy
        by_cases c1 : y < x
        · rw [if_pos c1]
          exact ne_of_lt (hmono _ _ c1 e4)
        · rw [if_neg c1]
          exact ne_of_gt (hmono _ _ (by omega) (by omega))
      · rw [if_neg cj]
        obtain ⟨a1, a2, a3, r2, c2, a4, a5, a6⟩ := hsel j (by omega)
        refine ⟨a1, a2, ?_, r2, c2, ?_, a5, a6⟩
        · intro y hy
          by_cases c1 : y < x
          · rw [if_pos c1]
            exact a3 y (by omega)
          · rw [if_neg c1]
            exact a3 (y + 1) (by omega)
        · rw [e6 _ (by omega)]
          exact a4
    · intro j1 j2 h12 hj2
      show (if j1 = n then orig x else sel j1) ≠ (if j2 = n then orig x else sel j2)
      rw [if_neg (by omega)]
      by_cases c2 : j2 = n
      · rw [if_pos c2]
        obtain ⟨_, _, a3, _⟩ := hsel j1 (by omega)
        exact fun h => a3 x e4 h.symm
      · rw [if_neg c2]
        exact hdist j1 j2 h12 (by omega)
    · intro j hj
      rw [e6 j (by omega)]
      exact helite j hj

/-- C30. With `scatter_set_size ≥ ref_set_size`, `init_ref_set` returns; in
every round of the expansion loop the candidate pool `scatter_set[h .. m-1]` is
non-empty, and the `ref_set_size` members written to the Reference Set are
copies of the members at `ref_set_size` pairwise distinct positions of the
sorted Scatter Set: no scatter member is selected twice. -/
theorem init_ref_set_distinct_positions (ssParams : SSType)
    (hbm : ssParams.ref_set_size ≤ ssParams.scatter_set_size)
    (hpos : 1 ≤ ssParams.scatter_set_size)
    (hsc : ssParams.scatter_set_size ≤ ssParams.scatter_set.length)
    (hscp : ∀ c, c ∈ ssParams.scatter_set → ssParams.nreal ≤ c.params.length)
    (href : ssParams.ref_set_size ≤ ssParams.ref_set.length)
    (hrefp : ∀ r, r ∈ ssParams.ref_set → ssParams.nreal ≤ r.params.length) :
    ∃ sorted ref0 s1, ∃ pos : Nat → Nat,
      quick_sort_set ssParams.scatter_set ssParams.scatter_set_size = some sorted ∧
      copy_best ssParams sorted ssParams.ref_set (ssParams.ref_set_size / 2) = some ref0 ∧
      init_ref_set ssParams = some s1 ∧
      (∀ n, n < ssParams.ref_set_size - ssParams.ref_set_size / 2 →
        ∃ st, expand_loop ssParams (expand_start ssParams sorted ref0) n = some st ∧
          pool_of ssParams st n ≠ []) ∧
      (∀ i, i < ssParams.ref_set_size → pos i < ssParams.scatter_set_size) ∧
      (∀ i j, i < j → j < ssParams.ref_set_size → pos i ≠ pos j) ∧
      ∀ i, i < ssParams.ref_set_size → ∃ r c, s1.ref_set[i]? = some r ∧
        sorted[pos i]? = some c ∧ IsCopy ssParams r c := by
  obtain ⟨sorted, ref0, fin, h1, _, _, h4, h5, h6, h7, h8⟩ :=
    init_ref_set_run ssParams hbm hpos hsc hscp href hrefp
  have h6s : BuildInv ssParams (expand_start ssParams sorted ref0) := h6
  have h7s : expand_loop ssParams (expand_start ssParams sorted ref0)
      (ssParams.ref_set_size - ssParams.ref_set_size / 2) = some fin := h7
  obtain ⟨fin2, orig, sel, g1, _, _, ⟨gsel, gdist⟩, gel⟩ :=
    expand_loop_positions ssParams _ h6s hbm
      (ssParams.ref_set_size - ssParams.ref_set_size / 2) (le_refl _)
  rw [h7s] at g1
  simp only [Option.some.injEq] at g1
  subst g1
  refine ⟨sorted, ref0, _, fun i => if i < ssParams.ref_set_size / 2 then i
    else sel (i - ssParams.ref_set_size / 2), h1, h4, h8, ?_, ?_, ?_, ?_⟩
  · intro n hn
    obtain ⟨st, a1, a2, _, _⟩ := expand_loop_spec ssParams _ h6s hbm n (by omega)
    refine ⟨st, a1, ?_⟩
    intro hnil
    have hlen := congrArg List.length hnil
    simp only [pool_of, List.length_drop, List.length_take, List.length_nil] at hlen
    have := a2.sc_len
    omega
  · intro i hi
    show (if i < ssParams.ref_set_size / 2 then i
      else sel (i - ssParams.ref_set_size / 2)) < ssParams.scatter_set_size
    by_cases c1 : i < ssParams.ref_set_size / 2
    · rw [if_pos c1]
      omega
    · rw [if_neg c1]
      exact (gsel _ (by omega)).2.1
  · intro i j hij hj
    show (if i < ssParams.ref_set_size / 2 then i else sel (i - ssParams.ref_set_size / 2)) ≠
      (if j < ssParams.ref_set_size / 2 then j else sel (j - ssParams.ref_set_size / 2))
    by_cases c2 : j < ssParams.ref_set_size / 2
    · rw [if_pos c2, if_pos (by omega)]
      omega
    · rw [if_neg c2]
      have hj1 := (gsel (j - ssParams.ref_set_size / 2) (by omega)).1
      by_cases c1 : i < ssParams.ref_set_size / 2
      · rw [if_pos c1]
        omega
      · rw [if_neg c1]
        exact gdist _ _ (by omega) (by omega)
  · intro i hi
    show ∃ r c, fin.ref_set[i]? = some r ∧
      sorted[if i < ssParams.ref_set_size / 2 then i
        else sel (i - ssParams.ref_set_size / 2)]? = some c ∧ IsCopy ssParams r c
    by_cases c1 : i < ssParams.ref_set_size / 2
    · rw [if_pos c1]
      obtain ⟨r, c, a1, a2, a3⟩ := h5 i c1
      exact ⟨r, c, by rw [gel i c1]; exact a1, a2, a3⟩
    · rw [if_neg c1]
      obtain ⟨_, _, _, r, c, a1, a2, a3⟩ := gsel (i - ssParams.ref_set_size / 2) (by omega)
      have e : ssParams.ref_set_size / 2 + (i - ssParams.ref_set_size / 2) = i := by omega
      rw [e] at a1
      exact ⟨r, c, a1, a2, a3⟩

theorem init_ref_set_distinct_positions_witness :
    ∃ sorted ref0 s1, ∃ pos : Nat → Nat,
      quick_sort_set build_state.scatter_set build_state.scatter_set_size = some sorted ∧
      copy_best build_state sorted build_state.ref_set (build_state.ref_set_size / 2) =
        some ref0 ∧
      init_ref_set build_state = some s1 ∧
      (∀ n, n < build_state.ref_set_size - build_state.ref_set_size / 2 →
        ∃ st, expand_loop build_state (expand_start build_state sorted ref0) n = some st ∧
          pool_of build_state st n ≠ []) ∧
      (∀ i, i < build_state.ref_set_size → pos i < build_state.scatter_set_size) ∧
      (∀ i j, i < j → j < build_state.ref_set_size → pos i ≠ pos j) ∧
      ∀ i, i < build_state.ref_set_size → ∃ r c, s1.ref_set[i]? = some r ∧
        sorted[pos i]? = some c ∧ IsCopy build_state r c :=
  init_ref_set_distinct_positions build_state (by decide) (by decide) (by decide)
    (by decide) (by decide) (by decide)

end FlyOpt
